import Mathlib

/-!
ModLE contact matrix: a shallow embedding of `ContactMatrix<I>`.

Source: `src/contact_matrix/contacts_impl.hpp`.

Conventions of the embedding.

* The cell type `I` is the default `contacts_t`, an unsigned 32 bit integer; cell values are
  natural numbers reduced modulo `2^32` at every store.  The counters `_tot_contacts` and
  `_updates_missed` are `size_t` values (64 bit), reduced modulo `2^64` at every store.
* The argument type `I2` of `set`, `add` and `subtract` is unsigned, so the blocks guarded by
  `if constexpr (std::is_signed_v<I2>)` are compiled out; `n : Nat` ranges over the values of
  `I2`.  The one call with a signed argument, `set(j, i, 0)` in `deplete_contacts`, is embedded
  by `set_int`, the instance of `set` for `I2 = int`, which has those blocks.
* `ndebug : Bool` is `utils::ndebug_defined()`: `true` for a release build (`NDEBUG` defined, all
  `#ifndef NDEBUG` blocks and every `assert` removed), `false` for a debug build.
* A mutating member function returns an `Outcome`: the matrix after the call and the error that
  escaped from it, if any.  Reading or writing `_contacts` past its end has no defined behaviour
  in C++; the embedding stops there with `Error.undefined_behaviour`.
* Row and column numbers are `size_t` values; sums and products of them that the code forms for
  indexing (`j * nrows + i`, `i + nrows`) are taken not to wrap, which holds for every matrix that
  fits in memory.  The one subtraction that does wrap in practice (`i - nrows` in the mask
  generation) is modelled modulo `2^64`.
* Every function is embedded as it runs on one thread.  The lock vector `_locks` has `_ncols`
  elements (both constructors and `operator=` size it so), so it is not a field of the
  embedding; what is embedded of `std::scoped_lock l(this->_locks[j])` is the access to the
  vector, which has no defined behaviour for `j >= _ncols`.
* A `double` is embedded as the rational number it stands for.  In `deplete_contacts` and in
  `compute_lef_lef_collision_pos` every conversion and every floating point operation rounds
  its exact result to the nearest `double` (`binary64`); where another definition takes a
  quotient exactly, its comment says so.
-/

namespace modle

/-- Largest value of the cell type: `std::numeric_limits<I>::max()` for `I = uint32_t`. -/
def I_MAX : Nat := 4294967295

/-- Number of values of the cell type `I`, that is `2^32`. -/
def I_MOD : Nat := 4294967296

/-- Number of values of `size_t`, that is `2^64`. -/
def SIZE_MOD : Nat := 18446744073709551616

/-- What can escape from a member function of the matrix. -/
inductive Error where
  | logic_error
  | runtime_error
  | assertion_failure
  | terminate
  | undefined_behaviour
deriving DecidableEq

instance decEqExcept {ε α : Type} [DecidableEq ε] [DecidableEq α] : DecidableEq (Except ε α) :=
  fun a b =>
    match a, b with
    | Except.ok x, Except.ok y =>
      if h : x = y then isTrue (by rw [h]) else isFalse (fun e => h (Except.ok.inj e))
    | Except.error x, Except.error y =>
      if h : x = y then isTrue (by rw [h]) else isFalse (fun e => h (Except.error.inj e))
    | Except.ok _, Except.error _ => isFalse (fun e => Except.noConfusion e)
    | Except.error _, Except.ok _ => isFalse (fun e => Except.noConfusion e)

/-- Data members of `ContactMatrix<I>`.  The lock vector `_locks` always has `_ncols` elements
and is not a field. -/
structure ContactMatrix where
  _nrows : Nat
  _ncols : Nat
  _contacts : List Nat
  _tot_contacts : Nat
  _updates_missed : Nat
deriving DecidableEq

/-- Result of a mutating member function: the matrix it leaves behind and the escaped error. -/
structure Outcome where
  state : ContactMatrix
  error : Option Error
deriving DecidableEq

/-- A `catch (const std::runtime_error &)` handler that throws a `std::logic_error` instead:
only present in a debug build, where all the callers of this function live. -/
def rethrow_as_logic_error : Error → Error
  | Error.runtime_error => Error.logic_error
  | e => e

namespace ContactMatrix

/-- Constructor `ContactMatrix(nrows, ncols)` with `fill_with_random_numbers = false`:
`nrows * ncols + 1` zero cells, both counters zero. -/
def create (nrows ncols : Nat) : ContactMatrix :=
  { _nrows := nrows, _ncols := ncols, _contacts := List.replicate (nrows * ncols + 1) 0,
    _tot_contacts := 0, _updates_missed := 0 }

def nrows (m : ContactMatrix) : Nat := m._nrows

def ncols (m : ContactMatrix) : Nat := m._ncols

def get_tot_contacts (m : ContactMatrix) : Nat := m._tot_contacts

def get_n_of_missed_updates (m : ContactMatrix) : Nat := m._updates_missed

/-- From `transpose_coords(row, col)`: the pair (distance from the diagonal, larger coordinate). -/
def transpose_coords (row col : Nat) : Nat × Nat :=
  if row > col then (row - col, row) else (col - row, col)

/-- From `bound_check_column(col)`: throws a `std::runtime_error` when `col > ncols()`. -/
def bound_check_column (m : ContactMatrix) (col : Nat) : Except Error Unit :=
  if col > m.ncols then Except.error Error.runtime_error else Except.ok ()

/-- From `at(i, j)`: the cell `_contacts[(j * _nrows) + i]`.  A debug build first throws a
`std::runtime_error` when the index is larger than `_contacts.size()`. -/
def «at» (ndebug : Bool) (m : ContactMatrix) (i j : Nat) : Except Error Nat :=
  if ndebug = false ∧ j * m._nrows + i > m._contacts.length then
    Except.error Error.runtime_error
  else
    match m._contacts[j * m._nrows + i]? with
    | some v => Except.ok v
    | none => Except.error Error.undefined_behaviour

/-- From `get(row, col)`. -/
def get (ndebug : Bool) (m : ContactMatrix) (row col : Nat) : Except Error Nat :=
  let i := (transpose_coords row col).1
  let j := (transpose_coords row col).2
  if ndebug = false ∧ (i ≥ m.ncols ∨ j ≥ m.ncols) then
    Except.error Error.logic_error
  else if i ≥ m.nrows then
    Except.ok 0
  else
    m.at ndebug i j

/-- The statement `_updates_missed.fetch_add(1)`. -/
def count_missed_update (m : ContactMatrix) : ContactMatrix :=
  { m with _updates_missed := (m._updates_missed + 1) % SIZE_MOD }

/-- From `set(row, col, n)`, for an argument `n` of an unsigned type `I2`. -/
def set (ndebug : Bool) (m : ContactMatrix) (row col n : Nat) : Outcome :=
  if ndebug = false ∧ n > I_MAX then
    ⟨m, some Error.runtime_error⟩
  else
    let i := (transpose_coords row col).1
    let j := (transpose_coords row col).2
    if ndebug = false ∧ (m.bound_check_column j).isOk = false then
      ⟨m, some Error.logic_error⟩
    else if i > m.nrows then
      ⟨m.count_missed_update, none⟩
    else if ¬ (j < m._ncols) then
      ⟨m, some Error.undefined_behaviour⟩
    else
      match m.at ndebug i j with
      | Except.error e => ⟨m, some (rethrow_as_logic_error e)⟩
      | Except.ok old =>
        if ndebug = false ∧ ¬ (m._tot_contacts ≥ old) then
          ⟨m, some Error.assertion_failure⟩
        else
          ⟨{ m with
              _contacts := m._contacts.set (j * m._nrows + i) (n % I_MOD),
              _tot_contacts :=
                if n > old then (m._tot_contacts + (n - old)) % SIZE_MOD
                else (m._tot_contacts + SIZE_MOD - (old - n)) % SIZE_MOD }, none⟩

/-- From `set(row, col, n)`, for an argument `n` of the signed type `int` (the type of the
literal in `set(j, i, 0)`).  A release build converts `n` to the unsigned cell type and goes on
as `set` does.  A debug build first compares `n` with the limits of `I`; C++ converts the `int`
to `unsigned int` for these comparisons, so that no value fails them.  Then it runs the block
for signed arguments: a negative `n` throws a `std::runtime_error`, and the assertion compares
`_tot_contacts - m` with `std::numeric_limits<decltype(this->_tot_contacts)>::max() - n`.
`_tot_contacts` is a `std::atomic<size_t>` (`operator=` reads it with `load()`), for which
`std::numeric_limits` is not specialised: its `max()` is a value-initialised object, 0, and
the right-hand side is `0 - n` in `size_t`. -/
def set_int (ndebug : Bool) (m : ContactMatrix) (row col : Nat) (n : Int) : Outcome :=
  if ndebug then m.set true row col (n % I_MOD).toNat
  else
    let i := (transpose_coords row col).1
    let j := (transpose_coords row col).2
    if (m.bound_check_column j).isOk = false then
      ⟨m, some Error.logic_error⟩
    else if i > m.nrows then
      ⟨m.count_missed_update, none⟩
    else if ¬ (j < m._ncols) then
      ⟨m, some Error.undefined_behaviour⟩
    else
      match m.at false i j with
      | Except.error e => ⟨m, some (rethrow_as_logic_error e)⟩
      | Except.ok old =>
        if ¬ (m._tot_contacts ≥ old) then
          ⟨m, some Error.assertion_failure⟩
        else if n < 0 then
          ⟨m, some Error.logic_error⟩
        else if ¬ ((m._tot_contacts + SIZE_MOD - old) % SIZE_MOD <
            (SIZE_MOD - n.toNat % SIZE_MOD) % SIZE_MOD) then
          ⟨m, some Error.assertion_failure⟩
        else
          ⟨{ m with
              _contacts := m._contacts.set (j * m._nrows + i) (n.toNat % I_MOD),
              _tot_contacts :=
                if n.toNat > old then (m._tot_contacts + (n.toNat - old)) % SIZE_MOD
                else (m._tot_contacts + SIZE_MOD - (old - n.toNat)) % SIZE_MOD }, none⟩

/-- From `check_for_overflow_on_add(row, col, n)` (called in a debug build only). -/
def check_for_overflow_on_add (m : ContactMatrix) (row col n : Nat) : Except Error Unit :=
  match m.at false row col with
  | Except.error e => Except.error e
  | Except.ok c =>
    if I_MAX - n < c then Except.error Error.runtime_error
    else if I_MAX - n < m._tot_contacts then Except.error Error.runtime_error
    else Except.ok ()

/-- From `check_overflow_on_subtract(row, col, n)` (called in a debug build only). -/
def check_overflow_on_subtract (m : ContactMatrix) (row col n : Nat) : Except Error Unit :=
  match m.at false row col with
  | Except.error e => Except.error e
  | Except.ok c =>
    if 0 + n > c then Except.error Error.runtime_error
    else if 0 + n > m._tot_contacts then Except.error Error.runtime_error
    else Except.ok ()

/-- The two statements `this->at(i, j) += n; this->_tot_contacts += n;`. -/
def add_to_cell (ndebug : Bool) (m : ContactMatrix) (i j n : Nat) : Outcome :=
  match m.at ndebug i j with
  | Except.error e => ⟨m, some (rethrow_as_logic_error e)⟩
  | Except.ok old =>
    ⟨{ m with
        _contacts := m._contacts.set (j * m._nrows + i) ((old + n) % I_MOD),
        _tot_contacts := (m._tot_contacts + n) % SIZE_MOD }, none⟩

/-- Body shared, word for word, by `add(row, col, n)` (after `transpose_coords`) and by one turn
of the loop of `add_small_buff`: column check, band check, lock, overflow check, update. -/
def add_transposed (ndebug : Bool) (m : ContactMatrix) (i j n : Nat) : Outcome :=
  if ndebug = false ∧ (m.bound_check_column j).isOk = false then
    ⟨m, some Error.logic_error⟩
  else if i > m.nrows then
    ⟨m.count_missed_update, none⟩
  else if ¬ (j < m._ncols) then
    ⟨m, some Error.undefined_behaviour⟩
  else
    match (if ndebug then Except.ok () else m.check_for_overflow_on_add i j n) with
    | Except.error e => ⟨m, some (rethrow_as_logic_error e)⟩
    | Except.ok _ => m.add_to_cell ndebug i j n

/-- From `add(row, col, n)`. -/
def add (ndebug : Bool) (m : ContactMatrix) (row col n : Nat) : Outcome :=
  m.add_transposed ndebug (transpose_coords row col).1 (transpose_coords row col).2 n

/-- From `subtract(row, col, n)`. -/
def subtract (ndebug : Bool) (m : ContactMatrix) (row col n : Nat) : Outcome :=
  let i := (transpose_coords row col).1
  let j := (transpose_coords row col).2
  if ndebug = false ∧ (m.bound_check_column j).isOk = false then
    ⟨m, some Error.logic_error⟩
  else if i > m.nrows then
    ⟨m.count_missed_update, none⟩
  else if ¬ (j < m._ncols) then
    ⟨m, some Error.undefined_behaviour⟩
  else
    match (if ndebug then Except.ok () else m.check_overflow_on_subtract i j n) with
    | Except.error e => ⟨m, some (rethrow_as_logic_error e)⟩
    | Except.ok _ =>
      match m.at ndebug i j with
      | Except.error e => ⟨m, some (rethrow_as_logic_error e)⟩
      | Except.ok old =>
        ⟨{ m with
            _contacts := m._contacts.set (j * m._nrows + i) ((old + I_MOD - n % I_MOD) % I_MOD),
            _tot_contacts := (m._tot_contacts + SIZE_MOD - n % SIZE_MOD) % SIZE_MOD }, none⟩

/-- From `increment(row, col)`. -/
def increment (ndebug : Bool) (m : ContactMatrix) (row col : Nat) : Outcome :=
  m.add ndebug row col 1

/-- From `decrement(row, col)`. -/
def decrement (ndebug : Bool) (m : ContactMatrix) (row col : Nat) : Outcome :=
  m.subtract ndebug row col 1

/-- From `reset()`. -/
def reset (m : ContactMatrix) : ContactMatrix :=
  { m with _contacts := List.replicate m._contacts.length 0,
           _tot_contacts := 0, _updates_missed := 0 }

end ContactMatrix

/-- A range-based `for` loop over `xs` whose body `f` may throw: the loop stops at the first
error and hands the matrix over as the body left it. -/
def for_each {α : Type} (f : ContactMatrix → α → Outcome) : ContactMatrix → List α → Outcome
  | m, [] => ⟨m, none⟩
  | m, x :: xs =>
    match (f m x).error with
    | none => for_each f (f m x).state xs
    | some e => ⟨(f m x).state, some e⟩

/-- A loop over `xs` that updates a local value and may throw from its body. -/
def try_fold {σ α : Type} (f : σ → α → Except Error σ) : σ → List α → Except Error σ
  | s, [] => Except.ok s
  | s, x :: xs =>
    match f s x with
    | Except.error e => Except.error e
    | Except.ok t => try_fold f t xs

/-- The integer nearest to `y`, the even one of the two when `y` lies half-way between them. -/
def round_half_even (y : ℚ) : Int :=
  if y - ⌊y⌋ < 1 / 2 then ⌊y⌋
  else if 1 / 2 < y - ⌊y⌋ then ⌊y⌋ + 1
  else if ⌊y⌋ % 2 = 0 then ⌊y⌋ else ⌊y⌋ + 1

/-- The exponent of the unit in the last place of the `double` format at `x`: a normal number
has 53 significant bits, a number below `2^-1022` is a multiple of `2^-1074`. -/
def binary64_exponent (x : ℚ) : Int := max (Int.log 2 |x| - 52) (-1074)

/-- The `double` (IEEE 754 binary64) that a floating point operation returns for the exact
result `x`: the nearest number of the format, the one with an even significand when two are
equally near.  Results of `2^1024` and more (which the format turns into an infinity) do not
arise from the operands of this embedding, 64-bit integers and values derived from them, and
are rounded like the others. -/
def binary64 (x : ℚ) : ℚ :=
  if 0 ≤ x then (round_half_even (x / 2 ^ binary64_exponent x) : ℚ) * 2 ^ binary64_exponent x
  else -((round_half_even (-x / 2 ^ binary64_exponent x) : ℚ) * 2 ^ binary64_exponent x)

/-- From `std::round(x)` for a `double`: the nearest integer, halves away from zero. -/
def std_round (x : ℚ) : Int := if 0 ≤ x then ⌊x + 1 / 2⌋ else -⌊-x + 1 / 2⌋

/-- Values taken by `j` in `for (auto j = i; j < i + nrows() && j < ncols(); ++j)`. -/
def band_columns (m : ContactMatrix) (i : Nat) : List Nat :=
  List.range' i (min (i + m.nrows) m.ncols - i)

/-- Insertion of a pixel into a list sorted by column (second component). -/
def insert_by_col (p : Nat × Nat) : List (Nat × Nat) → List (Nat × Nat)
  | [] => [p]
  | q :: qs => if p.2 ≤ q.2 then p :: q :: qs else q :: insert_by_col p qs

/-- The call `cppsort::ska_sort(pixels.begin(), pixels.end(), &pair::second)`: the pixels sorted
by column.  The order the sorter gives to pixels of equal column is not specified; the embedding
keeps them in their original order. -/
def ska_sort : List (Nat × Nat) → List (Nat × Nat)
  | [] => []
  | p :: ps => insert_by_col p (ska_sort ps)

/-- Local variables of `add_large_buff` together with the matrix. -/
structure LargeBuff where
  m : ContactMatrix
  ncontacts : Nat
  missed_updates : Nat
deriving DecidableEq

namespace ContactMatrix

/-- From `add_small_buff(pixels, n)`: the pixels are already transposed. -/
def add_small_buff (ndebug : Bool) (m : ContactMatrix) (pixels : List (Nat × Nat)) (n : Nat) :
    Outcome :=
  for_each (fun m p => m.add_transposed ndebug p.1 p.2 n) m pixels

/-- Inner loop `while (range.first != range.second)` of `add_large_buff`, over the pixels of one
column. -/
def add_large_buff_run (ndebug : Bool) (n : Nat) :
    LargeBuff → List (Nat × Nat) → LargeBuff × Option Error
  | s, [] => (s, none)
  | s, p :: rest =>
    if p.1 > s.m.nrows then
      add_large_buff_run ndebug n { s with missed_updates := (s.missed_updates + 1) % SIZE_MOD } rest
    else
      match (if ndebug then Except.ok () else s.m.check_for_overflow_on_add p.1 p.2 n) with
      | Except.error e => (s, some e)
      | Except.ok _ =>
        match s.m.at ndebug p.1 p.2 with
        | Except.error e => (s, some e)
        | Except.ok old =>
          add_large_buff_run ndebug n
            { s with
              m := { s.m with
                _contacts := s.m._contacts.set (p.2 * s.m._nrows + p.1) ((old + n) % I_MOD) },
              ncontacts := (s.ncontacts + 1) % SIZE_MOD } rest

/-- The two statements that close `add_large_buff` (and its `catch` handler):
`_updates_missed.fetch_add(missed_updates); _tot_contacts += ncontacts;`. -/
def flush_large_buff (s : LargeBuff) : ContactMatrix :=
  { s.m with
    _updates_missed := (s.m._updates_missed + s.missed_updates) % SIZE_MOD,
    _tot_contacts := (s.m._tot_contacts + s.ncontacts) % SIZE_MOD }

/-- Outer loop `while (range.second != pixels.end())` of `add_large_buff`.  `std::equal_range`
on the column-sorted rest of the buffer returns its leading run of pixels with the column of the
first one.  Every turn consumes at least one pixel, so `fuel = pixels.size()` turns suffice.
`bound_check_column` is called in every build; in a release build the function is `noexcept`,
so its exception terminates the program.  The lock of the column is taken right after it. -/
def add_large_buff_loop (ndebug : Bool) (n : Nat) :
    Nat → LargeBuff → List (Nat × Nat) → Outcome
  | _, s, [] => ⟨flush_large_buff s, none⟩
  | 0, s, _ :: _ => ⟨flush_large_buff s, none⟩
  | fuel + 1, s, p :: rest =>
    match s.m.bound_check_column p.2 with
    | Except.error _ =>
      if ndebug then ⟨s.m, some Error.terminate⟩
      else ⟨flush_large_buff s, some Error.logic_error⟩
    | Except.ok _ =>
      if ¬ (p.2 < s.m._ncols) then ⟨s.m, some Error.undefined_behaviour⟩
      else
        match add_large_buff_run ndebug n s ((p :: rest).takeWhile (fun q => q.2 == p.2)) with
        | (t, some Error.runtime_error) => ⟨flush_large_buff t, some Error.logic_error⟩
        | (t, some e) => ⟨t.m, some e⟩
        | (t, none) =>
          add_large_buff_loop ndebug n fuel t ((p :: rest).dropWhile (fun q => q.2 == p.2))

/-- From `add_large_buff(pixels, n)`: the pixels are already transposed and sorted by column. -/
def add_large_buff (ndebug : Bool) (m : ContactMatrix) (pixels : List (Nat × Nat)) (n : Nat) :
    Outcome :=
  add_large_buff_loop ndebug n pixels.length ⟨m, 0, 0⟩ pixels

/-- From the batched `add(pixels, n, size_thresh)`. -/
def add_pixels (ndebug : Bool) (m : ContactMatrix) (pixels : List (Nat × Nat)) (n : Nat)
    (size_thresh : Nat) : Outcome :=
  if (ska_sort (pixels.map (fun p => transpose_coords p.1 p.2))).length < size_thresh then
    m.add_small_buff ndebug (ska_sort (pixels.map (fun p => transpose_coords p.1 p.2))) n
  else
    m.add_large_buff ndebug (ska_sort (pixels.map (fun p => transpose_coords p.1 p.2))) n

/-- Body of the loops of `compute_row_wise_contact_histogram`: `buff[j - i] += get(j, i)`. -/
def histogram_step (ndebug : Bool) (m : ContactMatrix) (i : Nat) (buff : List Nat) (j : Nat) :
    Except Error (List Nat) :=
  match m.get ndebug j i with
  | Except.error e => Except.error e
  | Except.ok v => Except.ok (buff.set (j - i) ((buff.getD (j - i) 0 + v) % SIZE_MOD))

/-- From `compute_row_wise_contact_histogram()`. -/
def compute_row_wise_contact_histogram (ndebug : Bool) (m : ContactMatrix) :
    Except Error (List Nat) :=
  try_fold (fun buff i => try_fold (histogram_step ndebug m i) buff (band_columns m i))
    (List.replicate m.nrows 0) (List.range m.ncols)

/-- First inner loop of the mask generation, over `j = i, i + 1, ...`:
`if ((mask[i] |= get(i, j))) break;`. -/
def mask_row_loop (ndebug : Bool) (m : ContactMatrix) (i : Nat) :
    List Nat → Bool → Except Error Bool
  | [], bit => Except.ok bit
  | j :: js, bit =>
    match m.get ndebug i j with
    | Except.error e => Except.error e
    | Except.ok v =>
      if (bit || decide (v ≠ 0)) = true then Except.ok true
      else mask_row_loop ndebug m i js false

/-- Second inner loop of the mask generation,
`for (auto j = i; j > 0 && j > (i - nrows()); --j)`, started at `j`; `lim` is the value of the
unsigned difference `i - nrows()`. -/
def mask_col_loop (ndebug : Bool) (m : ContactMatrix) (i lim : Nat) :
    Nat → Bool → Except Error Bool
  | 0, bit => Except.ok bit
  | j + 1, bit =>
    if j + 1 > lim then
      match m.get ndebug i (j + 1) with
      | Except.error e => Except.error e
      | Except.ok v =>
        if (bit || decide (v ≠ 0)) = true then Except.ok true
        else mask_col_loop ndebug m i lim j false
    else Except.ok bit

/-- One turn of the outer loop of the mask generation: the final value of `mask[i]`. -/
def mask_bit (ndebug : Bool) (m : ContactMatrix) (i : Nat) : Except Error Bool :=
  match mask_row_loop ndebug m i (band_columns m i) false with
  | Except.error e => Except.error e
  | Except.ok bit => mask_col_loop ndebug m i ((i + SIZE_MOD - m.nrows) % SIZE_MOD) i bit

/-- Outer loop of the mask generation over the bins `is`. -/
def mask_bits (ndebug : Bool) (m : ContactMatrix) : List Nat → Except Error (List Bool)
  | [] => Except.ok []
  | i :: is =>
    match mask_bit ndebug m i with
    | Except.error e => Except.error e
    | Except.ok bit =>
      match mask_bits ndebug m is with
      | Except.error e => Except.error e
      | Except.ok bits => Except.ok (bit :: bits)

/-- From `generate_mask_for_bins_without_contacts()`. -/
def generate_mask_for_bins_without_contacts (ndebug : Bool) (m : ContactMatrix) :
    Except Error (List Bool) :=
  mask_bits ndebug m (List.range m.ncols)

/-- The value `std::round((depletion_multiplier * static_cast<double>(n)) /
static_cast<double>(effective_nbins))` of `deplete_contacts`, for `effective_nbins != 0`: the
two conversions, the product and the quotient are rounded to a `double` each; the result of
`std::round` is an integer. -/
def row_wise_avg (depletion_multiplier : ℚ) (n effective_nbins : Nat) : Int :=
  std_round (binary64 (binary64 (depletion_multiplier * binary64 (n : ℚ)) /
    binary64 (effective_nbins : ℚ)))

/-- Body of the loops of `deplete_contacts`.  The literal `0` handed to `set` has the signed
type `int`. -/
def deplete_step (ndebug : Bool) (row_wise_avg_contacts : List Nat) (i : Nat)
    (m : ContactMatrix) (j : Nat) : Outcome :=
  match m.get ndebug j i with
  | Except.error e => ⟨m, some e⟩
  | Except.ok v =>
    if v > row_wise_avg_contacts.getD (j - i) 0 then
      m.subtract ndebug j i (row_wise_avg_contacts.getD (j - i) 0)
    else
      m.set_int ndebug j i 0

/-- The two nested loops of `deplete_contacts`. -/
def deplete_loops (ndebug : Bool) (row_wise_avg_contacts : List Nat) (m : ContactMatrix) :
    Outcome :=
  for_each
    (fun m i => for_each (deplete_step ndebug row_wise_avg_contacts i) m (band_columns m i))
    m (List.range m.ncols)

/-- From `deplete_contacts(depletion_multiplier)`, for a multiplier that is a finite `double`.
With `effective_nbins = 0` the elements of `hist` are divided by zero, and the conversion of
the infinity or NaN to `uint64_t` has no defined behaviour; nor has the conversion of a rounded
value that is negative or not below `2^64`. -/
def deplete_contacts (ndebug : Bool) (m : ContactMatrix) (depletion_multiplier : ℚ) : Outcome :=
  match m.compute_row_wise_contact_histogram ndebug with
  | Except.error e => ⟨m, some e⟩
  | Except.ok hist =>
    match m.generate_mask_for_bins_without_contacts ndebug with
    | Except.error e => ⟨m, some e⟩
    | Except.ok mask =>
      if hist ≠ [] ∧ mask.count true = 0 then ⟨m, some Error.undefined_behaviour⟩
      else if ∃ n ∈ hist, ¬ (0 ≤ row_wise_avg depletion_multiplier n (mask.count true) ∧
          row_wise_avg depletion_multiplier n (mask.count true) < SIZE_MOD) then
        ⟨m, some Error.undefined_behaviour⟩
      else
        deplete_loops ndebug
          (hist.map (fun n => (row_wise_avg depletion_multiplier n (mask.count true)).toNat)) m

/-- Representation invariant of the class: `_contacts` has `nrows * ncols + 1` cells, every cell
is a value of `I`, both counters are values of `size_t`.  It holds for a newly constructed matrix
and is kept by every member function. -/
def WF (m : ContactMatrix) : Prop :=
  m._contacts.length = m._nrows * m._ncols + 1 ∧ (∀ v ∈ m._contacts, v ≤ I_MAX) ∧
    m._tot_contacts < SIZE_MOD ∧ m._updates_missed < SIZE_MOD

instance (m : ContactMatrix) : Decidable (WF m) := by unfold WF; infer_instance

/-- The count that `get(row, col)` reads when none of its checks fires: zero outside the band,
the cell `_contacts[max(row, col) * nrows + |row - col|]` inside. -/
def peek (m : ContactMatrix) (row col : Nat) : Nat :=
  if (row - col) + (col - row) ≥ m._nrows then 0
  else m._contacts.getD (max row col * m._nrows + ((row - col) + (col - row))) 0

/-- How `deplete_contacts` changes a matrix over the pairs selected by `P`: the shape and the
representation invariant are kept, every selected pair is lowered by the entry of `avg` for its
diagonal (and not below zero), every other pair reads as before. -/
def DepletedOn (avg : List Nat) (P : Nat → Nat → Prop) (m t : ContactMatrix) : Prop :=
  t.WF ∧ t._nrows = m._nrows ∧ t._ncols = m._ncols ∧
    (∀ r c, P r c → t.peek r c = m.peek r c - avg.getD ((r - c) + (c - r)) 0) ∧
    (∀ r c, ¬ P r c → t.peek r c = m.peek r c)

/-- The bins that `generate_mask_for_bins_without_contacts` flags: bin `i` has a non-zero pair
`(i, j)` with `i <= j < min(i + nrows, ncols)` (first loop), or a non-zero pair `(i, j)` with
`0 < j <= i` and `j` above the wrapped difference `i - nrows` (second loop). -/
def BinFlagged (m : ContactMatrix) (i : Nat) : Prop :=
  (∃ j ∈ band_columns m i, m.peek i j ≠ 0) ∨
    ∃ j, (i + SIZE_MOD - m._nrows) % SIZE_MOD < j ∧ 0 < j ∧ j ≤ i ∧ m.peek i j ≠ 0

/-- The matrix `ContactMatrix(2, 4)` after `set(0, 1, 10)`, `set(1, 2, 10)` and `set(2, 3, 10)`:
the count 10 in every cell at distance 1 from the diagonal, 0 elsewhere. -/
def constant_diagonal_example : ContactMatrix :=
  ((((create 2 4).set true 0 1 10).state.set true 1 2 10).state.set true 2 3 10).state

/-- Bookkeeping between a matrix `m` and a later state `t`: the stored cells have not grown in
total, and `tot_contacts` went down by what left the cells, as a 64 bit counter. -/
def TotalTracks (m t : ContactMatrix) : Prop :=
  t._contacts.sum ≤ m._contacts.sum ∧
    (t._tot_contacts + m._contacts.sum) % SIZE_MOD =
      (m._tot_contacts + t._contacts.sum) % SIZE_MOD

end ContactMatrix

/-- A loop that builds a vector element by element and may throw from its body. -/
def try_map {α β : Type} (f : α → Except Error β) : List α → Except Error (List β)
  | [] => Except.ok []
  | x :: xs =>
    match f x with
    | Except.error e => Except.error e
    | Except.ok y =>
      match try_map f xs with
      | Except.error e => Except.error e
      | Except.ok ys => Except.ok (y :: ys)

namespace ContactMatrix

/-- Body of the loops of `generate_symmetric_matrix`: the value of `row[x]` in row `y`.  The
source first sets `j = x; i = j - y` and replaces both when `y > x`, so the wrapped difference
is never used. -/
def symmetric_cell (ndebug : Bool) (m : ContactMatrix) (y x : Nat) : Except Error Nat :=
  if (if y > x then y - x else x - y) < m._nrows then
    m.at ndebug (if y > x then y - x else x - y) (if y > x then y else x)
  else Except.ok 0

/-- From `generate_symmetric_matrix()`. -/
def generate_symmetric_matrix (ndebug : Bool) (m : ContactMatrix) :
    Except Error (List (List Nat)) :=
  try_map (fun y => try_map (fun x => m.symmetric_cell ndebug y x) (List.range m._ncols))
    (List.range m._ncols)

/-- The loops of the unit test `CMatrix 10x200` that copy a square matrix `M` into a contact
matrix: `if (M[i][j] != 0 && j >= i) set(i, j, M[i][j])` for all `i, j < ncols`. -/
def fill_upper_triangle (ndebug : Bool) (M : Nat → Nat → Nat) (m : ContactMatrix) : Outcome :=
  for_each
    (fun m i =>
      for_each
        (fun m j => if M i j ≠ 0 ∧ j ≥ i then m.set ndebug i j (M i j) else ⟨m, none⟩)
        m (List.range m.ncols))
    m (List.range m.ncols)

/-- From `get_avg_contact_density()`: `tot_contacts` divided by `_contacts.size()`.  The source
divides two doubles; the embedding gives the exact quotient. -/
def get_avg_contact_density (m : ContactMatrix) : ℚ :=
  (m.get_tot_contacts : ℚ) / (m._contacts.length : ℚ)

/-- From `npixels()`. -/
def npixels (m : ContactMatrix) : Nat := m._nrows * m._ncols

end ContactMatrix

/-! Loop extrusion factors and the kernel functions `rank_lefs` and `extrude`.

Source: `src/libmodle/cpu/simulation.cpp`.  Positions and moves are `bp_t` values (unsigned,
64 bit) and are reduced modulo `2^64` where the source adds or subtracts them in place. -/

/-- Modelled from the spec: the declaration of `ExtrusionUnit` (`modle/extrusion_factors.hpp`)
is not under `src/`.  Spec, data model: an extrusion unit is a genomic position `pos`. -/
structure ExtrusionUnit where
  _pos : Nat
deriving DecidableEq

def ExtrusionUnit.pos (u : ExtrusionUnit) : Nat := u._pos

/-- Modelled from the spec: the declaration of `Lef` (`modle/extrusion_factors.hpp`) is not
under `src/`.  Spec, data model: a LEF is `{rev_unit, fwd_unit, binding_epoch, bound}`. -/
structure Lef where
  binding_epoch : Nat
  rev_unit : ExtrusionUnit
  fwd_unit : ExtrusionUnit
  bound : Bool
deriving DecidableEq

def Lef.is_bound (lef : Lef) : Bool := lef.bound

/-- Modelled from the spec: the declaration of the `Chromosome` that `simulation.cpp` uses is
not under `src/`.  The kernel functions read the simulated range `[start_pos, end_pos)`. -/
structure Chromosome where
  start_pos : Nat
  end_pos : Nat
deriving DecidableEq

namespace Simulation

/-- The element `lefs[r]` as the comparators of `rank_lefs` read it.  The source asserts
`r < lefs.size()`; an index past the end has no defined behaviour there and reads a fixed
unbound LEF here. -/
def lef_at (lefs : List Lef) (r : Nat) : Lef :=
  lefs.getD r ⟨0, ⟨0⟩, ⟨0⟩, false⟩

/-- The lambda `rev_comparator` of `rank_lefs`. -/
def rev_comparator (lefs : List Lef) (r1 r2 : Nat) : Bool :=
  decide ((lef_at lefs r1).rev_unit.pos < (lef_at lefs r2).rev_unit.pos)

/-- The lambda `fwd_comparator` of `rank_lefs`. -/
def fwd_comparator (lefs : List Lef) (r1 r2 : Nat) : Bool :=
  decide ((lef_at lefs r1).fwd_unit.pos < (lef_at lefs r2).fwd_unit.pos)

/-- The comparator handed to `insertion_sort` for a run of equal rev positions. -/
def rev_tie_comparator (lefs : List Lef) (r11 r22 : Nat) : Bool :=
  decide ((lef_at lefs r11).binding_epoch < (lef_at lefs r22).binding_epoch)

/-- The comparator handed to `insertion_sort` for a run of equal fwd positions. -/
def fwd_tie_comparator (lefs : List Lef) (r11 r22 : Nat) : Bool :=
  decide ((lef_at lefs r22).binding_epoch < (lef_at lefs r11).binding_epoch)

/-- One insertion of `cppsort::insertion_sort`: `x` goes before the first element that compares
greater, that is behind every element it does not compare less than. -/
def insert_sorted (comp : Nat → Nat → Bool) (x : Nat) : List Nat → List Nat
  | [] => [x]
  | y :: ys => if comp x y = true then x :: y :: ys else y :: insert_sorted comp x ys

/-- The loop of `cppsort::insertion_sort`: the elements of the range are inserted one after the
other, from the left, into the sorted part `acc`. -/
def insertion_sort_into (comp : Nat → Nat → Bool) : List Nat → List Nat → List Nat
  | acc, [] => acc
  | acc, x :: xs => insertion_sort_into comp (insert_sorted comp x acc) xs

/-- The call `cppsort::insertion_sort(first, last, comp)`, a stable sort. -/
def insertion_sort (comp : Nat → Nat → Bool) (l : List Nat) : List Nat :=
  insertion_sort_into comp [] l

/-- The tie loop of `rank_lefs` over the rest of a rank buffer.  At every pair of neighbours
with equal positions the source looks for the end of the run of equal positions and sorts the
run with `insertion_sort`; a run of one rank is its own sorted form.  `key` is the position of
a rank and `comp` the comparator of binding epochs.  Every turn consumes the run at the head,
so `fuel = size of the buffer` turns suffice. -/
def sort_ties (key : Nat → Nat) (comp : Nat → Nat → Bool) : Nat → List Nat → List Nat
  | _, [] => []
  | 0, r :: rest => r :: rest
  | fuel + 1, r :: rest =>
    insertion_sort comp ((r :: rest).takeWhile (fun q => key q == key r)) ++
      sort_ties key comp fuel ((r :: rest).dropWhile (fun q => key q == key r))

/-- From `rank_lefs`.  `cppsort::split_sort` and `cppsort::pdq_sort` are comparison sorts of an
external library and are parameters of the embedding; the theorems assume their contract (the
result is a permutation of the range, ordered by the comparator).  `std::iota` fills a buffer
with `0, 1, ...`.  The result is the pair of rank buffers (rev, fwd). -/
def rank_lefs (split_sort pdq_sort : (Nat → Nat → Bool) → List Nat → List Nat)
    (lefs : List Lef) (rev_lef_rank_buff fwd_lef_rank_buff : List Nat)
    (ranks_are_partially_sorted init_buffers : Bool) : List Nat × List Nat :=
  let rev0 := if init_buffers then List.range rev_lef_rank_buff.length else rev_lef_rank_buff
  let fwd0 := if init_buffers then List.range fwd_lef_rank_buff.length else fwd_lef_rank_buff
  let rev1 :=
    if ranks_are_partially_sorted then split_sort (rev_comparator lefs) rev0
    else pdq_sort (rev_comparator lefs) rev0
  let fwd1 :=
    if ranks_are_partially_sorted then split_sort (fwd_comparator lefs) fwd0
    else pdq_sort (fwd_comparator lefs) fwd0
  (sort_ties (fun r => (lef_at lefs r).rev_unit.pos) (rev_tie_comparator lefs) rev1.length rev1,
    sort_ties (fun r => (lef_at lefs r).fwd_unit.pos) (fwd_tie_comparator lefs) fwd1.length fwd1)

/-- The two statements of `extrude` that move a LEF: `lef.rev_unit._pos -= rev_move;
lef.fwd_unit._pos += fwd_move;`. -/
def move_lef (lef : Lef) (rev_move fwd_move : Nat) : Lef :=
  { lef with
    rev_unit := ⟨(lef.rev_unit._pos + SIZE_MOD - rev_move % SIZE_MOD) % SIZE_MOD⟩,
    fwd_unit := ⟨(lef.fwd_unit._pos + fwd_move) % SIZE_MOD⟩ }

/-- The loop `for (; i1 < i2; ++i1)` of `extrude`.  An index past the end of `lefs` or of a
move array has no defined behaviour.  The sums and the difference inside the `assert`s are
`bp_t` arithmetic.  The loop stops at `i1 >= i2` or at the end of `lefs`, so
`fuel = lefs.size() + 1` turns suffice. -/
def extrude_loop (ndebug : Bool) (chrom : Chromosome) (rev_moves fwd_moves : List Nat)
    (i2 : Nat) : Nat → Nat → List Lef → Except Error (List Lef)
  | 0, _, _ => Except.error Error.undefined_behaviour
  | fuel + 1, i1, lefs =>
    if i1 < i2 then
      match lefs[i1]? with
      | none => Except.error Error.undefined_behaviour
      | some lef =>
        if lef.is_bound = false then
          extrude_loop ndebug chrom rev_moves fwd_moves i2 fuel (i1 + 1) lefs
        else
          match rev_moves[i1]?, fwd_moves[i1]? with
          | some rev_move, some fwd_move =>
            if ndebug = false ∧
                ¬ (lef.rev_unit.pos ≤ lef.fwd_unit.pos ∧
                  lef.rev_unit.pos ≥ (chrom.start_pos + rev_move) % SIZE_MOD ∧
                  (lef.fwd_unit.pos + fwd_move) % SIZE_MOD ≤
                    (chrom.end_pos + SIZE_MOD - 1) % SIZE_MOD) then
              Except.error Error.assertion_failure
            else if ndebug = false ∧
                ¬ ((move_lef lef rev_move fwd_move).rev_unit.pos ≤
                  (move_lef lef rev_move fwd_move).fwd_unit.pos) then
              Except.error Error.assertion_failure
            else
              extrude_loop ndebug chrom rev_moves fwd_moves i2 fuel (i1 + 1)
                (lefs.set i1 (move_lef lef rev_move fwd_move))
          | _, _ => Except.error Error.undefined_behaviour
    else Except.ok lefs

/-- From `extrude`.  `i2 = lefs.size() - num_fwd_units_at_3prime` is an unsigned difference. -/
def extrude (ndebug : Bool) (chrom : Chromosome) (lefs : List Lef) (rev_moves fwd_moves : List Nat)
    (num_rev_units_at_5prime num_fwd_units_at_3prime : Nat) : Except Error (List Lef) :=
  if ndebug = false ∧
      ¬ (lefs.length = rev_moves.length ∧ lefs.length = fwd_moves.length ∧
        lefs.length ≥ num_rev_units_at_5prime ∧ lefs.length ≥ num_fwd_units_at_3prime) then
    Except.error Error.assertion_failure
  else
    extrude_loop ndebug chrom rev_moves fwd_moves
      ((lefs.length + SIZE_MOD - num_fwd_units_at_3prime) % SIZE_MOD) (lefs.length + 1)
      (if num_rev_units_at_5prime = 0 then 0 else num_rev_units_at_5prime - 1) lefs

/-- The contract of a comparison sort of the external library, for the comparators that
`rank_lefs` passes (the order of a key `f`): the result is a permutation of the range in which
no element compares less than an element before it. -/
def SortContract (sort : (Nat → Nat → Bool) → List Nat → List Nat) : Prop :=
  ∀ (f : Nat → Nat) (comp : Nat → Nat → Bool) (l : List Nat),
    (∀ a b, comp a b = decide (f a < f b)) →
      (sort comp l).Perm l ∧ (sort comp l).Pairwise (fun a b => comp b a = false)

/-- Four bound LEFs on a chromosome `[0, 100)`: two share their rev position and three share
their fwd position. -/
def ranking_example : List Lef :=
  [⟨3, ⟨5⟩, ⟨9⟩, true⟩, ⟨1, ⟨5⟩, ⟨9⟩, true⟩, ⟨2, ⟨2⟩, ⟨9⟩, true⟩, ⟨0, ⟨7⟩, ⟨8⟩, true⟩]

/-- Two bound LEFs and one unbound LEF in the middle of a chromosome `[0, 100)`. -/
def extrusion_example : List Lef :=
  [⟨0, ⟨20⟩, ⟨30⟩, true⟩, ⟨0, ⟨50⟩, ⟨60⟩, true⟩, ⟨0, ⟨70⟩, ⟨70⟩, false⟩]

/-- The `double` `time_to_collision` of `compute_lef_lef_collision_pos`:
`static_cast<double>(rev_pos - fwd_pos) / static_cast<double>(relative_speed)`. -/
def time_to_collision (distance relative_speed : Nat) : ℚ :=
  binary64 (binary64 (distance : ℚ) / binary64 (relative_speed : ℚ))

/-- The value `std::round(static_cast<double>(fwd_speed) * time_to_collision)` of
`compute_lef_lef_collision_pos`, before its conversion to `bp_t`. -/
def rounded_fwd_distance (fwd_move distance relative_speed : Nat) : Int :=
  std_round (binary64 (binary64 (fwd_move : ℚ) * time_to_collision distance relative_speed))

/-- From `compute_lef_lef_collision_pos`.  Every floating point operation is rounded to a
`double`, also in the debug-only value `collision_pos_ = static_cast<double>(rev_pos) -
static_cast<double>(rev_speed) * time_to_collision` and in its comparison with `collision_pos`.
With `relative_speed == 0` the quotient is infinite or not a number, and with a rounded value
of `2^64` or more the conversion to `bp_t` is not defined either.  The result is the pair
(rev collision position, fwd collision position). -/
def compute_lef_lef_collision_pos (ndebug : Bool) (rev_unit fwd_unit : ExtrusionUnit)
    (rev_move fwd_move : Nat) : Except Error (Nat × Nat) :=
  let relative_speed := (rev_move + fwd_move) % SIZE_MOD
  let distance := (rev_unit.pos + SIZE_MOD - fwd_unit.pos % SIZE_MOD) % SIZE_MOD
  let collision_pos :=
    (fwd_unit.pos + (rounded_fwd_distance fwd_move distance relative_speed).toNat) % SIZE_MOD
  if relative_speed = 0 ∨ ¬ (0 ≤ rounded_fwd_distance fwd_move distance relative_speed ∧
      rounded_fwd_distance fwd_move distance relative_speed < SIZE_MOD) then
    Except.error Error.undefined_behaviour
  else if ndebug = false ∧ ¬ (collision_pos ≤ rev_unit.pos) then
    Except.error Error.assertion_failure
  else if ndebug = false ∧
      ¬ (|binary64 (binary64 (collision_pos : ℚ) -
          binary64 (binary64 (rev_unit.pos : ℚ) -
            binary64 (binary64 (rev_move : ℚ) * time_to_collision distance relative_speed)))| <
        1) then
    Except.error Error.assertion_failure
  else if collision_pos = fwd_unit.pos then
    if ndebug = false ∧
        ¬ (collision_pos ≥ fwd_unit.pos ∧ (collision_pos + 1) % SIZE_MOD ≤ rev_unit.pos) then
      Except.error Error.assertion_failure
    else Except.ok ((collision_pos + 1) % SIZE_MOD, collision_pos)
  else
    if ndebug = false ∧
        ¬ (collision_pos > 0 ∧ (collision_pos + SIZE_MOD - 1) % SIZE_MOD ≥ fwd_unit.pos) then
      Except.error Error.assertion_failure
    else Except.ok (collision_pos, (collision_pos + SIZE_MOD - 1) % SIZE_MOD)

/-- The first half of the loop body of `adjust_moves_of_consecutive_extr_units`, for the ranks
`idx1` and `idx2` of two consecutive rev units: `rev_moves[idx1] += pos1 - pos2` when
`pos2 < pos1`. -/
def adjust_rev_pair (ndebug : Bool) (chrom : Chromosome) (lefs : List Lef) (idx1 idx2 : Nat)
    (rev_moves : List Nat) : Except Error (List Nat) :=
  match lefs[idx1]? with
  | none => Except.error Error.undefined_behaviour
  | some lef1 =>
    if lef1.is_bound = false then Except.ok rev_moves
    else
      match lefs[idx2]? with
      | none => Except.error Error.undefined_behaviour
      | some lef2 =>
        if lef2.is_bound = false then Except.ok rev_moves
        else
          match rev_moves[idx1]?, rev_moves[idx2]? with
          | some move1, some move2 =>
            if ndebug = false ∧
                ¬ (lef1.rev_unit.pos ≥ (chrom.start_pos + move1) % SIZE_MOD ∧
                  lef2.rev_unit.pos ≥ (chrom.start_pos + move2) % SIZE_MOD) then
              Except.error Error.assertion_failure
            else if (lef2.rev_unit.pos + SIZE_MOD - move2 % SIZE_MOD) % SIZE_MOD <
                (lef1.rev_unit.pos + SIZE_MOD - move1 % SIZE_MOD) % SIZE_MOD then
              Except.ok (rev_moves.set idx1
                ((move1 + ((lef1.rev_unit.pos + SIZE_MOD - move1 % SIZE_MOD) % SIZE_MOD -
                  (lef2.rev_unit.pos + SIZE_MOD - move2 % SIZE_MOD) % SIZE_MOD)) % SIZE_MOD))
            else Except.ok rev_moves
          | _, _ => Except.error Error.undefined_behaviour

/-- The second half of the loop body of `adjust_moves_of_consecutive_extr_units`, for the ranks
`idx3` and `idx4` of two consecutive fwd units: `fwd_moves[idx4] += pos3 - pos4` when
`pos3 > pos4`. -/
def adjust_fwd_pair (ndebug : Bool) (chrom : Chromosome) (lefs : List Lef) (idx3 idx4 : Nat)
    (fwd_moves : List Nat) : Except Error (List Nat) :=
  match lefs[idx3]? with
  | none => Except.error Error.undefined_behaviour
  | some lef3 =>
    if lef3.is_bound = false then Except.ok fwd_moves
    else
      match lefs[idx4]? with
      | none => Except.error Error.undefined_behaviour
      | some lef4 =>
        if lef4.is_bound = false then Except.ok fwd_moves
        else
          match fwd_moves[idx3]?, fwd_moves[idx4]? with
          | some move3, some move4 =>
            if ndebug = false ∧
                ¬ ((lef3.fwd_unit.pos + move3) % SIZE_MOD < chrom.end_pos ∧
                  (lef4.fwd_unit.pos + move4) % SIZE_MOD < chrom.end_pos) then
              Except.error Error.assertion_failure
            else if (lef3.fwd_unit.pos + move3) % SIZE_MOD >
                (lef4.fwd_unit.pos + move4) % SIZE_MOD then
              Except.ok (fwd_moves.set idx4
                ((move4 + ((lef3.fwd_unit.pos + move3) % SIZE_MOD -
                  (lef4.fwd_unit.pos + move4) % SIZE_MOD)) % SIZE_MOD))
            else Except.ok fwd_moves
          | _, _ => Except.error Error.undefined_behaviour

/-- The loop `for (auto i = 0UL; i < lefs.size() - 1; ++i)` of
`adjust_moves_of_consecutive_extr_units`; `bound` is the unsigned value `lefs.size() - 1`, and
the indices `rev_offset - 1 - i` and `rev_offset - i` are unsigned differences.  A rank or an
index past the end of an array has no defined behaviour.  The state is the pair
(`rev_moves`, `fwd_moves`); `fuel = lefs.size() + 1` turns suffice. -/
def adjust_moves_loop (ndebug : Bool) (chrom : Chromosome) (lefs : List Lef)
    (rev_lef_ranks fwd_lef_ranks : List Nat) (rev_offset bound : Nat) :
    Nat → Nat → List Nat × List Nat → Except Error (List Nat × List Nat)
  | 0, _, _ => Except.error Error.undefined_behaviour
  | fuel + 1, i, moves =>
    if i < bound then
      match rev_lef_ranks[(rev_offset + 2 * SIZE_MOD - 1 - i) % SIZE_MOD]?,
          rev_lef_ranks[(rev_offset + SIZE_MOD - i) % SIZE_MOD]? with
      | some idx1, some idx2 =>
        match adjust_rev_pair ndebug chrom lefs idx1 idx2 moves.1 with
        | Except.error e => Except.error e
        | Except.ok rev_moves =>
          match fwd_lef_ranks[i]?, fwd_lef_ranks[i + 1]? with
          | some idx3, some idx4 =>
            match adjust_fwd_pair ndebug chrom lefs idx3 idx4 moves.2 with
            | Except.error e => Except.error e
            | Except.ok fwd_moves =>
              adjust_moves_loop ndebug chrom lefs rev_lef_ranks fwd_lef_ranks rev_offset bound
                fuel (i + 1) (rev_moves, fwd_moves)
          | _, _ => Except.error Error.undefined_behaviour
      | _, _ => Except.error Error.undefined_behaviour
    else Except.ok moves

/-- From `adjust_moves_of_consecutive_extr_units`.  `lefs.size() - 1` is an unsigned difference:
for an empty LEF array it is `2^64 - 1` and the first turn of the loop reads past the end of the
rank arrays.  The result is the pair (`rev_moves`, `fwd_moves`). -/
def adjust_moves_of_consecutive_extr_units (ndebug : Bool) (chrom : Chromosome)
    (lefs : List Lef) (rev_lef_ranks fwd_lef_ranks rev_moves fwd_moves : List Nat) :
    Except Error (List Nat × List Nat) :=
  adjust_moves_loop ndebug chrom lefs rev_lef_ranks fwd_lef_ranks
    ((lefs.length + SIZE_MOD - 1) % SIZE_MOD) ((lefs.length + SIZE_MOD - 1) % SIZE_MOD)
    (lefs.length + 1) 0 (rev_moves, fwd_moves)

end Simulation

/-- Modelled from the spec: the declaration of `Config` (`modle/config.hpp`), the base class of
`Simulation`, is not under `src/`.  These are the members that the kernel functions read; the
speeds, `bin_size` and `average_lef_lifetime` are unsigned 64 bit integers and the others
`double`s. -/
structure Config where
  bin_size : Nat
  rev_extrusion_speed : Nat
  rev_extrusion_speed_std : ℚ
  fwd_extrusion_speed : Nat
  fwd_extrusion_speed_std : ℚ
  hard_stall_multiplier : ℚ
  average_lef_lifetime : Nat
  skip_burnin : Bool

/-- The random source `random::PRNG_t` as the kernel functions see it through the
distributions that read it: `values k` is the value that the call number `k` of a distribution
returns (for a normal distribution the drawn `double` after `std::round`), and `calls` is the
number of calls made so far. -/
structure PRNG_t where
  values : Nat → Int
  calls : Nat

/-- One call `distribution(rand_eng)`: the value and the random source after the call. -/
def PRNG_t.draw (rand_eng : PRNG_t) : Int × PRNG_t :=
  (rand_eng.values rand_eng.calls, { rand_eng with calls := rand_eng.calls + 1 })

namespace Simulation

/-- The conversion `static_cast<bp_t>(x)` of an integer-valued `double`.  C++ defines the result
for `0 ≤ x < 2^64` only; for any other `x` the result is what the platform happens to give, here
the 64 bit value `out_of_range x`. -/
def double_to_bp (out_of_range : Int → Nat) (x : Int) : Nat :=
  if 0 ≤ x ∧ x < (SIZE_MOD : Int) then x.toNat else out_of_range x % SIZE_MOD

/-- The call `std::clamp(v, lo, hi)`. -/
def clamp (v lo hi : Nat) : Nat :=
  if v < lo then lo else if hi < v then hi else v

/-- From `generate_rev_move`; the result is the move and the random source after the call. -/
def generate_rev_move (ndebug : Bool) (out_of_range : Int → Nat) (c : Config)
    (chrom : Chromosome) (unit : ExtrusionUnit) (rand_eng : PRNG_t) : Except Error (Nat × PRNG_t) :=
  if ndebug = false ∧ ¬ (unit.pos ≥ chrom.start_pos) then
    Except.error Error.assertion_failure
  else if c.rev_extrusion_speed_std = 0 then
    Except.ok (min c.rev_extrusion_speed
      ((unit.pos + SIZE_MOD - chrom.start_pos % SIZE_MOD) % SIZE_MOD), rand_eng)
  else
    Except.ok (clamp (double_to_bp out_of_range rand_eng.draw.1) 0
      ((unit.pos + SIZE_MOD - chrom.start_pos % SIZE_MOD) % SIZE_MOD), rand_eng.draw.2)

/-- From `generate_fwd_move`; the result is the move and the random source after the call. -/
def generate_fwd_move (ndebug : Bool) (out_of_range : Int → Nat) (c : Config)
    (chrom : Chromosome) (unit : ExtrusionUnit) (rand_eng : PRNG_t) : Except Error (Nat × PRNG_t) :=
  if ndebug = false ∧ ¬ (unit.pos < chrom.end_pos) then
    Except.error Error.assertion_failure
  else if c.fwd_extrusion_speed_std = 0 then
    Except.ok (min c.fwd_extrusion_speed
      (((chrom.end_pos + SIZE_MOD - 1) % SIZE_MOD + SIZE_MOD - unit.pos % SIZE_MOD) % SIZE_MOD),
      rand_eng)
  else
    Except.ok (clamp (double_to_bp out_of_range rand_eng.draw.1) 0
      (((chrom.end_pos + SIZE_MOD - 1) % SIZE_MOD + SIZE_MOD - unit.pos % SIZE_MOD) % SIZE_MOD),
      rand_eng.draw.2)

/-- The body of the loop of `generate_moves` for the LEF `i`; the state is (`rev_moves`,
`fwd_moves`, `rand_eng`).  A write past the end of a move array has no defined behaviour. -/
def generate_moves_step (ndebug : Bool) (out_of_range : Int → Nat) (c : Config)
    (chrom : Chromosome) (lefs : List Lef) (s : List Nat × List Nat × PRNG_t) (i : Nat) :
    Except Error (List Nat × List Nat × PRNG_t) :=
  match lefs[i]? with
  | none => Except.error Error.undefined_behaviour
  | some lef =>
    match (if lef.is_bound = true then
        generate_rev_move ndebug out_of_range c chrom lef.rev_unit s.2.2
      else Except.ok (0, s.2.2)) with
    | Except.error e => Except.error e
    | Except.ok rev =>
      match (if lef.is_bound = true then
          generate_fwd_move ndebug out_of_range c chrom lef.fwd_unit rev.2
        else Except.ok (0, rev.2)) with
      | Except.error e => Except.error e
      | Except.ok fwd =>
        if s.1.length ≤ i ∨ s.2.1.length ≤ i then Except.error Error.undefined_behaviour
        else Except.ok (s.1.set i rev.1, s.2.1.set i fwd.1, fwd.2)

/-- From `generate_moves`; the result is (`rev_moves`, `fwd_moves`, `rand_eng`). -/
def generate_moves (ndebug : Bool) (out_of_range : Int → Nat) (c : Config) (chrom : Chromosome)
    (lefs : List Lef) (rev_lef_ranks fwd_lef_ranks rev_moves fwd_moves : List Nat)
    (rand_eng : PRNG_t) (adjust_moves_ : Bool) : Except Error (List Nat × List Nat × PRNG_t) :=
  if ndebug = false ∧
      ¬ (lefs.length = fwd_lef_ranks.length ∧ lefs.length = rev_lef_ranks.length ∧
        lefs.length = fwd_moves.length ∧ lefs.length = rev_moves.length) then
    Except.error Error.assertion_failure
  else
    match try_fold (generate_moves_step ndebug out_of_range c chrom lefs)
        (rev_moves, fwd_moves, rand_eng) (List.range lefs.length) with
    | Except.error e => Except.error e
    | Except.ok s =>
      if adjust_moves_ = true then
        match adjust_moves_of_consecutive_extr_units ndebug chrom lefs rev_lef_ranks
            fwd_lef_ranks s.1 s.2.1 with
        | Except.error e => Except.error e
        | Except.ok moves => Except.ok (moves.1, moves.2, s.2.2)
      else Except.ok s

/-- The body of the loop of `register_contacts` for the selected LEF `i`; the state is
(`contacts`, `new_contacts`).  An exception of `increment` leaves the function. -/
def register_contacts_step (ndebug : Bool) (c : Config) (start_pos end_pos : Nat)
    (lefs : List Lef) (s : ContactMatrix × Nat) (i : Nat) : Except Error (ContactMatrix × Nat) :=
  if ndebug = false ∧ ¬ (i < lefs.length) then Except.error Error.assertion_failure
  else
    match lefs[i]? with
    | none => Except.error Error.undefined_behaviour
    | some lef =>
      if lef.is_bound = true ∧ lef.rev_unit.pos > start_pos ∧ lef.rev_unit.pos < end_pos ∧
          lef.fwd_unit.pos > start_pos ∧ lef.fwd_unit.pos < end_pos then
        if c.bin_size = 0 then Except.error Error.undefined_behaviour
        else
          match (s.1.increment ndebug ((lef.rev_unit.pos - start_pos) / c.bin_size)
              ((lef.fwd_unit.pos - start_pos) / c.bin_size)).error with
          | some e => Except.error e
          | none =>
            Except.ok ((s.1.increment ndebug ((lef.rev_unit.pos - start_pos) / c.bin_size)
              ((lef.fwd_unit.pos - start_pos) / c.bin_size)).state, (s.2 + 1) % SIZE_MOD)
      else Except.ok s

/-- From `register_contacts(start_pos, end_pos, contacts, lefs, selected_lef_idx)`; the result
is the matrix and the number of new contacts. -/
def register_contacts_in_range (ndebug : Bool) (c : Config) (start_pos end_pos : Nat)
    (contacts : ContactMatrix) (lefs : List Lef) (selected_lef_idx : List Nat) :
    Except Error (ContactMatrix × Nat) :=
  try_fold (register_contacts_step ndebug c start_pos end_pos lefs) (contacts, 0)
    selected_lef_idx

/-- From `register_contacts(chrom, lefs, selected_lef_idx)`, with the matrix `chrom.contacts()`
as a parameter of its own: the call of the other overload with `chrom.start_pos() + 1` and
`chrom.end_pos() - 1`. -/
def register_contacts (ndebug : Bool) (c : Config) (chrom : Chromosome)
    (contacts : ContactMatrix) (lefs : List Lef) (selected_lef_idx : List Nat) :
    Except Error (ContactMatrix × Nat) :=
  register_contacts_in_range ndebug c ((chrom.start_pos + 1) % SIZE_MOD)
    ((chrom.end_pos + SIZE_MOD - 1) % SIZE_MOD) contacts lefs selected_lef_idx

end Simulation

namespace dna

/-- Modelled from the spec: `dna::Direction` is declared in `modle/common.hpp`, which is not
under `src/`; the enumerators are those of `DNA::Direction` in `include/modle/dna.hpp`.  Spec,
data model: a barrier has `major_dir ∈ {rev, fwd}`. -/
inductive Direction where
  | none
  | fwd
  | rev
  | both
deriving DecidableEq

end dna

/-- From `modle/extrusion_barriers.hpp`: the data members of `ExtrusionBarrier`. -/
structure ExtrusionBarrier where
  _pos : Nat
  _occupied_to_occupied_transition_prob : ℚ
  _non_occupied_to_not_occupied_transition_prob : ℚ
  _blocking_direction : dna.Direction
deriving DecidableEq

/-- Modelled from the spec: the body of `blocking_direction_major()`
(`extrusion_barriers_impl.hpp`) is not under `src/`.  Spec, data model: each barrier has a major
blocking direction. -/
def ExtrusionBarrier.blocking_direction_major (b : ExtrusionBarrier) : dna.Direction :=
  b._blocking_direction

namespace Simulation

/-- The body of the loop of `generate_lef_unloader_affinities` for the LEF `i`.  The affinities
are `double`s; `1.0 / hard_stall_multiplier` is taken exactly. -/
def unloader_affinity_step (c : Config) (lefs : List Lef) (barriers : List ExtrusionBarrier)
    (rev_collisions fwd_collisions : List Nat) (lef_unloader_affinity : List ℚ) (i : Nat) :
    Except Error (List ℚ) :=
  match lefs[i]? with
  | none => Except.error Error.undefined_behaviour
  | some lef =>
    if lef_unloader_affinity.length ≤ i then Except.error Error.undefined_behaviour
    else if lef.is_bound = false then Except.ok (lef_unloader_affinity.set i 0)
    else
      match rev_collisions[i]? with
      | none => Except.error Error.undefined_behaviour
      | some rev_collision =>
        if ¬ (rev_collision < barriers.length) then Except.ok (lef_unloader_affinity.set i 1)
        else
          match fwd_collisions[i]? with
          | none => Except.error Error.undefined_behaviour
          | some fwd_collision =>
            if ¬ (fwd_collision < barriers.length) then
              Except.ok (lef_unloader_affinity.set i 1)
            else
              match barriers[rev_collision]?, barriers[fwd_collision]? with
              | some rev_barrier, some fwd_barrier =>
                if rev_barrier.blocking_direction_major = dna.Direction.rev ∧
                    fwd_barrier.blocking_direction_major = dna.Direction.fwd then
                  Except.ok (lef_unloader_affinity.set i (1 / c.hard_stall_multiplier))
                else Except.ok (lef_unloader_affinity.set i 1)
              | _, _ => Except.error Error.undefined_behaviour

/-- From `generate_lef_unloader_affinities`; the result is the array `lef_unloader_affinity`. -/
def generate_lef_unloader_affinities (ndebug : Bool) (c : Config) (lefs : List Lef)
    (barriers : List ExtrusionBarrier) (rev_collisions fwd_collisions : List Nat)
    (lef_unloader_affinity : List ℚ) : Except Error (List ℚ) :=
  if ndebug = false ∧
      ¬ (lefs.length = rev_collisions.length ∧ lefs.length = fwd_collisions.length ∧
        lefs.length = lef_unloader_affinity.length) then
    Except.error Error.assertion_failure
  else
    try_fold (unloader_affinity_step c lefs barriers rev_collisions fwd_collisions)
      lef_unloader_affinity (List.range lefs.length)

/-- The call `cppsort::ska_sort(first, last)` on unsigned integers: the range in ascending
order. -/
def ska_sort (l : List Nat) : List Nat :=
  insertion_sort (fun a b => decide (a < b)) l

/-- The call `cppsort::counting_sort(first, last)` on unsigned integers: the range in ascending
order. -/
def counting_sort (l : List Nat) : List Nat :=
  insertion_sort (fun a b => decide (a < b)) l

/-- The call `std::generate(first, last, [&]() { return round_gen(s.rand_eng); })` on a buffer
of `n` elements: the values of `n` successive calls of the distribution, as `size_t`. -/
def generate (n : Nat) (rand_eng : PRNG_t) : List Nat × PRNG_t :=
  ((List.range n).map (fun k => (rand_eng.values (rand_eng.calls + k)).toNat % SIZE_MOD),
    { rand_eng with calls := rand_eng.calls + n })

/-- From `setup_burnin`, with the members `epoch_buff` and `rand_eng` of the state as
parameters; the result is the buffer and the random source.  The sorters work on the reverse
iterators of the buffer; `back()` of an empty buffer has no defined behaviour, and neither has
the division by a `bin_size` of 0. -/
def setup_burnin (c : Config) (epoch_buff : List Nat) (rand_eng : PRNG_t) :
    Except Error (List Nat × PRNG_t) :=
  match (if c.skip_burnin = false then
      if c.bin_size = 0 then Except.error Error.undefined_behaviour
      else if ((4 * c.average_lef_lifetime) % SIZE_MOD) / c.bin_size > 2048 then
        Except.ok ((ska_sort (generate epoch_buff.length rand_eng).1.reverse).reverse,
          (generate epoch_buff.length rand_eng).2)
      else
        Except.ok ((counting_sort (generate epoch_buff.length rand_eng).1.reverse).reverse,
          (generate epoch_buff.length rand_eng).2)
    else Except.ok (epoch_buff, rand_eng)) with
  | Except.error e => Except.error e
  | Except.ok s =>
    match s.1.getLast? with
    | none => Except.error Error.undefined_behaviour
    | some offset =>
      if offset ≠ 0 then
        Except.ok (s.1.map (fun n => (n + SIZE_MOD - offset % SIZE_MOD) % SIZE_MOD), s.2)
      else Except.ok s

end Simulation

namespace Simulation

/-- The objects that the loop of `write_contacts_to_disk` works on.  A chromosome pointer is
the number of the chromosome, `none` the null pointer; an entry of the queue is the pair
(chromosome, number of cells done).  `written` and `deallocated` list, in order, the chromosomes
that `write_or_append_cmatrix_to_file` has written and that `deallocate_contacts` was called
on. -/
structure WriterState where
  progress_queue : List (Option Nat × Nat)
  end_of_simulation : Bool
  written : List Nat
  deallocated : List Nat
deriving DecidableEq

/-- How one turn of the `while (true)` loop of `write_contacts_to_disk` ends: with the next
turn, with `return`, or with an exception or a failed `assert`. -/
inductive LoopControl where
  | next_turn
  | returned
  | thrown (e : Error)
deriving DecidableEq

/-- One turn of the loop of `write_contacts_to_disk`, without the sleep and the lock.
`num_cells` and `skip_output` are members of `Config`; the `Cooler` pointer `c` is null exactly
when `skip_output` is set.  `write_error chrom` is the exception, if any, that escapes from
`write_or_append_cmatrix_to_file` for that chromosome: the handler throws a
`std::runtime_error` in its place and `deallocate_contacts` is not reached. -/
def write_contacts_to_disk_turn (ndebug : Bool) (num_cells : Nat) (skip_output : Bool)
    (write_error : Nat → Option Error) (s : WriterState) : WriterState × LoopControl :=
  match s.progress_queue with
  | [] => (s, LoopControl.next_turn)
  | (none, _) :: _ => ({ s with end_of_simulation := true }, LoopControl.returned)
  | (some chrom, count) :: rest =>
    if count = num_cells then
      if skip_output = false then
        match write_error chrom with
        | some e => ({ s with progress_queue := rest }, LoopControl.thrown e)
        | none =>
          ({ s with progress_queue := rest, written := s.written ++ [chrom],
                    deallocated := s.deallocated ++ [chrom] }, LoopControl.next_turn)
      else
        ({ s with progress_queue := rest, deallocated := s.deallocated ++ [chrom] },
          LoopControl.next_turn)
    else if ndebug = false ∧ ¬ (count < num_cells) then
      (s, LoopControl.thrown Error.assertion_failure)
    else (s, LoopControl.next_turn)

end Simulation

namespace extr_barrier

/-- The class `ExtrusionBarrier` of `extr_barrier.cpp`; its declaration
(`modle/extr_barrier.hpp`) is not under `src/`, the members are those that the constructor
initialises.  `_n_stall_generator` is a standard distribution; the embedding keeps its
parameter, the value that `p()` returns. -/
structure ExtrusionBarrier where
  _pos : Nat
  _direction : dna.Direction
  _n_stall_generator : ℚ
deriving DecidableEq

namespace ExtrusionBarrier

/-- The constructor `ExtrusionBarrier(pos, prob_of_block, direction)`:
`_n_stall_generator(1 - prob_of_block)`. -/
def create (pos : Nat) (prob_of_block : ℚ) (direction : dna.Direction) : ExtrusionBarrier :=
  { _pos := pos, _direction := direction, _n_stall_generator := 1 - prob_of_block }

def get_pos (b : ExtrusionBarrier) : Nat := b._pos

/-- From `get_prob_of_block()`: `_n_stall_generator.p()`. -/
def get_prob_of_block (b : ExtrusionBarrier) : ℚ := b._n_stall_generator

def get_direction (b : ExtrusionBarrier) : dna.Direction := b._direction

end ExtrusionBarrier

end extr_barrier

/-- The record of a BED file as `import_extrusion_barriers_from_bed` reads it: the fields of
`bed::BED` that the function uses. -/
structure BED where
  chrom : String
  chrom_start : Nat
  chrom_end : Nat
  name : String
  score : ℚ
  strand : Char
deriving DecidableEq

namespace Genome

/-- Modelled from the spec: the declaration of the `Chromosome` that `genome_impl.hpp` uses is
not under `src/`.  Spec, data model: a chromosome has a name and a simulation range
`[start, end)`. -/
structure Chromosome where
  name : String
  start_pos : Nat
  end_pos : Nat
deriving DecidableEq

def Chromosome.get_start_pos (chr : Chromosome) : Nat := chr.start_pos

def Chromosome.get_end_pos (chr : Chromosome) : Nat := chr.end_pos

/-- Modelled from the spec: the length of the simulation range `[start, end)`. -/
def Chromosome.simulated_length (chr : Chromosome) : Nat :=
  (chr.end_pos + SIZE_MOD - chr.start_pos % SIZE_MOD) % SIZE_MOD

/-- From `get_chromosome_lengths()`. -/
def get_chromosome_lengths (_chromosomes : List Chromosome) : List Nat :=
  _chromosomes.map Chromosome.simulated_length

/-- From `size()`: `std::accumulate` over the simulated lengths, in 64 bits. -/
def size (_chromosomes : List Chromosome) : Nat :=
  _chromosomes.foldl (fun accumulator chr => (accumulator + chr.simulated_length) % SIZE_MOD) 0

/-- The call `std::find_if(first, last, pred)` with the predicate of `n50`, whose counter `tot`
grows by every length it is shown: the first length at which `tot >= n50_thresh`. -/
def find_if_tot (n50_thresh : Nat) : Nat → List Nat → Option Nat
  | _, [] => none
  | tot, len :: rest =>
    if (tot + len) % SIZE_MOD ≥ n50_thresh then some len
    else find_if_tot n50_thresh ((tot + len) % SIZE_MOD) rest

/-- From `n50()`.  `std::sort(chr_lengths.rbegin(), chr_lengths.rend(), std::greater<>())`
orders the vector as seen through its reverse iterators by `>`.  When `find_if` finds nothing
the function reads `*chr_lengths.end()`. -/
def n50 (_chromosomes : List Chromosome) : Except Error Nat :=
  match find_if_tot (size _chromosomes / 2) 0
      (Simulation.insertion_sort (fun a b => decide (a > b))
        (get_chromosome_lengths _chromosomes).reverse).reverse with
  | some len => Except.ok len
  | none => Except.error Error.undefined_behaviour

end Genome

namespace Genome

/-- The lookup `chromosomes[record.chrom]` in the map from names to chromosomes that
`import_extrusion_barriers_from_bed` builds with `emplace`: the number of the first chromosome
of that name, `none` when `contains` is false. -/
def find_chromosome (_chromosomes : List Chromosome) (chrom : String) : Option Nat :=
  _chromosomes.findIdx? (fun chr => chr.name == chrom)

/-- The local variables of `import_extrusion_barriers_from_bed` and its effect on the genome:
`added` lists, in order, the calls `chromosomes[record.chrom]->dna.add_extr_barrier(record)` as
pairs (number of the chromosome, record handed over). -/
structure ImportState where
  nrecords : Nat
  nrecords_ignored : Nat
  added : List (Nat × BED)
deriving DecidableEq

/-- The body of the loop of `import_extrusion_barriers_from_bed` for one record. -/
def import_record (_chromosomes : List Chromosome) (probability_of_block : ℚ)
    (s : ImportState) (record : BED) : Except Error ImportState :=
  match find_chromosome _chromosomes record.chrom with
  | none =>
    Except.ok { s with nrecords := (s.nrecords + 1) % SIZE_MOD,
                       nrecords_ignored := (s.nrecords_ignored + 1) % SIZE_MOD }
  | some k =>
    match _chromosomes[k]? with
    | none => Except.error Error.undefined_behaviour
    | some chr =>
      if record.strand = '.' ∨ record.chrom_start < chr.get_start_pos ∨
          record.chrom_end > chr.get_end_pos then
        Except.ok { s with nrecords := (s.nrecords + 1) % SIZE_MOD,
                           nrecords_ignored := (s.nrecords_ignored + 1) % SIZE_MOD }
      else if (if probability_of_block ≠ 0 then probability_of_block else record.score) < 0 ∨
          (if probability_of_block ≠ 0 then probability_of_block else record.score) > 1 then
        Except.error Error.runtime_error
      else
        Except.ok { s with
          nrecords := (s.nrecords + 1) % SIZE_MOD,
          added := s.added ++ [(k, { record with
            score := if probability_of_block ≠ 0 then probability_of_block else record.score,
            chrom_start :=
              (record.chrom_start + SIZE_MOD - chr.get_start_pos % SIZE_MOD) % SIZE_MOD,
            chrom_end :=
              (record.chrom_end + SIZE_MOD - chr.get_start_pos % SIZE_MOD) % SIZE_MOD })] }

/-- From `import_extrusion_barriers_from_bed`, for the records that `p.parse_all()` returns:
the pair (`nrecords`, `nrecords_ignored`) and the records added to the chromosomes. -/
def import_extrusion_barriers_from_bed (_chromosomes : List Chromosome) (records : List BED)
    (probability_of_block : ℚ) : Except Error ((Nat × Nat) × List (Nat × BED)) :=
  match try_fold (import_record _chromosomes probability_of_block) ⟨0, 0, []⟩ records with
  | Except.error e => Except.error e
  | Except.ok s => Except.ok ((s.nrecords, s.nrecords_ignored), s.added)

/-- Whether a record is ignored: its chromosome is not known, its strand is `.`, or it starts
before the start or ends after the end of its chromosome. -/
def is_ignored (_chromosomes : List Chromosome) (record : BED) : Bool :=
  match find_chromosome _chromosomes record.chrom with
  | none => true
  | some k =>
    match _chromosomes[k]? with
    | none => true
    | some chr =>
      decide (record.strand = '.' ∨ record.chrom_start < chr.start_pos ∨
        record.chrom_end > chr.end_pos)

/-- The score of a record after the import: `probability_of_block` when that is not 0. -/
def resulting_score (probability_of_block : ℚ) (record : BED) : ℚ :=
  if probability_of_block ≠ 0 then probability_of_block else record.score

/-- The call of `add_extr_barrier` that the import makes for a record that is not ignored: the
number of its chromosome and the record with the new score and with its coordinates counted
from the start of the chromosome (64-bit subtraction). -/
def added_record (_chromosomes : List Chromosome) (probability_of_block : ℚ) (record : BED) :
    Option (Nat × BED) :=
  match find_chromosome _chromosomes record.chrom with
  | none => none
  | some k =>
    match _chromosomes[k]? with
    | none => none
    | some chr =>
      if is_ignored _chromosomes record = true then none
      else some (k, { record with
        score := resulting_score probability_of_block record,
        chrom_start := (record.chrom_start + SIZE_MOD - chr.start_pos % SIZE_MOD) % SIZE_MOD,
        chrom_end := (record.chrom_end + SIZE_MOD - chr.start_pos % SIZE_MOD) % SIZE_MOD })

end Genome

namespace libarchivexx

/-- The members of `Reader` that `getline` works on, and the archive behind it: `archive` lists
what the coming calls of `archive_read_data` deliver, one chunk per call; after the last chunk,
and for an empty chunk, the call returns 0. -/
structure Reader where
  _buff : List Char
  _idx : Nat
  _eof : Bool
  archive : List (List Char)
deriving DecidableEq

namespace Reader

/-- A reader that was just opened on an archive: empty `_buff`, `_idx == 0`, not at the end. -/
def «open» (archive : List (List Char)) : Reader :=
  { _buff := [], _idx := 0, _eof := false, archive := archive }

def eof (r : Reader) : Bool := r._eof

/-- From `read_next_chunk()`: the flag returned and the reader after the call. -/
def read_next_chunk (ndebug : Bool) (r : Reader) : Except Error (Bool × Reader) :=
  if ndebug = false ∧ ¬ (r.eof = false) then Except.error Error.assertion_failure
  else
    match r.archive with
    | [] => Except.ok (false, { r with _eof := true, _buff := [] })
    | chunk :: rest =>
      if chunk.length = 0 then
        Except.ok (false, { r with _eof := true, _buff := [], archive := rest })
      else Except.ok (true, { r with _buff := chunk, _idx := 0, archive := rest })

/-- From `read_next_token(buff, sep)`: the flag returned, the reader and `buff` after the call.
`_buff.find(sep, _idx)` is the position of the first `sep` at or after `_idx`. -/
def read_next_token (ndebug : Bool) (r : Reader) (buff : List Char) (sep : Char) :
    Except Error (Bool × Reader × List Char) :=
  if ndebug = false ∧ ¬ (r.eof = false ∧ r._idx ≤ r._buff.length) then
    Except.error Error.assertion_failure
  else if r._idx = r._buff.length then Except.ok (false, r, buff)
  else if r._idx > r._buff.length then Except.error Error.undefined_behaviour
  else
    match (r._buff.drop r._idx).findIdx? (fun ch => ch == sep) with
    | none => Except.ok (false, r, buff ++ r._buff.drop r._idx)
    | some n =>
      Except.ok (true, { r with _idx := r._idx + n + 1 },
        buff ++ (r._buff.drop r._idx).take n)

/-- The loop `while (!read_next_token(buff, sep)) { if (!read_next_chunk()) return false; }` of
`getline`.  Every turn but the last takes a chunk from the archive, so
`fuel = number of chunks + 2` turns suffice. -/
def getline_loop (ndebug : Bool) (sep : Char) :
    Nat → Reader → List Char → Except Error (Bool × Reader × List Char)
  | 0, _, _ => Except.error Error.undefined_behaviour
  | fuel + 1, r, buff =>
    match read_next_token ndebug r buff sep with
    | Except.error e => Except.error e
    | Except.ok (true, r2, buff2) => Except.ok (true, r2, buff2)
    | Except.ok (false, r2, buff2) =>
      match read_next_chunk ndebug r2 with
      | Except.error e => Except.error e
      | Except.ok (false, r3) =>
        if ndebug = false ∧ ¬ (r3.eof = true) then Except.error Error.assertion_failure
        else Except.ok (false, r3, buff2)
      | Except.ok (true, r3) => getline_loop ndebug sep fuel r3 buff2

/-- From `getline(buff, sep)`: the flag returned, the reader and `buff` after the call. -/
def getline (ndebug : Bool) (r : Reader) (sep : Char) :
    Except Error (Bool × Reader × List Char) :=
  if r.eof = true then Except.ok (false, r, [])
  else getline_loop ndebug sep (r.archive.length + 2) r []

end Reader

end libarchivexx

namespace correlation

/-- The call `absl::Span::subspan(pos, len)`: the elements from `pos` on, at most `len` of
them; a `std::out_of_range` when `pos > size()`. -/
def subspan {α : Type} (v : List α) (pos len : Nat) : Except Error (List α) :=
  if pos > v.length then Except.error Error.logic_error
  else Except.ok ((v.drop pos).take len)

/-- The body of the loop of `compute_corr` for the window `i`: the pair
(`r_vals[i]`, `p_vals[i]`). -/
def compute_corr_window {α β γ : Type} (v1 : List α) (v2 : List β)
    (compute_corr_fp : List α → List β → Except Error γ)
    (compute_corr_significance_fp : γ → Nat → Except Error γ)
    (window_span window_overlap : Nat) (i : Nat) : Except Error (γ × γ) :=
  match subspan v1 ((i * ((window_span + SIZE_MOD - window_overlap % SIZE_MOD) % SIZE_MOD)) %
      SIZE_MOD)
      (((i * ((window_span + SIZE_MOD - window_overlap % SIZE_MOD) % SIZE_MOD)) % SIZE_MOD +
        window_span) % SIZE_MOD),
    subspan v2 ((i * ((window_span + SIZE_MOD - window_overlap % SIZE_MOD) % SIZE_MOD)) %
      SIZE_MOD)
      (((i * ((window_span + SIZE_MOD - window_overlap % SIZE_MOD) % SIZE_MOD)) % SIZE_MOD +
        window_span) % SIZE_MOD) with
  | Except.ok slice1, Except.ok slice2 =>
    match compute_corr_fp slice1 slice2 with
    | Except.error e => Except.error e
    | Except.ok r =>
      match compute_corr_significance_fp r slice1.length with
      | Except.error e => Except.error e
      | Except.ok p => Except.ok (r, p)
  | Except.error e, _ => Except.error e
  | _, Except.error e => Except.error e

/-- From `compute_corr`, with the two function pointers that `type` selects as parameters
(`γ` stands for `double`); the result is the pair (`r_vals`, `p_vals`).  A `window_span` equal
to `window_overlap` makes the release build divide by zero. -/
def compute_corr {α β γ : Type} (ndebug : Bool) (v1 : List α) (v2 : List β)
    (compute_corr_fp : List α → List β → Except Error γ)
    (compute_corr_significance_fp : γ → Nat → Except Error γ)
    (window_span window_overlap : Nat) : Except Error (List γ × List γ) :=
  if v1.length ≠ v2.length then Except.error Error.runtime_error
  else if ndebug = false ∧ ¬ (window_span > window_overlap) then
    Except.error Error.assertion_failure
  else if (window_span + SIZE_MOD - window_overlap % SIZE_MOD) % SIZE_MOD = 0 then
    Except.error Error.undefined_behaviour
  else
    match try_map (compute_corr_window v1 v2 compute_corr_fp compute_corr_significance_fp
        window_span window_overlap)
        (List.range (v1.length /
          ((window_span + SIZE_MOD - window_overlap % SIZE_MOD) % SIZE_MOD))) with
    | Except.error e => Except.error e
    | Except.ok vals => Except.ok (vals.map Prod.fst, vals.map Prod.snd)

end correlation

/-! ## Rounding to the nearest double -/

theorem round_half_even_error (y : ℚ) : |(round_half_even y : ℚ) - y| ≤ 1 / 2 := by
  have h1 := Int.floor_le y
  have h2 := Int.lt_floor_add_one y
  unfold round_half_even
  split_ifs with ha hb hc
  · rw [abs_le]; constructor <;> linarith
  · rw [abs_le]; push_cast; constructor <;> linarith
  · rw [abs_le]; constructor <;> linarith
  · rw [abs_le]; push_cast; constructor <;> linarith

theorem round_half_even_intCast (k : Int) : round_half_even (k : ℚ) = k := by
  unfold round_half_even
  rw [Int.floor_intCast, sub_self, if_pos (by norm_num)]

theorem round_half_even_eq (y : ℚ) (k : Int) (h : |y - k| < 1 / 2) : round_half_even y = k := by
  have herr := round_half_even_error y
  rw [abs_lt] at h
  rw [abs_le] at herr
  have h3 : ((round_half_even y - k : Int) : ℚ) < 1 := by push_cast; linarith
  have h4 : (-1 : ℚ) < ((round_half_even y - k : Int) : ℚ) := by push_cast; linarith
  have h5 : round_half_even y - k < 1 := by exact_mod_cast h3
  have h6 : -1 < round_half_even y - k := by exact_mod_cast h4
  omega

theorem round_half_even_nonneg (y : ℚ) (hy : 0 ≤ y) : 0 ≤ round_half_even y := by
  have h0 : 0 ≤ ⌊y⌋ := Int.floor_nonneg.2 hy
  unfold round_half_even
  split_ifs <;> omega

theorem round_half_even_mono_int (y : ℚ) (k : Int) (h : (k : ℚ) ≤ y) : k ≤ round_half_even y := by
  have h0 : k ≤ ⌊y⌋ := Int.le_floor.2 h
  unfold round_half_even
  split_ifs <;> omega

theorem round_half_even_le_int (y : ℚ) (k : Int) (h : y ≤ (k : ℚ)) : round_half_even y ≤ k := by
  have h2 := Int.floor_le y
  have h0 : ⌊y⌋ ≤ k := Int.floor_le_iff.2 (by have := Int.floor_le y; linarith [Int.lt_floor_add_one y])
  rcases eq_or_lt_of_le h0 with heq | hlt
  · have : y = ⌊y⌋ := by
      have : (⌊y⌋ : ℚ) = k := by exact_mod_cast heq
      linarith
    unfold round_half_even
    rw [if_pos (by rw [← this]; norm_num)]
    omega
  · unfold round_half_even
    split_ifs <;> omega

theorem binary64_exponent_eq (x : ℚ) (e : Int) (hx : 0 < x) (he : -1074 ≤ e)
    (h1 : (2 : ℚ) ^ (e + 52) ≤ x) (h2 : x < (2 : ℚ) ^ (e + 53)) : binary64_exponent x = e := by
  unfold binary64_exponent
  rw [abs_of_pos hx]
  have ha : e + 52 ≤ Int.log 2 x := by
    have := (Int.zpow_le_iff_le_log (b := 2) (by norm_num) hx (x := e + 52)).1
    exact this (by exact_mod_cast h1)
  have hb : Int.log 2 x < e + 53 := by
    have := (Int.lt_zpow_iff_log_lt (b := 2) (by norm_num) hx (x := e + 53)).1
    exact this (by exact_mod_cast h2)
  omega

theorem binary64_exponent_neg (x : ℚ) : binary64_exponent (-x) = binary64_exponent x := by
  unfold binary64_exponent
  rw [abs_neg]

theorem binary64_neg (x : ℚ) : binary64 (-x) = -binary64 x := by
  rcases lt_trichotomy x 0 with h | h | h
  · unfold binary64
    rw [if_pos (by linarith), if_neg (by linarith), binary64_exponent_neg, neg_neg]
  · subst h
    unfold binary64
    simp [round_half_even]
  · unfold binary64
    rw [if_neg (by linarith), if_pos (by linarith), binary64_exponent_neg, neg_neg]

theorem binary64_zero : binary64 0 = 0 := by
  unfold binary64
  simp [round_half_even]

theorem binary64_nonneg (x : ℚ) (hx : 0 ≤ x) : 0 ≤ binary64 x := by
  unfold binary64
  rw [if_pos hx]
  have h1 : 0 ≤ round_half_even (x / 2 ^ binary64_exponent x) :=
    round_half_even_nonneg _ (div_nonneg hx (by positivity))
  have h2 : (0 : ℚ) ≤ (round_half_even (x / 2 ^ binary64_exponent x) : ℚ) := by exact_mod_cast h1
  positivity

/-- Half a unit in the last place is at most `|x| / 2^53`, or `2^-1075` for a subnormal. -/
theorem binary64_half_ulp (x : ℚ) (hx0 : x ≠ 0) :
    (2 : ℚ) ^ binary64_exponent x / 2 ≤ |x| / 2 ^ 53 + 1 / 2 ^ 1075 := by
  unfold binary64_exponent
  rcases le_total (Int.log 2 |x| - 52) (-1074) with h | h
  · rw [max_eq_right h]
    have : (2 : ℚ) ^ (-1074 : Int) / 2 = 1 / 2 ^ 1075 := by
      rw [zpow_neg]; norm_num
    rw [this]
    have : 0 ≤ |x| / 2 ^ 53 := by positivity
    linarith
  · rw [max_eq_left h]
    have hx : 0 < |x| := abs_pos.2 hx0
    have hle := Int.zpow_log_le_self (b := 2) (by norm_num) hx
    have he : (2 : ℚ) ^ (Int.log 2 |x| - 52) = 2 ^ Int.log 2 |x| / 2 ^ 52 := by
      rw [zpow_sub₀ (by norm_num)]; norm_num
    rw [he]
    have h3 : (2 : ℚ) ^ Int.log 2 |x| / 2 ^ 52 / 2 = 2 ^ Int.log 2 |x| / 2 ^ 53 := by
      rw [div_div]; norm_num
    rw [h3]
    have hle2 : (2 : ℚ) ^ Int.log 2 |x| ≤ |x| := by exact_mod_cast hle
    have : (2 : ℚ) ^ Int.log 2 |x| / 2 ^ 53 ≤ |x| / 2 ^ 53 :=
      div_le_div_of_nonneg_right hle2 (by positivity)
    have : (0 : ℚ) ≤ 1 / 2 ^ 1075 := by positivity
    linarith

/-- The rounding error of `binary64`. -/
theorem binary64_error (x : ℚ) : |binary64 x - x| ≤ |x| / 2 ^ 53 + 1 / 2 ^ 1075 := by
  have key : ∀ y : ℚ, 0 < y → |binary64 y - y| ≤ |y| / 2 ^ 53 + 1 / 2 ^ 1075 := by
    intro y hy
    have hu := binary64_half_ulp y hy.ne'
    have hpos : (0 : ℚ) < 2 ^ binary64_exponent y := by positivity
    have herr := round_half_even_error (y / 2 ^ binary64_exponent y)
    unfold binary64
    rw [if_pos hy.le]
    have h4 : (round_half_even (y / 2 ^ binary64_exponent y) : ℚ) * 2 ^ binary64_exponent y - y =
        ((round_half_even (y / 2 ^ binary64_exponent y) : ℚ) - y / 2 ^ binary64_exponent y) *
          2 ^ binary64_exponent y := by
      field_simp
    rw [h4, abs_mul, abs_of_pos hpos]
    have : |(round_half_even (y / 2 ^ binary64_exponent y) : ℚ) - y / 2 ^ binary64_exponent y| *
        2 ^ binary64_exponent y ≤ 1 / 2 * 2 ^ binary64_exponent y :=
      mul_le_mul_of_nonneg_right herr hpos.le
    linarith
  rcases lt_trichotomy x 0 with h | h | h
  · have := key (-x) (by linarith)
    rw [binary64_neg, abs_neg] at this
    have e : -binary64 x - -x = -(binary64 x - x) := by ring
    rw [e, abs_neg] at this
    exact this
  · subst h
    rw [binary64_zero]
    norm_num
  · exact key x h

/-- A number `k * 2^j` with `|k| < 2^53` and `j ≥ -1074` is a double. -/
theorem binary64_dyadic (k : Int) (j : Int) (hk : |k| < 2 ^ 53) (hj : -1074 ≤ j) :
    binary64 ((k : ℚ) * 2 ^ j) = (k : ℚ) * 2 ^ j := by
  have key : ∀ n : Int, 0 < n → n < 2 ^ 53 → binary64 ((n : ℚ) * 2 ^ j) = (n : ℚ) * 2 ^ j := by
    intro n hn hn2
    have hx : (0 : ℚ) < (n : ℚ) * 2 ^ j := by
      have : (0 : ℚ) < n := by exact_mod_cast hn
      positivity
    have hexp : binary64_exponent ((n : ℚ) * 2 ^ j) ≤ j := by
      unfold binary64_exponent
      rw [abs_of_pos hx]
      apply max_le _ hj
      by_contra hcon
      push_neg at hcon
      have h53 : j + 53 ≤ Int.log 2 ((n : ℚ) * 2 ^ j) := by omega
      have h1 := (Int.zpow_le_iff_le_log (b := 2) (by norm_num) hx (x := j + 53)).2 h53
      have h2 : ((2 : Nat) : ℚ) ^ (j + 53) = 2 ^ 53 * 2 ^ j := by
        rw [zpow_add₀ (by norm_num)]
        push_cast
        ring_nf
      rw [h2] at h1
      have hpj : (0 : ℚ) < 2 ^ j := by positivity
      have h3 : (2 : ℚ) ^ 53 ≤ n := le_of_mul_le_mul_right h1 hpj
      have h4 : (n : ℚ) < 2 ^ 53 := by exact_mod_cast hn2
      linarith
    obtain ⟨d, hd⟩ := Int.eq_ofNat_of_zero_le (sub_nonneg.2 hexp)
    have hje : (2 : ℚ) ^ j = 2 ^ d * 2 ^ binary64_exponent ((n : ℚ) * 2 ^ j) := by
      have : j = (d : Int) + binary64_exponent ((n : ℚ) * 2 ^ j) := by omega
      conv_lhs => rw [this]
      rw [zpow_add₀ (by norm_num), zpow_natCast]
    have hpos : (0 : ℚ) < 2 ^ binary64_exponent ((n : ℚ) * 2 ^ j) := by positivity
    have hy : (n : ℚ) * 2 ^ j / 2 ^ binary64_exponent ((n : ℚ) * 2 ^ j) =
        ((n * 2 ^ d : Int) : ℚ) := by
      rw [div_eq_iff hpos.ne']
      conv_lhs => rw [hje]
      push_cast
      ring
    unfold binary64
    rw [if_pos hx.le, hy, round_half_even_intCast]
    conv_rhs => rw [hje]
    push_cast
    ring
  rcases lt_trichotomy k 0 with h | h | h
  · have := key (-k) (by omega) (by rw [abs_of_neg h] at hk; exact hk)
    have e : ((-k : Int) : ℚ) * 2 ^ j = -((k : ℚ) * 2 ^ j) := by push_cast; ring
    rw [e, binary64_neg] at this
    linarith
  · subst h
    simp [binary64_zero]
  · exact key k h (by rw [abs_of_pos h] at hk; exact hk)

theorem binary64_natCast (n : Nat) (hn : n < 2 ^ 53) : binary64 (n : ℚ) = n := by
  have := binary64_dyadic (n : Int) 0 (by rw [abs_of_nonneg (by positivity)]; exact_mod_cast hn)
    (by norm_num)
  simpa using this

theorem round_half_even_tie (k : Int) :
    round_half_even ((k : ℚ) + 1 / 2) = if k % 2 = 0 then k else k + 1 := by
  have hfl : ⌊(k : ℚ) + 1 / 2⌋ = k := by
    rw [Int.floor_eq_iff]
    constructor <;> linarith
  unfold round_half_even
  rw [hfl, if_neg (by norm_num), if_neg (by norm_num)]

theorem binary64_eval (x : ℚ) (e : Int) (hx : 0 < x) (he : -1074 ≤ e)
    (h1 : (2 : ℚ) ^ (e + 52) ≤ x) (h2 : x < (2 : ℚ) ^ (e + 53)) :
    binary64 x = (round_half_even (x / 2 ^ e) : ℚ) * 2 ^ e := by
  unfold binary64
  rw [if_pos hx.le, binary64_exponent_eq x e hx he h1 h2]

/-- The value `static_cast<uint64_t>(std::round(x))` is within 1/2 of `x`. -/
theorem std_round_error (x : ℚ) : |(std_round x : ℚ) - x| ≤ 1 / 2 := by
  unfold std_round
  split_ifs with h
  · have h1 := Int.floor_le (x + 1 / 2)
    have h2 := Int.lt_floor_add_one (x + 1 / 2)
    rw [abs_le]; constructor <;> linarith
  · have h1 := Int.floor_le (-x + 1 / 2)
    have h2 := Int.lt_floor_add_one (-x + 1 / 2)
    rw [abs_le]; push_cast; constructor <;> linarith

theorem std_round_nonneg (x : ℚ) (hx : 0 ≤ x) : 0 ≤ std_round x := by
  unfold std_round
  rw [if_pos hx]
  exact Int.floor_nonneg.2 (by linarith)

theorem std_round_le (x : ℚ) (k : Int) (h : x < (k : ℚ) + 1 / 2) (hx : 0 ≤ x) :
    std_round x ≤ k := by
  unfold std_round
  rw [if_pos hx]
  have : ⌊x + 1 / 2⌋ < k + 1 := Int.floor_lt.2 (by push_cast; linarith)
  omega

theorem le_std_round (x : ℚ) (k : Int) (h : (k : ℚ) - 1 / 2 ≤ x) (hx : 0 ≤ x) :
    k ≤ std_round x := by
  unfold std_round
  rw [if_pos hx]
  exact Int.le_floor.2 (by linarith)

theorem std_round_intCast (k : Int) : std_round (k : ℚ) = k := by
  unfold std_round
  split_ifs with h
  · rw [Int.floor_eq_iff]; constructor <;> linarith
  · have : ⌊-(k : ℚ) + 1 / 2⌋ = -k := by
      rw [Int.floor_eq_iff]; push_cast; constructor <;> linarith
    rw [this, neg_neg]

/-- Error of the double product `f * (a / b)` against the exact value, for operands that are
doubles: `0 ≤ f ≤ b`, `1 ≤ b ≤ 2^48`, `0 ≤ a ≤ 2^48`. -/
theorem binary64_mul_div_error (a b f : ℚ) (ha : 0 ≤ a) (hb : 1 ≤ b) (hf : 0 ≤ f) (hfb : f ≤ b)
    (haM : a ≤ 2 ^ 48) (hbM : b ≤ 2 ^ 48) :
    0 ≤ binary64 (f * binary64 (a / b)) ∧
      |binary64 (f * binary64 (a / b)) - f * a / b| ≤ 3 / 32 ∧ 0 ≤ f * a / b ∧
      f * a / b ≤ a := by
  have hbpos : 0 < b := by linarith
  have hx0 : 0 ≤ a / b := div_nonneg ha hbpos.le
  have hq0 : 0 ≤ f * a / b := by positivity
  have hqa : f * a / b ≤ a := by
    rw [div_le_iff₀ hbpos]
    nlinarith
  have ht := binary64_error (a / b)
  rw [abs_of_nonneg hx0] at ht
  have ht0 := binary64_nonneg (a / b) hx0
  have hft0 : 0 ≤ f * binary64 (a / b) := mul_nonneg hf ht0
  have hP := binary64_error (f * binary64 (a / b))
  rw [abs_of_nonneg hft0] at hP
  have h1 : |f * binary64 (a / b) - f * a / b| ≤ f * a / b / 2 ^ 53 + f * (1 / 2 ^ 1075) := by
    have e : f * binary64 (a / b) - f * a / b = f * (binary64 (a / b) - a / b) := by ring
    rw [e, abs_mul, abs_of_nonneg hf]
    have := mul_le_mul_of_nonneg_left ht hf
    have e2 : f * (a / b / 2 ^ 53 + 1 / 2 ^ 1075) = f * a / b / 2 ^ 53 + f * (1 / 2 ^ 1075) := by
      ring
    linarith
  have hfe : f * (1 / 2 ^ 1075) ≤ 1 / 2 ^ 1027 := by
    have : f * (1 / 2 ^ 1075) ≤ 2 ^ 48 * (1 / 2 ^ 1075) :=
      mul_le_mul_of_nonneg_right (by linarith) (by positivity)
    have e : (2 : ℚ) ^ 48 * (1 / 2 ^ 1075) = 1 / 2 ^ 1027 := by norm_num
    linarith
  have hs1 : (1 : ℚ) / 2 ^ 1027 ≤ 1 / 2 ^ 60 := by
    apply one_div_le_one_div_of_le (by positivity)
    exact pow_le_pow_right₀ (by norm_num) (by norm_num)
  have hs2 : (1 : ℚ) / 2 ^ 1075 ≤ 1 / 2 ^ 60 := by
    apply one_div_le_one_div_of_le (by positivity)
    exact pow_le_pow_right₀ (by norm_num) (by norm_num)
  have hq53 : f * a / b / 2 ^ 53 ≤ 1 / 32 := by
    rw [div_le_iff₀ (by positivity)]
    have : (1 : ℚ) / 32 * 2 ^ 53 = 2 ^ 48 := by norm_num
    linarith
  rw [abs_le] at h1
  have hft53 : f * binary64 (a / b) / 2 ^ 53 ≤ 1 / 32 + 1 / 2 ^ 57 := by
    rw [div_le_iff₀ (by positivity)]
    have : ((1 : ℚ) / 32 + 1 / 2 ^ 57) * 2 ^ 53 = 2 ^ 48 + 1 / 16 := by norm_num
    have e60 : (1 : ℚ) / 2 ^ 60 ≤ 1 / 64 := by norm_num
    linarith [h1.2]
  refine ⟨binary64_nonneg _ hft0, ?_, hq0, hqa⟩
  rw [abs_le] at hP ⊢
  have e57 : (1 : ℚ) / 2 ^ 57 ≤ 1 / 128 := by norm_num
  have e60 : (1 : ℚ) / 2 ^ 60 ≤ 1 / 256 := by norm_num
  constructor <;> linarith [h1.1, h1.2, hP.1, hP.2]

/-! ## Basic facts about indexing -/

namespace ContactMatrix

theorem transpose_coords_fst (r c : Nat) : (transpose_coords r c).1 = (r - c) + (c - r) := by
  unfold transpose_coords; split_ifs <;> simp <;> omega

theorem transpose_coords_snd (r c : Nat) : (transpose_coords r c).2 = max r c := by
  unfold transpose_coords; split_ifs <;> simp <;> omega

theorem idx_lt (nr nc i j : Nat) (hi : i < nr) (hj : j < nc) : j * nr + i < nr * nc := by
  have h1 : (j + 1) * nr ≤ nc * nr := Nat.mul_le_mul_right _ hj
  rw [Nat.mul_comm nr nc]
  have h2 : (j + 1) * nr = j * nr + nr := by ring
  omega

theorem idx_inj (nr i j i' j' : Nat) (hi : i < nr) (hi' : i' < nr)
    (h : j * nr + i = j' * nr + i') : i = i' ∧ j = j' := by
  have hj : j = j' := by
    rcases Nat.lt_trichotomy j j' with hlt | heq | hgt
    · have h1 : (j + 1) * nr ≤ j' * nr := Nat.mul_le_mul_right _ hlt
      have h2 : (j + 1) * nr = j * nr + nr := by ring
      omega
    · exact heq
    · have h1 : (j' + 1) * nr ≤ j * nr := Nat.mul_le_mul_right _ hgt
      have h2 : (j' + 1) * nr = j' * nr + nr := by ring
      omega
  subst hj
  exact ⟨by omega, rfl⟩

theorem at_eq_of_lt (ndebug : Bool) (m : ContactMatrix) (i j : Nat)
    (h : j * m._nrows + i < m._contacts.length) :
    m.at ndebug i j = Except.ok (m._contacts.getD (j * m._nrows + i) 0) := by
  unfold ContactMatrix.at
  rw [if_neg (by omega)]
  simp [List.getElem?_eq_getElem h, List.getD_eq_getElem?_getD]

theorem get_eq_peek (ndebug : Bool) (m : ContactMatrix) (r c : Nat) (hwf : m.WF)
    (hr : r < m.ncols) (hc : c < m.ncols) : m.get ndebug r c = Except.ok (m.peek r c) := by
  unfold get peek
  simp only [transpose_coords_fst, transpose_coords_snd, nrows, ncols] at *
  rw [if_neg (by omega)]
  by_cases hb : (r - c) + (c - r) ≥ m._nrows
  · rw [if_pos hb, if_pos hb]
  · rw [if_neg hb, if_neg hb]
    apply at_eq_of_lt
    have := idx_lt m._nrows m._ncols ((r - c) + (c - r)) (max r c) (by omega) (by omega)
    rw [hwf.1]; omega

theorem wf_create (nrows ncols : Nat) : (create nrows ncols).WF := by
  refine ⟨by simp [create], ?_, by simp [create, SIZE_MOD], by simp [create, SIZE_MOD]⟩
  intro v hv
  simp only [create, List.mem_replicate] at hv
  omega

theorem peek_create (nrows ncols r c : Nat) : (create nrows ncols).peek r c = 0 := by
  unfold peek create
  split_ifs
  · rfl
  · simp only [List.getD_eq_getElem?_getD, List.getElem?_replicate]
    split_ifs <;> rfl

theorem peek_comm (m : ContactMatrix) (r c : Nat) : m.peek r c = m.peek c r := by
  unfold peek
  rw [Nat.add_comm (r - c) (c - r), Nat.max_comm r c]

/-- C3.  Reading a pair outside the band, `|r - c| >= nrows`, gives 0 in every build and for
every content of the matrix. -/
theorem get_out_of_band (ndebug : Bool) (m : ContactMatrix) (r c : Nat)
    (hr : r < m.ncols) (hc : c < m.ncols) (h : r + m.nrows ≤ c ∨ c + m.nrows ≤ r) :
    m.get ndebug r c = Except.ok 0 := by
  unfold get
  simp only [transpose_coords_fst, transpose_coords_snd]
  rw [if_neg (by omega), if_pos (by omega)]

theorem get_out_of_band_witness :
    (create 2 4).get false 0 3 = Except.ok 0 :=
  get_out_of_band false (create 2 4) 0 3 (by decide) (by decide) (by decide)

/-- C4.  `get(r, c)` and `get(c, r)` return the same count, for every matrix and all
`r, c < ncols`. -/
theorem get_symmetric (ndebug : Bool) (m : ContactMatrix) (r c : Nat) (hwf : m.WF)
    (hr : r < m.ncols) (hc : c < m.ncols) :
    ∃ v, m.get ndebug r c = Except.ok v ∧ m.get ndebug c r = Except.ok v :=
  ⟨m.peek r c, get_eq_peek ndebug m r c hwf hr hc,
    by rw [peek_comm]; exact get_eq_peek ndebug m c r hwf hc hr⟩

theorem get_symmetric_witness :
    ∃ v, ((create 2 3).set true 0 1 7).state.get true 0 1 = Except.ok v ∧
      ((create 2 3).set true 0 1 7).state.get true 1 0 = Except.ok v :=
  get_symmetric true ((create 2 3).set true 0 1 7).state 0 1 (by decide) (by decide) (by decide)

/-! ## Writing one cell -/

theorem getD_set_contacts (l : List Nat) (k v x : Nat) :
    (l.set k v).getD x 0 = if x = k ∧ k < l.length then v else l.getD x 0 := by
  simp only [List.getD_eq_getElem?_getD, List.getElem?_set]
  by_cases h : k = x
  · subst h
    by_cases hk : k < l.length
    · simp [hk]
    · simp [hk, List.getElem?_eq_none (Nat.le_of_not_lt hk)]
  · have h' : ¬ x = k := fun e => h e.symm
    simp [h, h']

theorem mem_set_le (l : List Nat) (k v b : Nat) (hl : ∀ x ∈ l, x ≤ b) (hv : v ≤ b) :
    ∀ x ∈ l.set k v, x ≤ b := by
  intro x hx
  rcases List.mem_or_eq_of_mem_set hx with h | h
  · exact hl x h
  · omega

theorem peek_le (m : ContactMatrix) (hwf : m.WF) (r c : Nat) : m.peek r c ≤ I_MAX := by
  unfold peek
  split_ifs with h
  · exact Nat.zero_le _
  · rw [List.getD_eq_getElem?_getD]
    cases hx : m._contacts[max r c * m._nrows + ((r - c) + (c - r))]? with
    | none => exact Nat.zero_le _
    | some v => exact hwf.2.1 v (List.getElem?_mem hx)

/-- What `set` does to a pair inside the band. -/
theorem set_in_band_eq (ndebug : Bool) (m : ContactMatrix) (r c n : Nat) (hwf : m.WF)
    (hr : r < m.ncols) (hc : c < m.ncols) (hband : r < c + m.nrows ∧ c < r + m.nrows)
    (hn : n ≤ I_MAX) (hdbg : ndebug = false → m.peek r c ≤ m._tot_contacts) :
    m.set ndebug r c n =
      ⟨{ m with
          _contacts := m._contacts.set (max r c * m._nrows + ((r - c) + (c - r))) n,
          _tot_contacts :=
            if n > m.peek r c then (m._tot_contacts + (n - m.peek r c)) % SIZE_MOD
            else (m._tot_contacts + SIZE_MOD - (m.peek r c - n)) % SIZE_MOD }, none⟩ := by
  have hidx := idx_lt m._nrows m._ncols ((r - c) + (c - r)) (max r c)
    (by simp only [nrows] at hband; omega) (by simp only [ncols] at hr hc; omega)
  have hpeek : m.peek r c = m._contacts.getD (max r c * m._nrows + ((r - c) + (c - r))) 0 := by
    unfold peek; rw [if_neg (by simp only [nrows] at hband; omega)]
  unfold set
  simp only [transpose_coords_fst, transpose_coords_snd, bound_check_column, nrows, ncols] at *
  rw [if_neg (by omega), if_neg (by rw [if_neg (by omega)]; simp [Except.isOk, Except.toBool]),
    if_neg (by omega), if_neg (by omega), at_eq_of_lt ndebug m _ _ (by rw [hwf.1]; omega)]
  simp only
  rw [← hpeek, if_neg (by intro h; have := hdbg h.1; omega)]
  have hmod : n % I_MOD = n := Nat.mod_eq_of_lt (by unfold I_MOD; unfold I_MAX at hn; omega)
  rw [hmod]

/-- Reading after one cell of `_contacts` was overwritten. -/
theorem peek_set_contacts (m : ContactMatrix) (k v t u r c : Nat) :
    peek { m with _contacts := m._contacts.set k v, _tot_contacts := t, _updates_missed := u }
        r c =
      if (r - c) + (c - r) < m._nrows ∧ max r c * m._nrows + ((r - c) + (c - r)) = k ∧
          k < m._contacts.length then v
      else m.peek r c := by
  unfold peek
  simp only [getD_set_contacts]
  by_cases hb : (r - c) + (c - r) ≥ m._nrows
  · rw [if_pos hb, if_pos hb, if_neg (by omega)]
  · rw [if_neg hb, if_neg hb]
    by_cases h1 : max r c * m._nrows + ((r - c) + (c - r)) = k ∧ k < m._contacts.length
    · rw [if_pos h1, if_pos ⟨by omega, h1⟩]
    · rw [if_neg h1, if_neg (fun h => h1 h.2)]

theorem wf_set_contacts (m : ContactMatrix) (hwf : m.WF) (k v t : Nat) (hv : v ≤ I_MAX)
    (ht : t < SIZE_MOD) :
    WF { m with _contacts := m._contacts.set k v, _tot_contacts := t } :=
  ⟨by simp only [List.length_set]; exact hwf.1, mem_set_le _ _ _ _ hwf.2.1 hv, ht, hwf.2.2.2⟩

/-- Two pairs inside the band are stored in the same cell only if they are the same unordered
pair. -/
theorem same_cell_same_pair (nr r c r' c' : Nat) (h : (r - c) + (c - r) < nr)
    (h' : (r' - c') + (c' - r') < nr)
    (he : max r' c' * nr + ((r' - c') + (c' - r')) = max r c * nr + ((r - c) + (c - r))) :
    (r' = r ∧ c' = c) ∨ (r' = c ∧ c' = r) := by
  have := idx_inj nr _ _ _ _ h' h he
  omega

/-- `set(r, c, n)` with an argument of an unsigned type, on a pair inside the band, `n`
representable in the cell type: both `get(r, c)` and `get(c, r)` then return `n`, `tot_contacts` has changed by `n` minus the old
count of the cell (as a 64 bit counter, and exactly when that does not wrap), the missed-update
counter is unchanged and every other unordered pair reads as before.  A debug build asserts
`tot_contacts >= old count` before it writes; hypothesis `hdbg` is that assertion. -/
theorem set_in_band (ndebug : Bool) (m : ContactMatrix) (r c n : Nat) (hwf : m.WF)
    (hr : r < m.ncols) (hc : c < m.ncols) (hband : r < c + m.nrows ∧ c < r + m.nrows)
    (hn : n ≤ I_MAX)
    (hdbg : ndebug = false → ∀ old, m.get ndebug r c = Except.ok old → old ≤ m.get_tot_contacts) :
    ∃ old, m.get ndebug r c = Except.ok old ∧
      (m.set ndebug r c n).error = none ∧
      (m.set ndebug r c n).state.get ndebug r c = Except.ok n ∧
      (m.set ndebug r c n).state.get ndebug c r = Except.ok n ∧
      (((m.set ndebug r c n).state.get_tot_contacts : Int) =
        ((m.get_tot_contacts : Int) + (n : Int) - (old : Int)) % 18446744073709551616) ∧
      (old ≤ m.get_tot_contacts → m.get_tot_contacts - old + n < SIZE_MOD →
        (m.set ndebug r c n).state.get_tot_contacts + old = m.get_tot_contacts + n) ∧
      (m.set ndebug r c n).state.get_n_of_missed_updates = m.get_n_of_missed_updates ∧
      (m.set ndebug r c n).state.nrows = m.nrows ∧ (m.set ndebug r c n).state.ncols = m.ncols ∧
      ∀ r' c', r' < m.ncols → c' < m.ncols → ¬ ((r' = r ∧ c' = c) ∨ (r' = c ∧ c' = r)) →
        (m.set ndebug r c n).state.get ndebug r' c' = m.get ndebug r' c' := by
  have hget := get_eq_peek ndebug m r c hwf hr hc
  have hold := peek_le m hwf r c
  have hd : ndebug = false → m.peek r c ≤ m._tot_contacts := fun h => hdbg h _ hget
  have heq := set_in_band_eq ndebug m r c n hwf hr hc hband hn hd
  have hidx := idx_lt m._nrows m._ncols ((r - c) + (c - r)) (max r c)
    (by simp only [nrows] at hband; omega) (by simp only [ncols] at hr hc; omega)
  have hlen := hwf.1
  have htot := hwf.2.2.1
  have hb' : (r - c) + (c - r) < m._nrows := by simp only [nrows] at hband; omega
  have hwf' : (m.set ndebug r c n).state.WF := by
    rw [heq]
    apply wf_set_contacts m hwf _ _ _ hn
    split_ifs <;> exact Nat.mod_lt _ (by unfold SIZE_MOD; omega)
  have hnc : (m.set ndebug r c n).state.ncols = m.ncols := by rw [heq]; rfl
  refine ⟨m.peek r c, hget, by rw [heq], ?_, ?_, ?_, ?_, by rw [heq]; rfl, by rw [heq]; rfl,
    hnc, ?_⟩
  · rw [get_eq_peek ndebug _ r c hwf' (by rw [hnc]; exact hr) (by rw [hnc]; exact hc), heq]
    rw [peek_set_contacts, if_pos ⟨hb', rfl, by omega⟩]
  · rw [get_eq_peek ndebug _ c r hwf' (by rw [hnc]; exact hc) (by rw [hnc]; exact hr), heq]
    rw [peek_set_contacts, if_pos ⟨by omega, by rw [Nat.max_comm]; omega, by omega⟩]
  · rw [heq]
    simp only [get_tot_contacts]
    unfold SIZE_MOD at *
    unfold I_MAX at *
    split_ifs <;> omega
  · intro h1 h2
    rw [heq]
    simp only [get_tot_contacts] at *
    unfold SIZE_MOD at *
    unfold I_MAX at *
    split_ifs <;> omega
  · intro r' c' hr' hc' hne
    rw [get_eq_peek ndebug _ r' c' hwf' (by rw [hnc]; exact hr') (by rw [hnc]; exact hc'),
      get_eq_peek ndebug m r' c' hwf hr' hc', heq]
    simp only [peek_set_contacts]
    rw [if_neg]
    intro h
    exact hne (same_cell_same_pair m._nrows r c r' c' (by simp only [nrows] at hband; omega)
      h.1 h.2.1)

theorem set_in_band_witness :
    ∃ old, (create 2 3).get false 1 2 = Except.ok old ∧
      ((create 2 3).set false 1 2 5).error = none ∧
      ((create 2 3).set false 1 2 5).state.get false 1 2 = Except.ok 5 ∧
      ((create 2 3).set false 1 2 5).state.get false 2 1 = Except.ok 5 ∧
      ((((create 2 3).set false 1 2 5).state.get_tot_contacts : Int) =
        (((create 2 3).get_tot_contacts : Int) + (5 : Int) - (old : Int)) %
          18446744073709551616) ∧
      (old ≤ (create 2 3).get_tot_contacts → (create 2 3).get_tot_contacts - old + 5 < SIZE_MOD →
        ((create 2 3).set false 1 2 5).state.get_tot_contacts + old =
          (create 2 3).get_tot_contacts + 5) ∧
      ((create 2 3).set false 1 2 5).state.get_n_of_missed_updates =
        (create 2 3).get_n_of_missed_updates ∧
      ((create 2 3).set false 1 2 5).state.nrows = (create 2 3).nrows ∧
      ((create 2 3).set false 1 2 5).state.ncols = (create 2 3).ncols ∧
      ∀ r' c', r' < (create 2 3).ncols → c' < (create 2 3).ncols →
        ¬ ((r' = 1 ∧ c' = 2) ∨ (r' = 2 ∧ c' = 1)) →
        ((create 2 3).set false 1 2 5).state.get false r' c' = (create 2 3).get false r' c' :=
  set_in_band false (create 2 3) 1 2 5 (by decide) (by decide) (by decide) (by decide)
    (by decide) (by intro _ old h; cases h; decide)

/-- C5.  In a debug build `set(r, c, n)` with an argument of the signed type `int` aborts for
`n = 0`: the assertion of the block for signed arguments compares `_tot_contacts - m` with
`std::numeric_limits<std::atomic<size_t>>::max() - n`, which is `0 - n`.  On the 2 x 2 matrix
that holds 5 in the cell (0, 1) the call `set(0, 1, 0)` fails and leaves the 5, where the claim
has `get(0, 1) = 0` after the call.  A release build, an unsigned zero and a positive `int`
do store the value. -/
theorem set_of_signed_zero_aborts_in_debug_build :
    ((create 2 2).set false 0 1 5).error = none ∧
      ((create 2 2).set false 0 1 5).state.get false 0 1 = Except.ok 5 ∧
      (((create 2 2).set false 0 1 5).state.set_int false 0 1 0).error =
        some Error.assertion_failure ∧
      (((create 2 2).set false 0 1 5).state.set_int false 0 1 0).state.get false 0 1 =
        Except.ok 5 ∧
      ((create 2 2).set_int false 0 1 0).error = some Error.assertion_failure ∧
      (((create 2 2).set false 0 1 5).state.set_int true 0 1 0).error = none ∧
      (((create 2 2).set false 0 1 5).state.set_int true 0 1 0).state.get true 0 1 =
        Except.ok 0 ∧
      (((create 2 2).set false 0 1 5).state.set false 0 1 0).error = none ∧
      (((create 2 2).set false 0 1 5).state.set false 0 1 0).state.get false 0 1 =
        Except.ok 0 ∧
      (((create 2 2).set false 0 1 5).state.set_int false 0 1 7).error = none ∧
      (((create 2 2).set false 0 1 5).state.set_int false 0 1 7).state.get false 0 1 =
        Except.ok 7 := by
  decide

/-- What `add` does to a pair inside the band.  In a debug build the two guards of
`check_for_overflow_on_add` must pass. -/
theorem add_in_band_eq (ndebug : Bool) (m : ContactMatrix) (r c n : Nat) (hwf : m.WF)
    (hr : r < m.ncols) (hc : c < m.ncols) (hband : r < c + m.nrows ∧ c < r + m.nrows)
    (hdbg : ndebug = false → m.peek r c + n ≤ I_MAX ∧ m._tot_contacts + n ≤ I_MAX) :
    m.add ndebug r c n =
      ⟨{ m with
          _contacts := m._contacts.set (max r c * m._nrows + ((r - c) + (c - r)))
            ((m.peek r c + n) % I_MOD),
          _tot_contacts := (m._tot_contacts + n) % SIZE_MOD }, none⟩ := by
  have hidx := idx_lt m._nrows m._ncols ((r - c) + (c - r)) (max r c)
    (by simp only [nrows] at hband; omega) (by simp only [ncols] at hr hc; omega)
  have hpeek : m.peek r c = m._contacts.getD (max r c * m._nrows + ((r - c) + (c - r))) 0 := by
    unfold peek; rw [if_neg (by simp only [nrows] at hband; omega)]
  have hlen := hwf.1
  unfold add add_transposed add_to_cell check_for_overflow_on_add
  simp only [transpose_coords_fst, transpose_coords_snd, bound_check_column, nrows, ncols] at *
  rw [if_neg (by rw [if_neg (by omega)]; simp [Except.isOk, Except.toBool]),
    if_neg (by omega), if_neg (by omega), at_eq_of_lt ndebug m _ _ (by omega),
    at_eq_of_lt false m _ _ (by omega), ← hpeek]
  cases ndebug with
  | true => simp
  | false =>
    have := hdbg rfl
    simp only [Bool.false_eq_true, if_false]
    rw [if_neg (by omega), if_neg (by omega)]

/-- What `subtract` does to a pair inside the band.  In a debug build the two guards of
`check_overflow_on_subtract` must pass. -/
theorem subtract_in_band_eq (ndebug : Bool) (m : ContactMatrix) (r c n : Nat) (hwf : m.WF)
    (hr : r < m.ncols) (hc : c < m.ncols) (hband : r < c + m.nrows ∧ c < r + m.nrows)
    (hdbg : ndebug = false → n ≤ m.peek r c ∧ n ≤ m._tot_contacts) :
    m.subtract ndebug r c n =
      ⟨{ m with
          _contacts := m._contacts.set (max r c * m._nrows + ((r - c) + (c - r)))
            ((m.peek r c + I_MOD - n % I_MOD) % I_MOD),
          _tot_contacts := (m._tot_contacts + SIZE_MOD - n % SIZE_MOD) % SIZE_MOD }, none⟩ := by
  have hidx := idx_lt m._nrows m._ncols ((r - c) + (c - r)) (max r c)
    (by simp only [nrows] at hband; omega) (by simp only [ncols] at hr hc; omega)
  have hpeek : m.peek r c = m._contacts.getD (max r c * m._nrows + ((r - c) + (c - r))) 0 := by
    unfold peek; rw [if_neg (by simp only [nrows] at hband; omega)]
  have hlen := hwf.1
  unfold subtract check_overflow_on_subtract
  simp only [transpose_coords_fst, transpose_coords_snd, bound_check_column, nrows, ncols] at *
  rw [if_neg (by rw [if_neg (by omega)]; simp [Except.isOk, Except.toBool]),
    if_neg (by omega), if_neg (by omega), at_eq_of_lt ndebug m _ _ (by omega),
    at_eq_of_lt false m _ _ (by omega), ← hpeek]
  cases ndebug with
  | true => simp
  | false =>
    have := hdbg rfl
    simp only [Bool.false_eq_true, if_false]
    rw [if_neg (by omega), if_neg (by omega)]

/-- C6, as amended.  For a pair inside the band and `n` that does not overflow the cell (and,
in a debug build, passes the guard `tot_contacts + n <= max(I)` of `check_for_overflow_on_add`):
`add(r, c, n)` succeeds, makes `get(r, c)` the old count plus `n` and `tot_contacts` the old
total plus `n` (as a 64 bit counter, and exactly when that does not wrap); a following
`subtract(r, c, n)` succeeds and restores both.  `increment` and `decrement` are the case
`n = 1`. -/
theorem add_then_subtract (ndebug : Bool) (m : ContactMatrix) (r c n : Nat) (hwf : m.WF)
    (hr : r < m.ncols) (hc : c < m.ncols) (hband : r < c + m.nrows ∧ c < r + m.nrows)
    (hcell : ∀ old, m.get ndebug r c = Except.ok old → old + n ≤ I_MAX)
    (hdbg : ndebug = false → m.get_tot_contacts + n ≤ I_MAX) :
    ∃ old, m.get ndebug r c = Except.ok old ∧
      (m.add ndebug r c n).error = none ∧
      (m.add ndebug r c n).state.get ndebug r c = Except.ok (old + n) ∧
      (m.add ndebug r c n).state.get_tot_contacts = (m.get_tot_contacts + n) % SIZE_MOD ∧
      (m.get_tot_contacts + n < SIZE_MOD →
        (m.add ndebug r c n).state.get_tot_contacts = m.get_tot_contacts + n) ∧
      ((m.add ndebug r c n).state.subtract ndebug r c n).error = none ∧
      ((m.add ndebug r c n).state.subtract ndebug r c n).state.get ndebug r c = Except.ok old ∧
      ((m.add ndebug r c n).state.subtract ndebug r c n).state.get_tot_contacts =
        m.get_tot_contacts ∧
      m.increment ndebug r c = m.add ndebug r c 1 ∧
      m.decrement ndebug r c = m.subtract ndebug r c 1 := by
  have hget := get_eq_peek ndebug m r c hwf hr hc
  have hold := hcell _ hget
  have hlen := hwf.1
  have htot := hwf.2.2.1
  have hb' : (r - c) + (c - r) < m._nrows := by simp only [nrows] at hband; omega
  have hidx := idx_lt m._nrows m._ncols ((r - c) + (c - r)) (max r c) hb'
    (by simp only [ncols] at hr hc; omega)
  have hmod1 : (m.peek r c + n) % I_MOD = m.peek r c + n :=
    Nat.mod_eq_of_lt (by unfold I_MOD; unfold I_MAX at hold; omega)
  have hadd := add_in_band_eq ndebug m r c n hwf hr hc hband
    (fun h => ⟨hold, hdbg h⟩)
  rw [hmod1] at hadd
  have hwf1 : (m.add ndebug r c n).state.WF := by
    rw [hadd]
    exact wf_set_contacts m hwf _ _ _ hold (Nat.mod_lt _ (by unfold SIZE_MOD; omega))
  have hpeek1 : (m.add ndebug r c n).state.peek r c = m.peek r c + n := by
    rw [hadd, peek_set_contacts, if_pos ⟨hb', rfl, by omega⟩]
  have htot1 : (m.add ndebug r c n).state._tot_contacts = (m._tot_contacts + n) % SIZE_MOD := by
    rw [hadd]
  have hsub := subtract_in_band_eq ndebug (m.add ndebug r c n).state r c n hwf1
    (by rw [hadd]; exact hr) (by rw [hadd]; exact hc) (by rw [hadd]; exact hband)
    (fun h => by
      have := hdbg h
      simp only [get_tot_contacts] at this
      rw [hpeek1, htot1]
      unfold SIZE_MOD
      unfold I_MAX at this
      omega)
  have hmod2 : (m.peek r c + n + I_MOD - n % I_MOD) % I_MOD = m.peek r c := by
    unfold I_MOD; unfold I_MAX at hold; omega
  rw [hpeek1, htot1, hmod2] at hsub
  have hlen1 : (m.add ndebug r c n).state._contacts.length = m._contacts.length := by
    rw [hadd]; simp
  have hnr1 : (m.add ndebug r c n).state._nrows = m._nrows := by rw [hadd]
  have hwf2 : ((m.add ndebug r c n).state.subtract ndebug r c n).state.WF := by
    rw [hsub]
    exact wf_set_contacts _ hwf1 _ _ _ (peek_le m hwf r c)
      (Nat.mod_lt _ (by unfold SIZE_MOD; omega))
  refine ⟨m.peek r c, hget, by rw [hadd], ?_, htot1, ?_, by rw [hsub], ?_, ?_, rfl, rfl⟩
  · rw [get_eq_peek ndebug _ r c hwf1 (by rw [hadd]; exact hr) (by rw [hadd]; exact hc), hpeek1]
  · intro h
    simp only [get_tot_contacts] at *
    rw [htot1]
    exact Nat.mod_eq_of_lt h
  · rw [get_eq_peek ndebug _ r c hwf2 (by rw [hsub, hadd]; exact hr)
      (by rw [hsub, hadd]; exact hc), hsub, peek_set_contacts, hnr1, hlen1,
      if_pos ⟨hb', rfl, by omega⟩]
  · rw [hsub]
    simp only [get_tot_contacts]
    unfold SIZE_MOD at *
    unfold I_MAX at *
    omega

theorem add_then_subtract_witness :
    ∃ old, (create 10 100).get false 0 0 = Except.ok old ∧
      ((create 10 100).add false 0 0 2).error = none ∧
      ((create 10 100).add false 0 0 2).state.get false 0 0 = Except.ok (old + 2) ∧
      ((create 10 100).add false 0 0 2).state.get_tot_contacts =
        ((create 10 100).get_tot_contacts + 2) % SIZE_MOD ∧
      ((create 10 100).get_tot_contacts + 2 < SIZE_MOD →
        ((create 10 100).add false 0 0 2).state.get_tot_contacts =
          (create 10 100).get_tot_contacts + 2) ∧
      (((create 10 100).add false 0 0 2).state.subtract false 0 0 2).error = none ∧
      (((create 10 100).add false 0 0 2).state.subtract false 0 0 2).state.get false 0 0 =
        Except.ok old ∧
      (((create 10 100).add false 0 0 2).state.subtract false 0 0 2).state.get_tot_contacts =
        (create 10 100).get_tot_contacts ∧
      (create 10 100).increment false 0 0 = (create 10 100).add false 0 0 1 ∧
      (create 10 100).decrement false 0 0 = (create 10 100).subtract false 0 0 1 :=
  add_then_subtract false (create 10 100) 0 0 2 (wf_create 10 100)
    (by decide) (by decide) (by decide)
    (by
      intro old h
      rw [get_eq_peek false _ 0 0 (wf_create 10 100) (by decide) (by decide), peek_create] at h
      cases h
      decide)
    (by intro _; decide)

/-- C6, counterexample in a debug build.  After `set(0, 0, 4294967295)` on a new 2 x 2 matrix the
cell (1, 1) holds 0, so adding 1 to it does not overflow the cell; yet `add(1, 1, 1)` throws (the
debug guard compares `tot_contacts` with the largest cell value) and `get(1, 1)` stays 0. -/
theorem add_rejected_in_debug_build :
    ((create 2 2).set false 0 0 4294967295).error = none ∧
      ((create 2 2).set false 0 0 4294967295).state.get false 1 1 = Except.ok 0 ∧
      0 + 1 ≤ I_MAX ∧
      (((create 2 2).set false 0 0 4294967295).state.add false 1 1 1).error =
        some Error.logic_error ∧
      (((create 2 2).set false 0 0 4294967295).state.add false 1 1 1).state.get false 1 1 =
        Except.ok 0 := by
  decide

/-! ## Writes outside the band and outside the matrix -/

/-- Strictly beyond the band edge, `|r - c| > nrows`, the three writers only count a missed
update, in both builds. -/
theorem write_beyond_band (ndebug : Bool) (m : ContactMatrix) (r c n : Nat)
    (hr : r < m.ncols) (hc : c < m.ncols) (h : r + m.nrows < c ∨ c + m.nrows < r)
    (hn : n ≤ I_MAX) :
    m.set ndebug r c n = ⟨m.count_missed_update, none⟩ ∧
      m.add ndebug r c n = ⟨m.count_missed_update, none⟩ ∧
      m.subtract ndebug r c n = ⟨m.count_missed_update, none⟩ := by
  have hcheck : ¬ (ndebug = false ∧ (m.bound_check_column (max r c)).isOk = false) := by
    unfold bound_check_column
    rw [if_neg (by omega)]
    simp [Except.isOk, Except.toBool]
  refine ⟨?_, ?_, ?_⟩
  · unfold set
    simp only [transpose_coords_fst, transpose_coords_snd]
    rw [if_neg (by omega), if_neg hcheck, if_pos (by omega)]
  · unfold add add_transposed
    simp only [transpose_coords_fst, transpose_coords_snd]
    rw [if_neg hcheck, if_pos (by omega)]
  · unfold subtract
    simp only [transpose_coords_fst, transpose_coords_snd]
    rw [if_neg hcheck, if_pos (by omega)]

/-- In a debug build a coordinate above `ncols` makes `increment` and `decrement` fail and
leaves the matrix as it was. -/
theorem column_above_ncols_rejected (m : ContactMatrix) (r c : Nat)
    (h : m.ncols < r ∨ m.ncols < c) :
    m.increment false r c = ⟨m, some Error.logic_error⟩ ∧
      m.decrement false r c = ⟨m, some Error.logic_error⟩ := by
  have hcheck : (m.bound_check_column (max r c)).isOk = false := by
    unfold bound_check_column
    rw [if_pos (by omega)]
    rfl
  refine ⟨?_, ?_⟩
  · unfold increment add add_transposed
    simp only [transpose_coords_fst, transpose_coords_snd]
    rw [if_pos ⟨trivial, hcheck⟩]
  · unfold decrement subtract
    simp only [transpose_coords_fst, transpose_coords_snd]
    rw [if_pos ⟨trivial, hcheck⟩]

/-! ## Behaviour at concrete inputs -/

/-- C1.  The invariant `tot_contacts = sum of the stored cells` is lost by the large-buffer
path of the batched `add`: on a new 2 x 3 matrix, `add(pixels = [(0, 0)], n = 2,
size_thresh = 0)` succeeds in both builds, stores 2 in the cell and adds only 1 (the number of
pixels) to `tot_contacts`. -/
theorem tot_contacts_not_sum_after_add_large_buff :
    ((create 2 3).add_pixels true [(0, 0)] 2 0).error = none ∧
      ((create 2 3).add_pixels true [(0, 0)] 2 0).state.get_tot_contacts = 1 ∧
      ((create 2 3).add_pixels true [(0, 0)] 2 0).state._contacts.sum = 2 ∧
      ((create 2 3).add_pixels false [(0, 0)] 2 0).error = none ∧
      ((create 2 3).add_pixels false [(0, 0)] 2 0).state.get_tot_contacts = 1 ∧
      ((create 2 3).add_pixels false [(0, 0)] 2 0).state._contacts.sum = 2 := by
  decide

/-- C2.  Writes at distance exactly `nrows` from the diagonal are not counted as missed: on a
2 x 4 matrix whose cell (3, 3) holds 5, each of `set`, `add`, `subtract`, `increment` and
`decrement` at (0, 2) leaves the missed-update counter at 0 and changes `get(3, 3)` and
`tot_contacts`. -/
theorem write_at_distance_nrows_is_stored :
    ((create 2 4).set true 3 3 5).state.get true 3 3 = Except.ok 5 ∧
      ((create 2 4).set true 3 3 5).state.get_tot_contacts = 5 ∧
      (((create 2 4).set true 3 3 5).state.set true 0 2 7).state.get_n_of_missed_updates = 0 ∧
      (((create 2 4).set true 3 3 5).state.set true 0 2 7).state.get true 3 3 = Except.ok 7 ∧
      (((create 2 4).set true 3 3 5).state.set true 0 2 7).state.get_tot_contacts = 7 ∧
      (((create 2 4).set true 3 3 5).state.add true 0 2 2).state.get_n_of_missed_updates = 0 ∧
      (((create 2 4).set true 3 3 5).state.add true 0 2 2).state.get true 3 3 = Except.ok 7 ∧
      (((create 2 4).set true 3 3 5).state.add true 0 2 2).state.get_tot_contacts = 7 ∧
      (((create 2 4).set true 3 3 5).state.subtract true 0 2 2).state.get_n_of_missed_updates
        = 0 ∧
      (((create 2 4).set true 3 3 5).state.subtract true 0 2 2).state.get true 3 3
        = Except.ok 3 ∧
      (((create 2 4).set true 3 3 5).state.subtract true 0 2 2).state.get_tot_contacts = 3 ∧
      (((create 2 4).set true 3 3 5).state.increment false 0 2).error = none ∧
      (((create 2 4).set true 3 3 5).state.increment false 0 2).state.get_n_of_missed_updates
        = 0 ∧
      (((create 2 4).set true 3 3 5).state.increment false 0 2).state.get false 3 3
        = Except.ok 6 ∧
      (((create 2 4).set true 3 3 5).state.decrement false 0 2).error = none ∧
      (((create 2 4).set true 3 3 5).state.decrement false 0 2).state.get_n_of_missed_updates
        = 0 ∧
      (((create 2 4).set true 3 3 5).state.decrement false 0 2).state.get false 3 3
        = Except.ok 4 := by
  decide

/-- C7.  The two paths of the batched `add` disagree on `tot_contacts` when `n` is not 1: for
the single pixel (0, 0) and `n = 2` on a new 2 x 3 matrix the small-buffer path
(`size_thresh = 2`) and the single call `add(0, 0, 2)` give 2, the large-buffer path
(`size_thresh = 1`) gives 1; the cells and the missed-update counter agree. -/
theorem add_large_buff_differs_from_add_small_buff :
    ((create 2 3).add_pixels true [(0, 0)] 2 2).state = ((create 2 3).add true 0 0 2).state ∧
      ((create 2 3).add_pixels true [(0, 0)] 2 2).state.get_tot_contacts = 2 ∧
      ((create 2 3).add_pixels true [(0, 0)] 2 1).state.get_tot_contacts = 1 ∧
      ((create 2 3).add_pixels true [(0, 0)] 2 1).state._contacts =
        ((create 2 3).add_pixels true [(0, 0)] 2 2).state._contacts ∧
      ((create 2 3).add_pixels true [(0, 0)] 2 1).state.get_n_of_missed_updates =
        ((create 2 3).add_pixels true [(0, 0)] 2 2).state.get_n_of_missed_updates := by
  decide

/-- C8.  In a debug build a row equal to `ncols` is not rejected: on a new 2 x 3 matrix
`increment(3, 0)` passes `bound_check_column`, which throws for `col > ncols()` only, returns
without an error and counts a missed update, where the claim has the call fail and change
nothing.  Coordinates above `ncols` are rejected. -/
theorem column_ncols_accepted_in_debug_build :
    (create 2 3).bound_check_column 3 = Except.ok () ∧
      ((create 2 3).increment false 3 0).error = none ∧
      ((create 2 3).increment false 3 0).state.get_n_of_missed_updates = 1 ∧
      (create 2 3).get_n_of_missed_updates = 0 ∧
      ((create 2 3).increment false 4 4).error = some Error.logic_error ∧
      ((create 2 3).increment false 4 4).state = create 2 3 := by
  decide

/-- C9.  The mask misses a bin whose only non-zero cells lie above the diagonal when the bin
index is below `nrows`: after `set(0, 1, 5)` on a new 2 x 2 matrix `get(1, 0)` is 5, inside the
band, and bit 1 of the mask is 0. -/
theorem mask_misses_column_above_diagonal :
    ((create 2 2).set true 0 1 5).state.get true 1 0 = Except.ok 5 ∧
      ((create 2 2).set true 0 1 5).state.generate_mask_for_bins_without_contacts true =
        Except.ok [true, false] ∧
      ((create 2 2).set false 0 1 5).state.generate_mask_for_bins_without_contacts false =
        Except.ok [true, false] := by
  decide

/-! ## Depletion -/

/-- A loop whose every turn depletes its own pairs depletes the union of them. -/
theorem for_each_depleted {α : Type} (avg : List Nat) (nr nc : Nat)
    (f : ContactMatrix → α → Outcome) (P : α → Nat → Nat → Prop) :
    ∀ (xs : List α) (m : ContactMatrix), m.WF → m._nrows = nr → m._ncols = nc →
      (∀ x ∈ xs, ∀ m : ContactMatrix, m.WF → m._nrows = nr → m._ncols = nc →
        (f m x).error = none ∧ DepletedOn avg (P x) m (f m x).state) →
      xs.Pairwise (fun x y => ∀ r c, P x r c → ¬ P y r c) →
      (for_each f m xs).error = none ∧
        DepletedOn avg (fun r c => ∃ x ∈ xs, P x r c) m (for_each f m xs).state := by
  intro xs
  induction xs with
  | nil =>
    intro m hwf _ _ _ _
    refine ⟨rfl, hwf, rfl, rfl, ?_, fun _ _ _ => rfl⟩
    intro r c h
    obtain ⟨x, hx, _⟩ := h
    cases hx
  | cons x xs ih =>
    intro m hwf hnr hnc hstep hpw
    obtain ⟨herr, hwf1, hnr1, hnc1, hsel1, hoth1⟩ := hstep x (List.mem_cons_self x xs) m hwf hnr hnc
    have hpw' := List.pairwise_cons.mp hpw
    obtain ⟨herr2, hwf2, hnr2, hnc2, hsel2, hoth2⟩ :=
      ih (f m x).state hwf1 (by rw [hnr1, hnr]) (by rw [hnc1, hnc])
        (fun y hy => hstep y (List.mem_cons_of_mem x hy)) hpw'.2
    have hfe : for_each f m (x :: xs) = for_each f (f m x).state xs := by
      simp only [for_each, herr]
    rw [hfe]
    refine ⟨herr2, hwf2, by rw [hnr2, hnr1], by rw [hnc2, hnc1], ?_, ?_⟩
    · intro r c h
      obtain ⟨y, hy, hP⟩ := h
      rcases List.mem_cons.mp hy with hyx | hyxs
      · subst hyx
        have hnot : ¬ ∃ z ∈ xs, P z r c := by
          intro hz
          obtain ⟨z, hz, hPz⟩ := hz
          exact hpw'.1 z hz r c hP hPz
        rw [hoth2 r c hnot, hsel1 r c hP]
      · have hnx : ¬ P x r c := fun hPx => hpw'.1 y hyxs r c hPx hP
        rw [hsel2 r c ⟨y, hyxs, hP⟩, hoth1 r c hnx]
    · intro r c h
      have hnx : ¬ P x r c := fun hPx => h ⟨x, List.mem_cons_self x xs, hPx⟩
      have hnot : ¬ ∃ z ∈ xs, P z r c := by
        intro hz
        obtain ⟨z, hz, hPz⟩ := hz
        exact h ⟨z, List.mem_cons_of_mem x hz, hPz⟩
      rw [hoth2 r c hnot, hoth1 r c hnx]

/-- In a release build `set(j, i, 0)` with the `int` literal does what `set` does for an unsigned
zero. -/
theorem set_int_release (m : ContactMatrix) (r c : Nat) :
    m.set_int true r c 0 = m.set true r c 0 := by
  unfold set_int
  rfl

/-- One turn of the inner loop of `deplete_contacts` in a release build, at a pair inside the
band: the pair `{i, j}` is lowered by the average of its diagonal, nothing else changes. -/
theorem deplete_step_depleted (avg : List Nat) (i j : Nat) (m : ContactMatrix) (hwf : m.WF)
    (hij : i ≤ j) (hj : j < m._ncols) (hband : j - i < m._nrows) :
    (deplete_step true avg i m j).error = none ∧
      DepletedOn avg (fun r c => (r = i ∧ c = j) ∨ (r = j ∧ c = i)) m
        (deplete_step true avg i m j).state := by
  have hget := get_eq_peek true m j i hwf (by simp only [ncols]; omega) (by simp only [ncols]; omega)
  have hle := peek_le m hwf j i
  have hlen := hwf.1
  have hidx := idx_lt m._nrows m._ncols ((j - i) + (i - j)) (max j i) (by omega) (by omega)
  have hb : (j - i) + (i - j) < m._nrows := by omega
  -- both branches write `peek - avg` into the cell of the pair
  have hstate : ∃ t, t < SIZE_MOD ∧ deplete_step true avg i m j =
      ⟨{ m with
          _contacts := m._contacts.set (max j i * m._nrows + ((j - i) + (i - j)))
            (m.peek j i - avg.getD (j - i) 0),
          _tot_contacts := t }, none⟩ := by
    unfold deplete_step
    rw [hget]
    simp only
    by_cases hgt : m.peek j i > avg.getD (j - i) 0
    · rw [if_pos hgt, subtract_in_band_eq true m j i _ hwf (by simp only [ncols]; omega)
        (by simp only [ncols]; omega) (by simp only [nrows]; omega) (by intro h; cases h)]
      refine ⟨(m._tot_contacts + SIZE_MOD - avg.getD (j - i) 0 % SIZE_MOD) % SIZE_MOD,
        Nat.mod_lt _ (by unfold SIZE_MOD; omega), ?_⟩
      have : (m.peek j i + I_MOD - avg.getD (j - i) 0 % I_MOD) % I_MOD =
          m.peek j i - avg.getD (j - i) 0 := by
        unfold I_MOD; unfold I_MAX at hle; omega
      rw [this]
    · rw [if_neg hgt, set_int_release, set_in_band_eq true m j i 0 hwf (by simp only [ncols]; omega)
        (by simp only [ncols]; omega) (by simp only [nrows]; omega) (by unfold I_MAX; omega)
        (by intro h; cases h)]
      refine ⟨(if 0 > m.peek j i then (m._tot_contacts + (0 - m.peek j i)) % SIZE_MOD
          else (m._tot_contacts + SIZE_MOD - (m.peek j i - 0)) % SIZE_MOD), ?_, ?_⟩
      · split_ifs <;> exact Nat.mod_lt _ (by unfold SIZE_MOD; omega)
      · have : m.peek j i - avg.getD (j - i) 0 = 0 := by omega
        rw [this]
  obtain ⟨t, ht, heq⟩ := hstate
  rw [heq]
  refine ⟨rfl, wf_set_contacts m hwf _ _ _ (by omega) ht, rfl, rfl, ?_, ?_⟩
  · intro r c hP
    have hpk : m.peek r c = m.peek j i := by
      rcases hP with ⟨h1, h2⟩ | ⟨h1, h2⟩
      · subst h1; subst h2; exact peek_comm m _ _
      · subst h1; subst h2; rfl
    have hav : (r - c) + (c - r) = j - i := by omega
    rw [peek_set_contacts, hpk, hav, if_pos]
    refine ⟨by omega, ?_, by omega⟩
    rcases hP with ⟨h1, h2⟩ | ⟨h1, h2⟩
    · subst h1; subst h2; rw [Nat.max_comm]; omega
    · subst h1; subst h2; omega
  · intro r c hP
    rw [peek_set_contacts, if_neg]
    intro h
    have := same_cell_same_pair m._nrows j i r c hb h.1 h.2.1
    omega

theorem depletedOn_congr (avg : List Nat) (P Q : Nat → Nat → Prop) (m t : ContactMatrix)
    (h : ∀ r c, P r c ↔ Q r c) (hd : DepletedOn avg P m t) : DepletedOn avg Q m t :=
  ⟨hd.1, hd.2.1, hd.2.2.1, fun r c hq => hd.2.2.2.1 r c ((h r c).mpr hq),
    fun r c hq => hd.2.2.2.2 r c (fun hp => hq ((h r c).mp hp))⟩

/-- The inner loop of `deplete_contacts` for the bin `i`, release build: every pair `{i, j}`
with `i <= j < ncols` inside the band is depleted. -/
theorem deplete_inner_depleted (avg : List Nat) (i : Nat) (m : ContactMatrix) (hwf : m.WF) :
    (for_each (deplete_step true avg i) m (band_columns m i)).error = none ∧
      DepletedOn avg
        (fun r c => ∃ j ∈ List.range' i (min (i + m._nrows) m._ncols - i),
          (r = i ∧ c = j) ∨ (r = j ∧ c = i)) m
        (for_each (deplete_step true avg i) m (band_columns m i)).state := by
  unfold band_columns
  simp only [nrows, ncols]
  apply for_each_depleted avg m._nrows m._ncols (deplete_step true avg i)
    (fun j r c => (r = i ∧ c = j) ∨ (r = j ∧ c = i)) _ m hwf rfl rfl
  · intro j hj t hwft hnr hnc
    rw [List.mem_range'_1] at hj
    exact deplete_step_depleted avg i j t hwft (by omega) (by omega) (by omega)
  · apply List.Pairwise.imp _ (List.pairwise_lt_range' i _)
    intro a b hab r c h1 h2
    omega

/-- The two loops of `deplete_contacts`, release build: every pair of bins below `ncols` inside
the band is lowered by the average of its diagonal, not below zero; the loops do not fail. -/
theorem deplete_loops_depleted (avg : List Nat) (m : ContactMatrix) (hwf : m.WF) :
    (deplete_loops true avg m).error = none ∧
      DepletedOn avg (fun r c => r < m._ncols ∧ c < m._ncols ∧ (r - c) + (c - r) < m._nrows) m
        (deplete_loops true avg m).state := by
  have h := for_each_depleted avg m._nrows m._ncols
    (fun t i => for_each (deplete_step true avg i) t (band_columns t i))
    (fun i r c => ∃ j ∈ List.range' i (min (i + m._nrows) m._ncols - i),
      (r = i ∧ c = j) ∨ (r = j ∧ c = i))
    (List.range m._ncols) m hwf rfl rfl
    (by
      intro i _ t hwft hnr hnc
      have := deplete_inner_depleted avg i t hwft
      rw [hnr, hnc] at this
      exact this)
    (by
      apply List.Pairwise.imp _ (List.pairwise_lt_range m._ncols)
      intro a b hab r c h1 h2
      obtain ⟨j, hj, h1⟩ := h1
      obtain ⟨j', hj', h2⟩ := h2
      rw [List.mem_range'_1] at hj hj'
      omega)
  unfold deplete_loops
  simp only [ncols]
  refine ⟨h.1, depletedOn_congr avg _ _ _ _ ?_ h.2⟩
  intro r c
  constructor
  · intro hx
    obtain ⟨i, hi, j, hj, hrc⟩ := hx
    rw [List.mem_range] at hi
    rw [List.mem_range'_1] at hj
    omega
  · intro hq
    refine ⟨min r c, ?_, max r c, ?_, ?_⟩
    · rw [List.mem_range]; omega
    · rw [List.mem_range'_1]; omega
    · omega

/-! ## The row-wise histogram -/

/-- The inner loop of the histogram for the bin `i`, run over `j = i + s, ..., i + s + len - 1`:
entry `x` of the buffer grows by the count of the pair `(i + x, i)` for `s <= x < s + len`. -/
theorem histogram_row (ndebug : Bool) (m : ContactMatrix) (hwf : m.WF) (i : Nat) :
    ∀ (len s : Nat) (buff : List Nat), i + s + len ≤ m._ncols →
      ∃ out, try_fold (histogram_step ndebug m i) buff (List.range' (i + s) len) = Except.ok out ∧
        out.length = buff.length ∧
        ∀ x, out.getD x 0 =
          if s ≤ x ∧ x < s + len ∧ x < buff.length then
            (buff.getD x 0 + m.peek (i + x) i) % SIZE_MOD
          else buff.getD x 0 := by
  intro len
  induction len with
  | zero =>
    intro s buff _
    refine ⟨buff, rfl, rfl, ?_⟩
    intro x
    rw [if_neg (by omega)]
  | succ len ih =>
    intro s buff hle
    have hget := get_eq_peek ndebug m (i + s) i hwf (by simp only [ncols]; omega)
      (by simp only [ncols]; omega)
    obtain ⟨out, hout, hlen, hval⟩ := ih (s + 1)
      (buff.set s ((buff.getD s 0 + m.peek (i + s) i) % SIZE_MOD)) (by omega)
    refine ⟨out, ?_, by rw [hlen, List.length_set], ?_⟩
    · rw [List.range'_succ]
      simp only [try_fold, histogram_step, hget, Nat.add_sub_cancel_left]
      exact hout
    · intro x
      rw [hval x, List.length_set, getD_set_contacts]
      by_cases hxs : x = s
      · subst hxs
        by_cases hl : x < buff.length
        · rw [if_neg (by omega), if_pos ⟨rfl, hl⟩, if_pos ⟨by omega, by omega, hl⟩]
        · rw [if_neg (by omega), if_neg (by omega), if_neg (by omega)]
      · have hne : ¬ (x = s ∧ s < buff.length) := fun h => hxs h.1
        rw [if_neg hne]
        by_cases hc : s + 1 ≤ x ∧ x < s + 1 + len ∧ x < buff.length
        · rw [if_pos hc, if_pos ⟨by omega, by omega, hc.2.2⟩]
        · rw [if_neg hc, if_neg (by omega)]

/-- The outer loop of the histogram over the bins `s, ..., s + t - 1`: entry `x` of the buffer
grows by the counts of the pairs `(i + x, i)` that lie below `ncols`, modulo `2^64`. -/
theorem histogram_rows (ndebug : Bool) (m : ContactMatrix) (hwf : m.WF) :
    ∀ (t s : Nat) (buff : List Nat), s + t ≤ m._ncols → buff.length = m._nrows →
      (∀ x, buff.getD x 0 < SIZE_MOD) →
      ∃ out,
        try_fold (fun buff i => try_fold (histogram_step ndebug m i) buff (band_columns m i))
          buff (List.range' s t) = Except.ok out ∧
        out.length = m._nrows ∧ (∀ x, out.getD x 0 < SIZE_MOD) ∧
        ∀ x, x < m._nrows → out.getD x 0 =
          (buff.getD x 0 +
            ((List.range' s t).map
              (fun i => if i + x < m._ncols then m.peek (i + x) i else 0)).sum) % SIZE_MOD := by
  intro t
  induction t with
  | zero =>
    intro s buff _ hlen hlt
    refine ⟨buff, rfl, hlen, hlt, ?_⟩
    intro x _
    simp only [List.range'_zero, List.map_nil, List.sum_nil, Nat.add_zero]
    exact (Nat.mod_eq_of_lt (hlt x)).symm
  | succ t ih =>
    intro s buff hle hlen hlt
    obtain ⟨row, hrow, hrlen, hrval⟩ :=
      histogram_row ndebug m hwf s (min (s + m._nrows) m._ncols - s) 0 buff (by omega)
    have hrlt : ∀ x, row.getD x 0 < SIZE_MOD := by
      intro x
      rw [hrval x]
      split_ifs
      · exact Nat.mod_lt _ (by unfold SIZE_MOD; omega)
      · exact hlt x
    obtain ⟨out, hout, holen, holt, hoval⟩ := ih (s + 1) row (by omega) (by rw [hrlen, hlen]) hrlt
    refine ⟨out, ?_, holen, holt, ?_⟩
    · rw [List.range'_succ]
      simp only [try_fold]
      have hb : band_columns m s = List.range' (s + 0) (min (s + m._nrows) m._ncols - s) := rfl
      rw [hb, hrow]
      exact hout
    · intro x hx
      rw [hoval x hx, hrval x, List.range'_succ, List.map_cons, List.sum_cons]
      have h1 := hlt x
      by_cases hc : s + x < m._ncols
      · rw [if_pos ⟨by omega, by omega, by omega⟩, if_pos hc]
        unfold SIZE_MOD at *
        omega
      · rw [if_neg (by omega), if_neg hc]
        unfold SIZE_MOD at *
        omega

/-- Value of `compute_row_wise_contact_histogram()`: a vector of `nrows` entries, entry `x` the
sum of the counts of the pairs `(i + x, i)` with `i + x < ncols`, modulo `2^64`. -/
theorem histogram_entries (ndebug : Bool) (m : ContactMatrix) (hwf : m.WF) :
    ∃ hist, m.compute_row_wise_contact_histogram ndebug = Except.ok hist ∧
      hist.length = m._nrows ∧
      ∀ x, x < m._nrows → hist.getD x 0 =
        ((List.range' 0 m._ncols).map
          (fun i => if i + x < m._ncols then m.peek (i + x) i else 0)).sum % SIZE_MOD := by
  obtain ⟨out, hout, hlen, _, hval⟩ := histogram_rows ndebug m hwf m._ncols 0
    (List.replicate m._nrows 0) (by omega) (by simp) (by
      intro x
      simp only [List.getD_eq_getElem?_getD, List.getElem?_replicate]
      split_ifs
      · simp [SIZE_MOD]
      · simp [SIZE_MOD])
  refine ⟨out, ?_, hlen, ?_⟩
  · unfold compute_row_wise_contact_histogram
    simp only [nrows, ncols, List.range_eq_range']
    exact hout
  · intro x hx
    rw [hval x hx]
    have : (List.replicate m._nrows 0).getD x 0 = 0 := by
      simp only [List.getD_eq_getElem?_getD, List.getElem?_replicate]
      split_ifs
      rfl
    rw [this, Nat.zero_add]

/-- Sum of a constant `k` over the bins `i` of `s, ..., s + t - 1` with `i + d < nc`. -/
theorem sum_constant_diagonal (nc d k : Nat) :
    ∀ (t s : Nat),
      ((List.range' s t).map (fun i => if i + d < nc then k else 0)).sum =
        (min (s + t) (nc - d) - min s (nc - d)) * k := by
  intro t
  induction t with
  | zero =>
    intro s
    simp
  | succ t ih =>
    intro s
    rw [List.range'_succ, List.map_cons, List.sum_cons, ih (s + 1)]
    by_cases hc : s + d < nc
    · rw [if_pos hc]
      have : min (s + (t + 1)) (nc - d) - min s (nc - d) =
          (min (s + 1 + t) (nc - d) - min (s + 1) (nc - d)) + 1 := by omega
      rw [this, Nat.add_mul, Nat.one_mul, Nat.add_comm]
    · rw [if_neg hc]
      have h1 : min (s + (t + 1)) (nc - d) - min s (nc - d) = 0 := by omega
      have h2 : min (s + 1 + t) (nc - d) - min (s + 1) (nc - d) = 0 := by omega
      rw [h1, h2, Nat.zero_add]

/-! ## The mask of the bins with contacts -/

theorem mask_row_loop_spec (ndebug : Bool) (m : ContactMatrix) (hwf : m.WF) (i : Nat)
    (hi : i < m._ncols) :
    ∀ (js : List Nat) (bit : Bool), (∀ j ∈ js, j < m._ncols) →
      ∃ b, mask_row_loop ndebug m i js bit = Except.ok b ∧
        (b = true ↔ bit = true ∨ ∃ j ∈ js, m.peek i j ≠ 0) := by
  intro js
  induction js with
  | nil =>
    intro bit _
    refine ⟨bit, rfl, ?_⟩
    constructor
    · intro h; exact Or.inl h
    · intro h
      rcases h with h | ⟨j, hj, _⟩
      · exact h
      · cases hj
  | cons j js ih =>
    intro bit hjs
    have hget := get_eq_peek ndebug m i j hwf hi (hjs j (List.mem_cons_self j js))
    by_cases hc : (bit || decide (m.peek i j ≠ 0)) = true
    · refine ⟨true, by simp only [mask_row_loop, hget, if_pos hc], ?_⟩
      constructor
      · intro _
        rw [Bool.or_eq_true, decide_eq_true_eq] at hc
        rcases hc with hb | hp
        · exact Or.inl hb
        · exact Or.inr ⟨j, List.mem_cons_self j js, hp⟩
      · intro _; rfl
    · obtain ⟨b, hb, hiff⟩ := ih false (fun x hx => hjs x (List.mem_cons_of_mem j hx))
      refine ⟨b, by simp only [mask_row_loop, hget, if_neg hc]; exact hb, ?_⟩
      rw [Bool.or_eq_true, decide_eq_true_eq, not_or] at hc
      rw [hiff]
      constructor
      · intro h
        rcases h with h | ⟨x, hx, hp⟩
        · cases h
        · exact Or.inr ⟨x, List.mem_cons_of_mem j hx, hp⟩
      · intro h
        rcases h with h | ⟨x, hx, hp⟩
        · exact absurd h hc.1
        · rcases List.mem_cons.mp hx with hxj | hxs
          · subst hxj; exact absurd hp hc.2
          · exact Or.inr ⟨x, hxs, hp⟩

theorem mask_col_loop_spec (ndebug : Bool) (m : ContactMatrix) (hwf : m.WF) (i lim : Nat)
    (hi : i < m._ncols) :
    ∀ (j : Nat) (bit : Bool), j < m._ncols →
      ∃ b, mask_col_loop ndebug m i lim j bit = Except.ok b ∧
        (b = true ↔ bit = true ∨ ∃ x, lim < x ∧ 0 < x ∧ x ≤ j ∧ m.peek i x ≠ 0) := by
  intro j
  induction j with
  | zero =>
    intro bit _
    refine ⟨bit, rfl, ?_⟩
    constructor
    · intro h; exact Or.inl h
    · intro h
      rcases h with h | ⟨x, _, h1, h2, _⟩
      · exact h
      · omega
  | succ j ih =>
    intro bit hj
    have hget := get_eq_peek ndebug m i (j + 1) hwf hi hj
    by_cases hl : j + 1 > lim
    · by_cases hc : (bit || decide (m.peek i (j + 1) ≠ 0)) = true
      · refine ⟨true, by simp only [mask_col_loop, if_pos hl, hget, if_pos hc], ?_⟩
        constructor
        · intro _
          rw [Bool.or_eq_true, decide_eq_true_eq] at hc
          rcases hc with hb | hp
          · exact Or.inl hb
          · exact Or.inr ⟨j + 1, hl, by omega, Nat.le_refl _, hp⟩
        · intro _; rfl
      · obtain ⟨b, hb, hiff⟩ := ih false (by omega)
        refine ⟨b, by simp only [mask_col_loop, if_pos hl, hget, if_neg hc]; exact hb, ?_⟩
        rw [Bool.or_eq_true, decide_eq_true_eq, not_or] at hc
        rw [hiff]
        constructor
        · intro h
          rcases h with h | ⟨x, h1, h2, h3, hp⟩
          · cases h
          · exact Or.inr ⟨x, h1, h2, by omega, hp⟩
        · intro h
          rcases h with h | ⟨x, h1, h2, h3, hp⟩
          · exact absurd h hc.1
          · by_cases hx : x = j + 1
            · subst hx; exact absurd hp hc.2
            · exact Or.inr ⟨x, h1, h2, by omega, hp⟩
    · refine ⟨bit, by simp only [mask_col_loop, if_neg hl], ?_⟩
      constructor
      · intro h; exact Or.inl h
      · intro h
        rcases h with h | ⟨x, h1, _, h3, _⟩
        · exact h
        · omega

/-- Value of one bit of the mask. -/
theorem mask_bit_spec (ndebug : Bool) (m : ContactMatrix) (hwf : m.WF) (i : Nat)
    (hi : i < m._ncols) :
    ∃ b, mask_bit ndebug m i = Except.ok b ∧ (b = true ↔ BinFlagged m i) := by
  obtain ⟨b1, hb1, hiff1⟩ := mask_row_loop_spec ndebug m hwf i hi (band_columns m i) false (by
    intro j hj
    unfold band_columns at hj
    rw [List.mem_range'_1] at hj
    simp only [nrows, ncols] at hj
    omega)
  obtain ⟨b2, hb2, hiff2⟩ := mask_col_loop_spec ndebug m hwf i
    ((i + SIZE_MOD - m._nrows) % SIZE_MOD) hi i b1 hi
  refine ⟨b2, by simp only [mask_bit, hb1, nrows]; exact hb2, ?_⟩
  rw [hiff2, hiff1]
  unfold BinFlagged
  constructor
  · intro h
    rcases h with (h | h) | h
    · cases h
    · exact Or.inl h
    · exact Or.inr h
  · intro h
    rcases h with h | h
    · exact Or.inl (Or.inr h)
    · exact Or.inr h

/-- Value of the mask over a list of bins. -/
theorem mask_bits_spec (ndebug : Bool) (m : ContactMatrix) (hwf : m.WF) :
    ∀ (bins : List Nat), (∀ i ∈ bins, i < m._ncols) →
      ∃ bits, mask_bits ndebug m bins = Except.ok bits ∧
        List.Forall₂ (fun i b => (b = true ↔ BinFlagged m i)) bins bits := by
  intro bins
  induction bins with
  | nil =>
    intro _
    exact ⟨[], rfl, List.Forall₂.nil⟩
  | cons i bins ih =>
    intro h
    obtain ⟨b, hb, hiff⟩ := mask_bit_spec ndebug m hwf i (h i (List.mem_cons_self i bins))
    obtain ⟨bits, hbits, hall⟩ := ih (fun x hx => h x (List.mem_cons_of_mem i hx))
    exact ⟨b :: bits, by simp only [mask_bits, hb, hbits], List.Forall₂.cons hiff hall⟩

/-- The mask has `ncols` bits, and bit `i` is set exactly for the bins `BinFlagged`. -/
theorem mask_spec (ndebug : Bool) (m : ContactMatrix) (hwf : m.WF) :
    ∃ mask, m.generate_mask_for_bins_without_contacts ndebug = Except.ok mask ∧
      mask.length = m._ncols ∧
      List.Forall₂ (fun i b => (b = true ↔ BinFlagged m i)) (List.range' 0 m._ncols) mask := by
  obtain ⟨bits, hbits, hall⟩ := mask_bits_spec ndebug m hwf (List.range' 0 m._ncols) (by
    intro i hi
    rw [List.mem_range'_1] at hi
    omega)
  refine ⟨bits, ?_, ?_, hall⟩
  · unfold generate_mask_for_bins_without_contacts
    simp only [ncols, List.range_eq_range']
    exact hbits
  · have := hall.length_eq
    simp only [List.length_range'] at this
    exact this.symm

/-- Counting the set bits: at least the flagged bins among the first `lim` ones. -/
theorem count_flagged (m : ContactMatrix) (lim : Nat) (hflag : ∀ i, i < lim → BinFlagged m i) :
    ∀ (t s : Nat) (bits : List Bool),
      List.Forall₂ (fun i b => (b = true ↔ BinFlagged m i)) (List.range' s t) bits →
      min (s + t) lim - s ≤ bits.count true := by
  intro t
  induction t with
  | zero =>
    intro s bits _
    omega
  | succ t ih =>
    intro s bits h
    rw [List.range'_succ] at h
    cases h with
    | cons hb hrest =>
      rename_i b bits'
      have := ih (s + 1) bits' hrest
      rw [List.count_cons]
      by_cases hs : s < lim
      · have hbt : b = true := hb.mpr (hflag s hs)
        subst hbt
        simp only [beq_self_eq_true, if_true]
        omega
      · omega

/-! ## Reading a mapped list -/

theorem getD_map_of_lt (l : List Nat) (f : Nat → Nat) (x : Nat) (hx : x < l.length) :
    (l.map f).getD x 0 = f (l.getD x 0) := by
  simp only [List.getD_eq_getElem?_getD, List.getElem?_map, List.getElem?_eq_getElem hx]
  rfl

/-! ## Depletion: the total of the contacts -/

theorem sum_set_add (l : List Nat) : ∀ (k v : Nat), k < l.length →
    (l.set k v).sum + l.getD k 0 = l.sum + v := by
  induction l with
  | nil => intro k v hk; simp at hk
  | cons a l ih =>
    intro k v hk
    cases k with
    | zero => simp only [List.set_cons_zero, List.sum_cons, List.getD_cons_zero]; omega
    | succ k =>
      have := ih k v (by simpa using hk)
      simp only [List.set_cons_succ, List.sum_cons, List.getD_cons_succ]
      omega

theorem totalTracks_refl (m : ContactMatrix) : TotalTracks m m :=
  ⟨Nat.le_refl _, rfl⟩

theorem totalTracks_trans (a b c : ContactMatrix) (h1 : TotalTracks a b) (h2 : TotalTracks b c) :
    TotalTracks a c := by
  unfold TotalTracks at *
  unfold SIZE_MOD at *
  omega

/-- A loop whose turns keep an invariant and are related by a reflexive, transitive relation
to the state they start from. -/
theorem for_each_related {α : Type} (f : ContactMatrix → α → Outcome)
    (Inv : ContactMatrix → Prop) (R : ContactMatrix → ContactMatrix → Prop)
    (hrefl : ∀ m, R m m) (htrans : ∀ a b c, R a b → R b c → R a c) :
    ∀ (xs : List α) (m : ContactMatrix), Inv m →
      (∀ x ∈ xs, ∀ m : ContactMatrix, Inv m →
        (f m x).error = none ∧ Inv (f m x).state ∧ R m (f m x).state) →
      (for_each f m xs).error = none ∧ Inv (for_each f m xs).state ∧
        R m (for_each f m xs).state := by
  intro xs
  induction xs with
  | nil =>
    intro m hinv _
    exact ⟨rfl, hinv, hrefl m⟩
  | cons x xs ih =>
    intro m hinv hstep
    obtain ⟨herr, hinv1, hr1⟩ := hstep x (List.mem_cons_self x xs) m hinv
    obtain ⟨herr2, hinv2, hr2⟩ := ih (f m x).state hinv1
      (fun y hy => hstep y (List.mem_cons_of_mem x hy))
    have hfe : for_each f m (x :: xs) = for_each f (f m x).state xs := by
      simp only [for_each, herr]
    rw [hfe]
    exact ⟨herr2, hinv2, htrans _ _ _ hr1 hr2⟩

/-- One turn of the inner loop of `deplete_contacts`, release build, at a pair inside the band:
`tot_contacts` goes down by what leaves the cell. -/
theorem deplete_step_tracks (avg : List Nat) (i j : Nat) (m : ContactMatrix) (hwf : m.WF)
    (hij : i ≤ j) (hj : j < m._ncols) (hband : j - i < m._nrows) :
    TotalTracks m (deplete_step true avg i m j).state := by
  have hget := get_eq_peek true m j i hwf (by simp only [ncols]; omega) (by simp only [ncols]; omega)
  have hle := peek_le m hwf j i
  have hlen := hwf.1
  have htot := hwf.2.2.1
  have hidx := idx_lt m._nrows m._ncols ((j - i) + (i - j)) (max j i) (by omega) (by omega)
  have hpeek : m.peek j i = m._contacts.getD (max j i * m._nrows + ((j - i) + (i - j))) 0 := by
    unfold peek; rw [if_neg (by omega)]
  unfold deplete_step
  rw [hget]
  simp only
  by_cases hgt : m.peek j i > avg.getD (j - i) 0
  · rw [if_pos hgt, subtract_in_band_eq true m j i _ hwf (by simp only [ncols]; omega)
      (by simp only [ncols]; omega) (by simp only [nrows]; omega) (by intro h; cases h)]
    have hs := sum_set_add m._contacts (max j i * m._nrows + ((j - i) + (i - j)))
      ((m.peek j i + I_MOD - avg.getD (j - i) 0 % I_MOD) % I_MOD) (by omega)
    rw [← hpeek] at hs
    unfold TotalTracks
    simp only
    unfold SIZE_MOD I_MOD at *
    unfold I_MAX at hle
    omega
  · rw [if_neg hgt, set_int_release, set_in_band_eq true m j i 0 hwf (by simp only [ncols]; omega)
      (by simp only [ncols]; omega) (by simp only [nrows]; omega) (by unfold I_MAX; omega)
      (by intro h; cases h)]
    have hs := sum_set_add m._contacts (max j i * m._nrows + ((j - i) + (i - j))) 0 (by omega)
    rw [← hpeek] at hs
    unfold TotalTracks
    simp only
    rw [if_neg (by omega)]
    unfold SIZE_MOD at *
    unfold I_MAX at hle
    omega

/-- The two loops of `deplete_contacts`, release build: `tot_contacts` goes down by what leaves
the cells. -/
theorem deplete_loops_tracks (avg : List Nat) (m : ContactMatrix) (hwf : m.WF) :
    TotalTracks m (deplete_loops true avg m).state := by
  have houter := for_each_related
    (fun t i => for_each (deplete_step true avg i) t (band_columns t i))
    (fun t => t.WF ∧ t._nrows = m._nrows ∧ t._ncols = m._ncols) TotalTracks
    totalTracks_refl totalTracks_trans (List.range m._ncols) m ⟨hwf, rfl, rfl⟩
    (by
      intro i _ t ht
      have hinner := for_each_related (deplete_step true avg i)
        (fun t => t.WF ∧ t._nrows = m._nrows ∧ t._ncols = m._ncols) TotalTracks
        totalTracks_refl totalTracks_trans (band_columns t i) t ht
        (by
          intro j hj u hu
          unfold band_columns at hj
          rw [List.mem_range'_1] at hj
          simp only [nrows, ncols] at hj
          rw [ht.2.1, ht.2.2] at hj
          have hd := deplete_step_depleted avg i j u hu.1 (by omega)
            (by rw [hu.2.2]; omega) (by rw [hu.2.1]; omega)
          exact ⟨hd.1, ⟨hd.2.1, by rw [hd.2.2.1, hu.2.1], by rw [hd.2.2.2.1, hu.2.2]⟩,
            deplete_step_tracks avg i j u hu.1 (by omega) (by rw [hu.2.2]; omega)
              (by rw [hu.2.1]; omega)⟩)
      exact hinner)
  unfold deplete_loops
  simp only [ncols]
  exact houter.2.2

theorem flagged_bit_mem (m : ContactMatrix) (i : Nat) (hflag : BinFlagged m i) :
    ∀ (bins : List Nat) (bits : List Bool),
      List.Forall₂ (fun i b => (b = true ↔ BinFlagged m i)) bins bits → i ∈ bins →
      true ∈ bits := by
  intro bins bits h
  induction h with
  | nil => intro hi; cases hi
  | cons hb _ ih =>
    intro hi
    rcases List.mem_cons.mp hi with h1 | h1
    · subst h1
      rw [hb.mpr hflag]
      exact List.mem_cons_self _ _
    · exact List.mem_cons_of_mem _ (ih h1)

/-! ## The histogram as a sum over a diagonal -/

theorem getD_map_range' (f : Nat → Nat) (n i : Nat) (hi : i < n) :
    ((List.range' 0 n).map f).getD i 0 = f i := by
  simp [List.getD_eq_getElem?_getD, List.getElem?_map, List.getElem?_range', hi]

theorem sum_map_zero_of_forall (l : List Nat) (f : Nat → Nat) (h : ∀ i ∈ l, f i = 0) :
    (l.map f).sum = 0 := by
  induction l with
  | nil => rfl
  | cons a l ih =>
    rw [List.map_cons, List.sum_cons, h a (List.mem_cons_self a l),
      ih (fun i hi => h i (List.mem_cons_of_mem a hi))]

theorem sum_below_diagonal_end (f : Nat → Nat) (nc d : Nat) :
    ((List.range' 0 nc).map (fun i => if i + d < nc then f i else 0)).sum =
      ((List.range' 0 (nc - d)).map f).sum := by
  have hsplit : List.range' 0 nc =
      List.range' 0 (nc - d) ++ List.range' (0 + (nc - d)) (nc - (nc - d)) := by
    rw [List.range'_append_1]
    congr 1
    omega
  rw [hsplit, List.map_append, List.sum_append]
  have h1 : (List.range' 0 (nc - d)).map (fun i => if i + d < nc then f i else 0) =
      (List.range' 0 (nc - d)).map f := by
    apply List.map_congr_left
    intro i hi
    rw [List.mem_range'_1] at hi
    rw [if_pos (by omega)]
  have h2 : ((List.range' (0 + (nc - d)) (nc - (nc - d))).map
      (fun i => if i + d < nc then f i else 0)).sum = 0 := by
    apply sum_map_zero_of_forall
    intro i hi
    rw [List.mem_range'_1] at hi
    rw [if_neg (by omega)]
  rw [h1, h2, Nat.add_zero]

theorem sum_le_length_mul (l : List Nat) (b : Nat) (h : ∀ x ∈ l, x ≤ b) :
    l.sum ≤ l.length * b := by
  induction l with
  | nil => simp
  | cons a l ih =>
    have h1 := h a (List.mem_cons_self a l)
    have h2 := ih (fun x hx => h x (List.mem_cons_of_mem a hx))
    rw [List.sum_cons, List.length_cons, Nat.succ_mul]
    omega

/-- C12.  `compute_row_wise_contact_histogram` returns a vector of `nrows` entries; entry `d`
is the sum of `get(i, i + d)` over all `i` with `i + d < ncols`, here the sum of the list
`vals` of these counts, taken as a 64 bit value (it cannot wrap when `ncols <= 2^32`). -/
theorem histogram_is_diagonal_sum (ndebug : Bool) (m : ContactMatrix) (hwf : m.WF) (d : Nat)
    (hd : d < m.nrows) :
    ∃ (hist : List Nat) (vals : List Nat),
      m.compute_row_wise_contact_histogram ndebug = Except.ok hist ∧
      hist.length = m.nrows ∧
      vals.length = m.ncols - d ∧
      (∀ i, i + d < m.ncols → m.get ndebug i (i + d) = Except.ok (vals.getD i 0)) ∧
      hist.getD d 0 = vals.sum % SIZE_MOD ∧
      (m.ncols ≤ I_MOD → hist.getD d 0 = vals.sum) := by
  simp only [nrows, ncols] at hd ⊢
  obtain ⟨hist, hhist, hhlen, hhval⟩ := histogram_entries ndebug m hwf
  have hsum := sum_below_diagonal_end (fun i => m.peek (i + d) i) m._ncols d
  have hval : hist.getD d 0 =
      ((List.range' 0 (m._ncols - d)).map (fun i => m.peek (i + d) i)).sum % SIZE_MOD := by
    rw [hhval d hd, hsum]
  refine ⟨hist, (List.range' 0 (m._ncols - d)).map (fun i => m.peek (i + d) i), hhist, hhlen,
    by simp, ?_, hval, ?_⟩
  · intro i hi
    rw [getD_map_range' _ _ _ (by omega), peek_comm]
    exact get_eq_peek ndebug m i (i + d) hwf (by simp only [ncols]; omega)
      (by simp only [ncols]; omega)
  · intro hnc
    rw [hval]
    apply Nat.mod_eq_of_lt
    have hb := sum_le_length_mul ((List.range' 0 (m._ncols - d)).map (fun i => m.peek (i + d) i))
      I_MAX (by
        intro x hx
        rw [List.mem_map] at hx
        obtain ⟨i, _, hxi⟩ := hx
        rw [← hxi]
        exact peek_le m hwf _ _)
    rw [List.length_map, List.length_range'] at hb
    have h2 : (m._ncols - d) * I_MAX ≤ I_MOD * I_MAX := Nat.mul_le_mul_right _ (by omega)
    have h3 : I_MOD * I_MAX < SIZE_MOD := by decide
    omega

theorem histogram_is_diagonal_sum_witness :
    ∃ (hist : List Nat) (vals : List Nat),
      constant_diagonal_example.compute_row_wise_contact_histogram false = Except.ok hist ∧
      hist.length = constant_diagonal_example.nrows ∧
      vals.length = constant_diagonal_example.ncols - 1 ∧
      (∀ i, i + 1 < constant_diagonal_example.ncols →
        constant_diagonal_example.get false i (i + 1) = Except.ok (vals.getD i 0)) ∧
      hist.getD 1 0 = vals.sum % SIZE_MOD ∧
      (constant_diagonal_example.ncols ≤ I_MOD → hist.getD 1 0 = vals.sum) :=
  histogram_is_diagonal_sum false constant_diagonal_example (by decide) 1 (by decide)

/-! ## Depletion: the averages in double precision -/

/-- With multiplier 1.0 and operands below `2^53` the conversions and the product are exact:
the average is the rounded double quotient. -/
theorem row_wise_avg_one (n B : Nat) (hn : n < 2 ^ 53) (hB : B < 2 ^ 53) :
    row_wise_avg 1 n B = std_round (binary64 ((n : ℚ) / (B : ℚ))) := by
  unfold row_wise_avg
  rw [binary64_natCast n hn, one_mul, binary64_natCast n hn, binary64_natCast B hB]

/-- With multiplier 1.0 the average lies between 0 and `n + 1`. -/
theorem row_wise_avg_one_range (n B : Nat) (hn : n < 2 ^ 53) (hB0 : 0 < B) (hB : B < 2 ^ 53) :
    0 ≤ row_wise_avg 1 n B ∧ row_wise_avg 1 n B ≤ (n : Int) + 1 := by
  rw [row_wise_avg_one n B hn hB]
  have hq0 : (0 : ℚ) ≤ (n : ℚ) / (B : ℚ) := by positivity
  have hB1 : (1 : ℚ) ≤ (B : ℚ) := by exact_mod_cast hB0
  have hqn : (n : ℚ) / (B : ℚ) ≤ (n : ℚ) := div_le_self (by positivity) hB1
  have hfl0 := binary64_nonneg _ hq0
  have herr := binary64_error ((n : ℚ) / (B : ℚ))
  rw [abs_of_nonneg hq0, abs_le] at herr
  have hn' : (n : ℚ) < 2 ^ 53 := by exact_mod_cast hn
  have h1 : (n : ℚ) / (B : ℚ) / 2 ^ 53 ≤ 1 := by
    rw [div_le_iff₀ (by positivity)]
    linarith
  have h2 : (1 : ℚ) / 2 ^ 1075 ≤ 1 / 4 := by
    apply one_div_le_one_div_of_le (by norm_num)
    calc (4 : ℚ) = 2 ^ 2 := by norm_num
      _ ≤ 2 ^ 1075 := pow_le_pow_right₀ (by norm_num) (by norm_num)
  refine ⟨std_round_nonneg _ hfl0, ?_⟩
  have := std_round_le (binary64 ((n : ℚ) / (B : ℚ))) ((n : Int) + 1)
    (by push_cast; linarith [herr.2]) hfl0
  exact this

/-- With multiplier 1.0 the average of `B * k` over `B` bins is `k`. -/
theorem row_wise_avg_exact (B k : Nat) (hB : 0 < B) (hB2 : B < 2 ^ 53) (h : B * k < 2 ^ 53) :
    row_wise_avg 1 (B * k) B = k := by
  have hk : k < 2 ^ 53 := by nlinarith
  have hBq : (B : ℚ) ≠ 0 := by exact_mod_cast hB.ne'
  have hq : ((B * k : Nat) : ℚ) / (B : ℚ) = (k : ℚ) := by
    push_cast
    field_simp
  rw [row_wise_avg_one _ _ h hB2, hq, binary64_natCast k hk]
  exact std_round_intCast (k : Int)

/-- What `deplete_contacts` does once the histogram and the mask are known, some bit of the mask
is set and every average is a value of `uint64_t`. -/
theorem deplete_contacts_eq (ndebug : Bool) (m : ContactMatrix) (depletion_multiplier : ℚ)
    (hist : List Nat) (mask : List Bool)
    (hhist : m.compute_row_wise_contact_histogram ndebug = Except.ok hist)
    (hmask : m.generate_mask_for_bins_without_contacts ndebug = Except.ok mask)
    (hcount : 0 < mask.count true)
    (havg : ∀ n, n ∈ hist → 0 ≤ row_wise_avg depletion_multiplier n (mask.count true) ∧
      row_wise_avg depletion_multiplier n (mask.count true) < SIZE_MOD) :
    m.deplete_contacts ndebug depletion_multiplier =
      deplete_loops ndebug
        (hist.map (fun n => (row_wise_avg depletion_multiplier n (mask.count true)).toNat))
        m := by
  unfold deplete_contacts
  simp only [hhist, hmask]
  rw [if_neg (fun h => absurd h.2 (by omega)), if_neg]
  rintro ⟨n, hn, hbad⟩
  exact hbad (havg n hn)

theorem constant_diagonal_example_cells :
    ∀ r, r < 4 → ∀ c, c < 4 →
      constant_diagonal_example.get true r c =
        Except.ok (if r + 1 = c ∨ c + 1 = r then 10 else 0) := by
  decide

/-- The averages of the example: `round(0 / 4) = 0` and `round(30 / 4) = 8`; 7.5 is a double. -/
theorem constant_diagonal_example_averages :
    row_wise_avg 1 0 4 = 0 ∧ row_wise_avg 1 30 4 = 8 := by
  constructor
  · have := row_wise_avg_exact 4 0 (by norm_num) (by norm_num) (by norm_num)
    simpa using this
  · rw [row_wise_avg_one 30 4 (by norm_num) (by norm_num)]
    have h : ((30 : Nat) : ℚ) / ((4 : Nat) : ℚ) = ((15 : Int) : ℚ) * 2 ^ (-1 : Int) := by
      norm_num
    rw [h, binary64_dyadic 15 (-1) (by norm_num) (by norm_num)]
    unfold std_round
    rw [if_pos (by norm_num), Int.floor_eq_iff]
    norm_num

theorem constant_diagonal_example_depleted (ndebug : Bool) :
    constant_diagonal_example.deplete_contacts ndebug 1 =
      deplete_loops ndebug [0, 8] constant_diagonal_example := by
  have hh : constant_diagonal_example.compute_row_wise_contact_histogram ndebug =
      Except.ok [0, 30] := by cases ndebug <;> decide
  have hm : constant_diagonal_example.generate_mask_for_bins_without_contacts ndebug =
      Except.ok [true, true, true, true] := by cases ndebug <;> decide
  have hc : List.count true [true, true, true, true] = 4 := by decide
  obtain ⟨h0, h30⟩ := constant_diagonal_example_averages
  rw [deplete_contacts_eq ndebug _ 1 _ _ hh hm (by decide) (by
    intro n hn
    rw [hc]
    simp only [List.mem_cons, List.mem_singleton, List.not_mem_nil, or_false] at hn
    rcases hn with rfl | rfl
    · rw [h0]; decide
    · rw [h30]; decide)]
  rw [hc]
  simp only [List.map_cons, List.map_nil, h0, h30]
  rfl

/-- C10, counterexample.  The 2 x 4 matrix with the count 10 in every cell at distance 1 and 0
elsewhere: the histogram entry is 30, the mask flags 4 bins, the average is `round(30 / 4) = 8`
and `deplete_contacts(1.0)` leaves 2, not 0, in the cells at distance 1. -/
theorem deplete_contacts_leaves_contacts :
    (∀ r, r < 4 → ∀ c, c < 4 →
      constant_diagonal_example.get true r c =
        Except.ok (if r + 1 = c ∨ c + 1 = r then 10 else 0)) ∧
      constant_diagonal_example.nrows = 2 ∧ constant_diagonal_example.ncols = 4 ∧
      constant_diagonal_example.compute_row_wise_contact_histogram true = Except.ok [0, 30] ∧
      constant_diagonal_example.generate_mask_for_bins_without_contacts true =
        Except.ok [true, true, true, true] ∧
      (constant_diagonal_example.deplete_contacts true 1).error = none ∧
      (constant_diagonal_example.deplete_contacts true 1).state.get true 0 1 = Except.ok 2 ∧
      (constant_diagonal_example.deplete_contacts true 1).state.get true 1 2 = Except.ok 2 ∧
      (constant_diagonal_example.deplete_contacts true 1).state.get true 2 3 = Except.ok 2 := by
  rw [constant_diagonal_example_depleted true]
  decide

/-- C10, as amended.  Release build, multiplier 1.0, `ncols * k < 2^53`.  For a matrix whose
cells at one distance `d < nrows` from the diagonal all hold `k > 0` and whose other cells hold
0, the histogram entry for `d` is `(ncols - d) * k`, the mask flags `B` bins with
`ncols - d <= B <= ncols`, and `deplete_contacts(1.0)` leaves every cell at distance `d` equal to
`k - a` (0 when `a >= k`), where `a` is the double quotient of `(ncols - d) * k` and `B`, rounded
to the nearest integer: `a` differs from the exact quotient `q` by at most
`1/2 + q / 2^53 + 2^-1075`.  For `d = 0` the cells are left at 0. -/
theorem deplete_contacts_constant_diagonal (m : ContactMatrix) (d k : Nat) (hwf : m.WF)
    (hd : d < m.nrows) (hdc : d < m.ncols) (hk : 0 < k) (hsmall : m.ncols * k < 2 ^ 53)
    (hcells : ∀ r c, r < m.ncols → c < m.ncols →
      m.get true r c = Except.ok (if r + d = c ∨ c + d = r then k else 0)) :
    ∃ (hist : List Nat) (mask : List Bool) (a : Nat),
      m.compute_row_wise_contact_histogram true = Except.ok hist ∧
      hist.getD d 0 = (m.ncols - d) * k ∧
      m.generate_mask_for_bins_without_contacts true = Except.ok mask ∧
      m.ncols - d ≤ mask.count true ∧ mask.count true ≤ m.ncols ∧
      (a : Int) = std_round (binary64 ((((m.ncols - d) * k : Nat) : ℚ) / (mask.count true : ℚ))) ∧
      |(a : ℚ) - (((m.ncols - d) * k : Nat) : ℚ) / (mask.count true : ℚ)| ≤
        1 / 2 + (((m.ncols - d) * k : Nat) : ℚ) / (mask.count true : ℚ) / 2 ^ 53 +
          1 / 2 ^ 1075 ∧
      (m.deplete_contacts true 1).error = none ∧
      (∀ r c, r < m.ncols → c < m.ncols → (r + d = c ∨ c + d = r) →
        (m.deplete_contacts true 1).state.get true r c = Except.ok (k - a)) ∧
      (d = 0 → ∀ r, r < m.ncols → (m.deplete_contacts true 1).state.get true r r = Except.ok 0) := by
  simp only [nrows, ncols] at hd hdc hsmall ⊢
  have hpeek : ∀ r c, r < m._ncols → c < m._ncols →
      m.peek r c = if r + d = c ∨ c + d = r then k else 0 := by
    intro r c hr hc
    have h1 := hcells r c hr hc
    rw [get_eq_peek true m r c hwf hr hc] at h1
    exact Except.ok.inj h1
  -- the histogram
  obtain ⟨hist, hhist, hhlen, hhval⟩ := histogram_entries true m hwf
  have hsum : ((List.range' 0 m._ncols).map
      (fun i => if i + d < m._ncols then m.peek (i + d) i else 0)).sum = (m._ncols - d) * k := by
    have hcongr : (List.range' 0 m._ncols).map
        (fun i => if i + d < m._ncols then m.peek (i + d) i else 0) =
        (List.range' 0 m._ncols).map (fun i => if i + d < m._ncols then k else 0) := by
      apply List.map_congr_left
      intro i hi
      rw [List.mem_range'_1] at hi
      by_cases hc : i + d < m._ncols
      · rw [if_pos hc, if_pos hc, hpeek (i + d) i hc (by omega), if_pos (Or.inr rfl)]
      · rw [if_neg hc, if_neg hc]
    rw [hcongr, sum_constant_diagonal]
    have : min (0 + m._ncols) (m._ncols - d) - min 0 (m._ncols - d) = m._ncols - d := by omega
    rw [this]
  have hle : (m._ncols - d) * k ≤ m._ncols * k := Nat.mul_le_mul_right _ (by omega)
  have hhd : hist.getD d 0 = (m._ncols - d) * k := by
    rw [hhval d hd, hsum]
    exact Nat.mod_eq_of_lt (by unfold SIZE_MOD; omega)
  have hentry : ∀ n, n ∈ hist → n < 2 ^ 53 := by
    intro n hn
    obtain ⟨x, hx, hxn⟩ := List.getElem_of_mem hn
    have hgd : hist.getD x 0 = n := by
      rw [List.getD_eq_getElem?_getD, List.getElem?_eq_getElem hx, hxn]
      rfl
    rw [← hgd, hhval x (by omega)]
    have hbound := sum_le_length_mul ((List.range' 0 m._ncols).map
      (fun i => if i + x < m._ncols then m.peek (i + x) i else 0)) k (by
        intro v hv
        rw [List.mem_map] at hv
        obtain ⟨i, hi, hiv⟩ := hv
        rw [List.mem_range'_1] at hi
        rw [← hiv]
        by_cases hc : i + x < m._ncols
        · rw [if_pos hc, hpeek (i + x) i hc (by omega)]
          split_ifs <;> omega
        · rw [if_neg hc]
          omega)
    rw [List.length_map, List.length_range'] at hbound
    have := Nat.mod_le ((List.range' 0 m._ncols).map
      (fun i => if i + x < m._ncols then m.peek (i + x) i else 0)).sum SIZE_MOD
    omega
  -- the mask
  obtain ⟨mask, hmask, hmlen, hmall⟩ := mask_spec true m hwf
  have hflag : ∀ i, i < m._ncols - d → BinFlagged m i := by
    intro i hi
    refine Or.inl ⟨i + d, ?_, ?_⟩
    · unfold band_columns
      rw [List.mem_range'_1]
      simp only [nrows, ncols]
      omega
    · rw [hpeek i (i + d) (by omega) (by omega), if_pos (Or.inl rfl)]
      omega
  have hcount := count_flagged m (m._ncols - d) hflag m._ncols 0 mask hmall
  have hcount' : m._ncols - d ≤ mask.count true := by omega
  have hcle : mask.count true ≤ m._ncols := by
    rw [← hmlen]; exact List.count_le_length _ _
  have hB0 : 0 < mask.count true := by omega
  have hnck : m._ncols ≤ m._ncols * k := Nat.le_mul_of_pos_right _ hk
  have hB2 : mask.count true < 2 ^ 53 := by omega
  -- the loops
  have hdep := deplete_contacts_eq true m 1 hist mask hhist hmask hB0 (by
    intro n hn
    obtain ⟨h1, h2⟩ := row_wise_avg_one_range n (mask.count true) (hentry n hn) hB0 hB2
    refine ⟨h1, ?_⟩
    have := hentry n hn
    unfold SIZE_MOD
    omega)
  obtain ⟨herr, hwf', hnr', hnc', hsel, _⟩ := deplete_loops_depleted
    (hist.map (fun n => (row_wise_avg 1 n (mask.count true)).toNat)) m hwf
  have hav := row_wise_avg_one ((m._ncols - d) * k) (mask.count true) (by omega) hB2
  have hrange := row_wise_avg_one_range ((m._ncols - d) * k) (mask.count true) (by omega) hB0 hB2
  have hcell : ∀ r c, r < m._ncols → c < m._ncols → (r + d = c ∨ c + d = r) →
      (m.deplete_contacts true 1).state.get true r c =
        Except.ok (k - (row_wise_avg 1 ((m._ncols - d) * k) (mask.count true)).toNat) := by
    intro r c hr hc hrc
    have hdist : (r - c) + (c - r) = d := by omega
    rw [hdep, get_eq_peek true _ r c hwf' (by simp only [ncols]; omega)
      (by simp only [ncols]; omega), hsel r c ⟨hr, hc, by omega⟩, hdist,
      getD_map_of_lt _ _ _ (by omega), hpeek r c hr hc, if_pos hrc, hhd]
  refine ⟨hist, mask, (row_wise_avg 1 ((m._ncols - d) * k) (mask.count true)).toNat, hhist, hhd,
    hmask, hcount', hcle, ?_, ?_, by rw [hdep]; exact herr, hcell, ?_⟩
  · rw [← hav]
    exact Int.toNat_of_nonneg hrange.1
  · have hcast : (((row_wise_avg 1 ((m._ncols - d) * k) (mask.count true)).toNat : Nat) : ℚ) =
        ((row_wise_avg 1 ((m._ncols - d) * k) (mask.count true) : Int) : ℚ) := by
      have := Int.toNat_of_nonneg hrange.1
      exact_mod_cast this
    rw [hcast, hav]
    have hq0 : (0 : ℚ) ≤ (((m._ncols - d) * k : Nat) : ℚ) / (mask.count true : ℚ) := by
      positivity
    have h1 := std_round_error
      (binary64 ((((m._ncols - d) * k : Nat) : ℚ) / (mask.count true : ℚ)))
    have h2 := binary64_error ((((m._ncols - d) * k : Nat) : ℚ) / (mask.count true : ℚ))
    rw [abs_of_nonneg hq0] at h2
    rw [abs_le] at h1 h2 ⊢
    constructor <;> linarith [h1.1, h1.2, h2.1, h2.2]
  · intro hd0 r hr
    subst hd0
    have hB : mask.count true = m._ncols := by omega
    rw [hcell r r hr hr (Or.inl rfl), hB, Nat.sub_zero,
      row_wise_avg_exact m._ncols k (by omega) (by omega) hsmall]
    simp

theorem deplete_contacts_constant_diagonal_witness :
    (constant_diagonal_example.deplete_contacts true 1).state.get true 3 2 = Except.ok 2 := by
  obtain ⟨hist, mask, a, _, _, h3, _, _, h6, _, _, h9, _⟩ :=
    deplete_contacts_constant_diagonal constant_diagonal_example 1 10 (by decide) (by decide)
      (by decide) (by decide) (by decide)
      (by
        intro r c hr hc
        exact constant_diagonal_example_cells r hr c hc)
  have e3 : mask = [true, true, true, true] := Except.ok.inj (h3.symm.trans (by decide))
  have hc : List.count true [true, true, true, true] = 4 := by decide
  rw [e3, hc] at h6
  have ha : (a : Int) = 8 := by
    rw [h6]
    have := constant_diagonal_example_averages.2
    rw [row_wise_avg_one 30 4 (by norm_num) (by norm_num)] at this
    exact this
  have ha' : a = 8 := by exact_mod_cast ha
  rw [h9 3 2 (by decide) (by decide) (by decide), ha']

/-- Release build, any multiplier.  For a matrix with a non-zero cell inside the band whose
averages are values of `uint64_t`, `deplete_contacts` succeeds and replaces every cell inside
the band, at distance `d` from the diagonal, by `old - a_d` cut off at zero, where `a_d` is the
double `(multiplier * h_d) / m` rounded to the nearest integer, `h_d` the histogram entry for
`d` and `m` the number of set bits of the mask, both taken before the call.  `tot_contacts`
goes down by the total `removed` that left the cells (as a 64 bit counter, and exactly when
`removed <= tot_contacts`). -/
theorem deplete_contacts_release_spec (m : ContactMatrix) (depletion_multiplier : ℚ)
    (hwf : m.WF)
    (hnz : ∃ r c, r < m.ncols ∧ c < m.ncols ∧ r < c + m.nrows ∧ c < r + m.nrows ∧
      m.get true r c ≠ Except.ok 0)
    (havg : ∀ hist mask, m.compute_row_wise_contact_histogram true = Except.ok hist →
      m.generate_mask_for_bins_without_contacts true = Except.ok mask →
      ∀ n, n ∈ hist → 0 ≤ row_wise_avg depletion_multiplier n (mask.count true) ∧
        row_wise_avg depletion_multiplier n (mask.count true) < SIZE_MOD) :
    ∃ hist mask removed,
      m.compute_row_wise_contact_histogram true = Except.ok hist ∧
      m.generate_mask_for_bins_without_contacts true = Except.ok mask ∧
      0 < mask.count true ∧
      (m.deplete_contacts true depletion_multiplier).error = none ∧
      (∀ r c, r < m.ncols → c < m.ncols → r < c + m.nrows → c < r + m.nrows →
        ∃ old, m.get true r c = Except.ok old ∧
          (m.deplete_contacts true depletion_multiplier).state.get true r c =
            Except.ok (old - (row_wise_avg depletion_multiplier
              (hist.getD ((r - c) + (c - r)) 0) (mask.count true)).toNat)) ∧
      (m.deplete_contacts true depletion_multiplier).state._contacts.sum + removed =
        m._contacts.sum ∧
      (((m.deplete_contacts true depletion_multiplier).state.get_tot_contacts : Int) =
        ((m.get_tot_contacts : Int) - (removed : Int)) % 18446744073709551616) ∧
      (removed ≤ m.get_tot_contacts →
        (m.deplete_contacts true depletion_multiplier).state.get_tot_contacts =
          m.get_tot_contacts - removed) := by
  simp only [nrows, ncols] at hnz ⊢
  obtain ⟨hist, hhist, hhlen, _⟩ := histogram_entries true m hwf
  obtain ⟨mask, hmask, _, hmall⟩ := mask_spec true m hwf
  -- the mask has a set bit
  have hcount : 0 < mask.count true := by
    obtain ⟨r, c, hr, hc, hb1, hb2, hne⟩ := hnz
    rw [get_eq_peek true m r c hwf hr hc] at hne
    have hpk : m.peek (min r c) (max r c) ≠ 0 := by
      intro h0
      apply hne
      rcases Nat.le_total r c with hrc | hrc
      · rw [Nat.min_eq_left hrc, Nat.max_eq_right hrc] at h0; rw [h0]
      · rw [Nat.min_eq_right hrc, Nat.max_eq_left hrc, peek_comm] at h0; rw [h0]
    have hflag : BinFlagged m (min r c) := by
      refine Or.inl ⟨max r c, ?_, hpk⟩
      unfold band_columns
      rw [List.mem_range'_1]
      simp only [nrows, ncols]
      omega
    rw [List.count_pos_iff]
    exact flagged_bit_mem m (min r c) hflag _ _ hmall (by rw [List.mem_range'_1]; omega)
  -- the loops
  have hdep := deplete_contacts_eq true m depletion_multiplier hist mask hhist hmask hcount
    (havg hist mask hhist hmask)
  obtain ⟨herr, hwf', hnr', hnc', hsel, _⟩ := deplete_loops_depleted
    (hist.map (fun n => (row_wise_avg depletion_multiplier n (mask.count true)).toNat)) m hwf
  obtain ⟨hsum, hmod⟩ := deplete_loops_tracks
    (hist.map (fun n => (row_wise_avg depletion_multiplier n (mask.count true)).toNat)) m hwf
  have htot' := hwf'.2.2.1
  have htot := hwf.2.2.1
  rw [← hdep] at herr hwf' hnr' hnc' hsel hsum hmod htot'
  refine ⟨hist, mask,
    m._contacts.sum - (m.deplete_contacts true depletion_multiplier).state._contacts.sum,
    hhist, hmask, hcount, herr, ?_, by omega, ?_, ?_⟩
  · intro r c hr hc hb1 hb2
    refine ⟨m.peek r c, get_eq_peek true m r c hwf hr hc, ?_⟩
    rw [get_eq_peek true _ r c hwf' (by simp only [ncols]; omega) (by simp only [ncols]; omega),
      hsel r c ⟨hr, hc, by omega⟩, getD_map_of_lt _ _ _ (by omega)]
  · simp only [get_tot_contacts]
    unfold SIZE_MOD at *
    omega
  · intro hle
    simp only [get_tot_contacts] at *
    unfold SIZE_MOD at *
    omega

/-- C11.  In a debug build `deplete_contacts` aborts.  On the 2 x 4 matrix with the count 10 in
every cell at distance 1, `deplete_contacts(1.0)` reaches `set(0, 0, 0)` at the first cell; the
literal is an `int`, and the assertion for signed arguments, `_tot_contacts - m < 0 - n`, fails
for `n = 0`.  The matrix is left as it was, with 10 in the cell (0, 1), where the claim has the
cell replaced by `10 - round(30 / 4) = 2`, the value that a release build leaves. -/
theorem deplete_contacts_aborts_in_debug_build :
    (constant_diagonal_example.deplete_contacts false 1).error =
        some Error.assertion_failure ∧
      (constant_diagonal_example.deplete_contacts false 1).state = constant_diagonal_example ∧
      constant_diagonal_example.get false 0 1 = Except.ok 10 ∧
      constant_diagonal_example.get false 0 0 = Except.ok 0 ∧
      constant_diagonal_example.set_int false 0 0 0 =
        ⟨constant_diagonal_example, some Error.assertion_failure⟩ ∧
      ((create 2 4).set_int false 0 0 0).error = some Error.assertion_failure ∧
      (constant_diagonal_example.deplete_contacts true 1).error = none ∧
      (constant_diagonal_example.deplete_contacts true 1).state.get true 0 1 = Except.ok 2 := by
  rw [constant_diagonal_example_depleted false, constant_diagonal_example_depleted true]
  decide

/-! ## The symmetric matrix -/

theorem try_map_ok {α β : Type} (f : α → Except Error β) (g : α → β) :
    ∀ (xs : List α), (∀ x ∈ xs, f x = Except.ok (g x)) → try_map f xs = Except.ok (xs.map g) := by
  intro xs
  induction xs with
  | nil => intro _; rfl
  | cons x xs ih =>
    intro h
    simp only [try_map, h x (List.mem_cons_self x xs),
      ih (fun y hy => h y (List.mem_cons_of_mem x hy)), List.map_cons]

theorem symmetric_cell_eq_peek (ndebug : Bool) (m : ContactMatrix) (hwf : m.WF) (y x : Nat)
    (hy : y < m._ncols) (hx : x < m._ncols) :
    m.symmetric_cell ndebug y x = Except.ok (m.peek y x) := by
  have hi : (if y > x then y - x else x - y) = (y - x) + (x - y) := by split_ifs <;> omega
  have hj : (if y > x then y else x) = max y x := by split_ifs <;> omega
  unfold symmetric_cell peek
  rw [hi, hj]
  by_cases hb : (y - x) + (x - y) < m._nrows
  · rw [if_pos hb, if_neg (by omega)]
    apply at_eq_of_lt
    have := idx_lt m._nrows m._ncols ((y - x) + (x - y)) (max y x) hb (by omega)
    rw [hwf.1]; omega
  · rw [if_neg hb, if_pos (by omega)]

theorem generate_symmetric_matrix_eq (ndebug : Bool) (m : ContactMatrix) (hwf : m.WF) :
    m.generate_symmetric_matrix ndebug =
      Except.ok ((List.range' 0 m._ncols).map
        (fun y => (List.range' 0 m._ncols).map (fun x => m.peek y x))) := by
  unfold generate_symmetric_matrix
  rw [List.range_eq_range']
  apply try_map_ok
  intro y hy
  rw [List.mem_range'_1] at hy
  apply try_map_ok
  intro x hx
  rw [List.mem_range'_1] at hx
  exact symmetric_cell_eq_peek ndebug m hwf y x (by omega) (by omega)

theorem getD_map_range'_list (f : Nat → List Nat) (n i : Nat) (hi : i < n) :
    ((List.range' 0 n).map f).getD i [] = f i := by
  simp [List.getD_eq_getElem?_getD, List.getElem?_map, List.getElem?_range', hi]

/-- A counting loop with an invariant indexed by the loop variable. -/
theorem for_each_range_invariant (f : ContactMatrix → Nat → Outcome)
    (Inv : Nat → ContactMatrix → Prop) :
    ∀ (t s : Nat) (m : ContactMatrix), Inv s m →
      (∀ k, s ≤ k → k < s + t → ∀ m : ContactMatrix, Inv k m →
        (f m k).error = none ∧ Inv (k + 1) (f m k).state) →
      (for_each f m (List.range' s t)).error = none ∧
        Inv (s + t) (for_each f m (List.range' s t)).state := by
  intro t
  induction t with
  | zero =>
    intro s m hinv _
    exact ⟨rfl, hinv⟩
  | succ t ih =>
    intro s m hinv hstep
    obtain ⟨herr, hinv1⟩ := hstep s (Nat.le_refl s) (by omega) m hinv
    obtain ⟨herr2, hinv2⟩ := ih (s + 1) (f m s).state hinv1
      (fun k hk1 hk2 => hstep k (by omega) (by omega))
    have hfe : for_each f m (List.range' s (t + 1)) =
        for_each f (f m s).state (List.range' (s + 1) t) := by
      rw [List.range'_succ]
      simp only [for_each, herr]
    rw [hfe]
    have : s + (t + 1) = s + 1 + t := by omega
    rw [this]
    exact ⟨herr2, hinv2⟩

/-- The inner loop of `fill_upper_triangle` for the row `i`: afterwards the rows up to `i` of
`M` are in the matrix. -/
theorem fill_row (ndebug : Bool) (M : Nat → Nat → Nat) (nr nc : Nat)
    (hsym : ∀ x y, x < nc → y < nc → M x y = M y x)
    (hband : ∀ i j, i < nc → j < nc → M i j ≠ 0 → i < j + nr ∧ j < i + nr)
    (hrep : ∀ i j, i < nc → j < nc → M i j ≤ I_MAX) (i : Nat) (hi : i < nc) (m : ContactMatrix)
    (hinv : m.WF ∧ m._nrows = nr ∧ m._ncols = nc ∧
      ∀ r c, r < nc → c < nc → m.peek r c = if min r c < i then M r c else 0) :
    (for_each (fun m j => if M i j ≠ 0 ∧ j ≥ i then m.set ndebug i j (M i j) else ⟨m, none⟩)
        m (List.range' 0 nc)).error = none ∧
      (fun t : ContactMatrix => t.WF ∧ t._nrows = nr ∧ t._ncols = nc ∧
        ∀ r c, r < nc → c < nc → t.peek r c = if min r c < i + 1 then M r c else 0)
      (for_each (fun m j => if M i j ≠ 0 ∧ j ≥ i then m.set ndebug i j (M i j) else ⟨m, none⟩)
        m (List.range' 0 nc)).state := by
  have h := for_each_range_invariant
    (fun m j => if M i j ≠ 0 ∧ j ≥ i then m.set ndebug i j (M i j) else ⟨m, none⟩)
    (fun k t => t.WF ∧ t._nrows = nr ∧ t._ncols = nc ∧
      ∀ r c, r < nc → c < nc →
        t.peek r c = if min r c < i ∨ (min r c = i ∧ max r c < k) then M r c else 0)
    nc 0 m
    (by
      refine ⟨hinv.1, hinv.2.1, hinv.2.2.1, ?_⟩
      intro r c hr hc
      rw [hinv.2.2.2 r c hr hc]
      by_cases hlt : min r c < i
      · rw [if_pos hlt, if_pos (Or.inl hlt)]
      · rw [if_neg hlt, if_neg (by omega)])
    (by
      intro k _ hk u hu
      obtain ⟨hwf, hnr, hnc, hcells⟩ := hu
      have hk' : k < nc := by omega
      by_cases hcond : M i k ≠ 0 ∧ k ≥ i
      · have hb := hband i k hi hk' hcond.1
        have hpk0 : u.peek i k = 0 := by
          rw [hcells i k hi hk', if_neg (by omega)]
        have heq := set_in_band_eq ndebug u i k (M i k) hwf (by simp only [ncols]; omega)
          (by simp only [ncols]; omega) (by simp only [nrows]; omega) (hrep i k hi hk')
          (fun _ => by rw [hpk0]; omega)
        have hidx := idx_lt u._nrows u._ncols ((i - k) + (k - i)) (max i k) (by omega) (by omega)
        have hlen := hwf.1
        simp only [if_pos hcond]
        rw [heq]
        refine ⟨rfl, ?_, hnr, hnc, ?_⟩
        · apply wf_set_contacts u hwf _ _ _ (hrep i k hi hk')
          split_ifs <;> exact Nat.mod_lt _ (by unfold SIZE_MOD; omega)
        · intro r c hr hc
          rw [peek_set_contacts]
          by_cases hp : (r - c) + (c - r) < u._nrows ∧
              max r c * u._nrows + ((r - c) + (c - r)) =
                max i k * u._nrows + ((i - k) + (k - i)) ∧
              max i k * u._nrows + ((i - k) + (k - i)) < u._contacts.length
          · rw [if_pos hp]
            have hpair := same_cell_same_pair u._nrows i k r c (by omega) hp.1 hp.2.1
            rw [if_pos (by omega)]
            rcases hpair with ⟨h1, h2⟩ | ⟨h1, h2⟩
            · rw [h1, h2]
            · rw [h1, h2]; exact hsym i k hi hk'
          · rw [if_neg hp, hcells r c hr hc]
            have hnot : ¬ (min r c = i ∧ max r c = k) := by
              intro hmm
              apply hp
              have h1 : (r - c) + (c - r) = (i - k) + (k - i) := by omega
              have h2 : max r c = max i k := by omega
              rw [h1, h2]
              exact ⟨by omega, rfl, by omega⟩
            by_cases hc1 : min r c < i ∨ (min r c = i ∧ max r c < k)
            · rw [if_pos hc1, if_pos (by omega)]
            · rw [if_neg hc1, if_neg (by omega)]
      · simp only [if_neg hcond]
        refine ⟨trivial, hwf, hnr, hnc, ?_⟩
        intro r c hr hc
        rw [hcells r c hr hc]
        by_cases hmm : min r c = i ∧ max r c = k
        · have hz : M i k = 0 := by
            by_contra hne
            exact hcond ⟨hne, by omega⟩
          have hrc : M r c = 0 := by
            rcases Nat.le_total r c with hle | hle
            · have h1 : r = i := by omega
              have h2 : c = k := by omega
              rw [h1, h2]; exact hz
            · have h1 : c = i := by omega
              have h2 : r = k := by omega
              rw [h1, h2, hsym k i hk' hi]; exact hz
          rw [hrc]
          simp
        · by_cases hc1 : min r c < i ∨ (min r c = i ∧ max r c < k)
          · rw [if_pos hc1, if_pos (by omega)]
          · rw [if_neg hc1, if_neg (by omega)])
  refine ⟨h.1, h.2.1, h.2.2.1, h.2.2.2.1, ?_⟩
  intro r c hr hc
  rw [h.2.2.2.2 r c hr hc]
  by_cases hc1 : min r c < i + 1
  · rw [if_pos hc1, if_pos (by omega)]
  · rw [if_neg hc1, if_neg (by omega)]

/-- The loops of `fill_upper_triangle` on a new matrix: afterwards every pair below `ncols`
reads as the entry of `M`. -/
theorem fill_upper_triangle_peek (ndebug : Bool) (M : Nat → Nat → Nat) (nr nc : Nat)
    (hsym : ∀ x y, x < nc → y < nc → M x y = M y x)
    (hband : ∀ i j, i < nc → j < nc → M i j ≠ 0 → i < j + nr ∧ j < i + nr)
    (hrep : ∀ i j, i < nc → j < nc → M i j ≤ I_MAX) :
    (fill_upper_triangle ndebug M (create nr nc)).error = none ∧
      (fill_upper_triangle ndebug M (create nr nc)).state.WF ∧
      (fill_upper_triangle ndebug M (create nr nc)).state._nrows = nr ∧
      (fill_upper_triangle ndebug M (create nr nc)).state._ncols = nc ∧
      ∀ r c, r < nc → c < nc →
        (fill_upper_triangle ndebug M (create nr nc)).state.peek r c = M r c := by
  have h := for_each_range_invariant
    (fun m i =>
      for_each
        (fun m j => if M i j ≠ 0 ∧ j ≥ i then m.set ndebug i j (M i j) else ⟨m, none⟩)
        m (List.range m.ncols))
    (fun k t => t.WF ∧ t._nrows = nr ∧ t._ncols = nc ∧
      ∀ r c, r < nc → c < nc → t.peek r c = if min r c < k then M r c else 0)
    nc 0 (create nr nc)
    ⟨wf_create nr nc, rfl, rfl, fun r c _ _ => by rw [peek_create, if_neg (by omega)]⟩
    (by
      intro k _ hk u hu
      have hrow := fill_row ndebug M nr nc hsym hband hrep k (by omega) u hu
      simp only [ncols, hu.2.2.1, List.range_eq_range']
      exact hrow)
  have hfill : fill_upper_triangle ndebug M (create nr nc) =
      for_each
        (fun m i =>
          for_each
            (fun m j => if M i j ≠ 0 ∧ j ≥ i then m.set ndebug i j (M i j) else ⟨m, none⟩)
            m (List.range m.ncols))
        (create nr nc) (List.range' 0 nc) := by
    unfold fill_upper_triangle
    rw [List.range_eq_range']
    rfl
  rw [hfill]
  refine ⟨h.1, h.2.1, h.2.2.1, h.2.2.2.1, ?_⟩
  intro r c hr hc
  rw [h.2.2.2.2 r c hr hc, if_pos (by omega)]

/-- C13.  For every matrix, `generate_symmetric_matrix` returns `ncols` rows of `ncols` entries
with `[y][x] = get(y, x)`.  And for a symmetric `ncols x ncols` matrix `M` of cell values that
is zero outside the band, copying its non-zero upper triangle with `set` into a new
`ContactMatrix(nrows, ncols)` succeeds and `generate_symmetric_matrix` then returns `M`. -/
theorem generate_symmetric_matrix_spec (ndebug : Bool) (m : ContactMatrix) (hwf : m.WF)
    (M : Nat → Nat → Nat) (nr nc : Nat)
    (hsym : ∀ x y, x < nc → y < nc → M x y = M y x)
    (hband : ∀ i j, i < nc → j < nc → M i j ≠ 0 → i < j + nr ∧ j < i + nr)
    (hrep : ∀ i j, i < nc → j < nc → M i j ≤ I_MAX) :
    (∃ S : List (List Nat), m.generate_symmetric_matrix ndebug = Except.ok S ∧
      S.length = m.ncols ∧
      ∀ y, y < m.ncols → (S.getD y []).length = m.ncols ∧
        ∀ x, x < m.ncols → m.get ndebug y x = Except.ok ((S.getD y []).getD x 0)) ∧
    (fill_upper_triangle ndebug M (create nr nc)).error = none ∧
    (∃ S : List (List Nat),
      (fill_upper_triangle ndebug M (create nr nc)).state.generate_symmetric_matrix ndebug =
        Except.ok S ∧
      S.length = nc ∧
      ∀ y, y < nc → (S.getD y []).length = nc ∧
        ∀ x, x < nc → (S.getD y []).getD x 0 = M y x) := by
  obtain ⟨herr, hwf', _, hnc', hpeek⟩ := fill_upper_triangle_peek ndebug M nr nc hsym hband hrep
  refine ⟨⟨_, generate_symmetric_matrix_eq ndebug m hwf, by simp [ncols], ?_⟩, herr,
    ⟨_, generate_symmetric_matrix_eq ndebug _ hwf', by simp [hnc'], ?_⟩⟩
  · intro y hy
    simp only [ncols] at hy ⊢
    rw [getD_map_range'_list _ _ _ hy]
    refine ⟨by simp, ?_⟩
    intro x hx
    rw [getD_map_range' _ _ _ hx]
    exact get_eq_peek ndebug m y x hwf hy hx
  · intro y hy
    rw [hnc', getD_map_range'_list _ _ _ hy]
    refine ⟨by simp, ?_⟩
    intro x hx
    rw [getD_map_range' _ _ _ hx]
    exact hpeek y x hy hx

theorem generate_symmetric_matrix_spec_witness :
    (fill_upper_triangle false (fun i j => if i + 1 = j ∨ j + 1 = i then 10 else 0)
      (create 2 4)).error = none :=
  (generate_symmetric_matrix_spec false constant_diagonal_example (by decide)
    (fun i j => if i + 1 = j ∨ j + 1 = i then 10 else 0) 2 4
    (by intro x y _ _; simp only [or_comm])
    (by
      intro i j _ _ h
      by_cases hc : i + 1 = j ∨ j + 1 = i
      · omega
      · simp only [if_neg hc] at h; exact absurd rfl h)
    (by intro i j _ _; simp only; split_ifs <;> decide)).2.1

/-! ## Reset, the mask of a new matrix, the contact density -/

theorem wf_reset (m : ContactMatrix) (hwf : m.WF) : m.reset.WF := by
  refine ⟨by simp only [reset, List.length_replicate]; exact hwf.1, ?_,
    by simp [reset, SIZE_MOD], by simp [reset, SIZE_MOD]⟩
  intro v hv
  simp only [reset, List.mem_replicate] at hv
  omega

theorem peek_reset (m : ContactMatrix) (r c : Nat) : m.reset.peek r c = 0 := by
  unfold peek reset
  split_ifs
  · rfl
  · simp only [List.getD_eq_getElem?_getD, List.getElem?_replicate]
    split_ifs <;> rfl

/-- C15.  After `reset()` every `get(r, c)` with `r, c < ncols` returns 0, `tot_contacts` and
the missed-update counter are 0, and `nrows` and `ncols` are as before. -/
theorem reset_clears (ndebug : Bool) (m : ContactMatrix) (hwf : m.WF) :
    (∀ r c, r < m.ncols → c < m.ncols → m.reset.get ndebug r c = Except.ok 0) ∧
      m.reset.get_tot_contacts = 0 ∧ m.reset.get_n_of_missed_updates = 0 ∧
      m.reset.nrows = m.nrows ∧ m.reset.ncols = m.ncols := by
  refine ⟨?_, rfl, rfl, rfl, rfl⟩
  intro r c hr hc
  rw [get_eq_peek ndebug m.reset r c (wf_reset m hwf) hr hc, peek_reset]

theorem reset_clears_witness :
    (∀ r c, r < constant_diagonal_example.ncols → c < constant_diagonal_example.ncols →
        constant_diagonal_example.reset.get false r c = Except.ok 0) ∧
      constant_diagonal_example.reset.get_tot_contacts = 0 ∧
      constant_diagonal_example.reset.get_n_of_missed_updates = 0 ∧
      constant_diagonal_example.reset.nrows = constant_diagonal_example.nrows ∧
      constant_diagonal_example.reset.ncols = constant_diagonal_example.ncols :=
  reset_clears false constant_diagonal_example (by decide)

theorem not_binFlagged_create (nrows ncols i : Nat) : ¬ BinFlagged (create nrows ncols) i := by
  intro h
  rcases h with ⟨j, _, hj⟩ | ⟨j, _, _, _, hj⟩
  · exact hj (peek_create nrows ncols i j)
  · exact hj (peek_create nrows ncols i j)

theorem all_false_of_forall₂ (P : Nat → Prop) (hP : ∀ i, ¬ P i) :
    ∀ (bins : List Nat) (bits : List Bool),
      List.Forall₂ (fun i b => (b = true ↔ P i)) bins bits →
      bits = List.replicate bins.length false := by
  intro bins bits h
  induction h with
  | nil => rfl
  | @cons i b _ _ hb _ ih =>
    have hbf : b = false := by
      cases b with
      | false => rfl
      | true => exact absurd (hb.mp rfl) (hP i)
    rw [hbf, ih, List.length_cons, List.replicate_succ]

/-- C16.  The mask generated for a newly constructed `ContactMatrix(nrows, ncols)` has `ncols`
bits and none of them is set, in both builds. -/
theorem mask_of_new_matrix (ndebug : Bool) (nrows ncols : Nat) :
    (create nrows ncols).generate_mask_for_bins_without_contacts ndebug =
      Except.ok (List.replicate ncols false) := by
  obtain ⟨mask, hmask, _, hall⟩ := mask_spec ndebug (create nrows ncols) (wf_create nrows ncols)
  have := all_false_of_forall₂ (BinFlagged (create nrows ncols))
    (not_binFlagged_create nrows ncols) _ _ hall
  rw [List.length_range'] at this
  rw [hmask, this]
  rfl

/-- What `get_avg_contact_density` returns: `tot_contacts` over `nrows * ncols + 1`, the size
of the cell vector with its extra element. -/
theorem get_avg_contact_density_eq (m : ContactMatrix) (hwf : m.WF) :
    m.get_avg_contact_density = (m.get_tot_contacts : ℚ) / ((m.npixels : ℚ) + 1) := by
  unfold get_avg_contact_density npixels
  rw [hwf.1]
  push_cast
  rfl

theorem density_example_state :
    ((create 1 1).increment true 0 0).error = none ∧
      ((create 1 1).increment true 0 0).state.get_tot_contacts = 1 ∧
      ((create 1 1).increment true 0 0).state._contacts.length = 2 ∧
      ((create 1 1).increment true 0 0).state.npixels = 1 := by
  decide

/-- C14.  After one `increment(0, 0)` on a new 1 x 1 matrix `tot_contacts` is 1 and
`nrows * ncols` is 1, and `get_avg_contact_density()` is 1/2, not 1. -/
theorem contact_density_counts_extra_cell :
    ((create 1 1).increment true 0 0).state.get_tot_contacts = 1 ∧
      ((create 1 1).increment true 0 0).state.nrows *
        ((create 1 1).increment true 0 0).state.ncols = 1 ∧
      ((create 1 1).increment true 0 0).state.get_avg_contact_density = 1 / 2 ∧
      ((create 1 1).increment true 0 0).state.get_avg_contact_density ≠ 1 / 1 := by
  have h := density_example_state
  have hd : ((create 1 1).increment true 0 0).state.get_avg_contact_density = 1 / 2 := by
    unfold get_avg_contact_density
    rw [h.2.1, h.2.2.1]
    norm_num
  refine ⟨h.2.1, by decide, hd, ?_⟩
  rw [hd]
  norm_num

end ContactMatrix

/-! ## Ranking and extrusion of loop extrusion factors -/

namespace Simulation

theorem insert_sorted_perm (comp : Nat → Nat → Bool) (x : Nat) (l : List Nat) :
    (insert_sorted comp x l).Perm (x :: l) := by
  induction l with
  | nil => exact List.Perm.refl _
  | cons y ys ih =>
    unfold insert_sorted
    split_ifs
    · exact List.Perm.refl _
    · exact (List.Perm.cons y ih).trans (List.Perm.swap x y ys)

theorem insertion_sort_into_perm (comp : Nat → Nat → Bool) (l : List Nat) :
    ∀ acc : List Nat, (insertion_sort_into comp acc l).Perm (acc ++ l) := by
  induction l with
  | nil => intro acc; simp [insertion_sort_into]
  | cons x xs ih =>
    intro acc
    unfold insertion_sort_into
    refine (ih _).trans ?_
    refine ((insert_sorted_perm comp x acc).append_right xs).trans ?_
    exact (List.perm_middle).symm

theorem insertion_sort_perm (comp : Nat → Nat → Bool) (l : List Nat) :
    (insertion_sort comp l).Perm l := by
  have h := insertion_sort_into_perm comp l []
  simpa [insertion_sort] using h

theorem insert_sorted_sorted (f : Nat → Int) (comp : Nat → Nat → Bool)
    (hcomp : ∀ a b, comp a b = decide (f a < f b)) (x : Nat) (l : List Nat)
    (h : l.Pairwise (fun a b => f a ≤ f b)) :
    (insert_sorted comp x l).Pairwise (fun a b => f a ≤ f b) := by
  induction l with
  | nil => simp [insert_sorted]
  | cons y ys ih =>
    rw [List.pairwise_cons] at h
    unfold insert_sorted
    split_ifs with hc
    · rw [hcomp] at hc
      have hlt : f x < f y := by simpa using hc
      rw [List.pairwise_cons]
      refine ⟨?_, List.pairwise_cons.2 h⟩
      intro z hz
      rcases List.mem_cons.1 hz with rfl | hz
      · omega
      · have := h.1 z hz; omega
    · rw [hcomp] at hc
      have hle : f y ≤ f x := by simpa using hc
      rw [List.pairwise_cons]
      refine ⟨?_, ih h.2⟩
      intro z hz
      have hz2 := (insert_sorted_perm comp x ys).mem_iff.1 hz
      rcases List.mem_cons.1 hz2 with rfl | hz2
      · exact hle
      · exact h.1 z hz2

theorem insertion_sort_into_sorted (f : Nat → Int) (comp : Nat → Nat → Bool)
    (hcomp : ∀ a b, comp a b = decide (f a < f b)) (l : List Nat) :
    ∀ acc : List Nat, acc.Pairwise (fun a b => f a ≤ f b) →
      (insertion_sort_into comp acc l).Pairwise (fun a b => f a ≤ f b) := by
  induction l with
  | nil => intro acc h; simpa [insertion_sort_into] using h
  | cons x xs ih =>
    intro acc h
    unfold insertion_sort_into
    exact ih _ (insert_sorted_sorted f comp hcomp x acc h)

theorem insertion_sort_sorted (f : Nat → Int) (comp : Nat → Nat → Bool)
    (hcomp : ∀ a b, comp a b = decide (f a < f b)) (l : List Nat) :
    (insertion_sort comp l).Pairwise (fun a b => f a ≤ f b) :=
  insertion_sort_into_sorted f comp hcomp l [] List.Pairwise.nil

theorem map_eq_replicate_of_forall (key : Nat → Nat) (k : Nat) (l : List Nat)
    (h : ∀ x ∈ l, key x = k) : l.map key = List.replicate l.length k := by
  induction l with
  | nil => rfl
  | cons y ys ih =>
    simp only [List.map_cons, List.length_cons, List.replicate_succ]
    rw [h y (List.mem_cons_self _ _), ih (fun x hx => h x (List.mem_cons_of_mem _ hx))]

theorem sort_ties_perm (key : Nat → Nat) (comp : Nat → Nat → Bool) (fuel : Nat) :
    ∀ l : List Nat, (sort_ties key comp fuel l).Perm l := by
  induction fuel with
  | zero => intro l; cases l <;> exact List.Perm.refl _
  | succ fuel ih =>
    intro l
    cases l with
    | nil => exact List.Perm.refl _
    | cons r rest =>
      unfold sort_ties
      have h := List.takeWhile_append_dropWhile (fun q => key q == key r) (r :: rest)
      refine ((insertion_sort_perm comp _).append (ih _)).trans ?_
      rw [h]

theorem sort_ties_map_key (key : Nat → Nat) (comp : Nat → Nat → Bool) (fuel : Nat) :
    ∀ l : List Nat, (sort_ties key comp fuel l).map key = l.map key := by
  induction fuel with
  | zero => intro l; cases l <;> rfl
  | succ fuel ih =>
    intro l
    cases l with
    | nil => rfl
    | cons r rest =>
      unfold sort_ties
      have h := List.takeWhile_append_dropWhile (fun q => key q == key r) (r :: rest)
      have hrun : ∀ x ∈ (r :: rest).takeWhile (fun q => key q == key r), key x = key r := by
        intro x hx
        have := List.mem_takeWhile_imp hx
        simpa using this
      have hsorted : ∀ x ∈ insertion_sort comp ((r :: rest).takeWhile (fun q => key q == key r)),
          key x = key r := fun x hx => hrun x ((insertion_sort_perm comp _).mem_iff.1 hx)
      rw [List.map_append, ih, map_eq_replicate_of_forall key (key r) _ hsorted,
        (insertion_sort_perm comp _).length_eq, ← map_eq_replicate_of_forall key (key r) _ hrun,
        ← List.map_append, h]

theorem sort_ties_sorted (key : Nat → Nat) (comp : Nat → Nat → Bool) (fuel : Nat) (l : List Nat)
    (h : l.Pairwise (fun a b => key a ≤ key b)) :
    (sort_ties key comp fuel l).Pairwise (fun a b => key a ≤ key b) := by
  have h1 : (l.map key).Pairwise (fun a b => a ≤ b) := List.pairwise_map.2 h
  rw [← sort_ties_map_key key comp fuel l] at h1
  exact List.pairwise_map.1 h1

theorem sort_ties_chain (key : Nat → Nat) (f : Nat → Int) (comp : Nat → Nat → Bool)
    (hcomp : ∀ a b, comp a b = decide (f a < f b)) (fuel : Nat) :
    ∀ l : List Nat, l.length ≤ fuel →
      (sort_ties key comp fuel l).Chain' (fun a b => key a = key b → f a ≤ f b) := by
  induction fuel with
  | zero =>
    intro l hl
    cases l with
    | nil => simp [sort_ties]
    | cons r rest => simp at hl
  | succ fuel ih =>
    intro l hl
    cases l with
    | nil => simp [sort_ties]
    | cons r rest =>
      unfold sort_ties
      have hdrop : (r :: rest).dropWhile (fun q => key q == key r) =
          rest.dropWhile (fun q => key q == key r) := by
        simp [List.dropWhile_cons]
      have hlen : ((r :: rest).dropWhile (fun q => key q == key r)).length ≤ fuel := by
        rw [hdrop]
        have := (List.dropWhile_sublist (fun q => key q == key r) (l := rest)).length_le
        simp only [List.length_cons] at hl
        omega
      rw [List.chain'_append]
      refine ⟨?_, ih _ hlen, ?_⟩
      · have hs := insertion_sort_sorted f comp hcomp
          ((r :: rest).takeWhile (fun q => key q == key r))
        have hs2 : (insertion_sort comp ((r :: rest).takeWhile (fun q => key q == key r))).Pairwise
            (fun a b => key a = key b → f a ≤ f b) := by
          refine List.Pairwise.imp ?_ hs
          intro a b h _
          exact h
        exact List.Pairwise.chain' hs2
      · intro x hx y hy hkey
        exfalso
        have hxr : key x = key r := by
          have hx1 := List.mem_of_mem_getLast? hx
          have hx2 := (insertion_sort_perm comp _).mem_iff.1 hx1
          simpa using List.mem_takeWhile_imp hx2
        have hmap := sort_ties_map_key key comp fuel
          ((r :: rest).dropWhile (fun q => key q == key r))
        have hhead := congrArg List.head? hmap
        simp only [List.head?_map] at hhead
        rw [Option.mem_def] at hy
        rw [hy] at hhead
        cases hd : ((r :: rest).dropWhile (fun q => key q == key r)) with
        | nil => rw [hd] at hhead; simp at hhead
        | cons z zs =>
          rw [hd] at hhead
          simp only [List.head?_cons, Option.map_some'] at hhead
          have hz : key z = key y := by injection hhead with h; exact h.symm
          have hnot := List.head_dropWhile_not (fun q => key q == key r) (r :: rest)
            (by rw [hd]; simp)
          simp only [hd, List.head_cons] at hnot
          have : key z ≠ key r := by simpa using hnot
          omega

theorem insertion_sort_contract : SortContract insertion_sort := by
  intro f comp l hcomp
  refine ⟨insertion_sort_perm comp l, ?_⟩
  have hcomp2 : ∀ a b, comp a b = decide ((fun r => (f r : Int)) a < (fun r => (f r : Int)) b) := by
    intro a b
    rw [hcomp]
    exact decide_eq_decide.2 (by simp)
  refine List.Pairwise.imp ?_ (insertion_sort_sorted (fun r => (f r : Int)) comp hcomp2 l)
  intro a b h
  rw [hcomp]
  have h2 : f a ≤ f b := by exact_mod_cast h
  simpa using h2

theorem sorted_of_contract (sort : (Nat → Nat → Bool) → List Nat → List Nat)
    (hsort : SortContract sort) (f : Nat → Nat) (comp : Nat → Nat → Bool)
    (hcomp : ∀ a b, comp a b = decide (f a < f b)) (l : List Nat) :
    (sort comp l).Pairwise (fun a b => f a ≤ f b) := by
  refine List.Pairwise.imp ?_ (hsort f comp l hcomp).2
  intro a b h
  rw [hcomp] at h
  simpa using h

/-- C17: for every array of LEFs and rank buffers of its size, with sorters that meet the
contract of a comparison sort, `rank_lefs` called with `init_buffers = true` or with buffers that
already are permutations of `[0, num_lefs)` leaves both rank buffers permutations of
`[0, num_lefs)`, the rev positions non-decreasing along the rev ranks and the fwd positions
non-decreasing along the fwd ranks. -/
theorem rank_lefs_sorted_permutations
    (split_sort pdq_sort : (Nat → Nat → Bool) → List Nat → List Nat)
    (hsplit : SortContract split_sort) (hpdq : SortContract pdq_sort)
    (lefs : List Lef) (rev_lef_rank_buff fwd_lef_rank_buff : List Nat)
    (ranks_are_partially_sorted init_buffers : Bool)
    (hrev : rev_lef_rank_buff.length = lefs.length)
    (hfwd : fwd_lef_rank_buff.length = lefs.length)
    (hinit : init_buffers = true ∨
      (rev_lef_rank_buff.Perm (List.range lefs.length) ∧
        fwd_lef_rank_buff.Perm (List.range lefs.length))) :
    (rank_lefs split_sort pdq_sort lefs rev_lef_rank_buff fwd_lef_rank_buff
        ranks_are_partially_sorted init_buffers).1.Perm (List.range lefs.length) ∧
      (rank_lefs split_sort pdq_sort lefs rev_lef_rank_buff fwd_lef_rank_buff
        ranks_are_partially_sorted init_buffers).2.Perm (List.range lefs.length) ∧
      (rank_lefs split_sort pdq_sort lefs rev_lef_rank_buff fwd_lef_rank_buff
        ranks_are_partially_sorted init_buffers).1.Pairwise
          (fun a b => (lef_at lefs a).rev_unit.pos ≤ (lef_at lefs b).rev_unit.pos) ∧
      (rank_lefs split_sort pdq_sort lefs rev_lef_rank_buff fwd_lef_rank_buff
        ranks_are_partially_sorted init_buffers).2.Pairwise
          (fun a b => (lef_at lefs a).fwd_unit.pos ≤ (lef_at lefs b).fwd_unit.pos) := by
  have hrev0 : (if init_buffers = true then List.range rev_lef_rank_buff.length
      else rev_lef_rank_buff).Perm (List.range lefs.length) := by
    split_ifs with hi
    · rw [hrev]
    · rcases hinit with h | h
      · exact absurd h hi
      · exact h.1
  have hfwd0 : (if init_buffers = true then List.range fwd_lef_rank_buff.length
      else fwd_lef_rank_buff).Perm (List.range lefs.length) := by
    split_ifs with hi
    · rw [hfwd]
    · rcases hinit with h | h
      · exact absurd h hi
      · exact h.2
  have hrc : ∀ a b, rev_comparator lefs a b =
      decide ((fun r => (lef_at lefs r).rev_unit.pos) a < (fun r => (lef_at lefs r).rev_unit.pos) b) :=
    fun _ _ => rfl
  have hfc : ∀ a b, fwd_comparator lefs a b =
      decide ((fun r => (lef_at lefs r).fwd_unit.pos) a < (fun r => (lef_at lefs r).fwd_unit.pos) b) :=
    fun _ _ => rfl
  have hsel : ∀ (f : Nat → Nat) (comp : Nat → Nat → Bool)
      (_ : ∀ a b, comp a b = decide (f a < f b)) (l : List Nat),
      (if ranks_are_partially_sorted = true then split_sort comp l else pdq_sort comp l).Perm l ∧
        (if ranks_are_partially_sorted = true then split_sort comp l
          else pdq_sort comp l).Pairwise (fun a b => f a ≤ f b) := by
    intro f comp hcomp l
    split_ifs
    · exact ⟨(hsplit f comp l hcomp).1, sorted_of_contract split_sort hsplit f comp hcomp l⟩
    · exact ⟨(hpdq f comp l hcomp).1, sorted_of_contract pdq_sort hpdq f comp hcomp l⟩
  unfold rank_lefs
  refine ⟨?_, ?_, ?_, ?_⟩
  · exact (sort_ties_perm _ _ _ _).trans (((hsel _ _ hrc _).1).trans hrev0)
  · exact (sort_ties_perm _ _ _ _).trans (((hsel _ _ hfc _).1).trans hfwd0)
  · exact sort_ties_sorted (fun r => (lef_at lefs r).rev_unit.pos) _ _ _ (hsel _ _ hrc _).2
  · exact sort_ties_sorted (fun r => (lef_at lefs r).fwd_unit.pos) _ _ _ (hsel _ _ hfc _).2

theorem rank_lefs_sorted_permutations_witness :
    (rank_lefs insertion_sort insertion_sort ranking_example [0, 0, 0, 0] [0, 0, 0, 0]
        true true).1.Perm (List.range ranking_example.length) ∧
      (rank_lefs insertion_sort insertion_sort ranking_example [0, 0, 0, 0] [0, 0, 0, 0]
        true true).2.Perm (List.range ranking_example.length) ∧
      (rank_lefs insertion_sort insertion_sort ranking_example [0, 0, 0, 0] [0, 0, 0, 0]
        true true).1.Pairwise
          (fun a b => (lef_at ranking_example a).rev_unit.pos ≤
            (lef_at ranking_example b).rev_unit.pos) ∧
      (rank_lefs insertion_sort insertion_sort ranking_example [0, 0, 0, 0] [0, 0, 0, 0]
        true true).2.Pairwise
          (fun a b => (lef_at ranking_example a).fwd_unit.pos ≤
            (lef_at ranking_example b).fwd_unit.pos) :=
  rank_lefs_sorted_permutations insertion_sort insertion_sort insertion_sort_contract
    insertion_sort_contract ranking_example [0, 0, 0, 0] [0, 0, 0, 0] true true
    (by decide) (by decide) (Or.inl rfl)

/-- The tie loops of `rank_lefs` leave neighbouring ranks of equal position ordered by binding
epoch, whatever the sorters returned. -/
theorem rank_lefs_ties_chain
    (split_sort pdq_sort : (Nat → Nat → Bool) → List Nat → List Nat)
    (lefs : List Lef) (rev_lef_rank_buff fwd_lef_rank_buff : List Nat)
    (ranks_are_partially_sorted init_buffers : Bool) :
    (rank_lefs split_sort pdq_sort lefs rev_lef_rank_buff fwd_lef_rank_buff
        ranks_are_partially_sorted init_buffers).1.Chain'
          (fun a b => (lef_at lefs a).rev_unit.pos = (lef_at lefs b).rev_unit.pos →
            (lef_at lefs a).binding_epoch ≤ (lef_at lefs b).binding_epoch) ∧
      (rank_lefs split_sort pdq_sort lefs rev_lef_rank_buff fwd_lef_rank_buff
        ranks_are_partially_sorted init_buffers).2.Chain'
          (fun a b => (lef_at lefs a).fwd_unit.pos = (lef_at lefs b).fwd_unit.pos →
            (lef_at lefs b).binding_epoch ≤ (lef_at lefs a).binding_epoch) := by
  unfold rank_lefs
  refine ⟨?_, ?_⟩
  · refine List.Chain'.imp ?_ (sort_ties_chain (fun r => (lef_at lefs r).rev_unit.pos)
      (fun r => ((lef_at lefs r).binding_epoch : Int)) (rev_tie_comparator lefs) ?_ _ _
      (le_refl _))
    · intro a b h hpos
      have := h hpos
      simp only at this
      exact_mod_cast this
    · intro a b
      unfold rev_tie_comparator
      exact decide_eq_decide.2 (by simp)
  · refine List.Chain'.imp ?_ (sort_ties_chain (fun r => (lef_at lefs r).fwd_unit.pos)
      (fun r => - ((lef_at lefs r).binding_epoch : Int)) (fwd_tie_comparator lefs) ?_ _ _
      (le_refl _))
    · intro a b h hpos
      have := h hpos
      simp only [neg_le_neg_iff] at this
      exact_mod_cast this
    · intro a b
      unfold fwd_tie_comparator
      exact decide_eq_decide.2 (by simp)

/-- The rank buffers that `rank_lefs` returns are permutations of `[0, num_lefs)`. -/
theorem rank_lefs_perm
    (split_sort pdq_sort : (Nat → Nat → Bool) → List Nat → List Nat)
    (hsplit : SortContract split_sort) (hpdq : SortContract pdq_sort)
    (lefs : List Lef) (rev_lef_rank_buff fwd_lef_rank_buff : List Nat)
    (ranks_are_partially_sorted init_buffers : Bool)
    (hrev : rev_lef_rank_buff.length = lefs.length)
    (hfwd : fwd_lef_rank_buff.length = lefs.length)
    (hinit : init_buffers = true ∨
      (rev_lef_rank_buff.Perm (List.range lefs.length) ∧
        fwd_lef_rank_buff.Perm (List.range lefs.length))) :
    (rank_lefs split_sort pdq_sort lefs rev_lef_rank_buff fwd_lef_rank_buff
        ranks_are_partially_sorted init_buffers).1.Perm (List.range lefs.length) ∧
      (rank_lefs split_sort pdq_sort lefs rev_lef_rank_buff fwd_lef_rank_buff
        ranks_are_partially_sorted init_buffers).2.Perm (List.range lefs.length) := by
  have hrev0 : (if init_buffers = true then List.range rev_lef_rank_buff.length
      else rev_lef_rank_buff).Perm (List.range lefs.length) := by
    split_ifs with hi
    · rw [hrev]
    · rcases hinit with h | h
      · exact absurd h hi
      · exact h.1
  have hfwd0 : (if init_buffers = true then List.range fwd_lef_rank_buff.length
      else fwd_lef_rank_buff).Perm (List.range lefs.length) := by
    split_ifs with hi
    · rw [hfwd]
    · rcases hinit with h | h
      · exact absurd h hi
      · exact h.2
  have hsel : ∀ (f : Nat → Nat) (comp : Nat → Nat → Bool)
      (_ : ∀ a b, comp a b = decide (f a < f b)) (l : List Nat),
      (if ranks_are_partially_sorted = true then split_sort comp l
        else pdq_sort comp l).Perm l := by
    intro f comp hcomp l
    split_ifs
    · exact (hsplit f comp l hcomp).1
    · exact (hpdq f comp l hcomp).1
  unfold rank_lefs
  refine ⟨?_, ?_⟩
  · exact (sort_ties_perm _ _ _ _).trans
      ((hsel (fun r => (lef_at lefs r).rev_unit.pos) _ (fun _ _ => rfl) _).trans hrev0)
  · exact (sort_ties_perm _ _ _ _).trans
      ((hsel (fun r => (lef_at lefs r).fwd_unit.pos) _ (fun _ _ => rfl) _).trans hfwd0)

/-- C18: for every array of LEFs and rank buffers of its size, with sorters that meet the
contract of a comparison sort, `rank_lefs` called with `init_buffers = true` or with buffers that
already are permutations of `[0, num_lefs)` returns two permutations of `[0, num_lefs)` in
which every two neighbouring rev ranks whose LEFs have the same rev position have binding
epochs in non-decreasing order, and every two neighbouring fwd ranks whose LEFs have the same
fwd position have binding epochs in non-increasing order. -/
theorem rank_lefs_ties_by_binding_epoch
    (split_sort pdq_sort : (Nat → Nat → Bool) → List Nat → List Nat)
    (hsplit : SortContract split_sort) (hpdq : SortContract pdq_sort)
    (lefs : List Lef) (rev_lef_rank_buff fwd_lef_rank_buff : List Nat)
    (ranks_are_partially_sorted init_buffers : Bool)
    (hrev : rev_lef_rank_buff.length = lefs.length)
    (hfwd : fwd_lef_rank_buff.length = lefs.length)
    (hinit : init_buffers = true ∨
      (rev_lef_rank_buff.Perm (List.range lefs.length) ∧
        fwd_lef_rank_buff.Perm (List.range lefs.length))) :
    (rank_lefs split_sort pdq_sort lefs rev_lef_rank_buff fwd_lef_rank_buff
        ranks_are_partially_sorted init_buffers).1.Perm (List.range lefs.length) ∧
      (rank_lefs split_sort pdq_sort lefs rev_lef_rank_buff fwd_lef_rank_buff
        ranks_are_partially_sorted init_buffers).2.Perm (List.range lefs.length) ∧
      (rank_lefs split_sort pdq_sort lefs rev_lef_rank_buff fwd_lef_rank_buff
        ranks_are_partially_sorted init_buffers).1.Chain'
          (fun a b => (lef_at lefs a).rev_unit.pos = (lef_at lefs b).rev_unit.pos →
            (lef_at lefs a).binding_epoch ≤ (lef_at lefs b).binding_epoch) ∧
      (rank_lefs split_sort pdq_sort lefs rev_lef_rank_buff fwd_lef_rank_buff
        ranks_are_partially_sorted init_buffers).2.Chain'
          (fun a b => (lef_at lefs a).fwd_unit.pos = (lef_at lefs b).fwd_unit.pos →
            (lef_at lefs b).binding_epoch ≤ (lef_at lefs a).binding_epoch) :=
  ⟨(rank_lefs_perm split_sort pdq_sort hsplit hpdq lefs rev_lef_rank_buff fwd_lef_rank_buff
      ranks_are_partially_sorted init_buffers hrev hfwd hinit).1,
    (rank_lefs_perm split_sort pdq_sort hsplit hpdq lefs rev_lef_rank_buff fwd_lef_rank_buff
      ranks_are_partially_sorted init_buffers hrev hfwd hinit).2,
    (rank_lefs_ties_chain split_sort pdq_sort lefs rev_lef_rank_buff fwd_lef_rank_buff
      ranks_are_partially_sorted init_buffers).1,
    (rank_lefs_ties_chain split_sort pdq_sort lefs rev_lef_rank_buff fwd_lef_rank_buff
      ranks_are_partially_sorted init_buffers).2⟩

/-- The example has a tie of two rev positions and a tie of three fwd positions: the rev ranks
are 2, 1, 0, 3 (LEF 1, bound at epoch 1, before LEF 0, bound at epoch 3) and the fwd ranks are
3, 0, 2, 1 (epochs 3, 2, 1 at the fwd position 9). -/
theorem rank_lefs_ties_by_binding_epoch_witness :
    ((rank_lefs insertion_sort insertion_sort ranking_example [0, 0, 0, 0] [0, 0, 0, 0]
        true true).1.Perm (List.range ranking_example.length) ∧
      (rank_lefs insertion_sort insertion_sort ranking_example [0, 0, 0, 0] [0, 0, 0, 0]
        true true).2.Perm (List.range ranking_example.length) ∧
      (rank_lefs insertion_sort insertion_sort ranking_example [0, 0, 0, 0] [0, 0, 0, 0]
        true true).1.Chain'
          (fun a b => (lef_at ranking_example a).rev_unit.pos =
              (lef_at ranking_example b).rev_unit.pos →
            (lef_at ranking_example a).binding_epoch ≤
              (lef_at ranking_example b).binding_epoch) ∧
      (rank_lefs insertion_sort insertion_sort ranking_example [0, 0, 0, 0] [0, 0, 0, 0]
        true true).2.Chain'
          (fun a b => (lef_at ranking_example a).fwd_unit.pos =
              (lef_at ranking_example b).fwd_unit.pos →
            (lef_at ranking_example b).binding_epoch ≤
              (lef_at ranking_example a).binding_epoch)) ∧
      rank_lefs insertion_sort insertion_sort ranking_example [0, 0, 0, 0] [0, 0, 0, 0]
        true true = ([2, 1, 0, 3], [3, 0, 2, 1]) :=
  ⟨rank_lefs_ties_by_binding_epoch insertion_sort insertion_sort insertion_sort_contract
    insertion_sort_contract ranking_example [0, 0, 0, 0] [0, 0, 0, 0] true true
    (by decide) (by decide) (Or.inl rfl), by decide⟩

theorem getElem?_eq_some_getD (l : List Nat) (i : Nat) (h : i < l.length) :
    l[i]? = some (l.getD i 0) := by
  rw [List.getD_eq_getElem?_getD, List.getElem?_eq_getElem h]
  rfl

theorem extrude_loop_spec (ndebug : Bool) (chrom : Chromosome) (rev_moves fwd_moves : List Nat)
    (i2 : Nat) (fuel : Nat) :
    ∀ (i1 : Nat) (lefs : List Lef), i2 ≤ lefs.length → lefs.length ≤ rev_moves.length →
      lefs.length ≤ fwd_moves.length → i2 < i1 + fuel → 0 < fuel →
      (ndebug = false → ∀ i lef, i1 ≤ i → i < i2 → lefs[i]? = some lef → lef.bound = true →
        (lef.rev_unit.pos ≤ lef.fwd_unit.pos ∧
          lef.rev_unit.pos ≥ (chrom.start_pos + rev_moves.getD i 0) % SIZE_MOD ∧
          (lef.fwd_unit.pos + fwd_moves.getD i 0) % SIZE_MOD ≤
            (chrom.end_pos + SIZE_MOD - 1) % SIZE_MOD) ∧
        (move_lef lef (rev_moves.getD i 0) (fwd_moves.getD i 0)).rev_unit.pos ≤
          (move_lef lef (rev_moves.getD i 0) (fwd_moves.getD i 0)).fwd_unit.pos) →
      ∃ (out : List Lef), extrude_loop ndebug chrom rev_moves fwd_moves i2 fuel i1 lefs = Except.ok out ∧
        out.length = lefs.length ∧
        ∀ i, out[i]? = (lefs[i]?).map (fun lef =>
          if i1 ≤ i ∧ i < i2 ∧ lef.bound = true then
            move_lef lef (rev_moves.getD i 0) (fwd_moves.getD i 0)
          else lef) := by
  induction fuel with
  | zero => intro _ _ _ _ _ _ h; exact absurd h (lt_irrefl 0)
  | succ fuel ih =>
    intro i1 lefs hi2 hrev hfwd hfuel _ hdbg
    unfold extrude_loop
    by_cases h : i1 < i2
    · rw [if_pos h]
      have hlt : i1 < lefs.length := by omega
      have hget : lefs[i1]? = some lefs[i1] := List.getElem?_eq_getElem hlt
      rw [hget]
      simp only
      by_cases hb : (lefs[i1]).is_bound = false
      · rw [if_pos hb]
        obtain ⟨out, hout, hlen, hcells⟩ := ih (i1 + 1) lefs hi2 hrev hfwd (by omega) (by omega)
          (fun hn i lef h1 h2 => hdbg hn i lef (by omega) h2)
        refine ⟨out, hout, hlen, ?_⟩
        intro i
        rw [hcells i]
        by_cases hi : i = i1
        · subst hi
          rw [hget]
          have hb2 : (lefs[i]).bound = false := hb
          simp [hb2]
        · cases hc : lefs[i]? with
          | none => rfl
          | some lef =>
            have hiff : (i1 + 1 ≤ i) ↔ i1 ≤ i := by omega
            simp only [Option.map_some', hiff]
      · rw [if_neg hb]
        have hb2 : (lefs[i1]).bound = true := by
          have : (lefs[i1]).is_bound = true := by simpa using hb
          exact this
        rw [getElem?_eq_some_getD rev_moves i1 (by omega),
          getElem?_eq_some_getD fwd_moves i1 (by omega)]
        simp only
        have hchk : ndebug = false → _ := fun hn => hdbg hn i1 lefs[i1] (le_refl _) h hget hb2
        rw [if_neg (fun hx => hx.2 (hchk hx.1).1), if_neg (fun hx => hx.2 (hchk hx.1).2)]
        obtain ⟨out, hout, hlen, hcells⟩ := ih (i1 + 1)
          (lefs.set i1 (move_lef lefs[i1] (rev_moves.getD i1 0) (fwd_moves.getD i1 0)))
          (by simpa using hi2) (by simpa using hrev) (by simpa using hfwd) (by omega) (by omega)
          (fun hn i lef h1 h2 h3 => hdbg hn i lef (by omega) h2 (by
            rw [List.getElem?_set_ne (by omega)] at h3
            exact h3))
        refine ⟨out, hout, by simpa using hlen, ?_⟩
        intro i
        rw [hcells i]
        by_cases hi : i = i1
        · subst hi
          rw [List.getElem?_set_eq_of_lt _ hlt, hget]
          simp [hb2, h]
        · rw [List.getElem?_set_ne (fun hx => hi hx.symm)]
          cases hc : lefs[i]? with
          | none => rfl
          | some lef =>
            have hiff : (i1 + 1 ≤ i) ↔ i1 ≤ i := by omega
            simp only [Option.map_some', hiff]
    · rw [if_neg h]
      refine ⟨lefs, rfl, rfl, ?_⟩
      intro i
      cases hc : lefs[i]? with
      | none => rfl
      | some lef =>
        have : ¬ (i1 ≤ i ∧ i < i2 ∧ lef.bound = true) := by omega
        simp only [Option.map_some', if_neg this]

theorem extrude_spec (ndebug : Bool) (chrom : Chromosome) (lefs : List Lef)
    (rev_moves fwd_moves : List Nat) (num_rev_units_at_5prime num_fwd_units_at_3prime : Nat)
    (hrev : lefs.length = rev_moves.length) (hfwd : lefs.length = fwd_moves.length)
    (hn5 : num_rev_units_at_5prime ≤ lefs.length) (hn3 : num_fwd_units_at_3prime ≤ lefs.length)
    (hsize : lefs.length < SIZE_MOD)
    (hdbg : ndebug = false → ∀ i lef, num_rev_units_at_5prime - 1 ≤ i →
      i + num_fwd_units_at_3prime < lefs.length → lefs[i]? = some lef → lef.bound = true →
        (lef.rev_unit.pos ≤ lef.fwd_unit.pos ∧
          lef.rev_unit.pos ≥ (chrom.start_pos + rev_moves.getD i 0) % SIZE_MOD ∧
          (lef.fwd_unit.pos + fwd_moves.getD i 0) % SIZE_MOD ≤
            (chrom.end_pos + SIZE_MOD - 1) % SIZE_MOD) ∧
        (move_lef lef (rev_moves.getD i 0) (fwd_moves.getD i 0)).rev_unit.pos ≤
          (move_lef lef (rev_moves.getD i 0) (fwd_moves.getD i 0)).fwd_unit.pos) :
    ∃ (out : List Lef), extrude ndebug chrom lefs rev_moves fwd_moves num_rev_units_at_5prime
        num_fwd_units_at_3prime = Except.ok out ∧
      out.length = lefs.length ∧
      ∀ i, out[i]? = (lefs[i]?).map (fun lef =>
        if num_rev_units_at_5prime - 1 ≤ i ∧ i + num_fwd_units_at_3prime < lefs.length ∧
            lef.bound = true then
          move_lef lef (rev_moves.getD i 0) (fwd_moves.getD i 0)
        else lef) := by
  unfold extrude
  rw [if_neg (fun hx => hx.2 ⟨hrev, hfwd, hn5, hn3⟩)]
  have hi2 : (lefs.length + SIZE_MOD - num_fwd_units_at_3prime) % SIZE_MOD =
      lefs.length - num_fwd_units_at_3prime := by
    unfold SIZE_MOD at hsize ⊢
    omega
  have hi1 : (if num_rev_units_at_5prime = 0 then 0 else num_rev_units_at_5prime - 1) =
      num_rev_units_at_5prime - 1 := by
    split_ifs <;> omega
  rw [hi2, hi1]
  obtain ⟨out, hout, hlen, hcells⟩ := extrude_loop_spec ndebug chrom rev_moves fwd_moves
    (lefs.length - num_fwd_units_at_3prime) (lefs.length + 1) (num_rev_units_at_5prime - 1) lefs
    (by omega) (by omega) (by omega) (by omega) (by omega)
    (fun hn i lef h1 h2 => hdbg hn i lef h1 (by omega))
  refine ⟨out, hout, hlen, ?_⟩
  intro i
  rw [hcells i]
  cases hc : lefs[i]? with
  | none => rfl
  | some lef =>
    have hiff : i < lefs.length - num_fwd_units_at_3prime ↔
        i + num_fwd_units_at_3prime < lefs.length := by omega
    simp only [Option.map_some', hiff]

theorem move_lef_exact (chrom : Chromosome) (lef : Lef) (rev_move fwd_move : Nat)
    (hend : chrom.end_pos < SIZE_MOD)
    (h1 : lef.rev_unit.pos ≤ lef.fwd_unit.pos)
    (h2 : chrom.start_pos + rev_move ≤ lef.rev_unit.pos)
    (h3 : lef.fwd_unit.pos + fwd_move ≤ chrom.end_pos - 1) :
    ((lef.rev_unit.pos ≤ lef.fwd_unit.pos ∧
        lef.rev_unit.pos ≥ (chrom.start_pos + rev_move) % SIZE_MOD ∧
        (lef.fwd_unit.pos + fwd_move) % SIZE_MOD ≤ (chrom.end_pos + SIZE_MOD - 1) % SIZE_MOD) ∧
      (move_lef lef rev_move fwd_move).rev_unit.pos ≤
        (move_lef lef rev_move fwd_move).fwd_unit.pos) ∧
      (move_lef lef rev_move fwd_move).rev_unit.pos = lef.rev_unit.pos - rev_move ∧
      (move_lef lef rev_move fwd_move).fwd_unit.pos = lef.fwd_unit.pos + fwd_move := by
  unfold move_lef ExtrusionUnit.pos at *
  simp only
  unfold SIZE_MOD at *
  omega

/-- C19: if before `extrude` every bound LEF `i` satisfies `start ≤ rev.pos ≤ fwd.pos < end`,
`start + rev_moves[i] ≤ rev.pos` and `fwd.pos + fwd_moves[i] ≤ end - 1`, then, for move arrays of
the size of the LEF array and any boundary counts not above that size, `extrude` returns and
every bound LEF of the result satisfies `start ≤ rev.pos ≤ fwd.pos < end`; in both builds. -/
theorem extrude_preserves_position_invariant (ndebug : Bool) (chrom : Chromosome)
    (lefs : List Lef) (rev_moves fwd_moves : List Nat)
    (num_rev_units_at_5prime num_fwd_units_at_3prime : Nat)
    (hrev : lefs.length = rev_moves.length) (hfwd : lefs.length = fwd_moves.length)
    (hn5 : num_rev_units_at_5prime ≤ lefs.length) (hn3 : num_fwd_units_at_3prime ≤ lefs.length)
    (hsize : lefs.length < SIZE_MOD) (hend : chrom.end_pos < SIZE_MOD)
    (hinv : ∀ i lef, lefs[i]? = some lef → lef.is_bound = true →
      chrom.start_pos ≤ lef.rev_unit.pos ∧ lef.rev_unit.pos ≤ lef.fwd_unit.pos ∧
        lef.fwd_unit.pos < chrom.end_pos ∧
        chrom.start_pos + rev_moves.getD i 0 ≤ lef.rev_unit.pos ∧
        lef.fwd_unit.pos + fwd_moves.getD i 0 ≤ chrom.end_pos - 1) :
    ∃ (out : List Lef), extrude ndebug chrom lefs rev_moves fwd_moves num_rev_units_at_5prime
        num_fwd_units_at_3prime = Except.ok out ∧
      out.length = lefs.length ∧
      ∀ (i : Nat) (lef : Lef), out[i]? = some lef → lef.is_bound = true →
        chrom.start_pos ≤ lef.rev_unit.pos ∧ lef.rev_unit.pos ≤ lef.fwd_unit.pos ∧
          lef.fwd_unit.pos < chrom.end_pos := by
  obtain ⟨out, hout, hlen, hcells⟩ := extrude_spec ndebug chrom lefs rev_moves fwd_moves
    num_rev_units_at_5prime num_fwd_units_at_3prime hrev hfwd hn5 hn3 hsize
    (fun _ i lef _ _ hget hb =>
      (move_lef_exact chrom lef _ _ hend (hinv i lef hget hb).2.1 (hinv i lef hget hb).2.2.2.1
        (hinv i lef hget hb).2.2.2.2).1)
  refine ⟨out, hout, hlen, ?_⟩
  intro i lef hget hb
  rw [hcells i] at hget
  cases hc : lefs[i]? with
  | none => rw [hc] at hget; simp at hget
  | some old =>
    rw [hc] at hget
    simp only [Option.map_some', Option.some.injEq] at hget
    split_ifs at hget with hcond
    · have hold := hinv i old hc hcond.2.2
      have hex := (move_lef_exact chrom old _ _ hend hold.2.1 hold.2.2.2.1 hold.2.2.2.2).2
      rw [hget] at hex
      omega
    · rw [← hget]
      have hold := hinv i old hc (by rw [← hget] at hb; exact hb)
      exact ⟨hold.1, hold.2.1, hold.2.2.1⟩

theorem extrusion_example_cells (i : Nat) (lef : Lef) (h : extrusion_example[i]? = some lef) :
    (i = 0 ∧ lef = ⟨0, ⟨20⟩, ⟨30⟩, true⟩) ∨ (i = 1 ∧ lef = ⟨0, ⟨50⟩, ⟨60⟩, true⟩) ∨
      (i = 2 ∧ lef = ⟨0, ⟨70⟩, ⟨70⟩, false⟩) := by
  unfold extrusion_example at h
  rcases i with _ | _ | _ | i
  · left; simp at h; exact ⟨rfl, h.symm⟩
  · right; left; simp at h; exact ⟨rfl, h.symm⟩
  · right; right; simp at h; exact ⟨rfl, h.symm⟩
  · simp at h

theorem extrude_preserves_position_invariant_witness :
    ∃ (out : List Lef), extrude false ⟨0, 100⟩ extrusion_example [3, 4, 0] [5, 6, 0] 0 0 = Except.ok out ∧
      out.length = extrusion_example.length ∧
      ∀ (i : Nat) (lef : Lef), out[i]? = some lef → lef.is_bound = true →
        (⟨0, 100⟩ : Chromosome).start_pos ≤ lef.rev_unit.pos ∧
          lef.rev_unit.pos ≤ lef.fwd_unit.pos ∧
          lef.fwd_unit.pos < (⟨0, 100⟩ : Chromosome).end_pos :=
  extrude_preserves_position_invariant false ⟨0, 100⟩ extrusion_example [3, 4, 0] [5, 6, 0] 0 0
    (by decide) (by decide) (by decide) (by decide) (by decide) (by decide)
    (by
      intro i lef h _
      rcases extrusion_example_cells i lef h with ⟨rfl, rfl⟩ | ⟨rfl, rfl⟩ | ⟨rfl, rfl⟩ <;> decide)

/-- With `num_rev_units_at_5prime = 2` the first LEF of the example, bound and away from both
ends of the chromosome `[0, 100)` with its moves 3 and 5, is not moved, in either build. -/
theorem extrude_skips_lef_below_boundary_count :
    extrusion_example[0]? = some ⟨0, ⟨20⟩, ⟨30⟩, true⟩ ∧
      (⟨0, 100⟩ : Chromosome).start_pos + 3 < 20 ∧ 30 + 5 < (⟨0, 100⟩ : Chromosome).end_pos - 1 ∧
      ∀ ndebug, extrude ndebug ⟨0, 100⟩ extrusion_example [3, 4, 0] [5, 6, 0] 2 0 =
        Except.ok [⟨0, ⟨20⟩, ⟨30⟩, true⟩, ⟨0, ⟨46⟩, ⟨66⟩, true⟩, ⟨0, ⟨70⟩, ⟨70⟩, false⟩] := by
  refine ⟨by decide, by decide, by decide, ?_⟩
  intro ndebug
  cases ndebug <;> decide

/-- For move arrays of the size of the LEF array and boundary counts not above that size (in a
debug build, every bound LEF of the processed range passing the assertions of `extrude`),
`extrude` returns, moves every bound LEF whose index lies in
`[max(num_rev_units_at_5prime, 1) - 1, num_lefs - num_fwd_units_at_3prime)` by exactly its
moves when these do not wrap around, and leaves every other LEF unchanged. -/
theorem extrude_moves_lefs_in_range (ndebug : Bool) (chrom : Chromosome)
    (lefs : List Lef) (rev_moves fwd_moves : List Nat)
    (num_rev_units_at_5prime num_fwd_units_at_3prime : Nat)
    (hrev : lefs.length = rev_moves.length) (hfwd : lefs.length = fwd_moves.length)
    (hn5 : num_rev_units_at_5prime ≤ lefs.length) (hn3 : num_fwd_units_at_3prime ≤ lefs.length)
    (hsize : lefs.length < SIZE_MOD)
    (hdbg : ndebug = false → chrom.end_pos < SIZE_MOD ∧
      ∀ i lef, num_rev_units_at_5prime - 1 ≤ i → i + num_fwd_units_at_3prime < lefs.length →
        lefs[i]? = some lef → lef.is_bound = true →
          lef.rev_unit.pos ≤ lef.fwd_unit.pos ∧
            chrom.start_pos + rev_moves.getD i 0 ≤ lef.rev_unit.pos ∧
            lef.fwd_unit.pos + fwd_moves.getD i 0 ≤ chrom.end_pos - 1) :
    ∃ (out : List Lef), extrude ndebug chrom lefs rev_moves fwd_moves num_rev_units_at_5prime
        num_fwd_units_at_3prime = Except.ok out ∧
      out.length = lefs.length ∧
      ∀ (i : Nat) (lef : Lef), lefs[i]? = some lef →
        (lef.is_bound = true → num_rev_units_at_5prime - 1 ≤ i →
          i + num_fwd_units_at_3prime < lefs.length →
          rev_moves.getD i 0 ≤ lef.rev_unit.pos → lef.rev_unit.pos < SIZE_MOD →
          lef.fwd_unit.pos + fwd_moves.getD i 0 < SIZE_MOD →
            out[i]? = some { lef with
              rev_unit := ⟨lef.rev_unit.pos - rev_moves.getD i 0⟩,
              fwd_unit := ⟨lef.fwd_unit.pos + fwd_moves.getD i 0⟩ }) ∧
        (lef.is_bound = false ∨ i < num_rev_units_at_5prime - 1 ∨
          lefs.length ≤ i + num_fwd_units_at_3prime → out[i]? = some lef) := by
  obtain ⟨out, hout, hlen, hcells⟩ := extrude_spec ndebug chrom lefs rev_moves fwd_moves
    num_rev_units_at_5prime num_fwd_units_at_3prime hrev hfwd hn5 hn3 hsize
    (fun hn i lef h1 h2 hget hb =>
      (move_lef_exact chrom lef _ _ (hdbg hn).1 ((hdbg hn).2 i lef h1 h2 hget hb).1
        ((hdbg hn).2 i lef h1 h2 hget hb).2.1 ((hdbg hn).2 i lef h1 h2 hget hb).2.2).1)
  refine ⟨out, hout, hlen, ?_⟩
  intro i lef hget
  rw [hcells i, hget]
  simp only [Option.map_some', Option.some.injEq]
  refine ⟨?_, ?_⟩
  · intro hb h1 h2 hr hrlt hf
    rw [if_pos ⟨h1, h2, hb⟩]
    unfold move_lef
    have e1 : (lef.rev_unit._pos + SIZE_MOD - rev_moves.getD i 0 % SIZE_MOD) % SIZE_MOD =
        lef.rev_unit.pos - rev_moves.getD i 0 := by
      unfold ExtrusionUnit.pos SIZE_MOD at *
      omega
    have e2 : (lef.fwd_unit._pos + fwd_moves.getD i 0) % SIZE_MOD =
        lef.fwd_unit.pos + fwd_moves.getD i 0 := by
      unfold ExtrusionUnit.pos at *
      exact Nat.mod_eq_of_lt hf
    rw [e1, e2]
  · intro h
    rw [if_neg]
    intro hx
    rcases h with h | h | h
    · have : lef.bound = false := h
      rw [this] at hx
      exact absurd hx.2.2 (by decide)
    · omega
    · omega

theorem extrude_moves_lefs_in_range_witness :
    ∃ (out : List Lef), extrude false ⟨0, 100⟩ extrusion_example [3, 4, 0] [5, 6, 0] 2 0 = Except.ok out ∧
      out.length = extrusion_example.length ∧
      ∀ (i : Nat) (lef : Lef), extrusion_example[i]? = some lef →
        (lef.is_bound = true → 2 - 1 ≤ i → i + 0 < extrusion_example.length →
          [3, 4, 0].getD i 0 ≤ lef.rev_unit.pos → lef.rev_unit.pos < SIZE_MOD →
          lef.fwd_unit.pos + [5, 6, 0].getD i 0 < SIZE_MOD →
            out[i]? = some { lef with
              rev_unit := ⟨lef.rev_unit.pos - [3, 4, 0].getD i 0⟩,
              fwd_unit := ⟨lef.fwd_unit.pos + [5, 6, 0].getD i 0⟩ }) ∧
        (lef.is_bound = false ∨ i < 2 - 1 ∨ extrusion_example.length ≤ i + 0 →
          out[i]? = some lef) :=
  extrude_moves_lefs_in_range false ⟨0, 100⟩ extrusion_example [3, 4, 0] [5, 6, 0] 2 0
    (by decide) (by decide) (by decide) (by decide) (by decide)
    (by
      intro _
      refine ⟨by decide, ?_⟩
      intro i lef _ _ h _
      rcases extrusion_example_cells i lef h with ⟨rfl, rfl⟩ | ⟨rfl, rfl⟩ | ⟨rfl, rfl⟩ <;> decide)

/-- C20.  Three bound LEFs on the chromosome `[0, 100)`: LEF 0 at (20, 30), LEF 1 at (0, 40) and
LEF 2 at (0, 50).  Two rev units are at the 5'-end and no fwd unit is at the 3'-end, so the
boundary counts are (2, 0).  `extrude` uses the count as an index into the LEF array and starts
at LEF 1: LEF 0, which is bound and with its moves 3 and 5 stays away from both ends, is left
at (20, 30) in either build, where the claim has it moved to (17, 35). -/
theorem extrude_skips_lef_that_is_not_at_a_boundary :
    extrude false ⟨0, 100⟩
        [⟨0, ⟨20⟩, ⟨30⟩, true⟩, ⟨0, ⟨0⟩, ⟨40⟩, true⟩, ⟨0, ⟨0⟩, ⟨50⟩, true⟩] [3, 0, 0] [5, 6, 7] 2 0 =
      Except.ok [⟨0, ⟨20⟩, ⟨30⟩, true⟩, ⟨0, ⟨0⟩, ⟨46⟩, true⟩, ⟨0, ⟨0⟩, ⟨57⟩, true⟩] ∧
    extrude true ⟨0, 100⟩
        [⟨0, ⟨20⟩, ⟨30⟩, true⟩, ⟨0, ⟨0⟩, ⟨40⟩, true⟩, ⟨0, ⟨0⟩, ⟨50⟩, true⟩] [3, 0, 0] [5, 6, 7] 2 0 =
      Except.ok [⟨0, ⟨20⟩, ⟨30⟩, true⟩, ⟨0, ⟨0⟩, ⟨46⟩, true⟩, ⟨0, ⟨0⟩, ⟨57⟩, true⟩] ∧
    (([⟨0, ⟨20⟩, ⟨30⟩, true⟩, ⟨0, ⟨0⟩, ⟨40⟩, true⟩, ⟨0, ⟨0⟩, ⟨50⟩, true⟩] : List Lef).filter
      (fun lef => decide (lef.rev_unit.pos = (⟨0, 100⟩ : Chromosome).start_pos))).length = 2 ∧
    (([⟨0, ⟨20⟩, ⟨30⟩, true⟩, ⟨0, ⟨0⟩, ⟨40⟩, true⟩, ⟨0, ⟨0⟩, ⟨50⟩, true⟩] : List Lef).filter
      (fun lef => decide (lef.fwd_unit.pos = (⟨0, 100⟩ : Chromosome).end_pos - 1))).length = 0 ∧
    (⟨0, 100⟩ : Chromosome).start_pos < 20 - 3 ∧
    30 + 5 < (⟨0, 100⟩ : Chromosome).end_pos - 1 := by
  decide

/-! ## Collisions of LEFs -/

/-- The double computation of `compute_lef_lef_collision_pos` for operands below `2^48`: the
rounded distance `R` of the fwd unit to the collision is within 19/32 of the exact value
`fwd_move * distance / (rev_move + fwd_move)`, the debug assertions hold, and the function
returns `(fwd_pos + max(R, 1), fwd_pos + max(R, 1) - 1)`. -/
theorem collision_pos_eval (ndebug : Bool) (fwd_pos distance rev_move fwd_move : Nat)
    (hdist : 0 < distance) (hrange : fwd_pos + distance < 2 ^ 48)
    (hspeed : 0 < rev_move + fwd_move) (hspeedM : rev_move + fwd_move < 2 ^ 48) :
    ∃ (R : Nat),
      (R : Int) = rounded_fwd_distance fwd_move distance (rev_move + fwd_move) ∧
      |(R : ℚ) - (fwd_move : ℚ) * (distance : ℚ) / ((rev_move : ℚ) + (fwd_move : ℚ))| ≤
        19 / 32 ∧
      R ≤ distance ∧
      compute_lef_lef_collision_pos ndebug ⟨fwd_pos + distance⟩ ⟨fwd_pos⟩ rev_move fwd_move =
        Except.ok (fwd_pos + max R 1, fwd_pos + max R 1 - 1) := by
  have e1 : (rev_move + fwd_move) % SIZE_MOD = rev_move + fwd_move :=
    Nat.mod_eq_of_lt (by unfold SIZE_MOD; omega)
  have e2 : (fwd_pos + distance + SIZE_MOD - fwd_pos % SIZE_MOD) % SIZE_MOD = distance := by
    unfold SIZE_MOD at *
    omega
  -- the operands as rational numbers
  have ha0 : (0 : ℚ) ≤ (distance : ℚ) := by positivity
  have haM : (distance : ℚ) ≤ 2 ^ 48 := by
    have : distance ≤ 2 ^ 48 := by omega
    exact_mod_cast this
  have hb1 : (1 : ℚ) ≤ ((rev_move + fwd_move : Nat) : ℚ) := by exact_mod_cast hspeed
  have hbM : ((rev_move + fwd_move : Nat) : ℚ) ≤ 2 ^ 48 := by
    have : rev_move + fwd_move ≤ 2 ^ 48 := by omega
    exact_mod_cast this
  have hf0 : (0 : ℚ) ≤ (fwd_move : ℚ) := by positivity
  have hr0 : (0 : ℚ) ≤ (rev_move : ℚ) := by positivity
  have hfb : (fwd_move : ℚ) ≤ ((rev_move + fwd_move : Nat) : ℚ) := by
    have : fwd_move ≤ rev_move + fwd_move := by omega
    exact_mod_cast this
  have hrb : (rev_move : ℚ) ≤ ((rev_move + fwd_move : Nat) : ℚ) := by
    have : rev_move ≤ rev_move + fwd_move := by omega
    exact_mod_cast this
  have ht : time_to_collision distance (rev_move + fwd_move) =
      binary64 ((distance : ℚ) / ((rev_move + fwd_move : Nat) : ℚ)) := by
    unfold time_to_collision
    rw [binary64_natCast distance (by omega), binary64_natCast (rev_move + fwd_move) (by omega)]
  obtain ⟨hP0, hPerr, hq0, hqa⟩ := binary64_mul_div_error (distance : ℚ)
    ((rev_move + fwd_move : Nat) : ℚ) (fwd_move : ℚ) ha0 hb1 hf0 hfb haM hbM
  obtain ⟨hS0, hSerr, hs0, hsa⟩ := binary64_mul_div_error (distance : ℚ)
    ((rev_move + fwd_move : Nat) : ℚ) (rev_move : ℚ) ha0 hb1 hr0 hrb haM hbM
  have hR : rounded_fwd_distance fwd_move distance (rev_move + fwd_move) =
      std_round (binary64 ((fwd_move : ℚ) *
        binary64 ((distance : ℚ) / ((rev_move + fwd_move : Nat) : ℚ)))) := by
    unfold rounded_fwd_distance
    rw [ht, binary64_natCast fwd_move (by omega)]
  have hR0 := std_round_nonneg _ hP0
  have hRerr := std_round_error (binary64 ((fwd_move : ℚ) *
        binary64 ((distance : ℚ) / ((rev_move + fwd_move : Nat) : ℚ))))
  rw [abs_le] at hPerr hSerr hRerr
  have hRle : std_round (binary64 ((fwd_move : ℚ) *
        binary64 ((distance : ℚ) / ((rev_move + fwd_move : Nat) : ℚ)))) ≤ (distance : Int) :=
    std_round_le _ _ (by rw [Int.cast_natCast]; linarith [hPerr.2]) hP0
  rw [← hR] at hR0 hRle hRerr
  obtain ⟨R, hRn⟩ := Int.eq_ofNat_of_zero_le hR0
  have hRd : R ≤ distance := by
    rw [hRn] at hRle
    exact_mod_cast hRle
  have hcast : ((rev_move : ℚ) + (fwd_move : ℚ)) = ((rev_move + fwd_move : Nat) : ℚ) := by
    push_cast
    rfl
  have hRq : (R : ℚ) = ((rounded_fwd_distance fwd_move distance (rev_move + fwd_move) : Int) : ℚ) := by
    rw [hRn]
    rfl
  have hRabs : |(R : ℚ) - (fwd_move : ℚ) * (distance : ℚ) /
      ((rev_move : ℚ) + (fwd_move : ℚ))| ≤ 19 / 32 := by
    rw [hcast, hRq, abs_le]
    constructor <;> linarith [hRerr.1, hRerr.2, hPerr.1, hPerr.2]
  -- the debug-only comparison with `collision_pos_`
  have hbne : ((rev_move + fwd_move : Nat) : ℚ) ≠ 0 := by linarith
  have hid : (fwd_move : ℚ) * (distance : ℚ) / ((rev_move + fwd_move : Nat) : ℚ) +
      (rev_move : ℚ) * (distance : ℚ) / ((rev_move + fwd_move : Nat) : ℚ) = (distance : ℚ) := by
    have hsum : (fwd_move : ℚ) + (rev_move : ℚ) = ((rev_move + fwd_move : Nat) : ℚ) := by
      push_cast
      ring
    calc (fwd_move : ℚ) * (distance : ℚ) / ((rev_move + fwd_move : Nat) : ℚ) +
          (rev_move : ℚ) * (distance : ℚ) / ((rev_move + fwd_move : Nat) : ℚ)
        = ((fwd_move : ℚ) + (rev_move : ℚ)) * (distance : ℚ) /
          ((rev_move + fwd_move : Nat) : ℚ) := by ring
      _ = ((rev_move + fwd_move : Nat) : ℚ) * (distance : ℚ) /
          ((rev_move + fwd_move : Nat) : ℚ) := by rw [hsum]
      _ = (distance : ℚ) := mul_div_cancel_left₀ _ hbne
  have htiny : (1 : ℚ) / 2 ^ 1075 ≤ 1 / 2 ^ 60 := by
    apply one_div_le_one_div_of_le (by positivity)
    exact pow_le_pow_right₀ (by norm_num) (by norm_num)
  have e60 : (1 : ℚ) / 2 ^ 60 ≤ 1 / 1024 := by norm_num
  have hrpos : ((fwd_pos + distance : Nat) : ℚ) ≤ 2 ^ 48 := by
    have : fwd_pos + distance ≤ 2 ^ 48 := by omega
    exact_mod_cast this
  have hrpos0 : (0 : ℚ) ≤ ((fwd_pos + distance : Nat) : ℚ) := by positivity
  have hrposeq : ((fwd_pos + distance : Nat) : ℚ) = (fwd_pos : ℚ) + (distance : ℚ) := by
    push_cast
    rfl
  have hcpeq : ((fwd_pos + R : Nat) : ℚ) = (fwd_pos : ℚ) + (R : ℚ) := by
    push_cast
    rfl
  have hA := binary64_error (((fwd_pos + distance : Nat) : ℚ) -
    binary64 ((rev_move : ℚ) * binary64 ((distance : ℚ) / ((rev_move + fwd_move : Nat) : ℚ))))
  have hAabs : |((fwd_pos + distance : Nat) : ℚ) -
      binary64 ((rev_move : ℚ) * binary64 ((distance : ℚ) / ((rev_move + fwd_move : Nat) : ℚ)))| ≤
      2 ^ 48 + 1 := by
    rw [abs_le]
    constructor <;> linarith [hSerr.1, hSerr.2]
  have hA53 : |((fwd_pos + distance : Nat) : ℚ) -
      binary64 ((rev_move : ℚ) * binary64 ((distance : ℚ) / ((rev_move + fwd_move : Nat) : ℚ)))| /
      2 ^ 53 ≤ 1 / 32 + 1 / 2 ^ 53 := by
    rw [div_le_iff₀ (by positivity)]
    have : ((1 : ℚ) / 32 + 1 / 2 ^ 53) * 2 ^ 53 = 2 ^ 48 + 1 := by norm_num
    linarith
  have e53 : (1 : ℚ) / 2 ^ 53 ≤ 1 / 1024 := by norm_num
  have hD := binary64_error (((fwd_pos + R : Nat) : ℚ) -
    binary64 (((fwd_pos + distance : Nat) : ℚ) -
      binary64 ((rev_move : ℚ) * binary64 ((distance : ℚ) / ((rev_move + fwd_move : Nat) : ℚ)))))
  have hD0 : |((fwd_pos + R : Nat) : ℚ) -
      binary64 (((fwd_pos + distance : Nat) : ℚ) -
        binary64 ((rev_move : ℚ) *
          binary64 ((distance : ℚ) / ((rev_move + fwd_move : Nat) : ℚ))))| ≤ 3 / 4 := by
    rw [abs_le] at hA ⊢
    rw [hRq] at hcpeq
    constructor <;>
      linarith [hRerr.1, hRerr.2, hPerr.1, hPerr.2, hSerr.1, hSerr.2, hA.1, hA.2]
  have hD53 : |((fwd_pos + R : Nat) : ℚ) -
      binary64 (((fwd_pos + distance : Nat) : ℚ) -
        binary64 ((rev_move : ℚ) *
          binary64 ((distance : ℚ) / ((rev_move + fwd_move : Nat) : ℚ))))| / 2 ^ 53 ≤
      1 / 1024 := by
    rw [div_le_iff₀ (by positivity)]
    have : (1 : ℚ) / 1024 * 2 ^ 53 = 2 ^ 43 := by norm_num
    have : (3 : ℚ) / 4 ≤ 2 ^ 43 := by norm_num
    linarith
  have habs : |binary64 (binary64 ((fwd_pos + R : Nat) : ℚ) -
      binary64 (binary64 ((fwd_pos + distance : Nat) : ℚ) -
        binary64 (binary64 (rev_move : ℚ) *
          time_to_collision distance (rev_move + fwd_move))))| < 1 := by
    rw [binary64_natCast (fwd_pos + R) (by omega), binary64_natCast (fwd_pos + distance) (by omega),
      binary64_natCast rev_move (by omega), ht]
    rw [abs_le] at hD hD0
    rw [abs_lt]
    constructor <;> linarith [hD.1, hD.2, hD0.1, hD0.2]
  refine ⟨R, hRn.symm, hRabs, hRd, ?_⟩
  have e3 : (fwd_pos + R) % SIZE_MOD = fwd_pos + R :=
    Nat.mod_eq_of_lt (by unfold SIZE_MOD; omega)
  unfold compute_lef_lef_collision_pos
  simp only [ExtrusionUnit.pos, e1, e2, hRn, Int.toNat_ofNat, e3]
  rw [if_neg (by
      intro h
      rcases h with h | h
      · omega
      · exact h ⟨Int.ofNat_nonneg R, by unfold SIZE_MOD; omega⟩),
    if_neg (fun hx => hx.2 (by omega)), if_neg (fun hx => hx.2 habs)]
  by_cases h0 : R = 0
  · subst h0
    simp only [Nat.add_zero, if_true]
    rw [if_neg (fun hx => hx.2 ⟨le_refl _, by unfold SIZE_MOD at *; omega⟩)]
    have e4 : (fwd_pos + 1) % SIZE_MOD = fwd_pos + 1 :=
      Nat.mod_eq_of_lt (by unfold SIZE_MOD at *; omega)
    rw [e4]
    rfl
  · rw [if_neg (by omega)]
    have e5 : (fwd_pos + R + SIZE_MOD - 1) % SIZE_MOD = fwd_pos + R - 1 := by
      unfold SIZE_MOD at *
      omega
    rw [e5, if_neg (fun hx => hx.2 ⟨by omega, by omega⟩)]
    have e6 : max R 1 = R := by omega
    rw [e6]

/-- The example of the specification: `4 * (12 / 10)` is 4.8 up to the rounding of the double
operations, which rounds to 5. -/
theorem collision_pos_example_eval (ndebug : Bool) :
    compute_lef_lef_collision_pos ndebug ⟨100⟩ ⟨88⟩ 6 4 = Except.ok (93, 92) := by
  obtain ⟨R, _, habs, _, heval⟩ := collision_pos_eval ndebug 88 12 6 4 (by norm_num)
    (by norm_num) (by norm_num) (by norm_num)
  rw [abs_le] at habs
  have h1 : (R : ℚ) < 6 := by
    have := habs.2
    norm_num at this
    linarith
  have h2 : (4 : ℚ) < (R : ℚ) := by
    have := habs.1
    norm_num at this
    linarith
  have h3 : R < 6 := by exact_mod_cast h1
  have h4 : 4 < R := by exact_mod_cast h2
  have h5 : R = 5 := by omega
  subst h5
  exact heval

/-- C21, counterexample: for a rev unit at 100 with move 6 and a fwd unit at 88 with move 4 the
fwd collision position returned is 92, while `fwd_pos + round(fwd_move * t)` is 93. -/
theorem fwd_collision_pos_is_one_below_rounded_value :
    (∀ ndebug, compute_lef_lef_collision_pos ndebug ⟨100⟩ ⟨88⟩ 6 4 = Except.ok (93, 92)) ∧
      (88 : Int) + round ((4 : ℚ) * (((100 : ℚ) - (88 : ℚ)) / ((6 : ℚ) + (4 : ℚ)))) = 93 := by
  refine ⟨collision_pos_example_eval, ?_⟩
  have h : round ((4 : ℚ) * (((100 : ℚ) - (88 : ℚ)) / ((6 : ℚ) + (4 : ℚ)))) = 5 := by
    rw [round_eq, Int.floor_eq_iff]
    norm_num
  rw [h]
  rfl

/-- C21, amended: for a rev unit at `rev_pos < 2^48` and a fwd unit at `fwd_pos < rev_pos` with
moves `0 < rev_move + fwd_move < 2^48`, `compute_lef_lef_collision_pos` returns, in both
builds, `rev_collide_pos = fwd_collide_pos + 1` with `rev_collide_pos = fwd_pos + max(R, 1)`,
where `R` is `round(fwd_move * t)`, `t = (rev_pos - fwd_pos) / (rev_move + fwd_move)`, as the
double operations give it: an integer within 19/32 of the exact product (the exact rounding
unless the product lies within 3/32 of the middle between two integers); both positions lie in
`[fwd_pos, rev_pos]`. -/
theorem compute_lef_lef_collision_pos_spec (ndebug : Bool) (rev_unit fwd_unit : ExtrusionUnit)
    (rev_move fwd_move : Nat) (hpos : fwd_unit.pos < rev_unit.pos)
    (hrange : rev_unit.pos < 2 ^ 48) (hspeed : 0 < rev_move + fwd_move)
    (hspeedM : rev_move + fwd_move < 2 ^ 48) :
    ∃ (rev_collide_pos fwd_collide_pos R : Nat),
      compute_lef_lef_collision_pos ndebug rev_unit fwd_unit rev_move fwd_move =
        Except.ok (rev_collide_pos, fwd_collide_pos) ∧
      rev_collide_pos = fwd_collide_pos + 1 ∧
      (R : Int) = rounded_fwd_distance fwd_move (rev_unit.pos - fwd_unit.pos)
        (rev_move + fwd_move) ∧
      |(R : ℚ) - (fwd_move : ℚ) *
        (((rev_unit.pos : ℚ) - (fwd_unit.pos : ℚ)) / ((rev_move : ℚ) + (fwd_move : ℚ)))| ≤
        19 / 32 ∧
      rev_collide_pos = fwd_unit.pos + max R 1 ∧
      fwd_unit.pos ≤ fwd_collide_pos ∧ rev_collide_pos ≤ rev_unit.pos := by
  obtain ⟨rev_pos⟩ := rev_unit
  obtain ⟨fwd_pos⟩ := fwd_unit
  simp only [ExtrusionUnit.pos] at hpos hrange ⊢
  obtain ⟨distance, rfl⟩ := Nat.exists_eq_add_of_lt hpos
  obtain ⟨R, hR, habs, hle, heval⟩ := collision_pos_eval ndebug fwd_pos (distance + 1) rev_move
    fwd_move (by omega) (by omega) hspeed hspeedM
  have hd : fwd_pos + distance + 1 - fwd_pos = distance + 1 := by omega
  have hq : (fwd_move : ℚ) * ((((fwd_pos + distance + 1 : Nat) : ℚ) - (fwd_pos : ℚ)) /
      ((rev_move : ℚ) + (fwd_move : ℚ))) =
      (fwd_move : ℚ) * ((distance + 1 : Nat) : ℚ) / ((rev_move : ℚ) + (fwd_move : ℚ)) := by
    push_cast
    ring
  refine ⟨_, _, R, heval, by omega, ?_, ?_, rfl, by omega, by omega⟩
  · rw [hd]
    exact hR
  · rw [hq]
    exact habs

theorem compute_lef_lef_collision_pos_spec_witness :
    ∃ (rev_collide_pos fwd_collide_pos R : Nat),
      compute_lef_lef_collision_pos false ⟨100⟩ ⟨88⟩ 6 4 =
        Except.ok (rev_collide_pos, fwd_collide_pos) ∧
      rev_collide_pos = fwd_collide_pos + 1 ∧
      (R : Int) = rounded_fwd_distance 4
        ((⟨100⟩ : ExtrusionUnit).pos - (⟨88⟩ : ExtrusionUnit).pos) (6 + 4) ∧
      |(R : ℚ) - ((4 : Nat) : ℚ) *
        (((((⟨100⟩ : ExtrusionUnit).pos : Nat) : ℚ) - (((⟨88⟩ : ExtrusionUnit).pos : Nat) : ℚ)) /
          (((6 : Nat) : ℚ) + ((4 : Nat) : ℚ)))| ≤ 19 / 32 ∧
      rev_collide_pos = (⟨88⟩ : ExtrusionUnit).pos + max R 1 ∧
      (⟨88⟩ : ExtrusionUnit).pos ≤ fwd_collide_pos ∧
      rev_collide_pos ≤ (⟨100⟩ : ExtrusionUnit).pos :=
  compute_lef_lef_collision_pos_spec false ⟨100⟩ ⟨88⟩ 6 4 (by decide) (by decide) (by decide)
    (by decide)

/-- C22: for a rev unit at position 100 with move 6 and an opposing fwd unit at position 88 with
move 4, `compute_lef_lef_collision_pos` returns the rev collision position 93 and the fwd
collision position 92, in both builds. -/
theorem collision_pos_example (ndebug : Bool) :
    compute_lef_lef_collision_pos ndebug ⟨100⟩ ⟨88⟩ 6 4 = Except.ok (93, 92) :=
  collision_pos_example_eval ndebug

/-! ## Adjustment of the moves of consecutive units -/

theorem getD_set_nat (l : List Nat) (i j v : Nat) :
    (l.set i v).getD j 0 = if i = j ∧ i < l.length then v else l.getD j 0 := by
  simp only [List.getD_eq_getElem?_getD, List.getElem?_set]
  by_cases hij : i = j
  · subst hij
    by_cases hlt : i < l.length
    · simp [hlt]
    · simp [hlt, List.getElem?_eq_none (not_lt.1 hlt)]
  · simp [hij]

theorem getElem?_lef_at (lefs : List Lef) (j : Nat) (h : j < lefs.length) :
    lefs[j]? = some (lef_at lefs j) := by
  unfold lef_at
  rw [List.getD_eq_getElem?_getD, List.getElem?_eq_getElem h]
  rfl

theorem perm_range_facts (l : List Nat) (n : Nat) (h : l.Perm (List.range n)) :
    l.length = n ∧ (∀ k, k < n → l.getD k 0 < n) ∧
      (∀ k k2, k < n → k2 < n → l.getD k 0 = l.getD k2 0 → k = k2) := by
  have hlen : l.length = n := by rw [h.length_eq, List.length_range]
  have hnd : l.Nodup := h.nodup_iff.2 (List.nodup_range n)
  refine ⟨hlen, ?_, ?_⟩
  · intro k hk
    have hmem : l.getD k 0 ∈ l := by
      rw [List.getD_eq_getElem?_getD, List.getElem?_eq_getElem (by omega)]
      exact List.getElem_mem _
    exact List.mem_range.1 (h.mem_iff.1 hmem)
  · intro k k2 hk hk2 heq
    have hk1 : k < l.length := by omega
    have hk3 : k2 < l.length := by omega
    have e1 : l.getD k 0 = l[k] := by
      rw [List.getD_eq_getElem?_getD, List.getElem?_eq_getElem hk1]
      rfl
    have e2 : l.getD k2 0 = l[k2] := by
      rw [List.getD_eq_getElem?_getD, List.getElem?_eq_getElem hk3]
      rfl
    rw [e1, e2] at heq
    exact (List.Nodup.getElem_inj_iff hnd).1 heq

theorem adjust_rev_pair_eq (ndebug : Bool) (chrom : Chromosome) (lefs : List Lef)
    (idx1 idx2 : Nat) (rev_moves : List Nat)
    (h1 : idx1 < lefs.length) (h2 : idx2 < lefs.length)
    (hlen : rev_moves.length = lefs.length)
    (hin : ∀ j, j < lefs.length → (lef_at lefs j).bound = true →
      chrom.start_pos + rev_moves.getD j 0 ≤ (lef_at lefs j).rev_unit.pos ∧
        (lef_at lefs j).rev_unit.pos < SIZE_MOD) :
    adjust_rev_pair ndebug chrom lefs idx1 idx2 rev_moves =
      Except.ok
        (if (lef_at lefs idx1).bound = true ∧ (lef_at lefs idx2).bound = true ∧
            (lef_at lefs idx2).rev_unit.pos - rev_moves.getD idx2 0 <
              (lef_at lefs idx1).rev_unit.pos - rev_moves.getD idx1 0 then
          rev_moves.set idx1 (rev_moves.getD idx1 0 +
            (((lef_at lefs idx1).rev_unit.pos - rev_moves.getD idx1 0) -
              ((lef_at lefs idx2).rev_unit.pos - rev_moves.getD idx2 0)))
        else rev_moves) := by
  unfold adjust_rev_pair
  rw [getElem?_lef_at lefs idx1 h1]
  simp only [Lef.is_bound]
  by_cases hb1 : (lef_at lefs idx1).bound = true
  · rw [if_neg (by simp [hb1]), getElem?_lef_at lefs idx2 h2]
    simp only
    by_cases hb2 : (lef_at lefs idx2).bound = true
    · rw [if_neg (by simp [hb2]), getElem?_eq_some_getD rev_moves idx1 (by omega),
        getElem?_eq_some_getD rev_moves idx2 (by omega)]
      simp only
      have a1 := hin idx1 h1 hb1
      have a2 := hin idx2 h2 hb2
      have e1 : ((lef_at lefs idx1).rev_unit.pos + SIZE_MOD - rev_moves.getD idx1 0 % SIZE_MOD) %
          SIZE_MOD = (lef_at lefs idx1).rev_unit.pos - rev_moves.getD idx1 0 := by
        unfold SIZE_MOD at *
        omega
      have e2 : ((lef_at lefs idx2).rev_unit.pos + SIZE_MOD - rev_moves.getD idx2 0 % SIZE_MOD) %
          SIZE_MOD = (lef_at lefs idx2).rev_unit.pos - rev_moves.getD idx2 0 := by
        unfold SIZE_MOD at *
        omega
      have e3 : (rev_moves.getD idx1 0 +
          (((lef_at lefs idx1).rev_unit.pos - rev_moves.getD idx1 0) -
            ((lef_at lefs idx2).rev_unit.pos - rev_moves.getD idx2 0))) % SIZE_MOD =
          rev_moves.getD idx1 0 +
          (((lef_at lefs idx1).rev_unit.pos - rev_moves.getD idx1 0) -
            ((lef_at lefs idx2).rev_unit.pos - rev_moves.getD idx2 0)) := by
        unfold SIZE_MOD at *
        omega
      rw [e1, e2, e3]
      rw [if_neg (fun hx => hx.2 ⟨by
        have := Nat.mod_le (chrom.start_pos + rev_moves.getD idx1 0) SIZE_MOD
        omega, by
        have := Nat.mod_le (chrom.start_pos + rev_moves.getD idx2 0) SIZE_MOD
        omega⟩)]
      simp only [hb1, hb2, true_and]
      split_ifs <;> rfl
    · have hb2f : (lef_at lefs idx2).bound = false := by simpa using hb2
      rw [if_pos hb2f, if_neg (fun hx => hb2 hx.2.1)]
  · have hb1f : (lef_at lefs idx1).bound = false := by simpa using hb1
    rw [if_pos hb1f, if_neg (fun hx => hb1 hx.1)]

theorem adjust_fwd_pair_eq (ndebug : Bool) (chrom : Chromosome) (lefs : List Lef)
    (idx3 idx4 : Nat) (fwd_moves : List Nat)
    (h3 : idx3 < lefs.length) (h4 : idx4 < lefs.length)
    (hlen : fwd_moves.length = lefs.length) (hend : chrom.end_pos < SIZE_MOD)
    (hin : ∀ j, j < lefs.length → (lef_at lefs j).bound = true →
      (lef_at lefs j).fwd_unit.pos + fwd_moves.getD j 0 < chrom.end_pos) :
    adjust_fwd_pair ndebug chrom lefs idx3 idx4 fwd_moves =
      Except.ok
        (if (lef_at lefs idx3).bound = true ∧ (lef_at lefs idx4).bound = true ∧
            (lef_at lefs idx3).fwd_unit.pos + fwd_moves.getD idx3 0 >
              (lef_at lefs idx4).fwd_unit.pos + fwd_moves.getD idx4 0 then
          fwd_moves.set idx4 (fwd_moves.getD idx4 0 +
            (((lef_at lefs idx3).fwd_unit.pos + fwd_moves.getD idx3 0) -
              ((lef_at lefs idx4).fwd_unit.pos + fwd_moves.getD idx4 0)))
        else fwd_moves) := by
  unfold adjust_fwd_pair
  rw [getElem?_lef_at lefs idx3 h3]
  simp only [Lef.is_bound]
  by_cases hb3 : (lef_at lefs idx3).bound = true
  · rw [if_neg (by simp [hb3]), getElem?_lef_at lefs idx4 h4]
    simp only
    by_cases hb4 : (lef_at lefs idx4).bound = true
    · rw [if_neg (by simp [hb4]), getElem?_eq_some_getD fwd_moves idx3 (by omega),
        getElem?_eq_some_getD fwd_moves idx4 (by omega)]
      simp only
      have a3 := hin idx3 h3 hb3
      have a4 := hin idx4 h4 hb4
      have e1 : ((lef_at lefs idx3).fwd_unit.pos + fwd_moves.getD idx3 0) % SIZE_MOD =
          (lef_at lefs idx3).fwd_unit.pos + fwd_moves.getD idx3 0 :=
        Nat.mod_eq_of_lt (by omega)
      have e2 : ((lef_at lefs idx4).fwd_unit.pos + fwd_moves.getD idx4 0) % SIZE_MOD =
          (lef_at lefs idx4).fwd_unit.pos + fwd_moves.getD idx4 0 :=
        Nat.mod_eq_of_lt (by omega)
      have e3 : (fwd_moves.getD idx4 0 +
          (((lef_at lefs idx3).fwd_unit.pos + fwd_moves.getD idx3 0) -
            ((lef_at lefs idx4).fwd_unit.pos + fwd_moves.getD idx4 0))) % SIZE_MOD =
          fwd_moves.getD idx4 0 +
          (((lef_at lefs idx3).fwd_unit.pos + fwd_moves.getD idx3 0) -
            ((lef_at lefs idx4).fwd_unit.pos + fwd_moves.getD idx4 0)) :=
        Nat.mod_eq_of_lt (by omega)
      rw [e1, e2, e3]
      rw [if_neg (fun hx => hx.2 ⟨a3, a4⟩)]
      simp only [hb3, hb4, true_and]
      split_ifs <;> rfl
    · have hb4f : (lef_at lefs idx4).bound = false := by simpa using hb4
      rw [if_pos hb4f, if_neg (fun hx => hb4 hx.2.1)]
  · have hb3f : (lef_at lefs idx3).bound = false := by simpa using hb3
    rw [if_pos hb3f, if_neg (fun hx => hb3 hx.1)]

theorem adjust_moves_loop_invariant (ndebug : Bool) (chrom : Chromosome) (lefs : List Lef)
    (rev_lef_ranks fwd_lef_ranks : List Nat) (P Q : Nat → List Nat → Prop)
    (hn : 0 < lefs.length) (hsize : lefs.length < SIZE_MOD)
    (hrl : rev_lef_ranks.length = lefs.length) (hfl : fwd_lef_ranks.length = lefs.length)
    (hP : ∀ i rev_moves, i + 1 < lefs.length → P i rev_moves →
      ∃ out, adjust_rev_pair ndebug chrom lefs (rev_lef_ranks.getD (lefs.length - 2 - i) 0)
        (rev_lef_ranks.getD (lefs.length - 1 - i) 0) rev_moves = Except.ok out ∧ P (i + 1) out)
    (hQ : ∀ i fwd_moves, i + 1 < lefs.length → Q i fwd_moves →
      ∃ out, adjust_fwd_pair ndebug chrom lefs (fwd_lef_ranks.getD i 0)
        (fwd_lef_ranks.getD (i + 1) 0) fwd_moves = Except.ok out ∧ Q (i + 1) out)
    (fuel : Nat) :
    ∀ (i : Nat) (rev_moves fwd_moves : List Nat), i ≤ lefs.length - 1 →
      lefs.length - 1 < i + fuel → P i rev_moves → Q i fwd_moves →
      ∃ (rev_out fwd_out : List Nat),
        adjust_moves_loop ndebug chrom lefs rev_lef_ranks fwd_lef_ranks (lefs.length - 1)
          (lefs.length - 1) fuel i (rev_moves, fwd_moves) = Except.ok (rev_out, fwd_out) ∧
        P (lefs.length - 1) rev_out ∧ Q (lefs.length - 1) fwd_out := by
  induction fuel with
  | zero => intro i _ _ hi hf; omega
  | succ fuel ih =>
    intro i rev_moves fwd_moves hi hf hp hq
    unfold adjust_moves_loop
    by_cases hlt : i < lefs.length - 1
    · rw [if_pos hlt]
      have x1 : (lefs.length - 1 + 2 * SIZE_MOD - 1 - i) % SIZE_MOD = lefs.length - 2 - i := by
        unfold SIZE_MOD at *
        omega
      have x2 : (lefs.length - 1 + SIZE_MOD - i) % SIZE_MOD = lefs.length - 1 - i := by
        unfold SIZE_MOD at *
        omega
      rw [x1, x2, getElem?_eq_some_getD rev_lef_ranks _ (by omega),
        getElem?_eq_some_getD rev_lef_ranks _ (by omega)]
      simp only
      obtain ⟨rev2, hrev2, hp2⟩ := hP i rev_moves (by omega) hp
      obtain ⟨fwd2, hfwd2, hq2⟩ := hQ i fwd_moves (by omega) hq
      rw [hrev2, getElem?_eq_some_getD fwd_lef_ranks _ (by omega),
        getElem?_eq_some_getD fwd_lef_ranks _ (by omega)]
      simp only
      rw [hfwd2]
      exact ih (i + 1) rev2 fwd2 (by omega) (by omega) hp2 hq2
    · rw [if_neg hlt]
      have hieq : i = lefs.length - 1 := by omega
      subst hieq
      exact ⟨rev_moves, fwd_moves, rfl, hp, hq⟩

theorem adjust_rev_step (ndebug : Bool) (chrom : Chromosome) (lefs : List Lef)
    (rev_lef_ranks rev_moves0 : List Nat)
    (hranks : rev_lef_ranks.Perm (List.range lefs.length))
    (hpos : ∀ j, j < lefs.length → (lef_at lefs j).bound = true →
      (lef_at lefs j).rev_unit.pos < SIZE_MOD)
    (i : Nat) (rev_moves : List Nat) (hi : i + 1 < lefs.length)
    (hP : rev_moves.length = lefs.length ∧
      (∀ j, j < lefs.length → rev_moves0.getD j 0 ≤ rev_moves.getD j 0 ∧
        ((lef_at lefs j).bound = false → rev_moves.getD j 0 = rev_moves0.getD j 0) ∧
        ((lef_at lefs j).bound = true →
          chrom.start_pos + rev_moves.getD j 0 ≤ (lef_at lefs j).rev_unit.pos)) ∧
      (∀ k, lefs.length - 1 - i ≤ k → k + 1 < lefs.length →
        (lef_at lefs (rev_lef_ranks.getD k 0)).bound = true →
        (lef_at lefs (rev_lef_ranks.getD (k + 1) 0)).bound = true →
        (lef_at lefs (rev_lef_ranks.getD k 0)).rev_unit.pos -
            rev_moves.getD (rev_lef_ranks.getD k 0) 0 ≤
          (lef_at lefs (rev_lef_ranks.getD (k + 1) 0)).rev_unit.pos -
            rev_moves.getD (rev_lef_ranks.getD (k + 1) 0) 0)) :
    ∃ out, adjust_rev_pair ndebug chrom lefs (rev_lef_ranks.getD (lefs.length - 2 - i) 0)
        (rev_lef_ranks.getD (lefs.length - 1 - i) 0) rev_moves = Except.ok out ∧
      (out.length = lefs.length ∧
      (∀ j, j < lefs.length → rev_moves0.getD j 0 ≤ out.getD j 0 ∧
        ((lef_at lefs j).bound = false → out.getD j 0 = rev_moves0.getD j 0) ∧
        ((lef_at lefs j).bound = true →
          chrom.start_pos + out.getD j 0 ≤ (lef_at lefs j).rev_unit.pos)) ∧
      (∀ k, lefs.length - 1 - (i + 1) ≤ k → k + 1 < lefs.length →
        (lef_at lefs (rev_lef_ranks.getD k 0)).bound = true →
        (lef_at lefs (rev_lef_ranks.getD (k + 1) 0)).bound = true →
        (lef_at lefs (rev_lef_ranks.getD k 0)).rev_unit.pos -
            out.getD (rev_lef_ranks.getD k 0) 0 ≤
          (lef_at lefs (rev_lef_ranks.getD (k + 1) 0)).rev_unit.pos -
            out.getD (rev_lef_ranks.getD (k + 1) 0) 0)) := by
  obtain ⟨hlen, hall, hchain⟩ := hP
  obtain ⟨_, hlt, hinj⟩ := perm_range_facts rev_lef_ranks lefs.length hranks
  have h1 := hlt (lefs.length - 2 - i) (by omega)
  have h2 := hlt (lefs.length - 1 - i) (by omega)
  have hne : rev_lef_ranks.getD (lefs.length - 2 - i) 0 ≠
      rev_lef_ranks.getD (lefs.length - 1 - i) 0 := by
    intro h
    have := hinj _ _ (by omega) (by omega) h
    omega
  have hsucc : lefs.length - 2 - i + 1 = lefs.length - 1 - i := by omega
  refine ⟨_, adjust_rev_pair_eq ndebug chrom lefs _ _ rev_moves h1 h2 hlen
    (fun j hj hb => ⟨(hall j hj).2.2 hb, hpos j hj hb⟩), ?_⟩
  generalize hidx1 : rev_lef_ranks.getD (lefs.length - 2 - i) 0 = idx1 at *
  generalize hidx2 : rev_lef_ranks.getD (lefs.length - 1 - i) 0 = idx2 at *
  by_cases hc : (lef_at lefs idx1).bound = true ∧ (lef_at lefs idx2).bound = true ∧
      (lef_at lefs idx2).rev_unit.pos - rev_moves.getD idx2 0 <
        (lef_at lefs idx1).rev_unit.pos - rev_moves.getD idx1 0
  · rw [if_pos hc]
    have a1 := (hall idx1 h1).2.2 hc.1
    have a2 := (hall idx2 h2).2.2 hc.2.1
    refine ⟨by rw [List.length_set]; exact hlen, ?_, ?_⟩
    · intro j hj
      rw [getD_set_nat]
      by_cases hj1 : idx1 = j
      · subst hj1
        rw [if_pos ⟨rfl, by omega⟩]
        have := hall idx1 hj
        refine ⟨by omega, ?_, ?_⟩
        · intro hb
          rw [hc.1] at hb
          exact absurd hb (by decide)
        · intro _
          omega
      · rw [if_neg (fun hx => hj1 hx.1)]
        exact hall j hj
    · intro k hk hk1 hb1 hb2
      by_cases hkeq : k = lefs.length - 2 - i
      · subst hkeq
        rw [hsucc] at hb2 ⊢
        rw [hidx1] at hb1 ⊢
        rw [hidx2] at hb2 ⊢
        rw [getD_set_nat, getD_set_nat, if_pos ⟨rfl, by omega⟩,
          if_neg (fun hx => hne hx.1)]
        omega
      · have hk2 : rev_lef_ranks.getD k 0 ≠ idx1 := by
          intro h
          rw [← hidx1] at h
          have := hinj _ _ (by omega) (by omega) h
          omega
        have hk3 : rev_lef_ranks.getD (k + 1) 0 ≠ idx1 := by
          intro h
          rw [← hidx1] at h
          have := hinj _ _ (by omega) (by omega) h
          omega
        rw [getD_set_nat, getD_set_nat, if_neg (fun hx => hk2 hx.1.symm),
          if_neg (fun hx => hk3 hx.1.symm)]
        exact hchain k (by omega) hk1 hb1 hb2
  · rw [if_neg hc]
    refine ⟨hlen, hall, ?_⟩
    intro k hk hk1 hb1 hb2
    by_cases hkeq : k = lefs.length - 2 - i
    · subst hkeq
      rw [hsucc] at hb2 ⊢
      rw [hidx1] at hb1 ⊢
      rw [hidx2] at hb2 ⊢
      have : ¬ ((lef_at lefs idx2).rev_unit.pos - rev_moves.getD idx2 0 <
          (lef_at lefs idx1).rev_unit.pos - rev_moves.getD idx1 0) :=
        fun hx => hc ⟨hb1, hb2, hx⟩
      omega
    · exact hchain k (by omega) hk1 hb1 hb2

theorem adjust_fwd_step (ndebug : Bool) (chrom : Chromosome) (lefs : List Lef)
    (fwd_lef_ranks fwd_moves0 : List Nat)
    (hranks : fwd_lef_ranks.Perm (List.range lefs.length)) (hend : chrom.end_pos < SIZE_MOD)
    (i : Nat) (fwd_moves : List Nat) (hi : i + 1 < lefs.length)
    (hQ : fwd_moves.length = lefs.length ∧
      (∀ j, j < lefs.length → fwd_moves0.getD j 0 ≤ fwd_moves.getD j 0 ∧
        ((lef_at lefs j).bound = false → fwd_moves.getD j 0 = fwd_moves0.getD j 0) ∧
        ((lef_at lefs j).bound = true →
          (lef_at lefs j).fwd_unit.pos + fwd_moves.getD j 0 < chrom.end_pos)) ∧
      (∀ k, k < i → k + 1 < lefs.length →
        (lef_at lefs (fwd_lef_ranks.getD k 0)).bound = true →
        (lef_at lefs (fwd_lef_ranks.getD (k + 1) 0)).bound = true →
        (lef_at lefs (fwd_lef_ranks.getD k 0)).fwd_unit.pos +
            fwd_moves.getD (fwd_lef_ranks.getD k 0) 0 ≤
          (lef_at lefs (fwd_lef_ranks.getD (k + 1) 0)).fwd_unit.pos +
            fwd_moves.getD (fwd_lef_ranks.getD (k + 1) 0) 0)) :
    ∃ out, adjust_fwd_pair ndebug chrom lefs (fwd_lef_ranks.getD i 0)
        (fwd_lef_ranks.getD (i + 1) 0) fwd_moves = Except.ok out ∧
      (out.length = lefs.length ∧
      (∀ j, j < lefs.length → fwd_moves0.getD j 0 ≤ out.getD j 0 ∧
        ((lef_at lefs j).bound = false → out.getD j 0 = fwd_moves0.getD j 0) ∧
        ((lef_at lefs j).bound = true →
          (lef_at lefs j).fwd_unit.pos + out.getD j 0 < chrom.end_pos)) ∧
      (∀ k, k < i + 1 → k + 1 < lefs.length →
        (lef_at lefs (fwd_lef_ranks.getD k 0)).bound = true →
        (lef_at lefs (fwd_lef_ranks.getD (k + 1) 0)).bound = true →
        (lef_at lefs (fwd_lef_ranks.getD k 0)).fwd_unit.pos +
            out.getD (fwd_lef_ranks.getD k 0) 0 ≤
          (lef_at lefs (fwd_lef_ranks.getD (k + 1) 0)).fwd_unit.pos +
            out.getD (fwd_lef_ranks.getD (k + 1) 0) 0)) := by
  obtain ⟨hlen, hall, hchain⟩ := hQ
  obtain ⟨_, hlt, hinj⟩ := perm_range_facts fwd_lef_ranks lefs.length hranks
  have h3 := hlt i (by omega)
  have h4 := hlt (i + 1) (by omega)
  have hne : fwd_lef_ranks.getD (i + 1) 0 ≠ fwd_lef_ranks.getD i 0 := by
    intro h
    have := hinj _ _ (by omega) (by omega) h
    omega
  refine ⟨_, adjust_fwd_pair_eq ndebug chrom lefs _ _ fwd_moves h3 h4 hlen hend
    (fun j hj hb => (hall j hj).2.2 hb), ?_⟩
  by_cases hc : (lef_at lefs (fwd_lef_ranks.getD i 0)).bound = true ∧
      (lef_at lefs (fwd_lef_ranks.getD (i + 1) 0)).bound = true ∧
      (lef_at lefs (fwd_lef_ranks.getD i 0)).fwd_unit.pos +
          fwd_moves.getD (fwd_lef_ranks.getD i 0) 0 >
        (lef_at lefs (fwd_lef_ranks.getD (i + 1) 0)).fwd_unit.pos +
          fwd_moves.getD (fwd_lef_ranks.getD (i + 1) 0) 0
  · rw [if_pos hc]
    have a3 := (hall _ h3).2.2 hc.1
    have a4 := (hall _ h4).2.2 hc.2.1
    refine ⟨by rw [List.length_set]; exact hlen, ?_, ?_⟩
    · intro j hj
      rw [getD_set_nat]
      by_cases hj4 : fwd_lef_ranks.getD (i + 1) 0 = j
      · subst hj4
        rw [if_pos ⟨rfl, by omega⟩]
        have := hall _ hj
        refine ⟨by omega, ?_, ?_⟩
        · intro hb
          rw [hc.2.1] at hb
          exact absurd hb (by decide)
        · intro _
          omega
      · rw [if_neg (fun hx => hj4 hx.1)]
        exact hall j hj
    · intro k hk hk1 hb1 hb2
      by_cases hkeq : k = i
      · subst hkeq
        rw [getD_set_nat, getD_set_nat, if_neg (fun hx => hne hx.1),
          if_pos ⟨rfl, by omega⟩]
        omega
      · have hk2 : fwd_lef_ranks.getD (i + 1) 0 ≠ fwd_lef_ranks.getD k 0 := by
          intro h
          have := hinj _ _ (by omega) (by omega) h
          omega
        have hk3 : fwd_lef_ranks.getD (i + 1) 0 ≠ fwd_lef_ranks.getD (k + 1) 0 := by
          intro h
          have := hinj _ _ (by omega) (by omega) h
          omega
        rw [getD_set_nat, getD_set_nat, if_neg (fun hx => hk2 hx.1),
          if_neg (fun hx => hk3 hx.1)]
        exact hchain k (by omega) hk1 hb1 hb2
  · rw [if_neg hc]
    refine ⟨hlen, hall, ?_⟩
    intro k hk hk1 hb1 hb2
    by_cases hkeq : k = i
    · subst hkeq
      have : ¬ ((lef_at lefs (fwd_lef_ranks.getD k 0)).fwd_unit.pos +
          fwd_moves.getD (fwd_lef_ranks.getD k 0) 0 >
        (lef_at lefs (fwd_lef_ranks.getD (k + 1) 0)).fwd_unit.pos +
          fwd_moves.getD (fwd_lef_ranks.getD (k + 1) 0) 0) :=
        fun hx => hc ⟨hb1, hb2, hx⟩
      omega
    · exact hchain k (by omega) hk1 hb1 hb2

theorem adjust_moves_spec (ndebug : Bool) (chrom : Chromosome) (lefs : List Lef)
    (rev_lef_ranks fwd_lef_ranks rev_moves fwd_moves : List Nat)
    (hn : 0 < lefs.length) (hsize : lefs.length < SIZE_MOD) (hend : chrom.end_pos < SIZE_MOD)
    (hrp : rev_lef_ranks.Perm (List.range lefs.length))
    (hfp : fwd_lef_ranks.Perm (List.range lefs.length))
    (hrl : rev_moves.length = lefs.length) (hfl : fwd_moves.length = lefs.length)
    (hin : ∀ j, j < lefs.length → (lef_at lefs j).bound = true →
      chrom.start_pos + rev_moves.getD j 0 ≤ (lef_at lefs j).rev_unit.pos ∧
        (lef_at lefs j).rev_unit.pos < SIZE_MOD ∧
        (lef_at lefs j).fwd_unit.pos + fwd_moves.getD j 0 < chrom.end_pos) :
    ∃ (rev_out fwd_out : List Nat),
      adjust_moves_of_consecutive_extr_units ndebug chrom lefs rev_lef_ranks fwd_lef_ranks
        rev_moves fwd_moves = Except.ok (rev_out, fwd_out) ∧
      (rev_out.length = lefs.length ∧
      (∀ j, j < lefs.length → rev_moves.getD j 0 ≤ rev_out.getD j 0 ∧
        ((lef_at lefs j).bound = false → rev_out.getD j 0 = rev_moves.getD j 0) ∧
        ((lef_at lefs j).bound = true →
          chrom.start_pos + rev_out.getD j 0 ≤ (lef_at lefs j).rev_unit.pos)) ∧
      (∀ k, k + 1 < lefs.length →
        (lef_at lefs (rev_lef_ranks.getD k 0)).bound = true →
        (lef_at lefs (rev_lef_ranks.getD (k + 1) 0)).bound = true →
        (lef_at lefs (rev_lef_ranks.getD k 0)).rev_unit.pos -
            rev_out.getD (rev_lef_ranks.getD k 0) 0 ≤
          (lef_at lefs (rev_lef_ranks.getD (k + 1) 0)).rev_unit.pos -
            rev_out.getD (rev_lef_ranks.getD (k + 1) 0) 0)) ∧
      (fwd_out.length = lefs.length ∧
      (∀ j, j < lefs.length → fwd_moves.getD j 0 ≤ fwd_out.getD j 0 ∧
        ((lef_at lefs j).bound = false → fwd_out.getD j 0 = fwd_moves.getD j 0) ∧
        ((lef_at lefs j).bound = true →
          (lef_at lefs j).fwd_unit.pos + fwd_out.getD j 0 < chrom.end_pos)) ∧
      (∀ k, k + 1 < lefs.length →
        (lef_at lefs (fwd_lef_ranks.getD k 0)).bound = true →
        (lef_at lefs (fwd_lef_ranks.getD (k + 1) 0)).bound = true →
        (lef_at lefs (fwd_lef_ranks.getD k 0)).fwd_unit.pos +
            fwd_out.getD (fwd_lef_ranks.getD k 0) 0 ≤
          (lef_at lefs (fwd_lef_ranks.getD (k + 1) 0)).fwd_unit.pos +
            fwd_out.getD (fwd_lef_ranks.getD (k + 1) 0) 0)) := by
  have hb : (lefs.length + SIZE_MOD - 1) % SIZE_MOD = lefs.length - 1 := by
    unfold SIZE_MOD at *
    omega
  unfold adjust_moves_of_consecutive_extr_units
  rw [hb]
  obtain ⟨rev_out, fwd_out, hout, hp, hq⟩ := adjust_moves_loop_invariant ndebug chrom lefs
    rev_lef_ranks fwd_lef_ranks _ _ hn hsize (perm_range_facts _ _ hrp).1
    (perm_range_facts _ _ hfp).1
    (fun i rev hi hP => adjust_rev_step ndebug chrom lefs rev_lef_ranks rev_moves hrp
      (fun j hj hbd => (hin j hj hbd).2.1) i rev hi hP)
    (fun i fwd hi hQ => adjust_fwd_step ndebug chrom lefs fwd_lef_ranks fwd_moves hfp hend
      i fwd hi hQ)
    (lefs.length + 1) 0 rev_moves fwd_moves (by omega) (by omega)
    ⟨hrl, fun j hj => ⟨le_refl _, fun _ => rfl, fun hbd => (hin j hj hbd).1⟩,
      fun k hk hk1 => by omega⟩
    ⟨hfl, fun j hj => ⟨le_refl _, fun _ => rfl, fun hbd => (hin j hj hbd).2.2⟩,
      fun k hk => by omega⟩
  refine ⟨rev_out, fwd_out, hout, ⟨hp.1, hp.2.1, ?_⟩, ⟨hq.1, hq.2.1, ?_⟩⟩
  · intro k hk
    exact hp.2.2 k (by omega) hk
  · intro k hk
    exact hq.2.2 k (by omega) hk

/-- C23: two bound LEFs with rev units at 10 and 15 and rev moves 2 and 10, and fwd units at 12
and 20 with fwd moves 10 and 1.  The rev unit of LEF 1 would end at 5, upstream of the leading
rev unit of LEF 0 at 8; `adjust_moves_of_consecutive_extr_units` raises the leading move to 5, so
that both rev units end at the same position 5, not 1 bp apart.  The fwd units both end at 22.
Both builds. -/
theorem adjusted_units_end_at_the_same_position :
    (∀ ndebug, adjust_moves_of_consecutive_extr_units ndebug ⟨0, 100⟩
        [⟨0, ⟨10⟩, ⟨12⟩, true⟩, ⟨0, ⟨15⟩, ⟨20⟩, true⟩] [0, 1] [0, 1] [2, 10] [10, 1] =
      Except.ok ([5, 10], [10, 2])) ∧
      15 - 10 < 10 - 2 ∧ 10 - 5 = 15 - 10 ∧ 12 + 10 > 20 + 1 ∧ 12 + 10 = 20 + 2 := by
  refine ⟨?_, by decide, by decide, by decide, by decide⟩
  intro ndebug
  cases ndebug <;> decide

/-- C24: for a non-empty array of bound LEFs, rank arrays that are permutations of the LEF
indices, and moves that keep every unit inside `[start, end)`,
`adjust_moves_of_consecutive_extr_units` returns moves such that the positions `pos - rev_move`
are non-decreasing along `rev_lef_ranks` and `pos + fwd_move` are non-decreasing along
`fwd_lef_ranks`, no move is below its old value and every unit still ends inside
`[start, end)`; in both builds. -/
theorem adjust_moves_prevents_bypass (ndebug : Bool) (chrom : Chromosome) (lefs : List Lef)
    (rev_lef_ranks fwd_lef_ranks rev_moves fwd_moves : List Nat)
    (hn : 0 < lefs.length) (hsize : lefs.length < SIZE_MOD) (hend : chrom.end_pos < SIZE_MOD)
    (hbound : ∀ j, j < lefs.length → (lef_at lefs j).is_bound = true)
    (hrp : rev_lef_ranks.Perm (List.range lefs.length))
    (hfp : fwd_lef_ranks.Perm (List.range lefs.length))
    (hrl : rev_moves.length = lefs.length) (hfl : fwd_moves.length = lefs.length)
    (hin : ∀ j, j < lefs.length →
      (lef_at lefs j).rev_unit.pos < SIZE_MOD ∧
      chrom.start_pos + rev_moves.getD j 0 ≤ (lef_at lefs j).rev_unit.pos ∧
      (lef_at lefs j).rev_unit.pos - rev_moves.getD j 0 < chrom.end_pos ∧
      chrom.start_pos ≤ (lef_at lefs j).fwd_unit.pos + fwd_moves.getD j 0 ∧
      (lef_at lefs j).fwd_unit.pos + fwd_moves.getD j 0 < chrom.end_pos) :
    ∃ (rev_out fwd_out : List Nat),
      adjust_moves_of_consecutive_extr_units ndebug chrom lefs rev_lef_ranks fwd_lef_ranks
        rev_moves fwd_moves = Except.ok (rev_out, fwd_out) ∧
      rev_out.length = lefs.length ∧ fwd_out.length = lefs.length ∧
      (∀ k, k + 1 < lefs.length →
        (lef_at lefs (rev_lef_ranks.getD k 0)).rev_unit.pos -
            rev_out.getD (rev_lef_ranks.getD k 0) 0 ≤
          (lef_at lefs (rev_lef_ranks.getD (k + 1) 0)).rev_unit.pos -
            rev_out.getD (rev_lef_ranks.getD (k + 1) 0) 0) ∧
      (∀ k, k + 1 < lefs.length →
        (lef_at lefs (fwd_lef_ranks.getD k 0)).fwd_unit.pos +
            fwd_out.getD (fwd_lef_ranks.getD k 0) 0 ≤
          (lef_at lefs (fwd_lef_ranks.getD (k + 1) 0)).fwd_unit.pos +
            fwd_out.getD (fwd_lef_ranks.getD (k + 1) 0) 0) ∧
      (∀ j, j < lefs.length →
        rev_moves.getD j 0 ≤ rev_out.getD j 0 ∧ fwd_moves.getD j 0 ≤ fwd_out.getD j 0 ∧
        chrom.start_pos + rev_out.getD j 0 ≤ (lef_at lefs j).rev_unit.pos ∧
        (lef_at lefs j).rev_unit.pos - rev_out.getD j 0 < chrom.end_pos ∧
        chrom.start_pos ≤ (lef_at lefs j).fwd_unit.pos + fwd_out.getD j 0 ∧
        (lef_at lefs j).fwd_unit.pos + fwd_out.getD j 0 < chrom.end_pos) := by
  obtain ⟨rev_out, fwd_out, hout, ⟨hrlen, hrall, hrchain⟩, ⟨hflen, hfall, hfchain⟩⟩ :=
    adjust_moves_spec ndebug chrom lefs rev_lef_ranks fwd_lef_ranks rev_moves fwd_moves hn hsize
      hend hrp hfp hrl hfl (fun j hj _ => ⟨(hin j hj).2.1, (hin j hj).1, (hin j hj).2.2.2.2⟩)
  obtain ⟨_, hrlt, _⟩ := perm_range_facts rev_lef_ranks lefs.length hrp
  obtain ⟨_, hflt, _⟩ := perm_range_facts fwd_lef_ranks lefs.length hfp
  refine ⟨rev_out, fwd_out, hout, hrlen, hflen, ?_, ?_, ?_⟩
  · intro k hk
    exact hrchain k hk (hbound _ (hrlt k (by omega))) (hbound _ (hrlt (k + 1) hk))
  · intro k hk
    exact hfchain k hk (hbound _ (hflt k (by omega))) (hbound _ (hflt (k + 1) hk))
  · intro j hj
    have h1 := hrall j hj
    have h2 := hfall j hj
    have h3 := h1.2.2 (hbound j hj)
    have h4 := h2.2.2 (hbound j hj)
    have h5 := hin j hj
    refine ⟨h1.1, h2.1, h3, by omega, by omega, h4⟩

theorem adjust_moves_prevents_bypass_witness :
    ∃ (rev_out fwd_out : List Nat),
      adjust_moves_of_consecutive_extr_units false ⟨0, 100⟩ ranking_example [2, 1, 0, 3]
        [3, 0, 2, 1] [1, 0, 2, 6] [3, 1, 0, 5] = Except.ok (rev_out, fwd_out) ∧
      rev_out.length = ranking_example.length ∧ fwd_out.length = ranking_example.length ∧
      (∀ k, k + 1 < ranking_example.length →
        (lef_at ranking_example ([2, 1, 0, 3].getD k 0)).rev_unit.pos -
            rev_out.getD ([2, 1, 0, 3].getD k 0) 0 ≤
          (lef_at ranking_example ([2, 1, 0, 3].getD (k + 1) 0)).rev_unit.pos -
            rev_out.getD ([2, 1, 0, 3].getD (k + 1) 0) 0) ∧
      (∀ k, k + 1 < ranking_example.length →
        (lef_at ranking_example ([3, 0, 2, 1].getD k 0)).fwd_unit.pos +
            fwd_out.getD ([3, 0, 2, 1].getD k 0) 0 ≤
          (lef_at ranking_example ([3, 0, 2, 1].getD (k + 1) 0)).fwd_unit.pos +
            fwd_out.getD ([3, 0, 2, 1].getD (k + 1) 0) 0) ∧
      (∀ j, j < ranking_example.length →
        [1, 0, 2, 6].getD j 0 ≤ rev_out.getD j 0 ∧ [3, 1, 0, 5].getD j 0 ≤ fwd_out.getD j 0 ∧
        (⟨0, 100⟩ : Chromosome).start_pos + rev_out.getD j 0 ≤
          (lef_at ranking_example j).rev_unit.pos ∧
        (lef_at ranking_example j).rev_unit.pos - rev_out.getD j 0 <
          (⟨0, 100⟩ : Chromosome).end_pos ∧
        (⟨0, 100⟩ : Chromosome).start_pos ≤
          (lef_at ranking_example j).fwd_unit.pos + fwd_out.getD j 0 ∧
        (lef_at ranking_example j).fwd_unit.pos + fwd_out.getD j 0 <
          (⟨0, 100⟩ : Chromosome).end_pos) :=
  adjust_moves_prevents_bypass false ⟨0, 100⟩ ranking_example [2, 1, 0, 3] [3, 0, 2, 1]
    [1, 0, 2, 6] [3, 1, 0, 5] (by decide) (by decide) (by decide)
    (by intro j hj; have hj4 : j < 4 := hj; interval_cases j <;> decide)
    (by decide) (by decide) (by decide) (by decide)
    (by intro j hj; have hj4 : j < 4 := hj; interval_cases j <;> decide)

/-! ## Generation of the moves -/

theorem try_fold_range'_invariant {σ : Type} (f : σ → Nat → Except Error σ)
    (P : Nat → σ → Prop) (n : Nat)
    (hstep : ∀ i s, i < n → P i s → ∃ t, f s i = Except.ok t ∧ P (i + 1) t) (len : Nat) :
    ∀ (k : Nat) (s : σ), k + len = n → P k s →
      ∃ t, try_fold f s (List.range' k len) = Except.ok t ∧ P n t := by
  induction len with
  | zero =>
    intro k s hk hp
    have : k = n := by omega
    subst this
    exact ⟨s, rfl, hp⟩
  | succ len ih =>
    intro k s hk hp
    obtain ⟨t, ht, hpt⟩ := hstep k s (by omega) hp
    obtain ⟨u, hu, hpu⟩ := ih (k + 1) t (by omega) hpt
    refine ⟨u, ?_, hpu⟩
    rw [List.range'_succ]
    unfold try_fold
    rw [ht]
    exact hu

theorem try_fold_range_invariant {σ : Type} (f : σ → Nat → Except Error σ)
    (P : Nat → σ → Prop) (n : Nat)
    (hstep : ∀ i s, i < n → P i s → ∃ t, f s i = Except.ok t ∧ P (i + 1) t)
    (s : σ) (h0 : P 0 s) :
    ∃ t, try_fold f s (List.range n) = Except.ok t ∧ P n t := by
  rw [List.range_eq_range']
  exact try_fold_range'_invariant f P n hstep n 0 s (by omega) h0

theorem clamp_le (v hi : Nat) : clamp v 0 hi ≤ hi := by
  unfold clamp
  split_ifs <;> omega

theorem generate_rev_move_eq (ndebug : Bool) (out_of_range : Int → Nat) (c : Config)
    (chrom : Chromosome) (unit : ExtrusionUnit) (rand_eng : PRNG_t)
    (hstart : chrom.start_pos ≤ unit.pos) (hM : unit.pos < SIZE_MOD) :
    generate_rev_move ndebug out_of_range c chrom unit rand_eng =
      Except.ok (if c.rev_extrusion_speed_std = 0 then
          (min c.rev_extrusion_speed (unit.pos - chrom.start_pos), rand_eng)
        else
          (clamp (double_to_bp out_of_range rand_eng.draw.1) 0 (unit.pos - chrom.start_pos),
            rand_eng.draw.2)) := by
  have e : (unit.pos + SIZE_MOD - chrom.start_pos % SIZE_MOD) % SIZE_MOD =
      unit.pos - chrom.start_pos := by
    unfold SIZE_MOD at *
    omega
  unfold generate_rev_move
  rw [if_neg (fun hx => hx.2 hstart), e]
  split_ifs <;> rfl

theorem generate_fwd_move_eq (ndebug : Bool) (out_of_range : Int → Nat) (c : Config)
    (chrom : Chromosome) (unit : ExtrusionUnit) (rand_eng : PRNG_t)
    (hend : unit.pos < chrom.end_pos) (hM : chrom.end_pos < SIZE_MOD) :
    generate_fwd_move ndebug out_of_range c chrom unit rand_eng =
      Except.ok (if c.fwd_extrusion_speed_std = 0 then
          (min c.fwd_extrusion_speed (chrom.end_pos - 1 - unit.pos), rand_eng)
        else
          (clamp (double_to_bp out_of_range rand_eng.draw.1) 0 (chrom.end_pos - 1 - unit.pos),
            rand_eng.draw.2)) := by
  have e : ((chrom.end_pos + SIZE_MOD - 1) % SIZE_MOD + SIZE_MOD - unit.pos % SIZE_MOD) %
      SIZE_MOD = chrom.end_pos - 1 - unit.pos := by
    unfold SIZE_MOD at *
    omega
  unfold generate_fwd_move
  rw [if_neg (fun hx => hx.2 hend), e]
  split_ifs <;> rfl

theorem generate_rev_move_le (ndebug : Bool) (out_of_range : Int → Nat) (c : Config)
    (chrom : Chromosome) (unit : ExtrusionUnit) (rand_eng : PRNG_t)
    (hstart : chrom.start_pos ≤ unit.pos) (hM : unit.pos < SIZE_MOD) :
    ∃ (p : Nat × PRNG_t), generate_rev_move ndebug out_of_range c chrom unit rand_eng =
      Except.ok p ∧ p.1 ≤ unit.pos - chrom.start_pos := by
  refine ⟨_, generate_rev_move_eq ndebug out_of_range c chrom unit rand_eng hstart hM, ?_⟩
  split_ifs
  · exact Nat.min_le_right _ _
  · exact clamp_le _ _

theorem generate_fwd_move_le (ndebug : Bool) (out_of_range : Int → Nat) (c : Config)
    (chrom : Chromosome) (unit : ExtrusionUnit) (rand_eng : PRNG_t)
    (hend : unit.pos < chrom.end_pos) (hM : chrom.end_pos < SIZE_MOD) :
    ∃ (p : Nat × PRNG_t), generate_fwd_move ndebug out_of_range c chrom unit rand_eng =
      Except.ok p ∧ p.1 ≤ chrom.end_pos - 1 - unit.pos := by
  refine ⟨_, generate_fwd_move_eq ndebug out_of_range c chrom unit rand_eng hend hM, ?_⟩
  split_ifs
  · exact Nat.min_le_right _ _
  · exact clamp_le _ _

/-- C26: for every configuration and every state of the random source, a unit inside
`[start, end)` gets a rev move of at most `pos - start` and a fwd move of at most
`end - 1 - pos`; so a unit at `start` gets the rev move 0 and a unit at `end - 1` the fwd move 0.
Both builds, and whatever the platform returns for the conversion of a drawn value outside the
range of `bp_t`. -/
theorem generated_moves_stay_inside (ndebug : Bool) (out_of_range : Int → Nat) (c : Config)
    (chrom : Chromosome) (unit : ExtrusionUnit) (rand_eng : PRNG_t)
    (hstart : chrom.start_pos ≤ unit.pos) (hend : unit.pos < chrom.end_pos)
    (hM : chrom.end_pos < SIZE_MOD) :
    (∃ (rev_move : Nat) (rand_eng2 : PRNG_t),
        generate_rev_move ndebug out_of_range c chrom unit rand_eng =
          Except.ok (rev_move, rand_eng2) ∧
        rev_move ≤ unit.pos - chrom.start_pos ∧ (unit.pos = chrom.start_pos → rev_move = 0)) ∧
      (∃ (fwd_move : Nat) (rand_eng2 : PRNG_t),
        generate_fwd_move ndebug out_of_range c chrom unit rand_eng =
          Except.ok (fwd_move, rand_eng2) ∧
        fwd_move ≤ chrom.end_pos - 1 - unit.pos ∧
        (unit.pos = chrom.end_pos - 1 → fwd_move = 0)) := by
  obtain ⟨p, hp, hle⟩ := generate_rev_move_le ndebug out_of_range c chrom unit rand_eng hstart
    (by omega)
  obtain ⟨q, hq, hle2⟩ := generate_fwd_move_le ndebug out_of_range c chrom unit rand_eng hend hM
  exact ⟨⟨p.1, p.2, hp, hle, fun h => by omega⟩, ⟨q.1, q.2, hq, hle2, fun h => by omega⟩⟩

theorem generated_moves_stay_inside_witness :
    (∃ (rev_move : Nat) (rand_eng2 : PRNG_t),
        generate_rev_move false (fun _ => 0) ⟨10, 5, 1, 7, 1, 2, 100, false⟩ ⟨0, 100⟩ ⟨0⟩
          ⟨fun _ => 9, 0⟩ = Except.ok (rev_move, rand_eng2) ∧
        rev_move ≤ (⟨0⟩ : ExtrusionUnit).pos - (⟨0, 100⟩ : Chromosome).start_pos ∧
        ((⟨0⟩ : ExtrusionUnit).pos = (⟨0, 100⟩ : Chromosome).start_pos → rev_move = 0)) ∧
      (∃ (fwd_move : Nat) (rand_eng2 : PRNG_t),
        generate_fwd_move false (fun _ => 0) ⟨10, 5, 1, 7, 1, 2, 100, false⟩ ⟨0, 100⟩ ⟨0⟩
          ⟨fun _ => 9, 0⟩ = Except.ok (fwd_move, rand_eng2) ∧
        fwd_move ≤ (⟨0, 100⟩ : Chromosome).end_pos - 1 - (⟨0⟩ : ExtrusionUnit).pos ∧
        ((⟨0⟩ : ExtrusionUnit).pos = (⟨0, 100⟩ : Chromosome).end_pos - 1 → fwd_move = 0)) :=
  generated_moves_stay_inside false (fun _ => 0) ⟨10, 5, 1, 7, 1, 2, 100, false⟩ ⟨0, 100⟩ ⟨0⟩
    ⟨fun _ => 9, 0⟩ (by decide) (by decide) (by decide)

theorem generate_moves_step_spec (ndebug : Bool) (out_of_range : Int → Nat) (c : Config)
    (chrom : Chromosome) (lefs : List Lef) (hM : chrom.end_pos < SIZE_MOD)
    (hinside : ∀ j, j < lefs.length → (lef_at lefs j).is_bound = true →
      chrom.start_pos ≤ (lef_at lefs j).rev_unit.pos ∧
        (lef_at lefs j).rev_unit.pos < SIZE_MOD ∧
        (lef_at lefs j).fwd_unit.pos < chrom.end_pos)
    (i : Nat) (s : List Nat × List Nat × PRNG_t) (hi : i < lefs.length)
    (hs : s.1.length = lefs.length ∧ s.2.1.length = lefs.length ∧
      ∀ j, j < i →
        ((lef_at lefs j).is_bound = false → s.1.getD j 0 = 0 ∧ s.2.1.getD j 0 = 0) ∧
        ((lef_at lefs j).is_bound = true →
          chrom.start_pos + s.1.getD j 0 ≤ (lef_at lefs j).rev_unit.pos ∧
            (lef_at lefs j).fwd_unit.pos + s.2.1.getD j 0 < chrom.end_pos)) :
    ∃ t, generate_moves_step ndebug out_of_range c chrom lefs s i = Except.ok t ∧
      (t.1.length = lefs.length ∧ t.2.1.length = lefs.length ∧
      ∀ j, j < i + 1 →
        ((lef_at lefs j).is_bound = false → t.1.getD j 0 = 0 ∧ t.2.1.getD j 0 = 0) ∧
        ((lef_at lefs j).is_bound = true →
          chrom.start_pos + t.1.getD j 0 ≤ (lef_at lefs j).rev_unit.pos ∧
            (lef_at lefs j).fwd_unit.pos + t.2.1.getD j 0 < chrom.end_pos)) := by
  obtain ⟨hl1, hl2, hall⟩ := hs
  unfold generate_moves_step
  rw [getElem?_lef_at lefs i hi]
  simp only
  by_cases hb : (lef_at lefs i).is_bound = true
  · obtain ⟨h1, h2, h3⟩ := hinside i hi hb
    obtain ⟨p, hp, hple⟩ := generate_rev_move_le ndebug out_of_range c chrom
      (lef_at lefs i).rev_unit s.2.2 h1 h2
    obtain ⟨q, hq, hqle⟩ := generate_fwd_move_le ndebug out_of_range c chrom
      (lef_at lefs i).fwd_unit p.2 h3 hM
    rw [if_pos hb, hp]
    simp only
    rw [if_pos hb, hq]
    simp only
    rw [if_neg (by omega)]
    refine ⟨_, rfl, by simpa using hl1, by simpa using hl2, ?_⟩
    intro j hj
    simp only
    rw [getD_set_nat, getD_set_nat]
    by_cases hji : i = j
    · subst hji
      rw [if_pos ⟨rfl, by omega⟩, if_pos ⟨rfl, by omega⟩]
      refine ⟨fun hx => ?_, fun _ => ⟨by omega, by omega⟩⟩
      rw [hb] at hx
      exact absurd hx (by decide)
    · rw [if_neg (fun hx => hji hx.1), if_neg (fun hx => hji hx.1)]
      exact hall j (by omega)
  · have hbf : (lef_at lefs i).is_bound = false := by simpa using hb
    rw [if_neg hb]
    simp only
    rw [if_neg hb]
    simp only
    rw [if_neg (by omega)]
    refine ⟨_, rfl, by simpa using hl1, by simpa using hl2, ?_⟩
    intro j hj
    simp only
    rw [getD_set_nat, getD_set_nat]
    by_cases hji : i = j
    · subst hji
      rw [if_pos ⟨rfl, by omega⟩, if_pos ⟨rfl, by omega⟩]
      exact ⟨fun _ => ⟨rfl, rfl⟩, fun hx => absurd hx hb⟩
    · rw [if_neg (fun hx => hji hx.1), if_neg (fun hx => hji hx.1)]
      exact hall j (by omega)

theorem generate_moves_spec (ndebug : Bool) (out_of_range : Int → Nat) (c : Config)
    (chrom : Chromosome) (lefs : List Lef)
    (rev_lef_ranks fwd_lef_ranks rev_moves fwd_moves : List Nat) (rand_eng : PRNG_t)
    (adjust_moves_ : Bool) (hM : chrom.end_pos < SIZE_MOD) (hsize : lefs.length < SIZE_MOD)
    (hrl : rev_lef_ranks.length = lefs.length) (hfl : fwd_lef_ranks.length = lefs.length)
    (hrm : rev_moves.length = lefs.length) (hfm : fwd_moves.length = lefs.length)
    (hinside : ∀ j, j < lefs.length → (lef_at lefs j).is_bound = true →
      chrom.start_pos ≤ (lef_at lefs j).rev_unit.pos ∧
        (lef_at lefs j).rev_unit.pos < SIZE_MOD ∧
        (lef_at lefs j).fwd_unit.pos < chrom.end_pos)
    (hadj : adjust_moves_ = true → 0 < lefs.length ∧
      rev_lef_ranks.Perm (List.range lefs.length) ∧
      fwd_lef_ranks.Perm (List.range lefs.length)) :
    ∃ (rev_out fwd_out : List Nat) (rand_eng2 : PRNG_t),
      generate_moves ndebug out_of_range c chrom lefs rev_lef_ranks fwd_lef_ranks rev_moves
        fwd_moves rand_eng adjust_moves_ = Except.ok (rev_out, fwd_out, rand_eng2) ∧
      rev_out.length = lefs.length ∧ fwd_out.length = lefs.length ∧
      ∀ j, j < lefs.length →
        ((lef_at lefs j).is_bound = false → rev_out.getD j 0 = 0 ∧ fwd_out.getD j 0 = 0) ∧
        ((lef_at lefs j).is_bound = true →
          chrom.start_pos + rev_out.getD j 0 ≤ (lef_at lefs j).rev_unit.pos ∧
            (lef_at lefs j).fwd_unit.pos + fwd_out.getD j 0 < chrom.end_pos) := by
  unfold generate_moves
  rw [if_neg (fun hx => hx.2 ⟨hfl.symm, hrl.symm, hfm.symm, hrm.symm⟩)]
  obtain ⟨s, hs, hl1, hl2, hall⟩ := try_fold_range_invariant
    (generate_moves_step ndebug out_of_range c chrom lefs)
    (fun i s => s.1.length = lefs.length ∧ s.2.1.length = lefs.length ∧
      ∀ j, j < i →
        ((lef_at lefs j).is_bound = false → s.1.getD j 0 = 0 ∧ s.2.1.getD j 0 = 0) ∧
        ((lef_at lefs j).is_bound = true →
          chrom.start_pos + s.1.getD j 0 ≤ (lef_at lefs j).rev_unit.pos ∧
            (lef_at lefs j).fwd_unit.pos + s.2.1.getD j 0 < chrom.end_pos))
    lefs.length
    (fun i s hi hP => generate_moves_step_spec ndebug out_of_range c chrom lefs hM hinside i s
      hi hP)
    (rev_moves, fwd_moves, rand_eng) ⟨hrm, hfm, fun j hj => by omega⟩
  rw [hs]
  simp only
  by_cases ha : adjust_moves_ = true
  · rw [if_pos ha]
    obtain ⟨hn, hrp, hfp⟩ := hadj ha
    obtain ⟨rev_out, fwd_out, hout, ⟨hrlen, hrall, _⟩, ⟨hflen, hfall, _⟩⟩ :=
      adjust_moves_spec ndebug chrom lefs rev_lef_ranks fwd_lef_ranks s.1 s.2.1 hn hsize hM hrp
        hfp hl1 hl2
        (fun j hj hb => ⟨((hall j hj).2 hb).1, (hinside j hj hb).2.1, ((hall j hj).2 hb).2⟩)
    rw [hout]
    refine ⟨rev_out, fwd_out, s.2.2, rfl, hrlen, hflen, ?_⟩
    intro j hj
    refine ⟨fun hb => ?_, fun hb => ⟨(hrall j hj).2.2 hb, (hfall j hj).2.2 hb⟩⟩
    have h0 := (hall j hj).1 hb
    rw [(hrall j hj).2.1 hb, (hfall j hj).2.1 hb]
    exact h0
  · rw [if_neg ha]
    exact ⟨s.1, s.2.1, s.2.2, rfl, hl1, hl2, hall⟩

/-- C25: with a standard deviation of 0, `generate_rev_move` returns
`min(rev_extrusion_speed, pos - start)` and `generate_fwd_move` returns
`min(fwd_extrusion_speed, end - 1 - pos)` for every unit inside the chromosome, and hand back
the random source as they got it; and `generate_moves` (any standard deviation, with or without
the adjustment of the moves) returns with rev and fwd moves of 0 for every LEF that is not
bound.  Both builds. -/
theorem zero_std_moves_and_unbound_lefs (ndebug : Bool) (out_of_range : Int → Nat) (c : Config)
    (chrom : Chromosome) (lefs : List Lef)
    (rev_lef_ranks fwd_lef_ranks rev_moves fwd_moves : List Nat) (rand_eng : PRNG_t)
    (adjust_moves_ : Bool) (hM : chrom.end_pos < SIZE_MOD) (hsize : lefs.length < SIZE_MOD)
    (hrl : rev_lef_ranks.length = lefs.length) (hfl : fwd_lef_ranks.length = lefs.length)
    (hrm : rev_moves.length = lefs.length) (hfm : fwd_moves.length = lefs.length)
    (hinside : ∀ j, j < lefs.length → (lef_at lefs j).is_bound = true →
      chrom.start_pos ≤ (lef_at lefs j).rev_unit.pos ∧
        (lef_at lefs j).rev_unit.pos < SIZE_MOD ∧
        (lef_at lefs j).fwd_unit.pos < chrom.end_pos)
    (hadj : adjust_moves_ = true → 0 < lefs.length ∧
      rev_lef_ranks.Perm (List.range lefs.length) ∧
      fwd_lef_ranks.Perm (List.range lefs.length)) :
    (∀ (unit : ExtrusionUnit), chrom.start_pos ≤ unit.pos → unit.pos < chrom.end_pos →
      (c.rev_extrusion_speed_std = 0 →
        generate_rev_move ndebug out_of_range c chrom unit rand_eng =
          Except.ok (min c.rev_extrusion_speed (unit.pos - chrom.start_pos), rand_eng)) ∧
      (c.fwd_extrusion_speed_std = 0 →
        generate_fwd_move ndebug out_of_range c chrom unit rand_eng =
          Except.ok (min c.fwd_extrusion_speed (chrom.end_pos - 1 - unit.pos), rand_eng))) ∧
      ∃ (rev_out fwd_out : List Nat) (rand_eng2 : PRNG_t),
        generate_moves ndebug out_of_range c chrom lefs rev_lef_ranks fwd_lef_ranks rev_moves
          fwd_moves rand_eng adjust_moves_ = Except.ok (rev_out, fwd_out, rand_eng2) ∧
        rev_out.length = lefs.length ∧ fwd_out.length = lefs.length ∧
        ∀ j, j < lefs.length → (lef_at lefs j).is_bound = false →
          rev_out.getD j 0 = 0 ∧ fwd_out.getD j 0 = 0 := by
  refine ⟨?_, ?_⟩
  · intro unit hs he
    refine ⟨fun h0 => ?_, fun h0 => ?_⟩
    · rw [generate_rev_move_eq ndebug out_of_range c chrom unit rand_eng hs (by omega),
        if_pos h0]
    · rw [generate_fwd_move_eq ndebug out_of_range c chrom unit rand_eng he hM, if_pos h0]
  · obtain ⟨rev_out, fwd_out, rand_eng2, hout, h1, h2, hall⟩ := generate_moves_spec ndebug
      out_of_range c chrom lefs rev_lef_ranks fwd_lef_ranks rev_moves fwd_moves rand_eng
      adjust_moves_ hM hsize hrl hfl hrm hfm hinside hadj
    exact ⟨rev_out, fwd_out, rand_eng2, hout, h1, h2, fun j hj hb => (hall j hj).1 hb⟩

theorem zero_std_moves_and_unbound_lefs_witness :
    (∀ (unit : ExtrusionUnit), (⟨0, 100⟩ : Chromosome).start_pos ≤ unit.pos →
      unit.pos < (⟨0, 100⟩ : Chromosome).end_pos →
      ((⟨10, 5, 0, 7, 0, 2, 100, false⟩ : Config).rev_extrusion_speed_std = 0 →
        generate_rev_move false (fun _ => 0) ⟨10, 5, 0, 7, 0, 2, 100, false⟩ ⟨0, 100⟩ unit
            ⟨fun _ => 0, 0⟩ =
          Except.ok (min (⟨10, 5, 0, 7, 0, 2, 100, false⟩ : Config).rev_extrusion_speed
            (unit.pos - (⟨0, 100⟩ : Chromosome).start_pos), ⟨fun _ => 0, 0⟩)) ∧
      ((⟨10, 5, 0, 7, 0, 2, 100, false⟩ : Config).fwd_extrusion_speed_std = 0 →
        generate_fwd_move false (fun _ => 0) ⟨10, 5, 0, 7, 0, 2, 100, false⟩ ⟨0, 100⟩ unit
            ⟨fun _ => 0, 0⟩ =
          Except.ok (min (⟨10, 5, 0, 7, 0, 2, 100, false⟩ : Config).fwd_extrusion_speed
            ((⟨0, 100⟩ : Chromosome).end_pos - 1 - unit.pos), ⟨fun _ => 0, 0⟩))) ∧
      ∃ (rev_out fwd_out : List Nat) (rand_eng2 : PRNG_t),
        generate_moves false (fun _ => 0) ⟨10, 5, 0, 7, 0, 2, 100, false⟩ ⟨0, 100⟩
          extrusion_example [0, 1, 2] [0, 1, 2] [9, 9, 9] [9, 9, 9] ⟨fun _ => 0, 0⟩ true =
          Except.ok (rev_out, fwd_out, rand_eng2) ∧
        rev_out.length = extrusion_example.length ∧
        fwd_out.length = extrusion_example.length ∧
        ∀ j, j < extrusion_example.length → (lef_at extrusion_example j).is_bound = false →
          rev_out.getD j 0 = 0 ∧ fwd_out.getD j 0 = 0 :=
  zero_std_moves_and_unbound_lefs false (fun _ => 0) ⟨10, 5, 0, 7, 0, 2, 100, false⟩ ⟨0, 100⟩
    extrusion_example [0, 1, 2] [0, 1, 2] [9, 9, 9] [9, 9, 9] ⟨fun _ => 0, 0⟩ true
    (by decide) (by decide) (by decide) (by decide) (by decide) (by decide)
    (by intro j hj; have hj3 : j < 3 := hj; interval_cases j <;> decide)
    (fun _ => ⟨by decide, by decide, by decide⟩)

/-! ## Registration of contacts -/

theorem register_contacts_single (ndebug : Bool) (c : Config) (chrom : Chromosome)
    (contacts : ContactMatrix) (lefs : List Lef) (i : Nat) (lef : Lef)
    (hbin : c.bin_size ≠ 0) (hget : lefs[i]? = some lef) (hb : lef.is_bound = true)
    (hend : chrom.end_pos < SIZE_MOD)
    (hrev : chrom.start_pos + 1 < lef.rev_unit.pos ∧ lef.rev_unit.pos < chrom.end_pos - 1)
    (hfwd : chrom.start_pos + 1 < lef.fwd_unit.pos ∧ lef.fwd_unit.pos < chrom.end_pos - 1)
    (hok : (contacts.increment ndebug ((lef.rev_unit.pos - (chrom.start_pos + 1)) / c.bin_size)
      ((lef.fwd_unit.pos - (chrom.start_pos + 1)) / c.bin_size)).error = none) :
    register_contacts ndebug c chrom contacts lefs [i] =
      Except.ok ((contacts.increment ndebug
        ((lef.rev_unit.pos - (chrom.start_pos + 1)) / c.bin_size)
        ((lef.fwd_unit.pos - (chrom.start_pos + 1)) / c.bin_size)).state, 1) := by
  have hi : i < lefs.length := by
    by_contra hcon
    rw [List.getElem?_eq_none (not_lt.1 hcon)] at hget
    exact absurd hget (by simp)
  have e1 : (chrom.start_pos + 1) % SIZE_MOD = chrom.start_pos + 1 :=
    Nat.mod_eq_of_lt (by omega)
  have e2 : (chrom.end_pos + SIZE_MOD - 1) % SIZE_MOD = chrom.end_pos - 1 := by
    unfold SIZE_MOD at *
    omega
  unfold register_contacts register_contacts_in_range
  rw [e1, e2]
  unfold try_fold register_contacts_step
  rw [if_neg (fun hx => hx.2 hi), hget]
  simp only
  rw [if_pos ⟨hb, hrev.1, hrev.2, hfwd.1, hfwd.2⟩, if_neg hbin, hok]
  simp only [try_fold]
  rfl

/-- C27: chromosome `[0, 100)`, `bin_size = 10`, one bound LEF with its rev unit at 10 and its
fwd unit at 20.  `register_contacts` records one contact and increments the cell
`((10 - 1) / 10, (20 - 1) / 10) = (0, 1)`; the cell `(10 / 10, 20 / 10) = (1, 2)` stays 0.
Both builds. -/
theorem register_contacts_shifts_positions_by_one :
    (register_contacts false ⟨10, 5, 0, 7, 0, 2, 100, false⟩ ⟨0, 100⟩
        (ContactMatrix.create 3 10) [⟨0, ⟨10⟩, ⟨20⟩, true⟩] [0]).map
          (fun s => (s.1.get false 0 1, s.1.get false 1 2, s.1.get_tot_contacts, s.2)) =
      Except.ok (Except.ok 1, Except.ok 0, 1, 1) ∧
    (register_contacts true ⟨10, 5, 0, 7, 0, 2, 100, false⟩ ⟨0, 100⟩
        (ContactMatrix.create 3 10) [⟨0, ⟨10⟩, ⟨20⟩, true⟩] [0]).map
          (fun s => (s.1.get true 0 1, s.1.get true 1 2, s.1.get_tot_contacts, s.2)) =
      Except.ok (Except.ok 1, Except.ok 0, 1, 1) := by
  constructor <;> decide

/-! ## Unloader affinities -/

theorem getD_set_rat (l : List ℚ) (i j : Nat) (v : ℚ) :
    (l.set i v).getD j 0 = if i = j ∧ i < l.length then v else l.getD j 0 := by
  simp only [List.getD_eq_getElem?_getD, List.getElem?_set]
  by_cases hij : i = j
  · subst hij
    by_cases hlt : i < l.length
    · simp [hlt]
    · simp [hlt, List.getElem?_eq_none (not_lt.1 hlt)]
  · simp [hij]

theorem unloader_affinity_step_eq (c : Config) (lefs : List Lef)
    (barriers : List ExtrusionBarrier) (rev_collisions fwd_collisions : List Nat)
    (lef_unloader_affinity : List ℚ) (i : Nat) (hi : i < lefs.length)
    (hrc : rev_collisions.length = lefs.length) (hfc : fwd_collisions.length = lefs.length)
    (haff : lef_unloader_affinity.length = lefs.length) :
    unloader_affinity_step c lefs barriers rev_collisions fwd_collisions lef_unloader_affinity
        i =
      Except.ok (lef_unloader_affinity.set i
        (if (lef_at lefs i).is_bound = false then 0
        else if rev_collisions.getD i 0 < barriers.length ∧
            fwd_collisions.getD i 0 < barriers.length ∧
            (barriers[rev_collisions.getD i 0]?).map ExtrusionBarrier.blocking_direction_major =
              some dna.Direction.rev ∧
            (barriers[fwd_collisions.getD i 0]?).map ExtrusionBarrier.blocking_direction_major =
              some dna.Direction.fwd then 1 / c.hard_stall_multiplier
        else 1)) := by
  unfold unloader_affinity_step
  rw [getElem?_lef_at lefs i hi]
  simp only
  rw [if_neg (by omega)]
  by_cases hb : (lef_at lefs i).is_bound = false
  · rw [if_pos hb, if_pos hb]
  · rw [if_neg hb, if_neg hb, getElem?_eq_some_getD rev_collisions i (by omega)]
    simp only
    by_cases h1 : rev_collisions.getD i 0 < barriers.length
    · rw [if_neg (not_not.2 h1), getElem?_eq_some_getD fwd_collisions i (by omega)]
      simp only
      by_cases h2 : fwd_collisions.getD i 0 < barriers.length
      · rw [if_neg (not_not.2 h2), List.getElem?_eq_getElem h1, List.getElem?_eq_getElem h2]
        simp only [Option.map_some', Option.some.injEq, h1, h2, true_and]
        split_ifs <;> rfl
      · rw [if_pos h2, if_neg (fun hx => h2 hx.2.1)]
    · rw [if_pos h1, if_neg (fun hx => h1 hx.1)]

theorem unloader_affinities_spec (ndebug : Bool) (c : Config) (lefs : List Lef)
    (barriers : List ExtrusionBarrier) (rev_collisions fwd_collisions : List Nat)
    (lef_unloader_affinity : List ℚ)
    (hrc : rev_collisions.length = lefs.length) (hfc : fwd_collisions.length = lefs.length)
    (haff : lef_unloader_affinity.length = lefs.length) :
    ∃ (out : List ℚ),
      generate_lef_unloader_affinities ndebug c lefs barriers rev_collisions fwd_collisions
        lef_unloader_affinity = Except.ok out ∧
      out.length = lefs.length ∧
      ∀ i, i < lefs.length → out.getD i 0 =
        (if (lef_at lefs i).is_bound = false then 0
        else if rev_collisions.getD i 0 < barriers.length ∧
            fwd_collisions.getD i 0 < barriers.length ∧
            (barriers[rev_collisions.getD i 0]?).map ExtrusionBarrier.blocking_direction_major =
              some dna.Direction.rev ∧
            (barriers[fwd_collisions.getD i 0]?).map ExtrusionBarrier.blocking_direction_major =
              some dna.Direction.fwd then 1 / c.hard_stall_multiplier
        else 1) := by
  unfold generate_lef_unloader_affinities
  rw [if_neg (fun hx => hx.2 ⟨hrc.symm, hfc.symm, haff.symm⟩)]
  obtain ⟨out, hout, hlen, hall⟩ := try_fold_range_invariant
    (unloader_affinity_step c lefs barriers rev_collisions fwd_collisions)
    (fun i aff => aff.length = lefs.length ∧ ∀ j, j < i → aff.getD j 0 =
        (if (lef_at lefs j).is_bound = false then 0
        else if rev_collisions.getD j 0 < barriers.length ∧
            fwd_collisions.getD j 0 < barriers.length ∧
            (barriers[rev_collisions.getD j 0]?).map ExtrusionBarrier.blocking_direction_major =
              some dna.Direction.rev ∧
            (barriers[fwd_collisions.getD j 0]?).map ExtrusionBarrier.blocking_direction_major =
              some dna.Direction.fwd then 1 / c.hard_stall_multiplier
        else 1))
    lefs.length
    (fun i aff hi hP => by
      refine ⟨_, unloader_affinity_step_eq c lefs barriers rev_collisions fwd_collisions aff i
        hi hrc hfc hP.1, by rw [List.length_set]; exact hP.1, ?_⟩
      intro j hj
      rw [getD_set_rat]
      by_cases hji : i = j
      · subst hji
        rw [if_pos ⟨rfl, by omega⟩]
      · rw [if_neg (fun hx => hji hx.1)]
        exact hP.2 j (by omega))
    lef_unloader_affinity ⟨haff, fun j hj => by omega⟩
  exact ⟨out, hout, hlen, hall⟩

theorem same_barrier_affinity (ndebug : Bool) (c : Config) (lefs : List Lef)
    (barriers : List ExtrusionBarrier) (rev_collisions fwd_collisions : List Nat)
    (lef_unloader_affinity : List ℚ)
    (hrc : rev_collisions.length = lefs.length) (hfc : fwd_collisions.length = lefs.length)
    (haff : lef_unloader_affinity.length = lefs.length)
    (i : Nat) (hi : i < lefs.length) (hbound : (lef_at lefs i).is_bound = true)
    (hsame : rev_collisions.getD i 0 = fwd_collisions.getD i 0) :
    ∃ (out : List ℚ),
      generate_lef_unloader_affinities ndebug c lefs barriers rev_collisions fwd_collisions
        lef_unloader_affinity = Except.ok out ∧
      out.length = lefs.length ∧ out.getD i 0 = 1 := by
  obtain ⟨out, hout, hlen, hall⟩ := unloader_affinities_spec ndebug c lefs barriers
    rev_collisions fwd_collisions lef_unloader_affinity hrc hfc haff
  refine ⟨out, hout, hlen, ?_⟩
  rw [hall i hi, if_neg (by simp [hbound]), if_neg]
  intro hx
  rw [hsame] at hx
  have h := hx.2.2.1.symm.trans hx.2.2.2
  exact absurd (Option.some.inj h) (by decide)

/-- C29, counterexample: one bound LEF whose rev and fwd collision both name the barrier 0, a
barrier of major direction rev, and `hard_stall_multiplier = 2`: the affinity is 1, not
`1 / 2`.  Both builds. -/
theorem same_barrier_affinity_is_not_reduced :
    (∃ (out : List ℚ),
      generate_lef_unloader_affinities false ⟨10, 5, 0, 7, 0, 2, 100, false⟩
        [⟨0, ⟨50⟩, ⟨50⟩, true⟩] [⟨50, 1, 1, dna.Direction.rev⟩] [0] [0] [0] = Except.ok out ∧
      out.getD 0 0 = 1 ∧
      out.getD 0 0 ≠ 1 / (⟨10, 5, 0, 7, 0, 2, 100, false⟩ : Config).hard_stall_multiplier) ∧
    (∃ (out : List ℚ),
      generate_lef_unloader_affinities true ⟨10, 5, 0, 7, 0, 2, 100, false⟩
        [⟨0, ⟨50⟩, ⟨50⟩, true⟩] [⟨50, 1, 1, dna.Direction.rev⟩] [0] [0] [0] = Except.ok out ∧
      out.getD 0 0 = 1 ∧
      out.getD 0 0 ≠ 1 / (⟨10, 5, 0, 7, 0, 2, 100, false⟩ : Config).hard_stall_multiplier) := by
  have key : ∀ ndebug, ∃ (out : List ℚ),
      generate_lef_unloader_affinities ndebug ⟨10, 5, 0, 7, 0, 2, 100, false⟩
        [⟨0, ⟨50⟩, ⟨50⟩, true⟩] [⟨50, 1, 1, dna.Direction.rev⟩] [0] [0] [0] = Except.ok out ∧
      out.getD 0 0 = 1 ∧
      out.getD 0 0 ≠ 1 / (⟨10, 5, 0, 7, 0, 2, 100, false⟩ : Config).hard_stall_multiplier := by
    intro ndebug
    obtain ⟨out, hout, _, h1⟩ := same_barrier_affinity ndebug ⟨10, 5, 0, 7, 0, 2, 100, false⟩
      [⟨0, ⟨50⟩, ⟨50⟩, true⟩] [⟨50, 1, 1, dna.Direction.rev⟩] [0] [0] [0] rfl rfl rfl 0
      (by decide) (by decide) rfl
    refine ⟨out, hout, h1, ?_⟩
    rw [h1]
    norm_num
  exact ⟨key false, key true⟩

/-- C29, amended: for every bound LEF `i` whose rev unit and fwd unit are recorded as colliding
with the same barrier (`rev_collisions[i] = fwd_collisions[i] = b`, `b` below the number of
barriers), `generate_lef_unloader_affinities` assigns the affinity 1: one barrier has one major
direction, which cannot be rev for the rev unit and fwd for the fwd unit.  Both builds. -/
theorem same_barrier_gives_affinity_one (ndebug : Bool) (c : Config) (lefs : List Lef)
    (barriers : List ExtrusionBarrier) (rev_collisions fwd_collisions : List Nat)
    (lef_unloader_affinity : List ℚ)
    (hrc : rev_collisions.length = lefs.length) (hfc : fwd_collisions.length = lefs.length)
    (haff : lef_unloader_affinity.length = lefs.length)
    (i b : Nat) (hi : i < lefs.length) (hbound : (lef_at lefs i).is_bound = true)
    (hrev : rev_collisions.getD i 0 = b) (hfwd : fwd_collisions.getD i 0 = b)
    (_hb : b < barriers.length) :
    ∃ (out : List ℚ),
      generate_lef_unloader_affinities ndebug c lefs barriers rev_collisions fwd_collisions
        lef_unloader_affinity = Except.ok out ∧
      out.length = lefs.length ∧ out.getD i 0 = 1 :=
  same_barrier_affinity ndebug c lefs barriers rev_collisions fwd_collisions
    lef_unloader_affinity hrc hfc haff i hi hbound (hrev.trans hfwd.symm)

theorem same_barrier_gives_affinity_one_witness :
    ∃ (out : List ℚ),
      generate_lef_unloader_affinities false ⟨10, 5, 0, 7, 0, 2, 100, false⟩
        [⟨0, ⟨50⟩, ⟨50⟩, true⟩] [⟨50, 1, 1, dna.Direction.fwd⟩] [0] [0] [0] = Except.ok out ∧
      out.length = [(⟨0, ⟨50⟩, ⟨50⟩, true⟩ : Lef)].length ∧ out.getD 0 0 = 1 :=
  same_barrier_gives_affinity_one false ⟨10, 5, 0, 7, 0, 2, 100, false⟩
    [⟨0, ⟨50⟩, ⟨50⟩, true⟩] [⟨50, 1, 1, dna.Direction.fwd⟩] [0] [0] [0] rfl rfl rfl 0 0
    (by decide) (by decide) rfl rfl (by decide)

/-! ## Burn-in -/

theorem sorted_descending_facts (drawn : List Nat) (hne : drawn ≠ []) :
    ∃ (offset : Nat) (rest : List Nat),
      insertion_sort (fun a b => decide (a < b)) drawn.reverse = offset :: rest ∧
      (offset :: rest).Perm drawn ∧ (offset :: rest).Pairwise (fun a b => a ≤ b) := by
  have hperm : (insertion_sort (fun a b => decide (a < b)) drawn.reverse).Perm drawn :=
    (insertion_sort_perm _ _).trans (List.reverse_perm drawn)
  have hsorted : (insertion_sort (fun a b => decide (a < b)) drawn.reverse).Pairwise
      (fun a b => a ≤ b) := by
    have h := insertion_sort_sorted (fun x => (x : Int)) (fun a b => decide (a < b))
      (fun a b => decide_eq_decide.2 (by simp)) drawn.reverse
    refine List.Pairwise.imp ?_ h
    intro a b hab
    exact_mod_cast hab
  cases hT : insertion_sort (fun a b => decide (a < b)) drawn.reverse with
  | nil =>
    rw [hT] at hperm
    exact absurd (List.Perm.nil_eq hperm).symm hne
  | cons offset rest =>
    rw [hT] at hperm hsorted
    exact ⟨offset, rest, rfl, hperm, hsorted⟩

/-- C30: with burn-in not skipped, a non-empty epoch buffer and values drawn from
`[0, 4 * average_lef_lifetime / bin_size]`, `setup_burnin` returns the loading epochs in
non-increasing order, the last one 0, all at most `4 * average_lef_lifetime / bin_size`, and as a
multiset the drawn values each reduced by the smallest drawn value `offset`; it makes one draw
per element of the buffer. -/
theorem setup_burnin_spec (c : Config) (epoch_buff : List Nat) (rand_eng : PRNG_t)
    (hskip : c.skip_burnin = false) (hne : epoch_buff ≠ []) (hbin : c.bin_size ≠ 0)
    (hM : 4 * c.average_lef_lifetime < SIZE_MOD)
    (hdraw : ∀ k, k < epoch_buff.length → 0 ≤ rand_eng.values (rand_eng.calls + k) ∧
      rand_eng.values (rand_eng.calls + k) ≤
        ((4 * c.average_lef_lifetime / c.bin_size : Nat) : Int)) :
    ∃ (out : List Nat) (rand_eng2 : PRNG_t) (offset : Nat),
      setup_burnin c epoch_buff rand_eng = Except.ok (out, rand_eng2) ∧
      rand_eng2.calls = rand_eng.calls + epoch_buff.length ∧
      out.length = epoch_buff.length ∧
      out.Pairwise (fun a b => b ≤ a) ∧
      out.getLast? = some 0 ∧
      (∀ x, x ∈ out → x ≤ 4 * c.average_lef_lifetime / c.bin_size) ∧
      offset ∈ (List.range epoch_buff.length).map
        (fun k => (rand_eng.values (rand_eng.calls + k)).toNat) ∧
      (∀ x, x ∈ (List.range epoch_buff.length).map
        (fun k => (rand_eng.values (rand_eng.calls + k)).toNat) → offset ≤ x) ∧
      out.Perm (((List.range epoch_buff.length).map
        (fun k => (rand_eng.values (rand_eng.calls + k)).toNat)).map (fun x => x - offset)) := by
  have hmax : 4 * c.average_lef_lifetime / c.bin_size < SIZE_MOD :=
    lt_of_le_of_lt (Nat.div_le_self _ _) hM
  have hgen : (generate epoch_buff.length rand_eng).1 = (List.range epoch_buff.length).map
      (fun k => (rand_eng.values (rand_eng.calls + k)).toNat) := by
    unfold generate
    simp only
    apply List.map_congr_left
    intro k hk
    have h := hdraw k (List.mem_range.1 hk)
    apply Nat.mod_eq_of_lt
    omega
  have hdrawn_le : ∀ x, x ∈ (List.range epoch_buff.length).map
      (fun k => (rand_eng.values (rand_eng.calls + k)).toNat) →
      x ≤ 4 * c.average_lef_lifetime / c.bin_size := by
    intro x hx
    obtain ⟨k, hk, rfl⟩ := List.mem_map.1 hx
    have h := hdraw k (List.mem_range.1 hk)
    omega
  have hdrawn_ne : (List.range epoch_buff.length).map
      (fun k => (rand_eng.values (rand_eng.calls + k)).toNat) ≠ [] := by
    intro h
    have hl := congrArg List.length h
    simp only [List.length_map, List.length_range, List.length_nil] at hl
    exact hne (List.length_eq_zero.1 hl)
  obtain ⟨offset, rest, hT, hperm, hsorted⟩ := sorted_descending_facts _ hdrawn_ne
  have hmin : ∀ x, x ∈ offset :: rest → offset ≤ x := by
    intro x hx
    rcases List.mem_cons.1 hx with rfl | hx
    · exact le_refl _
    · exact (List.pairwise_cons.1 hsorted).1 x hx
  have hsub : ∀ x, x ∈ offset :: rest →
      (x + SIZE_MOD - offset % SIZE_MOD) % SIZE_MOD = x - offset := by
    intro x hx
    have h1 := hmin x hx
    have h2 := hdrawn_le x (hperm.mem_iff.1 hx)
    unfold SIZE_MOD at *
    omega
  have hres : setup_burnin c epoch_buff rand_eng =
      Except.ok (((offset :: rest).map (fun x => x - offset)).reverse,
        (generate epoch_buff.length rand_eng).2) := by
    unfold setup_burnin
    rw [if_pos hskip, if_neg hbin]
    have hboth : (if 4 * c.average_lef_lifetime % SIZE_MOD / c.bin_size > 2048 then
          (Except.ok ((ska_sort (generate epoch_buff.length rand_eng).1.reverse).reverse,
            (generate epoch_buff.length rand_eng).2) : Except Error (List Nat × PRNG_t))
        else
          Except.ok ((counting_sort (generate epoch_buff.length rand_eng).1.reverse).reverse,
            (generate epoch_buff.length rand_eng).2)) =
        Except.ok ((offset :: rest).reverse, (generate epoch_buff.length rand_eng).2) := by
      unfold ska_sort counting_sort
      rw [hgen, hT]
      split_ifs <;> rfl
    rw [hboth]
    simp only
    have hlast : (offset :: rest).reverse.getLast? = some offset := by
      rw [List.getLast?_reverse]
      rfl
    rw [hlast]
    simp only
    have hmap : List.map (fun n => (n + SIZE_MOD - offset % SIZE_MOD) % SIZE_MOD)
        (offset :: rest).reverse = ((offset :: rest).map (fun x => x - offset)).reverse := by
      rw [List.map_reverse]
      congr 1
      exact List.map_congr_left hsub
    by_cases h0 : offset = 0
    · rw [if_neg (not_not.2 h0)]
      subst h0
      simp
    · rw [if_pos h0, hmap]
  refine ⟨_, _, offset, hres, rfl, ?_, ?_, ?_, ?_, ?_, ?_, ?_⟩
  · rw [List.length_reverse, List.length_map, hperm.length_eq, List.length_map,
      List.length_range]
  · rw [List.pairwise_reverse]
    refine List.Pairwise.map _ ?_ hsorted
    intro a b hab
    exact Nat.sub_le_sub_right hab offset
  · rw [List.getLast?_reverse]
    simp
  · intro x hx
    rw [List.mem_reverse] at hx
    obtain ⟨y, hy, rfl⟩ := List.mem_map.1 hx
    have := hdrawn_le y (hperm.mem_iff.1 hy)
    omega
  · exact hperm.mem_iff.1 (List.mem_cons_self _ _)
  · intro x hx
    exact hmin x (hperm.mem_iff.2 hx)
  · exact (List.reverse_perm _).trans (hperm.map _)

theorem setup_burnin_spec_witness :
    ∃ (out : List Nat) (rand_eng2 : PRNG_t) (offset : Nat),
      setup_burnin ⟨10, 5, 0, 7, 0, 2, 100, false⟩ [0, 0, 0, 0] ⟨fun k => 7 + 3 * (k : Int), 0⟩ =
        Except.ok (out, rand_eng2) ∧
      rand_eng2.calls = (⟨fun k => 7 + 3 * (k : Int), 0⟩ : PRNG_t).calls + [0, 0, 0, 0].length ∧
      out.length = [0, 0, 0, 0].length ∧
      out.Pairwise (fun a b => b ≤ a) ∧
      out.getLast? = some 0 ∧
      (∀ x, x ∈ out →
        x ≤ 4 * (⟨10, 5, 0, 7, 0, 2, 100, false⟩ : Config).average_lef_lifetime /
          (⟨10, 5, 0, 7, 0, 2, 100, false⟩ : Config).bin_size) ∧
      offset ∈ (List.range [0, 0, 0, 0].length).map
        (fun k => ((⟨fun k => 7 + 3 * (k : Int), 0⟩ : PRNG_t).values
          ((⟨fun k => 7 + 3 * (k : Int), 0⟩ : PRNG_t).calls + k)).toNat) ∧
      (∀ x, x ∈ (List.range [0, 0, 0, 0].length).map
        (fun k => ((⟨fun k => 7 + 3 * (k : Int), 0⟩ : PRNG_t).values
          ((⟨fun k => 7 + 3 * (k : Int), 0⟩ : PRNG_t).calls + k)).toNat) → offset ≤ x) ∧
      out.Perm (((List.range [0, 0, 0, 0].length).map
        (fun k => ((⟨fun k => 7 + 3 * (k : Int), 0⟩ : PRNG_t).values
          ((⟨fun k => 7 + 3 * (k : Int), 0⟩ : PRNG_t).calls + k)).toNat)).map
            (fun x => x - offset)) :=
  setup_burnin_spec ⟨10, 5, 0, 7, 0, 2, 100, false⟩ [0, 0, 0, 0] ⟨fun k => 7 + 3 * (k : Int), 0⟩
    rfl (by decide) (by decide) (by decide)
    (by intro k hk; have hk4 : k < 4 := hk; interval_cases k <;> decide)

/-! ## The empty LEF array -/

theorem adjust_moves_of_empty_array (ndebug : Bool) (chrom : Chromosome) :
    adjust_moves_of_consecutive_extr_units ndebug chrom [] [] [] [] [] =
      Except.error Error.undefined_behaviour := by
  cases ndebug <;> rfl

/-! ## The writer of the contacts -/

/-- C31, counterexample: with `skip_output` set and the front entry (chromosome 0, 3 cells done)
of a simulation with `num_cells = 3`, the turn removes the entry and deallocates chromosome 0
but does not write it.  Both builds. -/
theorem writer_skips_the_write_with_skip_output :
    write_contacts_to_disk_turn false 3 true (fun _ => none)
        ⟨[(some 0, 3), (some 1, 1)], false, [], []⟩ =
      (⟨[(some 1, 1)], false, [], [0]⟩, LoopControl.next_turn) ∧
    write_contacts_to_disk_turn true 3 true (fun _ => none)
        ⟨[(some 0, 3), (some 1, 1)], false, [], []⟩ =
      (⟨[(some 1, 1)], false, [], [0]⟩, LoopControl.next_turn) := by
  constructor <;> decide

/-- C31, amended: one turn of the writer loop.  With an empty queue nothing changes; with a null
chromosome at the front the writer sets `end_of_simulation` and returns without removing the
entry; with a front entry whose count equals `num_cells` the writer removes exactly that entry,
writes the chromosome unless `skip_output` is set, and deallocates it unless the write throws;
otherwise nothing changes.  So every chromosome that the turn writes or deallocates is the
chromosome of a front entry whose count equals `num_cells`. -/
theorem write_contacts_to_disk_turn_spec (ndebug : Bool) (num_cells : Nat) (skip_output : Bool)
    (write_error : Nat → Option Error) (s : WriterState) :
    (s.progress_queue = [] →
      write_contacts_to_disk_turn ndebug num_cells skip_output write_error s =
        (s, LoopControl.next_turn)) ∧
    (∀ (count : Nat) (rest : List (Option Nat × Nat)),
      s.progress_queue = (none, count) :: rest →
      write_contacts_to_disk_turn ndebug num_cells skip_output write_error s =
        ({ s with end_of_simulation := true }, LoopControl.returned)) ∧
    (∀ (chrom : Nat) (rest : List (Option Nat × Nat)),
      s.progress_queue = (some chrom, num_cells) :: rest →
      (write_contacts_to_disk_turn ndebug num_cells skip_output write_error s).1 =
        { s with
          progress_queue := rest,
          written :=
            if skip_output = false ∧ write_error chrom = none then s.written ++ [chrom]
            else s.written,
          deallocated :=
            if skip_output = true ∨ write_error chrom = none then s.deallocated ++ [chrom]
            else s.deallocated }) ∧
    (∀ (chrom count : Nat) (rest : List (Option Nat × Nat)),
      s.progress_queue = (some chrom, count) :: rest → count ≠ num_cells →
      (write_contacts_to_disk_turn ndebug num_cells skip_output write_error s).1 = s) ∧
    (∀ (chrom : Nat),
      (chrom ∈ (write_contacts_to_disk_turn ndebug num_cells skip_output write_error s).1.written ∧
          chrom ∉ s.written) ∨
        (chrom ∈
            (write_contacts_to_disk_turn ndebug num_cells skip_output write_error s).1.deallocated ∧
          chrom ∉ s.deallocated) →
      s.progress_queue.head? = some (some chrom, num_cells)) := by
  obtain ⟨queue, eos, written, deallocated⟩ := s
  cases queue with
  | nil =>
    refine ⟨fun _ => rfl, ?_, ?_, ?_, ?_⟩
    · intro count rest h
      simp at h
    · intro chrom rest h
      simp at h
    · intro chrom count rest h
      simp at h
    · intro chrom h
      simp [write_contacts_to_disk_turn] at h
  | cons front tail =>
    obtain ⟨chrom0, count0⟩ := front
    cases chrom0 with
    | none =>
      refine ⟨fun h => by simp at h, fun _ _ _ => rfl, ?_, ?_, ?_⟩
      · intro chrom rest h
        simp at h
      · intro chrom count rest h
        simp at h
      · intro chrom h
        simp [write_contacts_to_disk_turn] at h
    | some chrom0 =>
      refine ⟨fun h => by simp at h, fun _ _ h => by simp at h, ?_, ?_, ?_⟩
      · intro chrom rest h
        simp only [List.cons.injEq, Prod.mk.injEq, Option.some.injEq] at h
        obtain ⟨⟨rfl, rfl⟩, rfl⟩ := h
        unfold write_contacts_to_disk_turn
        simp only [if_true]
        cases skip_output <;> cases hw : write_error chrom0 <;> simp
      · intro chrom count rest h hne
        simp only [List.cons.injEq, Prod.mk.injEq, Option.some.injEq] at h
        obtain ⟨⟨rfl, rfl⟩, rfl⟩ := h
        unfold write_contacts_to_disk_turn
        simp only [if_neg hne]
        split_ifs <;> rfl
      · intro chrom h
        unfold write_contacts_to_disk_turn at h
        by_cases hc : count0 = num_cells
        · subst hc
          simp only [if_true] at h
          have key : chrom = chrom0 := by
            cases skip_output <;> cases hw : write_error chrom0 <;> simp [hw] at h <;> tauto
          subst key
          rfl
        · simp only [if_neg hc] at h
          split_ifs at h <;> simp at h

/-! ## Collision positions are within reach -/

/-- The conversions of `2^53` and `2^53 + 1` to a `double`: both give `2^53`. -/
theorem binary64_above_2_pow_53 :
    binary64 (9007199254740992 : ℚ) = 9007199254740992 ∧
      binary64 (9007199254740993 : ℚ) = 9007199254740992 := by
  constructor
  · have := binary64_dyadic 4503599627370496 1 (by norm_num) (by norm_num)
    norm_num at this
    exact this
  · rw [binary64_eval 9007199254740993 1 (by norm_num) (by norm_num) (by norm_num)
      (by norm_num)]
    have : (9007199254740993 : ℚ) / 2 ^ (1 : Int) = ((4503599627370496 : Int) : ℚ) + 1 / 2 := by
      norm_num
    rw [this, round_half_even_tie]
    norm_num

/-- What `compute_lef_lef_collision_pos` returns when the rounded distance `R` is positive and
all its checks pass. -/
theorem collision_pos_of_rounded (ndebug : Bool) (rev_pos fwd_pos rev_move fwd_move : Nat)
    (rel dist R : Nat) (hrel : (rev_move + fwd_move) % SIZE_MOD = rel) (hrel0 : rel ≠ 0)
    (hdist : (rev_pos + SIZE_MOD - fwd_pos % SIZE_MOD) % SIZE_MOD = dist)
    (hR : rounded_fwd_distance fwd_move dist rel = (R : Int)) (hR0 : 0 < R)
    (hcp : fwd_pos + R ≤ rev_pos) (hrev : rev_pos < SIZE_MOD)
    (habs : |binary64 (binary64 ((fwd_pos + R : Nat) : ℚ) -
      binary64 (binary64 (rev_pos : ℚ) -
        binary64 (binary64 (rev_move : ℚ) * time_to_collision dist rel)))| < 1) :
    compute_lef_lef_collision_pos ndebug ⟨rev_pos⟩ ⟨fwd_pos⟩ rev_move fwd_move =
      Except.ok (fwd_pos + R, fwd_pos + R - 1) := by
  have e3 : (fwd_pos + R) % SIZE_MOD = fwd_pos + R := Nat.mod_eq_of_lt (by omega)
  have e5 : (fwd_pos + R + SIZE_MOD - 1) % SIZE_MOD = fwd_pos + R - 1 := by
    unfold SIZE_MOD at *
    omega
  unfold compute_lef_lef_collision_pos
  simp only [ExtrusionUnit.pos, hrel, hdist, hR, Int.toNat_ofNat, e3, e5]
  rw [if_neg (by
      intro h
      rcases h with h | h
      · exact hrel0 h
      · exact h ⟨Int.ofNat_nonneg R, by exact_mod_cast (show R < SIZE_MOD by omega)⟩),
    if_neg (fun hx => hx.2 hcp), if_neg (fun hx => hx.2 habs), if_neg (by omega),
    if_neg (fun hx => hx.2 ⟨by omega, by omega⟩)]

/-- C33, counterexample: a rev unit at `2^53 + 1` that does not move and a fwd unit at 0 with
the move `2^53 + 1`.  The conversion to `double` turns `2^53 + 1` into `2^53`, the function
returns the rev collision position `2^53` in both builds, and the rev unit, whose move is 0,
would have to travel 1 bp to reach it. -/
theorem collision_pos_out_of_reach_above_2_pow_53 :
    compute_lef_lef_collision_pos false ⟨9007199254740993⟩ ⟨0⟩ 0 9007199254740993 =
        Except.ok (9007199254740992, 9007199254740991) ∧
      compute_lef_lef_collision_pos true ⟨9007199254740993⟩ ⟨0⟩ 0 9007199254740993 =
        Except.ok (9007199254740992, 9007199254740991) ∧
      (⟨0⟩ : ExtrusionUnit).pos < (⟨9007199254740993⟩ : ExtrusionUnit).pos ∧
      (⟨9007199254740993⟩ : ExtrusionUnit).pos - (⟨0⟩ : ExtrusionUnit).pos ≤
        0 + 9007199254740993 ∧
      ¬ ((⟨9007199254740993⟩ : ExtrusionUnit).pos - 9007199254740992 ≤ 0) := by
  obtain ⟨hT, hN⟩ := binary64_above_2_pow_53
  have ht : time_to_collision 9007199254740993 9007199254740993 = 1 := by
    unfold time_to_collision
    rw [Nat.cast_ofNat, hN]
    have : (9007199254740992 : ℚ) / 9007199254740992 = ((1 : Int) : ℚ) * 2 ^ (0 : Int) := by
      norm_num
    rw [this, binary64_dyadic 1 0 (by norm_num) (by norm_num)]
    norm_num
  have hR : rounded_fwd_distance 9007199254740993 9007199254740993 9007199254740993 =
      ((9007199254740992 : Nat) : Int) := by
    unfold rounded_fwd_distance
    rw [ht, Nat.cast_ofNat, hN, mul_one, hT]
    have hc : (9007199254740992 : ℚ) = ((9007199254740992 : Int) : ℚ) := by norm_num
    rw [hc, std_round_intCast]
    norm_num
  have habs : |binary64 (binary64 ((0 + 9007199254740992 : Nat) : ℚ) -
      binary64 (binary64 ((9007199254740993 : Nat) : ℚ) -
        binary64 (binary64 ((0 : Nat) : ℚ) *
          time_to_collision 9007199254740993 9007199254740993)))| < 1 := by
    rw [ht, Nat.zero_add, Nat.cast_ofNat, Nat.cast_ofNat, Nat.cast_zero, hT, hN, binary64_zero,
      zero_mul, binary64_zero, sub_zero, hT, sub_self, binary64_zero]
    norm_num
  have key : ∀ ndebug, compute_lef_lef_collision_pos ndebug ⟨9007199254740993⟩ ⟨0⟩ 0
      9007199254740993 = Except.ok (0 + 9007199254740992, 0 + 9007199254740992 - 1) :=
    fun ndebug => collision_pos_of_rounded ndebug 9007199254740993 0 0 9007199254740993
      9007199254740993 9007199254740993 9007199254740992 (by decide) (by decide) (by decide)
      hR (by decide) (by decide) (by decide) habs
  have ev : (0 + 9007199254740992, 0 + 9007199254740992 - 1) =
      ((9007199254740992 : Nat), (9007199254740991 : Nat)) := by decide
  rw [ev] at key
  exact ⟨key false, key true, by decide, by decide, by decide⟩

/-- C33, amended: for `fwd_pos < rev_pos < 2^48` and moves with `0 < rev_move + fwd_move < 2^48`
that let the two units meet in this epoch (`rev_pos - fwd_pos ≤ rev_move + fwd_move`),
`compute_lef_lef_collision_pos` returns, in both builds, a pair `(rev_c, fwd_c)` with
`fwd_pos ≤ fwd_c < rev_c ≤ rev_pos`, `rev_c = fwd_c + 1`, `rev_pos - rev_c ≤ rev_move` and
`fwd_c - fwd_pos ≤ fwd_move`. -/
theorem collision_pos_within_reach (ndebug : Bool) (rev_unit fwd_unit : ExtrusionUnit)
    (rev_move fwd_move : Nat) (hpos : fwd_unit.pos < rev_unit.pos)
    (hrange : rev_unit.pos < 2 ^ 48) (hspeed : 0 < rev_move + fwd_move)
    (hspeedM : rev_move + fwd_move < 2 ^ 48)
    (hcross : rev_unit.pos - fwd_unit.pos ≤ rev_move + fwd_move) :
    ∃ (rev_c fwd_c : Nat),
      compute_lef_lef_collision_pos ndebug rev_unit fwd_unit rev_move fwd_move =
        Except.ok (rev_c, fwd_c) ∧
      fwd_unit.pos ≤ fwd_c ∧ fwd_c < rev_c ∧ rev_c ≤ rev_unit.pos ∧ rev_c = fwd_c + 1 ∧
      rev_unit.pos - rev_c ≤ rev_move ∧ fwd_c - fwd_unit.pos ≤ fwd_move := by
  obtain ⟨rev_pos⟩ := rev_unit
  obtain ⟨fwd_pos⟩ := fwd_unit
  simp only [ExtrusionUnit.pos] at hpos hrange hcross ⊢
  obtain ⟨distance, rfl⟩ := Nat.exists_eq_add_of_lt hpos
  obtain ⟨R, _, habs, hle, heval⟩ := collision_pos_eval ndebug fwd_pos (distance + 1) rev_move
    fwd_move (by omega) (by omega) hspeed hspeedM
  -- the exact quotient lies between `distance - rev_move` and `fwd_move`
  have hb : (0 : ℚ) < (rev_move : ℚ) + (fwd_move : ℚ) := by exact_mod_cast hspeed
  have hab : ((distance + 1 : Nat) : ℚ) ≤ (rev_move : ℚ) + (fwd_move : ℚ) := by
    have : distance + 1 ≤ rev_move + fwd_move := by omega
    exact_mod_cast this
  have hf0 : (0 : ℚ) ≤ (fwd_move : ℚ) := by positivity
  have hr0 : (0 : ℚ) ≤ (rev_move : ℚ) := by positivity
  have ha0 : (0 : ℚ) ≤ ((distance + 1 : Nat) : ℚ) := by positivity
  have hq1 : (fwd_move : ℚ) * ((distance + 1 : Nat) : ℚ) / ((rev_move : ℚ) + (fwd_move : ℚ)) ≤
      (fwd_move : ℚ) := by
    rw [div_le_iff₀ hb]
    nlinarith
  have hq2 : ((distance + 1 : Nat) : ℚ) - (rev_move : ℚ) ≤
      (fwd_move : ℚ) * ((distance + 1 : Nat) : ℚ) / ((rev_move : ℚ) + (fwd_move : ℚ)) := by
    rw [le_div_iff₀ hb]
    nlinarith
  rw [abs_le] at habs
  have h1 : (R : ℚ) < (fwd_move : ℚ) + 1 := by linarith [habs.2]
  have h2 : ((distance + 1 : Nat) : ℚ) < (R : ℚ) + (rev_move : ℚ) + 1 := by linarith [habs.1]
  have h3 : R < fwd_move + 1 := by exact_mod_cast h1
  have h4 : distance + 1 < R + rev_move + 1 := by exact_mod_cast h2
  exact ⟨_, _, heval, by omega, by omega, by omega, by omega, by omega, by omega⟩

theorem collision_pos_within_reach_witness :
    ∃ (rev_c fwd_c : Nat),
      compute_lef_lef_collision_pos false ⟨100⟩ ⟨88⟩ 6 10 = Except.ok (rev_c, fwd_c) ∧
      (⟨88⟩ : ExtrusionUnit).pos ≤ fwd_c ∧ fwd_c < rev_c ∧
      rev_c ≤ (⟨100⟩ : ExtrusionUnit).pos ∧ rev_c = fwd_c + 1 ∧
      (⟨100⟩ : ExtrusionUnit).pos - rev_c ≤ 6 ∧ fwd_c - (⟨88⟩ : ExtrusionUnit).pos ≤ 10 :=
  collision_pos_within_reach false ⟨100⟩ ⟨88⟩ 6 10 (by decide) (by decide) (by decide)
    (by decide) (by decide)

/-! ## The empty LEF array, again -/

/-- C37: with an empty LEF array (and empty rank and move arrays)
`adjust_moves_of_consecutive_extr_units` and `generate_moves` with `adjust_moves_ = true` read
past the end of the rank arrays: `lefs.size() - 1` is `2^64 - 1`, the loop is entered and its
first statement reads `rev_lef_ranks[2^64 - 2]`.  Both builds. -/
theorem adjust_moves_reads_past_the_end_of_empty_arrays :
    adjust_moves_of_consecutive_extr_units false ⟨0, 100⟩ [] [] [] [] [] =
        Except.error Error.undefined_behaviour ∧
      adjust_moves_of_consecutive_extr_units true ⟨0, 100⟩ [] [] [] [] [] =
        Except.error Error.undefined_behaviour ∧
      generate_moves false (fun _ => 0) ⟨10, 5, 0, 7, 0, 2, 100, false⟩ ⟨0, 100⟩ [] [] [] [] []
        ⟨fun _ => 0, 0⟩ true = Except.error Error.undefined_behaviour ∧
      generate_moves true (fun _ => 0) ⟨10, 5, 0, 7, 0, 2, 100, false⟩ ⟨0, 100⟩ [] [] [] [] []
        ⟨fun _ => 0, 0⟩ true = Except.error Error.undefined_behaviour ∧
      ([] : List Nat)[(([] : List Lef).length + SIZE_MOD - 1) % SIZE_MOD - 1]? = none := by
  refine ⟨rfl, rfl, rfl, rfl, rfl⟩

/-! ## The number of registered contacts -/

theorem increment_counts (ndebug : Bool) (m : ContactMatrix) (r c : Nat) (hwf : m.WF)
    (hr : r < m.ncols) (hc : c < m.ncols)
    (hdbg : ndebug = false →
      (∀ v, v ∈ m._contacts → v + 1 ≤ I_MAX) ∧ m._tot_contacts + 1 ≤ I_MAX) :
    (m.increment ndebug r c).error = none ∧ (m.increment ndebug r c).state.WF ∧
      (m.increment ndebug r c).state._nrows = m._nrows ∧
      (m.increment ndebug r c).state._ncols = m._ncols ∧
      (∀ B, (∀ v, v ∈ m._contacts → v ≤ B) →
        ∀ v, v ∈ (m.increment ndebug r c).state._contacts → v ≤ B + 1) ∧
      (((m.increment ndebug r c).state._tot_contacts = (m._tot_contacts + 1) % SIZE_MOD ∧
          (m.increment ndebug r c).state._updates_missed = m._updates_missed) ∨
        ((m.increment ndebug r c).state._tot_contacts = m._tot_contacts ∧
          (m.increment ndebug r c).state._updates_missed =
            (m._updates_missed + 1) % SIZE_MOD)) := by
  obtain ⟨hlen, hcells, htot, hmissed⟩ := hwf
  have hcheck : ¬ (ndebug = false ∧ (m.bound_check_column (max r c)).isOk = false) := by
    unfold ContactMatrix.bound_check_column
    rw [if_neg (by omega)]
    simp [Except.isOk, Except.toBool]
  unfold ContactMatrix.increment ContactMatrix.add ContactMatrix.add_transposed
  simp only [ContactMatrix.transpose_coords_fst, ContactMatrix.transpose_coords_snd]
  rw [if_neg hcheck]
  by_cases hband : (r - c) + (c - r) > m.nrows
  · rw [if_pos hband]
    refine ⟨rfl, ⟨hlen, hcells, htot, Nat.mod_lt _ (by decide)⟩, rfl, rfl, ?_, Or.inr ⟨rfl, rfl⟩⟩
    intro B hB v hv
    exact Nat.le_succ_of_le (hB v hv)
  · rw [if_neg hband]
    simp only [ContactMatrix.nrows, ContactMatrix.ncols] at hband hr hc
    have hidx : max r c * m._nrows + ((r - c) + (c - r)) < m._contacts.length := by
      have h1 : (max r c + 1) * m._nrows ≤ m._ncols * m._nrows :=
        Nat.mul_le_mul_right _ (by omega)
      have h2 : (max r c + 1) * m._nrows = max r c * m._nrows + m._nrows := by ring
      have h3 : m._ncols * m._nrows = m._nrows * m._ncols := Nat.mul_comm _ _
      omega
    have hat : ∀ b, m.at b ((r - c) + (c - r)) (max r c) =
        Except.ok (m._contacts.getD (max r c * m._nrows + ((r - c) + (c - r))) 0) :=
      fun b => ContactMatrix.at_eq_of_lt b m _ _ hidx
    have hmem : m._contacts.getD (max r c * m._nrows + ((r - c) + (c - r))) 0 ∈ m._contacts := by
      rw [List.getD_eq_getElem?_getD, List.getElem?_eq_getElem hidx]
      exact List.getElem_mem _
    have hguard : (if ndebug = true then (Except.ok () : Except Error Unit)
        else m.check_for_overflow_on_add ((r - c) + (c - r)) (max r c) 1) = Except.ok () := by
      cases ndebug with
      | true => rfl
      | false =>
        obtain ⟨h1, h2⟩ := hdbg rfl
        have h3 := h1 _ hmem
        simp only [Bool.false_eq_true, if_false]
        unfold ContactMatrix.check_for_overflow_on_add
        rw [hat false]
        simp only
        rw [if_neg (by omega), if_neg (by omega)]
    rw [if_neg (by omega), hguard]
    simp only
    unfold ContactMatrix.add_to_cell
    rw [hat ndebug]
    simp only
    refine ⟨trivial, ⟨by simp only [List.length_set]; exact hlen, ?_, Nat.mod_lt _ (by decide),
      hmissed⟩, trivial, trivial, ?_, Or.inl ⟨trivial, trivial⟩⟩
    · refine ContactMatrix.mem_set_le _ _ _ _ hcells ?_
      have := Nat.mod_lt (m._contacts.getD (max r c * m._nrows + ((r - c) + (c - r))) 0 + 1)
        (show 0 < I_MOD by decide)
      show (m._contacts.getD (max r c * m._nrows + ((r - c) + (c - r))) 0 + 1) % I_MOD ≤ I_MAX
      have hI : I_MAX + 1 = I_MOD := by decide
      omega
    · intro B hB
      refine ContactMatrix.mem_set_le _ _ _ _ (fun v hv => Nat.le_succ_of_le (hB v hv)) ?_
      have h1 := hB _ hmem
      have h2 := Nat.mod_le (m._contacts.getD (max r c * m._nrows + ((r - c) + (c - r))) 0 + 1)
        I_MOD
      omega

theorem register_contacts_loop (ndebug : Bool) (c : Config) (start_pos end_pos : Nat)
    (lefs : List Lef) (ncols0 : Nat) (hbin : c.bin_size ≠ 0) :
    ∀ (selected : List Nat) (m : ContactMatrix) (n : Nat), m.WF → m._ncols = ncols0 →
      n < SIZE_MOD →
      (∀ i, i ∈ selected → i < lefs.length) →
      (∀ i, i ∈ selected →
        ((lef_at lefs i).is_bound = true ∧ (lef_at lefs i).rev_unit.pos > start_pos ∧
          (lef_at lefs i).rev_unit.pos < end_pos ∧ (lef_at lefs i).fwd_unit.pos > start_pos ∧
          (lef_at lefs i).fwd_unit.pos < end_pos) →
        ((lef_at lefs i).rev_unit.pos - start_pos) / c.bin_size < ncols0 ∧
          ((lef_at lefs i).fwd_unit.pos - start_pos) / c.bin_size < ncols0) →
      (ndebug = false →
        (∀ v, v ∈ m._contacts → v + selected.length ≤ I_MAX) ∧
          m._tot_contacts + selected.length ≤ I_MAX) →
      ∃ (out : ContactMatrix) (a b : Nat),
        try_fold (register_contacts_step ndebug c start_pos end_pos lefs) (m, n) selected =
          Except.ok (out, (n + (selected.filter (fun i =>
            decide ((lef_at lefs i).is_bound = true ∧
              (lef_at lefs i).rev_unit.pos > start_pos ∧
              (lef_at lefs i).rev_unit.pos < end_pos ∧
              (lef_at lefs i).fwd_unit.pos > start_pos ∧
              (lef_at lefs i).fwd_unit.pos < end_pos))).length) % SIZE_MOD) ∧
        out.WF ∧ out._ncols = ncols0 ∧
        a + b = (selected.filter (fun i =>
            decide ((lef_at lefs i).is_bound = true ∧
              (lef_at lefs i).rev_unit.pos > start_pos ∧
              (lef_at lefs i).rev_unit.pos < end_pos ∧
              (lef_at lefs i).fwd_unit.pos > start_pos ∧
              (lef_at lefs i).fwd_unit.pos < end_pos))).length ∧
        out._tot_contacts = (m._tot_contacts + a) % SIZE_MOD ∧
        out._updates_missed = (m._updates_missed + b) % SIZE_MOD := by
  intro selected
  induction selected with
  | nil =>
    intro m n hwf hnc hn _ _ _
    refine ⟨m, 0, 0, ?_, hwf, hnc, rfl, ?_, ?_⟩
    · simp only [try_fold, List.filter_nil, List.length_nil, Nat.add_zero]
      rw [Nat.mod_eq_of_lt hn]
    · rw [Nat.add_zero, Nat.mod_eq_of_lt hwf.2.2.1]
    · rw [Nat.add_zero, Nat.mod_eq_of_lt hwf.2.2.2]
  | cons i rest ih =>
    intro m n hwf hnc hn hsel hcols hdbg
    have hi := hsel i (List.mem_cons_self _ _)
    by_cases hq : (lef_at lefs i).is_bound = true ∧ (lef_at lefs i).rev_unit.pos > start_pos ∧
        (lef_at lefs i).rev_unit.pos < end_pos ∧ (lef_at lefs i).fwd_unit.pos > start_pos ∧
        (lef_at lefs i).fwd_unit.pos < end_pos
    · obtain ⟨hr, hc⟩ := hcols i (List.mem_cons_self _ _) hq
      obtain ⟨herr, hwf1, _, hnc1, hcells1, hcount⟩ := increment_counts ndebug m
        (((lef_at lefs i).rev_unit.pos - start_pos) / c.bin_size)
        (((lef_at lefs i).fwd_unit.pos - start_pos) / c.bin_size) hwf
        (by simp only [ContactMatrix.ncols]; omega) (by simp only [ContactMatrix.ncols]; omega)
        (fun hn0 => by
          obtain ⟨h1, h2⟩ := hdbg hn0
          simp only [List.length_cons] at h1 h2
          exact ⟨fun v hv => by have := h1 v hv; omega, by omega⟩)
      have hstep : register_contacts_step ndebug c start_pos end_pos lefs (m, n) i =
          Except.ok ((ContactMatrix.increment ndebug m
            (((lef_at lefs i).rev_unit.pos - start_pos) / c.bin_size)
            (((lef_at lefs i).fwd_unit.pos - start_pos) / c.bin_size)).state,
            (n + 1) % SIZE_MOD) := by
        unfold register_contacts_step
        rw [if_neg (fun hx => hx.2 hi), getElem?_lef_at lefs i hi]
        simp only
        rw [if_pos hq, if_neg hbin, herr]
      have hfold : try_fold (register_contacts_step ndebug c start_pos end_pos lefs) (m, n)
          (i :: rest) = try_fold (register_contacts_step ndebug c start_pos end_pos lefs)
            ((ContactMatrix.increment ndebug m
            (((lef_at lefs i).rev_unit.pos - start_pos) / c.bin_size)
            (((lef_at lefs i).fwd_unit.pos - start_pos) / c.bin_size)).state,
            (n + 1) % SIZE_MOD) rest := by
        rw [try_fold, hstep]
      rw [hfold]
      obtain ⟨out, a, b, hout, hwfo, hnco, hab, htot, hmis⟩ := ih _ ((n + 1) % SIZE_MOD) hwf1
        (hnc1.trans hnc) (Nat.mod_lt _ (by decide))
        (fun j hj => hsel j (List.mem_cons_of_mem _ hj))
        (fun j hj => hcols j (List.mem_cons_of_mem _ hj))
        (fun hn0 => by
          obtain ⟨h1, h2⟩ := hdbg hn0
          simp only [List.length_cons] at h1 h2
          refine ⟨fun v hv => ?_, ?_⟩
          · have := hcells1 (I_MAX - (rest.length + 1))
              (fun w hw => by have := h1 w hw; omega) v hv
            omega
          · have hM : I_MAX < SIZE_MOD := by decide
            rcases hcount with ⟨h3, _⟩ | ⟨h3, _⟩
            · rw [h3, Nat.mod_eq_of_lt (by omega)]
              omega
            · rw [h3]
              omega)
      rw [hout]
      have hfilter : (List.filter (fun i =>
            decide ((lef_at lefs i).is_bound = true ∧
              (lef_at lefs i).rev_unit.pos > start_pos ∧
              (lef_at lefs i).rev_unit.pos < end_pos ∧
              (lef_at lefs i).fwd_unit.pos > start_pos ∧
              (lef_at lefs i).fwd_unit.pos < end_pos)) (i :: rest)).length =
          (List.filter (fun i =>
            decide ((lef_at lefs i).is_bound = true ∧
              (lef_at lefs i).rev_unit.pos > start_pos ∧
              (lef_at lefs i).rev_unit.pos < end_pos ∧
              (lef_at lefs i).fwd_unit.pos > start_pos ∧
              (lef_at lefs i).fwd_unit.pos < end_pos)) rest).length + 1 := by
        rw [List.filter_cons_of_pos (by simpa using hq), List.length_cons]
      rw [hfilter]
      rcases hcount with ⟨h3, h4⟩ | ⟨h3, h4⟩
      · refine ⟨out, a + 1, b, ?_, hwfo, hnco, by omega, ?_, ?_⟩
        · congr 2
          unfold SIZE_MOD
          omega
        · rw [htot, h3]
          unfold SIZE_MOD
          omega
        · rw [hmis, h4]
      · refine ⟨out, a, b + 1, ?_, hwfo, hnco, by omega, ?_, ?_⟩
        · congr 2
          unfold SIZE_MOD
          omega
        · rw [htot, h3]
        · rw [hmis, h4]
          unfold SIZE_MOD
          omega
    · have hstep : register_contacts_step ndebug c start_pos end_pos lefs (m, n) i =
          Except.ok (m, n) := by
        unfold register_contacts_step
        rw [if_neg (fun hx => hx.2 hi), getElem?_lef_at lefs i hi]
        simp only
        rw [if_neg hq]
      have hfold : try_fold (register_contacts_step ndebug c start_pos end_pos lefs) (m, n)
          (i :: rest) = try_fold (register_contacts_step ndebug c start_pos end_pos lefs)
            (m, n) rest := by
        rw [try_fold, hstep]
      rw [hfold]
      obtain ⟨out, a, b, hout, hwfo, hnco, hab, htot, hmis⟩ := ih m n hwf hnc hn
        (fun j hj => hsel j (List.mem_cons_of_mem _ hj))
        (fun j hj => hcols j (List.mem_cons_of_mem _ hj))
        (fun hn0 => by
          obtain ⟨h1, h2⟩ := hdbg hn0
          simp only [List.length_cons] at h1 h2
          exact ⟨fun v hv => by have := h1 v hv; omega, by omega⟩)
      rw [hout]
      have hfilter : (List.filter (fun i =>
            decide ((lef_at lefs i).is_bound = true ∧
              (lef_at lefs i).rev_unit.pos > start_pos ∧
              (lef_at lefs i).rev_unit.pos < end_pos ∧
              (lef_at lefs i).fwd_unit.pos > start_pos ∧
              (lef_at lefs i).fwd_unit.pos < end_pos)) (i :: rest)) =
          List.filter (fun i =>
            decide ((lef_at lefs i).is_bound = true ∧
              (lef_at lefs i).rev_unit.pos > start_pos ∧
              (lef_at lefs i).rev_unit.pos < end_pos ∧
              (lef_at lefs i).fwd_unit.pos > start_pos ∧
              (lef_at lefs i).fwd_unit.pos < end_pos)) rest := by
        rw [List.filter_cons_of_neg (by simpa using hq)]
      rw [hfilter]
      exact ⟨out, a, b, rfl, hwfo, hnco, hab, htot, hmis⟩

/-- C36 (counterexample): in a debug build `register_contacts` does not return a count for
every matrix.  On a matrix whose `tot_contacts` is 4294967295 the overflow guard of `increment`
throws for the first LEF to register, so the call fails; a release build returns 1 on the same
input. -/
theorem register_contacts_throws_at_full_total :
    register_contacts_in_range false ⟨20, 5, 0, 7, 0, 2, 100, false⟩ 0 100
        ((ContactMatrix.create 2 4).set false 0 0 4294967295).state extrusion_example [0] =
      Except.error Error.logic_error ∧
    ((ContactMatrix.create 2 4).set false 0 0 4294967295).error = none ∧
    ((ContactMatrix.create 2 4).set false 0 0 4294967295).state._tot_contacts = 4294967295 ∧
    (register_contacts_in_range true ⟨20, 5, 0, 7, 0, 2, 100, false⟩ 0 100
        ((ContactMatrix.create 2 4).set false 0 0 4294967295).state extrusion_example [0]).map
      Prod.snd = Except.ok 1 := by
  decide

/-- C36 (amended): when every selected index is inside the LEF array, the binned positions of
the LEFs to register are columns of the matrix, and (debug build only) no cell and not
`tot_contacts` would pass the 32-bit maximum, `register_contacts` returns the number of selected
entries whose LEF is bound and has both unit positions strictly between `start_pos` and
`end_pos`, and `tot_contacts` plus `missed_updates` grows by exactly that number (each of the
two 64-bit counters by its share).  The LEF array is a read-only argument. -/
theorem register_contacts_counts (ndebug : Bool) (c : Config) (start_pos end_pos : Nat)
    (contacts : ContactMatrix) (lefs : List Lef) (selected_lef_idx : List Nat)
    (hwf : contacts.WF) (hbin : c.bin_size ≠ 0)
    (hlen : selected_lef_idx.length < SIZE_MOD)
    (hsel : ∀ i, i ∈ selected_lef_idx → i < lefs.length)
    (hcols : ∀ i, i ∈ selected_lef_idx →
      ((lef_at lefs i).is_bound = true ∧ (lef_at lefs i).rev_unit.pos > start_pos ∧
        (lef_at lefs i).rev_unit.pos < end_pos ∧ (lef_at lefs i).fwd_unit.pos > start_pos ∧
        (lef_at lefs i).fwd_unit.pos < end_pos) →
      ((lef_at lefs i).rev_unit.pos - start_pos) / c.bin_size < contacts.ncols ∧
        ((lef_at lefs i).fwd_unit.pos - start_pos) / c.bin_size < contacts.ncols)
    (hdbg : ndebug = false →
      (∀ v, v ∈ contacts._contacts → v + selected_lef_idx.length ≤ I_MAX) ∧
        contacts._tot_contacts + selected_lef_idx.length ≤ I_MAX) :
    ∃ (out : ContactMatrix) (a b : Nat),
      register_contacts_in_range ndebug c start_pos end_pos contacts lefs selected_lef_idx =
        Except.ok (out, (selected_lef_idx.filter (fun i =>
          decide ((lef_at lefs i).is_bound = true ∧
            (lef_at lefs i).rev_unit.pos > start_pos ∧
            (lef_at lefs i).rev_unit.pos < end_pos ∧
            (lef_at lefs i).fwd_unit.pos > start_pos ∧
            (lef_at lefs i).fwd_unit.pos < end_pos))).length) ∧
      out.WF ∧
      a + b = (selected_lef_idx.filter (fun i =>
          decide ((lef_at lefs i).is_bound = true ∧
            (lef_at lefs i).rev_unit.pos > start_pos ∧
            (lef_at lefs i).rev_unit.pos < end_pos ∧
            (lef_at lefs i).fwd_unit.pos > start_pos ∧
            (lef_at lefs i).fwd_unit.pos < end_pos))).length ∧
      out._tot_contacts = (contacts._tot_contacts + a) % SIZE_MOD ∧
      out._updates_missed = (contacts._updates_missed + b) % SIZE_MOD ∧
      (out._tot_contacts + out._updates_missed) % SIZE_MOD =
        (contacts._tot_contacts + contacts._updates_missed + (a + b)) % SIZE_MOD := by
  obtain ⟨out, a, b, hout, hwfo, _, hab, htot, hmis⟩ :=
    register_contacts_loop ndebug c start_pos end_pos lefs contacts._ncols hbin
      selected_lef_idx contacts 0 hwf rfl (by decide) hsel hcols hdbg
  have hcount := List.length_filter_le (fun i =>
          decide ((lef_at lefs i).is_bound = true ∧
            (lef_at lefs i).rev_unit.pos > start_pos ∧
            (lef_at lefs i).rev_unit.pos < end_pos ∧
            (lef_at lefs i).fwd_unit.pos > start_pos ∧
            (lef_at lefs i).fwd_unit.pos < end_pos)) selected_lef_idx
  rw [Nat.zero_add, Nat.mod_eq_of_lt (by omega)] at hout
  refine ⟨out, a, b, hout, hwfo, hab, htot, hmis, ?_⟩
  rw [htot, hmis]
  unfold SIZE_MOD
  omega

theorem register_contacts_counts_witness :
    ∃ (out : ContactMatrix) (a b : Nat),
      register_contacts_in_range false ⟨20, 5, 0, 7, 0, 2, 100, false⟩ 0 100
          (ContactMatrix.create 2 4) extrusion_example [0, 2, 1] = Except.ok (out, 2) ∧
      out.WF ∧ a + b = 2 ∧ out._tot_contacts = (0 + a) % SIZE_MOD ∧
      out._updates_missed = (0 + b) % SIZE_MOD ∧
      (out._tot_contacts + out._updates_missed) % SIZE_MOD = (0 + 0 + (a + b)) % SIZE_MOD :=
  register_contacts_counts false ⟨20, 5, 0, 7, 0, 2, 100, false⟩ 0 100
    (ContactMatrix.create 2 4) extrusion_example [0, 2, 1] (by decide) (by decide) (by decide)
    (by decide) (by decide) (by decide)

end Simulation

/-! ## Extrusion barriers of `extr_barrier.cpp` -/

namespace extr_barrier

/-- C34: an `ExtrusionBarrier` constructed with `prob_of_block = 1/4` reports the position and
the direction it was given, but `get_prob_of_block()` returns 3/4: the constructor stores
`1 - prob_of_block` as the parameter of `_n_stall_generator`, and the getter returns that
parameter. -/
theorem get_prob_of_block_returns_the_complement :
    (ExtrusionBarrier.create 100 (1 / 4) dna.Direction.fwd).get_pos = 100 ∧
    (ExtrusionBarrier.create 100 (1 / 4) dna.Direction.fwd).get_direction = dna.Direction.fwd ∧
    (ExtrusionBarrier.create 100 (1 / 4) dna.Direction.fwd).get_prob_of_block = 3 / 4 ∧
    (ExtrusionBarrier.create 100 (1 / 4) dna.Direction.fwd).get_prob_of_block ≠ 1 / 4 := by
  refine ⟨rfl, rfl, ?_, ?_⟩ <;>
    simp only [ExtrusionBarrier.create, ExtrusionBarrier.get_prob_of_block] <;> norm_num

end extr_barrier

/-! ## The genome: N50 and the import of extrusion barriers -/

namespace Genome

/-- C35: for the genome with simulated chromosome lengths 5, 2 and 3 (size 10) `n50` returns 3.
The N50 is 5: 5 is one of the lengths and the chromosomes of length at least 5 cover 5, which is
half of the genome.  The sort through reverse iterators leaves the lengths in ascending order,
so `find_if` adds up the short chromosomes first. -/
theorem n50_adds_up_the_short_chromosomes_first :
    n50 [⟨"chr1", 0, 5⟩, ⟨"chr2", 0, 2⟩, ⟨"chr3", 0, 3⟩] = Except.ok 3 ∧
    get_chromosome_lengths [⟨"chr1", 0, 5⟩, ⟨"chr2", 0, 2⟩, ⟨"chr3", 0, 3⟩] = [5, 2, 3] ∧
    size [⟨"chr1", 0, 5⟩, ⟨"chr2", 0, 2⟩, ⟨"chr3", 0, 3⟩] = 10 ∧
    5 ∈ get_chromosome_lengths [⟨"chr1", 0, 5⟩, ⟨"chr2", 0, 2⟩, ⟨"chr3", 0, 3⟩] ∧
    ((get_chromosome_lengths [⟨"chr1", 0, 5⟩, ⟨"chr2", 0, 2⟩, ⟨"chr3", 0, 3⟩]).filter
      (fun len => decide (len ≥ 5))).sum ≥
        size [⟨"chr1", 0, 5⟩, ⟨"chr2", 0, 2⟩, ⟨"chr3", 0, 3⟩] / 2 ∧
    (Simulation.insertion_sort (fun a b => decide (a > b)) [5, 2, 3].reverse).reverse =
      [2, 3, 5] := by
  decide

end Genome

/-! ## Reading lines from an archive -/

namespace libarchivexx

/-- C38: on the content `a`, newline, `b` the first call of `getline` returns true with the
field `a`; the second call returns false, with `buff` holding the final field `b`, and leaves
the reader at the end of the stream, so that the third call returns false with an empty `buff`.
The final field, which no separator ends, is never reported with true.  The same happens in
both builds and when the content arrives in two chunks. -/
theorem getline_returns_false_for_unterminated_final_field :
    (∀ (ndebug : Bool) (archive : List (List Char)),
      archive = [['a', '\n', 'b']] ∨ archive = [['a', '\n'], ['b']] →
      ∃ (r1 r2 : Reader),
        Reader.getline ndebug (Reader.«open» archive) '\n' = Except.ok (true, r1, ['a']) ∧
        Reader.getline ndebug r1 '\n' = Except.ok (false, r2, ['b']) ∧
        r2.eof = true ∧
        Reader.getline ndebug r2 '\n' = Except.ok (false, r2, [])) ∧
    Reader.getline true (Reader.«open» [['a', '\n', 'b']]) '\n' =
      Except.ok (true, ⟨['a', '\n', 'b'], 2, false, []⟩, ['a']) ∧
    Reader.getline true ⟨['a', '\n', 'b'], 2, false, []⟩ '\n' =
      Except.ok (false, ⟨[], 2, true, []⟩, ['b']) := by
  refine ⟨?_, by decide, by decide⟩
  intro ndebug archive h
  rcases h with rfl | rfl
  · refine ⟨⟨['a', '\n', 'b'], 2, false, []⟩, ⟨[], 2, true, []⟩, ?_, ?_, rfl, ?_⟩ <;>
      cases ndebug <;> decide
  · refine ⟨⟨['a', '\n'], 2, false, [['b']]⟩, ⟨[], 0, true, []⟩, ?_, ?_, rfl, ?_⟩ <;>
      cases ndebug <;> decide

end libarchivexx

/-! ## Correlation over sliding windows -/

namespace correlation

/-- C39: for two vectors of length 4, `window_span = 2` and `window_overlap = 1`, and function
pointers that return the first slice and the size they are given, `compute_corr` returns four
pairs, but the window 1 is the three elements from index 1 on, not two: `subspan` is called with
`window_end` where it expects a length.  Only the window 0 and the windows cut short by the end
of the vector have at most `window_span` elements. -/
theorem compute_corr_passes_the_window_end_as_length :
    compute_corr true [10, 11, 12, 13] [20, 21, 22, 23]
        (fun slice1 _ => Except.ok slice1) (fun _ n => Except.ok [n]) 2 1 =
      Except.ok ([[10, 11], [11, 12, 13], [12, 13], [13]], [[2], [3], [2], [1]]) ∧
    compute_corr false [10, 11, 12, 13] [20, 21, 22, 23]
        (fun slice1 _ => Except.ok slice1) (fun _ n => Except.ok [n]) 2 1 =
      Except.ok ([[10, 11], [11, 12, 13], [12, 13], [13]], [[2], [3], [2], [1]]) ∧
    compute_corr true [10, 11, 12, 13] [20, 21, 22, 23]
        (fun _ slice2 => Except.ok slice2) (fun _ n => Except.ok [n]) 2 1 =
      Except.ok ([[20, 21], [21, 22, 23], [22, 23], [23]], [[2], [3], [2], [1]]) ∧
    subspan [10, 11, 12, 13] 1 3 = Except.ok [11, 12, 13] := by
  decide

end correlation

namespace Genome

theorem import_record_eq (_chromosomes : List Chromosome) (probability_of_block : ℚ)
    (s : ImportState) (record : BED) :
    import_record _chromosomes probability_of_block s record =
      if is_ignored _chromosomes record = true then
        Except.ok { s with nrecords := (s.nrecords + 1) % SIZE_MOD,
                           nrecords_ignored := (s.nrecords_ignored + 1) % SIZE_MOD }
      else if resulting_score probability_of_block record < 0 ∨
          resulting_score probability_of_block record > 1 then
        Except.error Error.runtime_error
      else
        Except.ok { s with nrecords := (s.nrecords + 1) % SIZE_MOD,
                           added := s.added ++
                            (added_record _chromosomes probability_of_block record).toList } := by
  unfold import_record is_ignored added_record is_ignored resulting_score
  cases hf : find_chromosome _chromosomes record.chrom with
  | none => simp
  | some k =>
    have hk : k < _chromosomes.length := by
      unfold find_chromosome at hf
      exact (List.findIdx?_eq_some_iff_findIdx_eq.1 hf).1
    obtain ⟨chr, hchr⟩ : ∃ chr, _chromosomes[k]? = some chr :=
      ⟨_chromosomes[k], List.getElem?_eq_getElem hk⟩
    simp only [hchr, Chromosome.get_start_pos, Chromosome.get_end_pos, decide_eq_true_eq]
    by_cases hign : record.strand = '.' ∨ record.chrom_start < chr.start_pos ∨
        record.chrom_end > chr.end_pos
    · rw [if_pos hign, if_pos hign]
    · rw [if_neg hign, if_neg hign]
      rw [if_neg hign]
      rfl

theorem import_loop_spec (_chromosomes : List Chromosome) (probability_of_block : ℚ) :
    ∀ (records : List BED) (s : ImportState),
      s.nrecords < SIZE_MOD → s.nrecords_ignored < SIZE_MOD →
      ((∃ r, r ∈ records ∧ is_ignored _chromosomes r = false ∧
          (resulting_score probability_of_block r < 0 ∨
            resulting_score probability_of_block r > 1)) →
        try_fold (import_record _chromosomes probability_of_block) s records =
          Except.error Error.runtime_error) ∧
      ((∀ r, r ∈ records → is_ignored _chromosomes r = false →
          0 ≤ resulting_score probability_of_block r ∧
            resulting_score probability_of_block r ≤ 1) →
        try_fold (import_record _chromosomes probability_of_block) s records =
          Except.ok ⟨(s.nrecords + records.length) % SIZE_MOD,
            (s.nrecords_ignored + (records.filter (is_ignored _chromosomes)).length) % SIZE_MOD,
            s.added ++ records.filterMap (added_record _chromosomes probability_of_block)⟩) := by
  intro records
  induction records with
  | nil =>
    intro s h1 h2
    refine ⟨fun ⟨r, hr, _⟩ => absurd hr (List.not_mem_nil r), fun _ => ?_⟩
    simp only [try_fold, List.length_nil, List.filter_nil, List.filterMap_nil, Nat.add_zero,
      List.append_nil]
    rw [Nat.mod_eq_of_lt h1, Nat.mod_eq_of_lt h2]
  | cons r rest ih =>
    intro s h1 h2
    have hstep := import_record_eq _chromosomes probability_of_block s r
    have hM : 0 < SIZE_MOD := by decide
    by_cases hign : is_ignored _chromosomes r = true
    · rw [if_pos hign] at hstep
      obtain ⟨ihA, ihB⟩ := ih
        ⟨(s.nrecords + 1) % SIZE_MOD, (s.nrecords_ignored + 1) % SIZE_MOD, s.added⟩
        (Nat.mod_lt _ hM) (Nat.mod_lt _ hM)
      have hadd : added_record _chromosomes probability_of_block r = none := by
        unfold added_record
        split
        · rfl
        · split
          · rfl
          · rw [if_pos hign]
      constructor
      · rintro ⟨x, hx, hxi, hxb⟩
        rw [try_fold, hstep]
        simp only
        rcases List.mem_cons.1 hx with rfl | hx2
        · rw [hign] at hxi
          exact absurd hxi (by decide)
        · exact ihA ⟨x, hx2, hxi, hxb⟩
      · intro hall
        rw [try_fold, hstep]
        simp only
        rw [ihB (fun x hx => hall x (List.mem_cons_of_mem _ hx)),
          List.filter_cons_of_pos hign, List.filterMap_cons_none hadd]
        simp only [List.length_cons]
        congr 2
        · unfold SIZE_MOD
          omega
        · unfold SIZE_MOD
          omega
    · rw [if_neg hign] at hstep
      have hign2 : is_ignored _chromosomes r = false := by
        cases h : is_ignored _chromosomes r
        · rfl
        · exact absurd h hign
      by_cases hbad : resulting_score probability_of_block r < 0 ∨
          resulting_score probability_of_block r > 1
      · rw [if_pos hbad] at hstep
        constructor
        · intro _
          rw [try_fold, hstep]
        · intro hall
          obtain ⟨h3, h4⟩ := hall r (List.mem_cons_self _ _) hign2
          rcases hbad with hb | hb
          · exact absurd h3 (not_le.2 hb)
          · exact absurd h4 (not_le.2 hb)
      · rw [if_neg hbad] at hstep
        obtain ⟨y, hy⟩ : ∃ y, added_record _chromosomes probability_of_block r = some y := by
          unfold added_record
          unfold is_ignored at hign2
          split
          · rename_i hf
            rw [hf] at hign2
            exact Bool.noConfusion hign2
          · rename_i k hf
            rw [hf] at hign2
            simp only at hign2
            split
            · rename_i hc
              rw [hc] at hign2
              exact Bool.noConfusion hign2
            · rw [if_neg hign]
              exact ⟨_, rfl⟩
        obtain ⟨ihA, ihB⟩ := ih
          ⟨(s.nrecords + 1) % SIZE_MOD, s.nrecords_ignored,
            s.added ++ (added_record _chromosomes probability_of_block r).toList⟩
          (Nat.mod_lt _ hM) h2
        constructor
        · rintro ⟨x, hx, hxi, hxb⟩
          rw [try_fold, hstep]
          simp only
          rcases List.mem_cons.1 hx with rfl | hx2
          · exact absurd hxb hbad
          · exact ihA ⟨x, hx2, hxi, hxb⟩
        · intro hall
          rw [try_fold, hstep]
          simp only
          rw [ihB (fun x hx => hall x (List.mem_cons_of_mem _ hx)),
            List.filter_cons_of_neg hign, List.filterMap_cons_some hy, hy]
          simp only [List.length_cons, Option.toList, List.append_assoc, List.singleton_append]
          congr 2
          unfold SIZE_MOD
          omega

/-- C32: for a list of parsed records, `import_extrusion_barriers_from_bed` fails with an error
exactly when some record that is not ignored has a resulting score below 0 or above 1 (the
error is a `std::runtime_error`); otherwise it returns (number of records, number of ignored
records) and adds to the chromosomes, in order, exactly the records that are not ignored, each
with `probability_of_block` as its score when that is non-zero and with its own score when it is
zero.  A record is ignored, and nothing is added for it, exactly when its chromosome is unknown,
its strand is `.`, its start lies before the start of its chromosome or its end after the end
of its chromosome. -/
theorem import_extrusion_barriers_from_bed_spec (_chromosomes : List Chromosome)
    (records : List BED) (probability_of_block : ℚ) (hlen : records.length < SIZE_MOD) :
    ((∃ e, import_extrusion_barriers_from_bed _chromosomes records probability_of_block =
        Except.error e) ↔
      ∃ r, r ∈ records ∧ is_ignored _chromosomes r = false ∧
        (resulting_score probability_of_block r < 0 ∨
          resulting_score probability_of_block r > 1)) ∧
    ((∃ r, r ∈ records ∧ is_ignored _chromosomes r = false ∧
        (resulting_score probability_of_block r < 0 ∨
          resulting_score probability_of_block r > 1)) →
      import_extrusion_barriers_from_bed _chromosomes records probability_of_block =
        Except.error Error.runtime_error) ∧
    ((∀ r, r ∈ records → is_ignored _chromosomes r = false →
        0 ≤ resulting_score probability_of_block r ∧
          resulting_score probability_of_block r ≤ 1) →
      import_extrusion_barriers_from_bed _chromosomes records probability_of_block =
        Except.ok ((records.length, (records.filter (is_ignored _chromosomes)).length),
          records.filterMap (added_record _chromosomes probability_of_block))) ∧
    (∀ (r : BED), is_ignored _chromosomes r = true ↔
      (find_chromosome _chromosomes r.chrom = none ∨
        ∃ (k : Nat) (chr : Chromosome), find_chromosome _chromosomes r.chrom = some k ∧
          _chromosomes[k]? = some chr ∧
          (r.strand = '.' ∨ r.chrom_start < chr.get_start_pos ∨
            r.chrom_end > chr.get_end_pos))) ∧
    (∀ (r : BED), added_record _chromosomes probability_of_block r = none ↔
      is_ignored _chromosomes r = true) ∧
    (∀ (r : BED) (k : Nat) (b : BED),
      added_record _chromosomes probability_of_block r = some (k, b) →
        find_chromosome _chromosomes r.chrom = some k ∧ b.chrom = r.chrom ∧
          b.name = r.name ∧ b.strand = r.strand ∧
          b.score = (if probability_of_block ≠ 0 then probability_of_block else r.score)) := by
  obtain ⟨hA, hB⟩ := import_loop_spec _chromosomes probability_of_block records ⟨0, 0, []⟩
    (by decide) (by decide)
  have hfl := List.length_filter_le (is_ignored _chromosomes) records
  have hA2 : (∃ r, r ∈ records ∧ is_ignored _chromosomes r = false ∧
        (resulting_score probability_of_block r < 0 ∨
          resulting_score probability_of_block r > 1)) →
      import_extrusion_barriers_from_bed _chromosomes records probability_of_block =
        Except.error Error.runtime_error := by
    intro h
    unfold import_extrusion_barriers_from_bed
    rw [hA h]
  have hB2 : (∀ r, r ∈ records → is_ignored _chromosomes r = false →
        0 ≤ resulting_score probability_of_block r ∧
          resulting_score probability_of_block r ≤ 1) →
      import_extrusion_barriers_from_bed _chromosomes records probability_of_block =
        Except.ok ((records.length, (records.filter (is_ignored _chromosomes)).length),
          records.filterMap (added_record _chromosomes probability_of_block)) := by
    intro h
    unfold import_extrusion_barriers_from_bed
    rw [hB h]
    simp only [Nat.zero_add, List.nil_append]
    rw [Nat.mod_eq_of_lt hlen, Nat.mod_eq_of_lt (by omega)]
  have hfind : ∀ (r : BED) (k : Nat), find_chromosome _chromosomes r.chrom = some k →
      ∃ chr, _chromosomes[k]? = some chr := by
    intro r k hf
    unfold find_chromosome at hf
    have hk : k < _chromosomes.length := (List.findIdx?_eq_some_iff_findIdx_eq.1 hf).1
    exact ⟨_chromosomes[k], List.getElem?_eq_getElem hk⟩
  refine ⟨⟨?_, fun h => ⟨_, hA2 h⟩⟩, hA2, hB2, ?_, ?_, ?_⟩
  · rintro ⟨e, he⟩
    by_contra hcon
    rw [hB2 (fun r hr hi => by
      by_contra hbad
      exact hcon ⟨r, hr, hi, by
        by_contra hn
        exact hbad ⟨not_lt.1 (fun h => hn (Or.inl h)), not_lt.1 (fun h => hn (Or.inr h))⟩⟩)] at he
    exact Except.noConfusion he
  · intro r
    unfold is_ignored
    cases hf : find_chromosome _chromosomes r.chrom with
    | none => simp
    | some k =>
      obtain ⟨chr, hchr⟩ := hfind r k hf
      simp [hchr, Chromosome.get_start_pos, Chromosome.get_end_pos]
  · intro r
    unfold added_record
    cases hf : find_chromosome _chromosomes r.chrom with
    | none => simp [is_ignored, hf]
    | some k =>
      obtain ⟨chr, hchr⟩ := hfind r k hf
      simp only [hchr]
      by_cases hi : is_ignored _chromosomes r = true
      · simp [hi]
      · simp [hi]
  · intro r k b h
    unfold added_record at h
    cases hf : find_chromosome _chromosomes r.chrom with
    | none =>
      rw [hf] at h
      exact Option.noConfusion h
    | some k2 =>
      obtain ⟨chr, hchr⟩ := hfind r k2 hf
      rw [hf] at h
      simp only [hchr] at h
      by_cases hi : is_ignored _chromosomes r = true
      · rw [if_pos hi] at h
        exact Option.noConfusion h
      · rw [if_neg hi] at h
        simp only [Option.some.injEq, Prod.mk.injEq] at h
        obtain ⟨h1, h2⟩ := h
        subst h1 h2
        exact ⟨rfl, rfl, rfl, rfl, rfl⟩

theorem import_extrusion_barriers_from_bed_spec_witness :
    ([⟨"chr1", 10, 20, "a", 0, '+'⟩, ⟨"chr3", 10, 20, "b", 0, '+'⟩,
        ⟨"chr1", 10, 20, "c", 0, '.'⟩, ⟨"chr1", 5, 20, "d", 0, '+'⟩,
        ⟨"chr2", 20, 50, "e", 0, '-'⟩] : List BED).length < SIZE_MOD ∧
    import_extrusion_barriers_from_bed [⟨"chr1", 10, 100⟩, ⟨"chr2", 0, 50⟩]
        [⟨"chr1", 10, 20, "a", 0, '+'⟩, ⟨"chr3", 10, 20, "b", 0, '+'⟩,
          ⟨"chr1", 10, 20, "c", 0, '.'⟩, ⟨"chr1", 5, 20, "d", 0, '+'⟩,
          ⟨"chr2", 20, 50, "e", 0, '-'⟩] 1 =
      Except.ok ((5, 3), [(0, ⟨"chr1", 0, 10, "a", 1, '+'⟩),
        (1, ⟨"chr2", 20, 50, "e", 1, '-'⟩)]) :=
  ⟨by decide, ((import_extrusion_barriers_from_bed_spec [⟨"chr1", 10, 100⟩, ⟨"chr2", 0, 50⟩]
    [⟨"chr1", 10, 20, "a", 0, '+'⟩, ⟨"chr3", 10, 20, "b", 0, '+'⟩,
      ⟨"chr1", 10, 20, "c", 0, '.'⟩, ⟨"chr1", 5, 20, "d", 0, '+'⟩,
      ⟨"chr2", 20, 50, "e", 0, '-'⟩] 1 (by decide)).2.2.1 (by decide)).trans (by decide)⟩

end Genome

end modle
